import Mathlib

/-!
LightNVM hybrid block manager (`drivers/lightnvm/bm_hb.c`) and round-robin
page FTL (`drivers/lightnvm/rrpc.c`)

A shallow embedding of the block manager for hybrid open-channel SSDs and of
the FTL on top of it, with theorems about the allocation lists, counters and
attach sequence of the former and about the address maps, the inflight ranges
and the request paths of the latter.

Modelling conventions

* A pointer to a LUN is its index in `bm->luns`; a pointer to a block is the
  pair (index of the LUN, index in `lun->blocks`).  `block->lun` is written
  once, by `hb_blocks_init`, to the LUN whose array holds the block, so it is
  carried by the first component of a block reference.
* The three intrusive lists of a LUN (`free_list`, `used_list`, `bb_list`)
  are lists of block indices, head first.  A block has a single `list` node,
  so `list_move_tail` unlinks the block from whichever list holds it and
  appends it to the target.
* A function whose C execution dereferences outside an array or divides by
  zero has no defined result: the model returns `none`.
* Spin locks are not modelled: every function is one atomic step.
* The header that declares the structures is not part of the sources.  The
  counters `nr_blocks`, `nr_free_blocks` and `nr_pages_per_blk` are taken to
  be 32-bit (`hb_free_blocks_print` prints them with `%u`), the addresses
  64-bit; `nr_free_blocks--` and `nr_free_blocks++` wrap around, the values
  stored by `hb_luns_init` are truncated to their field, and a product of
  these 32-bit fields is computed in 32 bits before it is widened
  (`total_pages`, `total_pgs_per_lun`, `nr_pages`, `poffset`); sums of page
  counts are computed without wrap-around.
-/

namespace LightNVM

/-! ## Constants -/

/-- Value of errno `EINVAL`. -/
def EINVAL : Int := 22

/-- Value of errno `EIO`, reported by a device whose table read fails. -/
def EIO : Int := 5

/-- Largest value of a `u64`. -/
def U64_MAX : Nat := 18446744073709551615

/-- Largest value of an `unsigned int`. -/
def UINT_MAX : Nat := 4294967295

/-- Modelled from the spec: the flag bit of `NVM_IOTYPE_GC`, whose header is
not part of the sources.  The spec distinguishes GC callers from host callers
of `get_block`; `rrpc_map_page` passes `1` for a GC caller and `0` for a host
caller. -/
def NVM_IOTYPE_GC : Nat := 1

/-- Modelled from the spec: the bit `NVM_RSP_L2P` of `features.rsp` that
`hb_register` tests; its header is not part of the sources. -/
def NVM_RSP_L2P : Nat := 1

/-- Modelled from the spec: capacity in bits of a block's invalid-page bitmap
(`MAX_INVALID_PAGES_STORAGE * BITS_PER_LONG`), given by the spec as the
implementation ceiling 2048. -/
def INVALID_BITMAP_CAPACITY : Nat := 2048

/-- Number of bits of an `unsigned long` on a 64-bit kernel. -/
def BITS_PER_LONG : Nat := 64

/-! ## Data model -/

/-- Per-LUN entry of the device identity structure (`struct nvm_id_chnl`). -/
structure nvm_id_chnl where
  queue_size : Nat
  gran_read : Nat
  gran_write : Nat
  gran_erase : Nat
  laddr_begin : Nat
  laddr_end : Nat
deriving DecidableEq

/-- An erase block (`struct nvm_block`).  `invalid_pages` is the bitmap, bit
`i` of the number being bit `i` of the bitmap. -/
structure nvm_block where
  id : Nat
  type : Nat
  invalid_pages : Nat
  next_page : Nat
  nr_invalid_pages : Nat
  data_cmnt_size : Nat
deriving DecidableEq

/-- A LUN (`struct nvm_lun`) with its block array and its three lists. -/
structure nvm_lun where
  id : Nat
  reserved_blocks : Nat
  nr_blocks : Nat
  nr_free_blocks : Nat
  nr_pages_per_blk : Nat
  blocks : List nvm_block
  free_list : List Nat
  used_list : List Nat
  bb_list : List Nat
deriving DecidableEq

/-- Private data of the block manager (`struct bm_hb`). -/
structure bm_hb where
  luns : List nvm_lun
deriving DecidableEq

/-- The fields of `struct nvm_dev` the block manager reads and writes. -/
structure nvm_dev where
  nr_luns : Nat
  sector_size : Nat
  max_pages_per_blk : Nat
  total_pages : Nat
  total_blocks : Nat
  rsp : Nat
  chnls : List nvm_id_chnl
  bmp : bm_hb
deriving DecidableEq

/-- Modelled from the spec: what the device adapter does when asked for its
tables.  `get_bb_tbl lun_id nr_blocks` is the bad-block bitmap the device
hands to the callback (`none`: the read fails and the callback is not
called).  `get_l2p_tbl` is the sequence of chunks `(slba, entries)` handed to
the callback, and the status the device returns when every callback returned
zero.  An absent operation is `none`. -/
structure nvm_dev_ops where
  get_bb_tbl : Option (Nat → Nat → Option (List Bool))
  get_l2p_tbl : Option (List (Nat × List Nat) × Int)

/-- A zero-filled block, as `vzalloc` returns it. -/
def nvm_block_zero : nvm_block :=
  { id := 0, type := 0, invalid_pages := 0, next_page := 0,
    nr_invalid_pages := 0, data_cmnt_size := 0 }

/-- A zero-filled LUN, as `kcalloc` returns it. -/
def nvm_lun_zero : nvm_lun :=
  { id := 0, reserved_blocks := 0, nr_blocks := 0, nr_free_blocks := 0,
    nr_pages_per_blk := 0, blocks := [], free_list := [], used_list := [],
    bb_list := [] }

/-! ## Machine arithmetic and bitmaps -/

/-- Decrement of an `unsigned int` (`x--`), wrapping at zero. -/
def u32_dec (n : Nat) : Nat := if n = 0 then UINT_MAX else n - 1

/-- Increment of an `unsigned int` (`x++`), wrapping at `UINT_MAX`. -/
def u32_inc (n : Nat) : Nat := if n = UINT_MAX then 0 else n + 1

/-- Subtraction of `u64` values. -/
def u64_sub (a b : Nat) : Nat := (a + 18446744073709551616 - b % 18446744073709551616) % 18446744073709551616

/-- The kernel's `bitmap_zero (dst, nbits)`: clears the words that hold the first
`nbits` bits. -/
def bitmap_zero (dst nbits : Nat) : Nat :=
  let k := (nbits + BITS_PER_LONG - 1) / BITS_PER_LONG * BITS_PER_LONG
  (dst >>> k) <<< k

/-- The kernel's `bitmap_empty (bb_bitmap, nr_blocks)` on a bad-block bitmap:
none of its first `nr_blocks` bits is set. -/
def bb_bitmap_empty (bb_bitmap : List Bool) (nr_blocks : Nat) : Bool :=
  (List.range nr_blocks).all (fun i => !(bb_bitmap.getD i false))

/-! ## List primitives -/

/-- Unlink a block from the list that holds it (`__list_del_entry`). -/
def list_del (lun : nvm_lun) (blk : Nat) : nvm_lun :=
  { lun with free_list := lun.free_list.erase blk,
             used_list := lun.used_list.erase blk,
             bb_list := lun.bb_list.erase blk }

/-- The call `list_move_tail (&blk->list, &lun->free_list)`. -/
def list_move_tail_free (lun : nvm_lun) (blk : Nat) : nvm_lun :=
  let l := list_del lun blk
  { l with free_list := l.free_list ++ [blk] }

/-- The call `list_move_tail (&blk->list, &lun->used_list)`. -/
def list_move_tail_used (lun : nvm_lun) (blk : Nat) : nvm_lun :=
  let l := list_del lun blk
  { l with used_list := l.used_list ++ [blk] }

/-- The call `list_move_tail (&blk->list, &lun->bb_list)`. -/
def list_move_tail_bb (lun : nvm_lun) (blk : Nat) : nvm_lun :=
  let l := list_del lun blk
  { l with bb_list := l.bb_list ++ [blk] }

/-- Apply `f` to block `blk` of the LUN's block array. -/
def update_block (lun : nvm_lun) (blk : Nat) (f : nvm_block → nvm_block) : nvm_lun :=
  match lun.blocks[blk]? with
  | none => lun
  | some b => { lun with blocks := lun.blocks.set blk (f b) }

/-! ## Allocation and release -/

/-- The function `nvm_reset_block`. -/
def nvm_reset_block (lun : nvm_lun) (block : nvm_block) : nvm_block :=
  { block with invalid_pages := bitmap_zero block.invalid_pages lun.nr_pages_per_blk,
               next_page := 0,
               nr_invalid_pages := 0,
               data_cmnt_size := 0 }

/-- The function `hb_get_blk` on the LUN it is given: the block returned
(`none` for `NULL`) and the LUN afterwards. -/
def hb_get_blk (lun : nvm_lun) (flags : Nat) : Option Nat × nvm_lun :=
  let is_gc := flags &&& NVM_IOTYPE_GC
  match lun.free_list with
  | [] => (none, lun)
  | block :: _ =>
    if is_gc = 0 ∧ lun.nr_free_blocks < lun.reserved_blocks then (none, lun)
    else
      let lun1 := list_move_tail_used lun block
      let lun2 := { lun1 with nr_free_blocks := u32_dec lun1.nr_free_blocks }
      (some block, update_block lun2 block (nvm_reset_block lun2))

/-- The body of `hb_put_blk` on the LUN that owns the block. -/
def hb_put_blk_lun (lun : nvm_lun) (blk : Nat) : nvm_lun :=
  let lun1 := list_move_tail_free lun blk
  { lun1 with nr_free_blocks := u32_inc lun1.nr_free_blocks }

/-- The function `hb_put_blk`: `blk` is (LUN index, block index). -/
def hb_put_blk (bm : bm_hb) (blk : Nat × Nat) : bm_hb :=
  match bm.luns[blk.1]? with
  | none => bm
  | some lun => { bm with luns := bm.luns.set blk.1 (hb_put_blk_lun lun blk.2) }

/-- The function `hb_get_blk` called on LUN `lun_id` of the block manager. -/
def hb_get_blk_bm (bm : bm_hb) (lun_id flags : Nat) : Option Nat × bm_hb :=
  match bm.luns[lun_id]? with
  | none => (none, bm)
  | some lun =>
    ((hb_get_blk lun flags).1, { bm with luns := bm.luns.set lun_id (hb_get_blk lun flags).2 })

/-! ## Attach -/

/-- One iteration of the loop of `hb_luns_init` for LUN `i`: the return value
when the iteration leaves the function, and the device afterwards.  A
division by zero in the geometry has no defined result.  The product
`lun->nr_blocks * lun->nr_pages_per_blk` added to `total_pages` is a product
of 32-bit fields, computed modulo 2^32. -/
def hb_luns_init_step (dev : nvm_dev) (i : Nat) : Option (Option Int × nvm_dev) :=
  match dev.chnls[i]?, dev.bmp.luns[i]? with
  | some chnl, some lun =>
    if chnl.gran_read = 0 ∨ chnl.gran_erase / chnl.gran_read = 0 ∨
        chnl.gran_write = 0 ∨ dev.sector_size = 0 then none
    else
      let nr_blocks :=
        (u64_sub chnl.laddr_end chnl.laddr_begin + 1) % 18446744073709551616 /
          (chnl.gran_erase / chnl.gran_read) % 4294967296
      let nr_pages_per_blk :=
        chnl.gran_erase / chnl.gran_write * (chnl.gran_write / dev.sector_size) % 4294967296
      let lun1 : nvm_lun :=
        { lun with free_list := [], used_list := [], bb_list := [],
                   id := i,
                   reserved_blocks := 2,
                   nr_blocks := nr_blocks,
                   nr_free_blocks := nr_blocks,
                   nr_pages_per_blk := nr_pages_per_blk }
      let dev1 : nvm_dev :=
        { dev with
            max_pages_per_blk :=
              if nr_pages_per_blk > dev.max_pages_per_blk then nr_pages_per_blk
              else dev.max_pages_per_blk,
            total_pages := dev.total_pages + nr_blocks * nr_pages_per_blk % 4294967296,
            total_blocks := dev.total_blocks + nr_blocks,
            bmp := { luns := dev.bmp.luns.set i lun1 } }
      if nr_pages_per_blk > INVALID_BITMAP_CAPACITY then some (some (-EINVAL), dev1)
      else some (none, dev1)
  | _, _ => none

/-- The loop `bm_for_each_lun` of `hb_luns_init` over the LUN indices. -/
def hb_luns_init_loop : List Nat → nvm_dev → Option (Int × nvm_dev)
  | [], dev => some (0, dev)
  | i :: rest, dev =>
    match hb_luns_init_step dev i with
    | none => none
    | some (some ret, dev1) => some (ret, dev1)
    | some (none, dev1) => hb_luns_init_loop rest dev1

/-- The function `hb_luns_init` (the allocation is taken to succeed). -/
def hb_luns_init (dev : nvm_dev) : Option (Int × nvm_dev) :=
  hb_luns_init_loop (List.range dev.nr_luns)
    { dev with bmp := { luns := List.replicate dev.nr_luns nvm_lun_zero } }

/-- The loop of `hb_block_bb` over the set bits of the bitmap, in increasing
order. -/
def hb_block_bb_loop : List Nat → nvm_lun → Option nvm_lun
  | [], lun => some lun
  | i :: rest, lun =>
    if i < lun.blocks.length then hb_block_bb_loop rest (list_move_tail_bb lun i)
    else none

/-- The function `hb_block_bb`. -/
def hb_block_bb (lun_id : Nat) (bb_bitmap : List Bool) (nr_blocks : Nat) (bm : bm_hb) :
    Option (Int × bm_hb) :=
  match bm.luns[lun_id]? with
  | none => none
  | some lun =>
    if bb_bitmap_empty bb_bitmap nr_blocks then some (0, bm)
    else
      match hb_block_bb_loop ((List.range nr_blocks).filter (fun i => bb_bitmap.getD i false)) lun with
      | none => none
      | some lun1 => some (0, { bm with luns := bm.luns.set lun_id lun1 })

/-- The body of the loop of `hb_block_map` for one table entry: the return
value when the entry leaves the function, and the block manager afterwards.
An index outside the LUN array or outside the block array of the LUN, and a
division by zero, have no defined result.  The source keeps `lun_id` in an
`int`; the model keeps the quotient itself, which is the same index whenever
the quotient is below 2^31. -/
def hb_block_map_entry (max_pages total_pgs_per_lun : Nat) (bm : bm_hb) (pba : Nat) :
    Option (Option Int × bm_hb) :=
  if pba ≥ max_pages ∧ pba ≠ U64_MAX then some (some (-EINVAL), bm)
  else if pba = 0 then some (none, bm)
  else if total_pgs_per_lun = 0 then none
  else
    let lun_id := pba / total_pgs_per_lun
    match bm.luns[lun_id]? with
    | none => none
    | some lun =>
      let pba1 := pba - total_pgs_per_lun * lun_id
      if lun.nr_pages_per_blk = 0 then none
      else
        let b := pba1 / lun.nr_pages_per_blk
        match lun.blocks[b]? with
        | none => none
        | some blk =>
          if blk.type = 0 then
            let lun1 := list_move_tail_used lun b
            let lun2 := update_block lun1 b (fun x => { x with type := 1 })
            let lun3 := { lun2 with nr_free_blocks := u32_dec lun2.nr_free_blocks }
            some (none, { bm with luns := bm.luns.set lun_id lun3 })
          else some (none, bm)

/-- The loop of `hb_block_map` over the entries of one chunk. -/
def hb_block_map_loop (max_pages total_pgs_per_lun : Nat) :
    List Nat → bm_hb → Option (Int × bm_hb)
  | [], bm => some (0, bm)
  | pba :: rest, bm =>
    match hb_block_map_entry max_pages total_pgs_per_lun bm pba with
    | none => none
    | some (some ret, bm1) => some (ret, bm1)
    | some (none, bm1) => hb_block_map_loop max_pages total_pgs_per_lun rest bm1

/-- The function `hb_block_map (slba, nlb, entries, dev)`, `nlb` being the
length of `entries`.  `total_pgs_per_lun` is the product of two 32-bit fields,
computed modulo 2^32 before it is stored in the `sector_t`. -/
def hb_block_map (slba : Nat) (entries : List Nat) (dev : nvm_dev) : Option (Int × nvm_dev) :=
  let max_pages := dev.total_pages * (dev.sector_size >>> 9)
  let elba := slba + entries.length
  match dev.bmp.luns[0]? with
  | none => none
  | some lun0 =>
    let total_pgs_per_lun := lun0.nr_blocks * lun0.nr_pages_per_blk % 4294967296
    if elba > dev.total_pages then some (-EINVAL, dev)
    else
      match hb_block_map_loop max_pages total_pgs_per_lun entries dev.bmp with
      | none => none
      | some (ret, bm1) => some (ret, { dev with bmp := bm1 })

/-- Modelled from the spec: the device's `get_bb_tbl`, which reads the
bad-block bitmap of a LUN and passes it to the callback `hb_block_bb`,
returning what the callback returns, or fails without calling it. -/
def dev_get_bb_tbl (tbl : Nat → Nat → Option (List Bool)) (lun_id nr_blocks : Nat) (bm : bm_hb) :
    Option (Int × bm_hb) :=
  match tbl lun_id nr_blocks with
  | none => some (- EIO, bm)
  | some bb_bitmap => hb_block_bb lun_id bb_bitmap nr_blocks bm

/-- Modelled from the spec: the device's `get_l2p_tbl`, which passes the
table to the callback `hb_block_map` chunk by chunk, stops at the first
callback that returns an error and returns it, and otherwise returns its own
status. -/
def dev_get_l2p_tbl : List (Nat × List Nat) → Int → nvm_dev → Option (Int × nvm_dev)
  | [], status, dev => some (status, dev)
  | chunk :: rest, status, dev =>
    match hb_block_map chunk.1 chunk.2 dev with
    | none => none
    | some (ret, dev1) =>
      if ret ≠ 0 then some (ret, dev1) else dev_get_l2p_tbl rest status dev1

/-- One iteration of the loop `lun_for_each_block` of `hb_blocks_init`: the
LUN and `cur_block_id` afterwards. -/
def hb_blocks_init_block (lun_iter : Nat) (st : nvm_lun × Nat) (block_iter : Nat) : nvm_lun × Nat :=
  let lun1 := update_block st.1 block_iter (fun x => { x with id := st.2 })
  if lun_iter = 0 ∧ block_iter = 0 then (lun1, st.2 + 1)
  else ({ lun1 with free_list := lun1.free_list ++ [block_iter] }, st.2 + 1)

/-- The body of the LUN loop of `hb_blocks_init` for LUN `lun_iter`: the
block array is allocated and zeroed, the blocks are numbered and put on the
free list, and the bad-block table is applied. -/
def hb_blocks_init_lun (ops : nvm_dev_ops) (st : bm_hb × Nat) (lun_iter : Nat) :
    Option (bm_hb × Nat) :=
  match st.1.luns[lun_iter]? with
  | none => none
  | some lun =>
    let lun0 := { lun with blocks := List.replicate lun.nr_blocks nvm_block_zero }
    let r := (List.range lun0.nr_blocks).foldl (hb_blocks_init_block lun_iter) (lun0, st.2)
    let bm1 : bm_hb := { st.1 with luns := st.1.luns.set lun_iter r.1 }
    match ops.get_bb_tbl with
    | none => some (bm1, r.2)
    | some tbl =>
      match dev_get_bb_tbl tbl r.1.id r.1.nr_blocks bm1 with
      | none => none
      | some (_, bm2) => some (bm2, r.2)

/-- The loop `bm_for_each_lun` of `hb_blocks_init`. -/
def hb_blocks_init_loop (ops : nvm_dev_ops) : List Nat → bm_hb × Nat → Option (bm_hb × Nat)
  | [], st => some st
  | lun_iter :: rest, st =>
    match hb_blocks_init_lun ops st lun_iter with
    | none => none
    | some st1 => hb_blocks_init_loop ops rest st1

/-- The function `hb_blocks_init` (the allocations are taken to succeed). -/
def hb_blocks_init (ops : nvm_dev_ops) (dev : nvm_dev) : Option (Int × nvm_dev) :=
  match hb_blocks_init_loop ops (List.range dev.nr_luns) (dev.bmp, 0) with
  | none => none
  | some st =>
    let dev1 := { dev with bmp := st.1 }
    match ops.get_l2p_tbl with
    | none => some (0, dev1)
    | some tbl =>
      match dev_get_l2p_tbl tbl.1 tbl.2 dev1 with
      | none => none
      | some (_, dev2) => some (0, dev2)

/-- The function `hb_register`; `1` reports a successful attach. -/
def hb_register (ops : nvm_dev_ops) (dev : nvm_dev) : Option (Int × nvm_dev) :=
  if ((if dev.rsp = 0 then 1 else 0) &&& NVM_RSP_L2P) ≠ 0 then some (0, dev)
  else
    match hb_luns_init dev with
    | none => none
    | some (ret, dev1) =>
      if ret ≠ 0 then some (ret, dev1)
      else
        match hb_blocks_init ops dev1 with
        | none => none
        | some (ret2, dev2) =>
          if ret2 ≠ 0 then some (ret2, dev2) else some (1, dev2)

/-! ## Call sequences on one LUN -/

/-- A call made on one LUN: `hb_get_blk` with its flags, or `hb_put_blk` of a block. -/
inductive hb_call where
  | get (flags : Nat)
  | put (blk : Nat)
deriving DecidableEq

/-- Run a sequence of calls on a LUN: the blocks `hb_get_blk` returned, in
order, and the LUN afterwards. -/
def hb_run : nvm_lun → List hb_call → List Nat × nvm_lun
  | lun, [] => ([], lun)
  | lun, hb_call.get flags :: rest =>
    match (hb_get_blk lun flags).1 with
    | none => hb_run (hb_get_blk lun flags).2 rest
    | some blk => (blk :: (hb_run (hb_get_blk lun flags).2 rest).1, (hb_run (hb_get_blk lun flags).2 rest).2)
  | lun, hb_call.put blk :: rest => hb_run (hb_put_blk_lun lun blk) rest

/-- The blocks a sequence of calls releases, in order. -/
def hb_released : List hb_call → List Nat
  | [] => []
  | hb_call.get _ :: rest => hb_released rest
  | hb_call.put blk :: rest => blk :: hb_released rest

/-- Every `hb_put_blk` of the sequence releases a block that is not on the
free list at that time. -/
def hb_puts_in_use : nvm_lun → List hb_call → Prop
  | _, [] => True
  | lun, hb_call.get flags :: rest => hb_puts_in_use (hb_get_blk lun flags).2 rest
  | lun, hb_call.put blk :: rest => blk ∉ lun.free_list ∧ hb_puts_in_use (hb_put_blk_lun lun blk) rest

/-! ## Predicates and relations used by the theorems -/

/-- What `hb_luns_init` leaves in LUN `i`: its index as id, empty lists, no
block array yet and a free counter equal to the number of blocks. -/
def lun_initialised (i : Nat) (lun : nvm_lun) : Prop :=
  lun.id = i ∧ lun.blocks = [] ∧ lun.free_list = [] ∧ lun.used_list = [] ∧ lun.bb_list = [] ∧
    lun.nr_free_blocks = lun.nr_blocks ∧ lun.nr_blocks < 4294967296 ∧ lun.reserved_blocks = 2

/-- Invariant of the loop of `hb_luns_init` before iteration `k`. -/
def luns_init_inv (n k : Nat) (dev : nvm_dev) : Prop :=
  dev.nr_luns = n ∧ dev.bmp.luns.length = n ∧
    ∀ i lun, dev.bmp.luns[i]? = some lun → lun.blocks = [] ∧ (i < k → lun_initialised i lun)

/-- The block loop of `hb_blocks_init` only numbers the blocks and fills the free list. -/
def blocks_loop_frame (a b : nvm_lun) : Prop :=
  a.id = b.id ∧ a.reserved_blocks = b.reserved_blocks ∧ a.nr_blocks = b.nr_blocks ∧
    a.nr_free_blocks = b.nr_free_blocks ∧ a.nr_pages_per_blk = b.nr_pages_per_blk ∧
    a.used_list = b.used_list ∧ a.bb_list = b.bb_list ∧ a.blocks.length = b.blocks.length ∧
    ∀ (j : Nat) (blk : nvm_block), a.blocks[j]? = some blk →
      ∃ blk0 : nvm_block, b.blocks[j]? = some blk0 ∧ blk = { blk0 with id := blk.id }

/-- Bit `b` of the bad-block bitmap the device reports for LUN `lun_id`; no
bit is set when the device has no `get_bb_tbl` or its read fails. -/
def bb_bit (ops : nvm_dev_ops) (lun_id nr_blocks b : Nat) : Bool :=
  match ops.get_bb_tbl with
  | none => false
  | some tbl =>
    match tbl lun_id nr_blocks with
    | none => false
    | some bb_bitmap => bb_bitmap.getD b false

/-- State of LUN `i` when the LUN loop of `hb_blocks_init` has processed it;
`lun0` is the LUN as `hb_luns_init` left it. -/
def lun_attached (ops : nvm_dev_ops) (i : Nat) (lun0 lun : nvm_lun) : Prop :=
  lun.free_list = (List.range lun.nr_blocks).filter
      (fun b => !decide (i = 0 ∧ b = 0) && !bb_bit ops i lun.nr_blocks b) ∧
    lun.used_list = [] ∧
    lun.bb_list = (List.range lun.nr_blocks).filter (fun b => bb_bit ops i lun.nr_blocks b) ∧
    lun.id = i ∧ lun.nr_blocks = lun0.nr_blocks ∧ lun.nr_pages_per_blk = lun0.nr_pages_per_blk ∧
    lun.nr_free_blocks = lun.nr_blocks ∧ lun.reserved_blocks = 2 ∧ lun.nr_blocks < 4294967296 ∧
    lun.blocks.length = lun.nr_blocks ∧
    ∀ (j : Nat) (blk : nvm_block), lun.blocks[j]? = some blk →
      blk = { nvm_block_zero with id := blk.id }

/-- The blocks that are on one of the three lists of a LUN. -/
def lun_all (lun : nvm_lun) : List Nat := lun.free_list ++ lun.used_list ++ lun.bb_list

/-- Well-formedness of the lists of LUN `i`: a block is linked at most once,
only blocks of the LUN are linked, and every block is linked except possibly
the first block of LUN 0. -/
def lun_lists_wf (i : Nat) (lun : nvm_lun) : Prop :=
  lun.blocks.length = lun.nr_blocks ∧ (lun_all lun).Nodup ∧
    (∀ b, b ∈ lun_all lun → b < lun.nr_blocks) ∧
    (∀ b, b < lun.nr_blocks → (i = 0 ∧ b = 0) ∨ b ∈ lun_all lun)

/-- Every LUN of the block manager has well-formed lists. -/
def bm_lists_wf (bm : bm_hb) : Prop :=
  ∀ (i : Nat) (lun : nvm_lun), bm.luns[i]? = some lun → lun_lists_wf i lun

/-- A property of the LUNs holds for every LUN of the block manager. -/
def bm_all (P : Nat → nvm_lun → Prop) (bm : bm_hb) : Prop :=
  ∀ (i : Nat) (lun : nvm_lun), bm.luns[i]? = some lun → P i lun

/-- The LUN after `hb_block_map` has taken block `b` into use. -/
def lun_claim (lun : nvm_lun) (b : Nat) : nvm_lun :=
  { update_block (list_move_tail_used lun b) b (fun x => { x with type := 1 }) with
    nr_free_blocks :=
      u32_dec (update_block (list_move_tail_used lun b) b (fun x => { x with type := 1 })).nr_free_blocks }

/-- A property of a LUN that survives `hb_block_map` taking one of its blocks,
whose type is still zero, into use. -/
def used_move_stable (P : Nat → nvm_lun → Prop) : Prop :=
  ∀ (i : Nat) (lun : nvm_lun) (b : Nat) (blk : nvm_block), P i lun →
    lun.blocks[b]? = some blk → blk.type = 0 → P i (lun_claim lun b)

/-- States of the block manager reachable from `bm0` by calls of `hb_get_blk`
on any LUN and of `hb_put_blk` on any block. -/
inductive hb_reachable (bm0 : bm_hb) : bm_hb → Prop
  | init : hb_reachable bm0 bm0
  | get (bm : bm_hb) (lun_id flags : Nat) :
      hb_reachable bm0 bm → hb_reachable bm0 (hb_get_blk_bm bm lun_id flags).2
  | put (bm : bm_hb) (blk : Nat × Nat) (lun : nvm_lun) :
      hb_reachable bm0 bm → bm.luns[blk.1]? = some lun → blk.2 < lun.blocks.length →
      hb_reachable bm0 (hb_put_blk bm blk)

/-- States reachable from `bm0` by `hb_get_blk` and by `hb_put_blk` of blocks
that `hb_get_blk` has returned, with the blocks returned so far. -/
inductive hb_trace (bm0 : bm_hb) : bm_hb → List (Nat × Nat) → Prop
  | init : hb_trace bm0 bm0 []
  | get (bm : bm_hb) (got : List (Nat × Nat)) (lun_id flags : Nat) :
      hb_trace bm0 bm got →
      hb_trace bm0 (hb_get_blk_bm bm lun_id flags).2
        (match (hb_get_blk_bm bm lun_id flags).1 with
         | none => got
         | some blk => (lun_id, blk) :: got)
  | put (bm : bm_hb) (got : List (Nat × Nat)) (blk : Nat × Nat) :
      hb_trace bm0 bm got → blk ∈ got → hb_trace bm0 (hb_put_blk bm blk) got

/-- The first block of LUN 0 is not on the free list. -/
def first_block_not_free (i : Nat) (lun : nvm_lun) : Prop := i = 0 → 0 ∉ lun.free_list

/-- Relation between LUN `i` before the table is read (`lun0`) and after
`hb_block_map` has processed the entries `seen` (`lun1`), for LUNs of `T`
pages in blocks of `P` pages. -/
def l2p_progress (T P i : Nat) (lun0 lun1 : nvm_lun) (seen : List Nat) : Prop :=
  lun1.nr_blocks = lun0.nr_blocks ∧ lun1.nr_pages_per_blk = lun0.nr_pages_per_blk ∧
    lun_lists_wf i lun1 ∧
    (∀ (j : Nat) (blk : nvm_block), lun1.blocks[j]? = some blk → (blk.type ≠ 0 ↔ j ∈ lun1.used_list)) ∧
    (∀ b, b ∈ lun1.used_list ↔ ∃ e, e ∈ seen ∧ e ≠ 0 ∧ e / T = i ∧ e % T / P = b) ∧
    lun1.nr_free_blocks + lun1.used_list.length = lun0.nr_free_blocks ∧
    (∀ b, b ∈ lun1.free_list ↔ b ∈ lun0.free_list ∧ b ∉ lun1.used_list) ∧
    (∀ b, b ∈ lun1.bb_list ↔ b ∈ lun0.bb_list ∧ b ∉ lun1.used_list)

/-- The relation `l2p_progress` holds for every LUN. -/
def l2p_progress_all (T P : Nat) (bm0 bm1 : bm_hb) (seen : List Nat) : Prop :=
  bm1.luns.length = bm0.luns.length ∧
    ∀ (i : Nat) (lun0 : nvm_lun), bm0.luns[i]? = some lun0 →
      ∃ lun1, bm1.luns[i]? = some lun1 ∧ l2p_progress T P i lun0 lun1 seen

/-- The counter of a LUN with well-formed lists counts the blocks that are not
in use, and the number of blocks fits an `unsigned int`. -/
def lun_counter_ok (i : Nat) (lun : nvm_lun) : Prop :=
  lun_lists_wf i lun ∧ lun.nr_free_blocks + lun.used_list.length = lun.nr_blocks ∧
    lun.nr_blocks < 4294967296

/-- During attach, moreover, exactly the blocks in use have a nonzero type. -/
def lun_attach_inv (i : Nat) (lun : nvm_lun) : Prop :=
  lun_counter_ok i lun ∧
    ∀ (j : Nat) (blk : nvm_block), lun.blocks[j]? = some blk → (blk.type ≠ 0 ↔ j ∈ lun.used_list)

/-- States of the block manager reachable from `bm0` by calls of `hb_get_blk`
on any LUN and of `hb_put_blk` on blocks that are on the used list. -/
inductive hb_reachable_used (bm0 : bm_hb) : bm_hb → Prop
  | init : hb_reachable_used bm0 bm0
  | get (bm : bm_hb) (lun_id flags : Nat) :
      hb_reachable_used bm0 bm → hb_reachable_used bm0 (hb_get_blk_bm bm lun_id flags).2
  | put (bm : bm_hb) (blk : Nat × Nat) (lun : nvm_lun) :
      hb_reachable_used bm0 bm → bm.luns[blk.1]? = some lun → blk.2 ∈ lun.used_list →
      hb_reachable_used bm0 (hb_put_blk bm blk)

/-! ## Example states -/

def lun_at_reserve : nvm_lun :=
  { id := 0, reserved_blocks := 2, nr_blocks := 4, nr_free_blocks := 2, nr_pages_per_blk := 4,
    blocks := List.replicate 4 nvm_block_zero, free_list := [2, 3], used_list := [1], bb_list := [] }

def lun_below_reserve : nvm_lun :=
  { id := 0, reserved_blocks := 2, nr_blocks := 4, nr_free_blocks := 1, nr_pages_per_blk := 4,
    blocks := List.replicate 4 nvm_block_zero, free_list := [3], used_list := [1, 2], bb_list := [] }

def chnl_two_blocks : nvm_id_chnl :=
  { queue_size := 1, gran_read := 512, gran_write := 512, gran_erase := 1024,
    laddr_begin := 0, laddr_end := 3 }

def dev_two_blocks : nvm_dev :=
  { nr_luns := 1, sector_size := 512, max_pages_per_blk := 0, total_pages := 0, total_blocks := 0,
    rsp := 1, chnls := [chnl_two_blocks], bmp := { luns := [] } }

def ops_no_tables : nvm_dev_ops := { get_bb_tbl := none, get_l2p_tbl := none }

def chnl_ten_blocks : nvm_id_chnl :=
  { queue_size := 1, gran_read := 512, gran_write := 512, gran_erase := 1024,
    laddr_begin := 0, laddr_end := 19 }

def dev_ten_blocks : nvm_dev :=
  { nr_luns := 1, sector_size := 512, max_pages_per_blk := 0, total_pages := 0, total_blocks := 0,
    rsp := 1, chnls := [chnl_ten_blocks], bmp := { luns := [] } }

def ops_bad_2_5 : nvm_dev_ops :=
  { get_bb_tbl := some (fun _ _ =>
      some [false, false, true, false, false, true, false, false, false, false]),
    get_l2p_tbl := none }

/-- The device `dev_two_blocks` after attach without tables: LUN 0 holds
block 1 on its free list and block 0, reserved, on no list. -/
def dev_two_blocks_ready : nvm_dev :=
  ((hb_register ops_no_tables dev_two_blocks).getD (0, dev_two_blocks)).2

def chnl_four_blocks : nvm_id_chnl :=
  { queue_size := 1, gran_read := 512, gran_write := 512, gran_erase := 1024,
    laddr_begin := 0, laddr_end := 7 }

def dev_four_blocks : nvm_dev :=
  { nr_luns := 1, sector_size := 512, max_pages_per_blk := 0, total_pages := 0, total_blocks := 0,
    rsp := 1, chnls := [chnl_four_blocks], bmp := { luns := [] } }

/-- A device whose L2P table holds the entry 8, the total number of pages of
`dev_four_blocks`. -/
def ops_l2p_out_of_bounds : nvm_dev_ops :=
  { get_bb_tbl := none, get_l2p_tbl := some ([(0, [0, 0, 8, 0])], 0) }

/-- A device whose L2P table maps page 2 (block 1) and then holds the entry
8, the total number of pages of `dev_four_blocks`. -/
def ops_l2p_partial : nvm_dev_ops :=
  { get_bb_tbl := none, get_l2p_tbl := some ([(0, [0, 0, 2, 8])], 0) }

/-- The device `dev_four_blocks` when `hb_luns_init` has run. -/
def dev_four_blocks_luns : nvm_dev :=
  ((hb_luns_init dev_four_blocks).getD (0, dev_four_blocks)).2

/-- The device `dev_four_blocks` when the LUN loop of `hb_blocks_init` has run. -/
def dev_four_blocks_ready : nvm_dev :=
  ((hb_register ops_no_tables dev_four_blocks).getD (0, dev_four_blocks)).2

/-- The device `dev_two_blocks` when `hb_luns_init` has run. -/
def dev_two_blocks_luns : nvm_dev :=
  ((hb_luns_init dev_two_blocks).getD (0, dev_two_blocks)).2

/-- The device `dev_ten_blocks` when `hb_luns_init` has run. -/
def dev_ten_blocks_luns : nvm_dev :=
  ((hb_luns_init dev_ten_blocks).getD (0, dev_ten_blocks)).2

/-- LUN 0 of `dev_two_blocks` after attach and one allocation by a GC caller. -/
def lun_two_blocks_got : nvm_lun :=
  (hb_get_blk_bm dev_two_blocks_ready.bmp 0 1).2.luns.getD 0 nvm_lun_zero

/-- LUN 0 of `dev_two_blocks` after attach, one allocation by a GC caller and
the release of the block. -/
def lun_two_blocks_put : nvm_lun :=
  (hb_put_blk (hb_get_blk_bm dev_two_blocks_ready.bmp 0 1).2 (0, 1)).luns.getD 0 nvm_lun_zero

/-! ## RRPC: constants and data model

The round-robin page FTL (`drivers/lightnvm/rrpc.c`).  Its header is not part
of the sources: the constants and the inline helpers it declares are modelled
from the design description, each under its own comment.  A pointer to a
`struct nvm_block` is the pair (index of the LUN in `dev->bmp->luns`, index in
`lun->blocks`); a pointer into `trans_map` is the index of the entry. -/

/-- Modelled from the spec: the address `EMPTY` of a map entry
(`ADDR_EMPTY`), the all-ones value of a `sector_t`. -/
def ADDR_EMPTY : Nat := 18446744073709551615

/-- Modelled from the spec: the number of device sectors per logical page, a
device constant; eight sectors of 512 bytes make a page of 4096 bytes. -/
def NR_PHY_IN_LOG : Nat := 8

/-- Modelled from the spec: the size in bytes of a logical page,
`NR_PHY_IN_LOG` sectors of 512 bytes. -/
def EXPOSED_PAGE_SIZE : Nat := 4096

/-- Modelled from the spec: outcome `OK` of the request setup; `rrpc_submit_io`
tests it with `if (err)`, so it is zero. -/
def NVM_IO_OK : Nat := 0

/-- Modelled from the spec: outcome `REQUEUE` of the request setup. -/
def NVM_IO_REQUEUE : Nat := 1

/-- Modelled from the spec: outcome `DONE` of the request setup. -/
def NVM_IO_DONE : Nat := 2

/-- Modelled from the spec: outcome `ERR` of the request setup. -/
def NVM_IO_ERR : Nat := 3

/-- Modelled from the spec: the flags of a host request. -/
def NVM_IOTYPE_NONE : Nat := 0

/-- Modelled from the spec: the number of partitions of the inflight set, for
which the design description gives 32 as an example. -/
def NVM_INFLIGHT_PARTITIONS : Nat := 32

/-- An entry of the logical-to-physical map (`struct nvm_addr`). -/
structure nvm_addr where
  addr : Nat
  block : Option (Nat × Nat)
deriving DecidableEq

/-- An entry of the physical-to-logical map (`struct nvm_rev_addr`). -/
structure nvm_rev_addr where
  addr : Nat
deriving DecidableEq

/-- The shadow of a block (`struct rrpc_block`); its link `prio` is carried
by the priority list of the LUN. -/
structure rrpc_block where
  parent : Option (Nat × Nat)
deriving DecidableEq

/-- The shadow of a LUN (`struct rrpc_lun`): `parent` is the index of the LUN
in the block manager, `prio_list` the indices in `blocks` of the shadows that
are linked, head first. -/
structure rrpc_lun where
  parent : Nat
  cur : Option (Nat × Nat)
  gc_cur : Option (Nat × Nat)
  nr_blocks : Nat
  blocks : List rrpc_block
  prio_list : List Nat
deriving DecidableEq

/-- Modelled from the spec: the direction of a host request. -/
inductive bio_dir where
  | READ
  | WRITE
  | DISCARD
deriving DecidableEq

/-- Modelled from the spec: a host request (`struct bio`) with its direction,
its first sector and its length in bytes. -/
structure bio where
  dir : bio_dir
  bi_sector : Nat
  bi_size : Nat
deriving DecidableEq

/-- Modelled from the spec: a range of logical pages in flight
(`struct rrpc_inflight_rq`). -/
structure rrpc_inflight_rq where
  l_start : Nat
  l_end : Nat
deriving DecidableEq

/-- A device request with the private data of the FTL (`struct nvm_rq`
followed by `struct rrpc_rq`): `addr` points into `trans_map`, `inflight` is
the range the request holds in the inflight set. -/
structure nvm_rq where
  rq_bio : Option bio
  phys_sector : Nat
  inflight : rrpc_inflight_rq
  addr : Option Nat
  flags : Nat
deriving DecidableEq

/-- A work item of the background queue `kgc_wq`. -/
inductive rrpc_work where
  | gc_queue (block : Nat × Nat)
  | block_gc (block : Nat × Nat)
  | requeue
deriving DecidableEq

/-- The FTL instance (`struct rrpc`).  `krqd_wq` holds the LUNs whose
collector work `ws_gc` is pending, `kgc_wq` the pending background work. -/
structure rrpc where
  dev : nvm_dev
  nr_luns : Nat
  lun_offset : Nat
  nr_pages : Nat
  total_blocks : Nat
  poffset : Nat
  next_lun : Int
  luns : List rrpc_lun
  trans_map : List nvm_addr
  rev_trans_map : List nvm_rev_addr
  inflight_map : List (List rrpc_inflight_rq)
  requeue_bios : List bio
  krqd_wq : List Nat
  kgc_wq : List rrpc_work
deriving DecidableEq

/-- A request as the pool hands it out. -/
def nvm_rq_zero : nvm_rq :=
  { rq_bio := none, phys_sector := 0, inflight := { l_start := 0, l_end := 0 }, addr := none,
    flags := 0 }

/-! ## RRPC: the two maps -/

/-- The block a block pointer designates, with its LUN. -/
def nvm_block_get (dev : nvm_dev) (p : Nat × Nat) : Option (nvm_lun × nvm_block) :=
  match dev.bmp.luns[p.1]? with
  | none => none
  | some lun =>
    match lun.blocks[p.2]? with
    | none => none
    | some b => some (lun, b)

/-- Apply `f` to the block a block pointer designates. -/
def nvm_block_set (dev : nvm_dev) (p : Nat × Nat) (f : nvm_block → nvm_block) : nvm_dev :=
  match dev.bmp.luns[p.1]? with
  | none => dev
  | some lun => { dev with bmp := { luns := dev.bmp.luns.set p.1 (update_block lun p.2 f) } }

/-- What `invalidate_block_page` does to the block: `test_and_set_bit` of the
page's bit and `nr_invalid_pages++`. -/
def block_invalidate (page_offset : Nat) (b : nvm_block) : nvm_block :=
  { b with invalid_pages := b.invalid_pages ||| (1 <<< page_offset),
           nr_invalid_pages := u32_inc b.nr_invalid_pages }

/-- The function `invalidate_block_page`.  A block pointer that designates no
block, and a LUN without pages, have no defined result. -/
def invalidate_block_page (dev : nvm_dev) (p : nvm_addr) : Option nvm_dev :=
  match p.block with
  | none => some dev
  | some block =>
    match nvm_block_get dev block with
    | none => none
    | some (lun, _) =>
      if lun.nr_pages_per_blk = 0 then none
      else some (nvm_block_set dev block (block_invalidate (p.addr % lun.nr_pages_per_blk)))

/-- The function `__nvm_page_invalidate`; the index `a->addr - rrpc->poffset`
is computed in `u64`. -/
def __nvm_page_invalidate (r : rrpc) (a : nvm_addr) : Option rrpc :=
  if a.addr = ADDR_EMPTY then some r
  else
    match invalidate_block_page r.dev a with
    | none => none
    | some dev1 =>
      if u64_sub a.addr r.poffset < r.rev_trans_map.length then
        some { r with dev := dev1,
                      rev_trans_map := r.rev_trans_map.set (u64_sub a.addr r.poffset) { addr := ADDR_EMPTY } }
      else none

/-- The loop of `rrpc_invalidate_range`: `n` iterations from page `i`. -/
def rrpc_invalidate_range_loop : Nat → Nat → rrpc → Option rrpc
  | _, 0, r => some r
  | i, n + 1, r =>
    match r.trans_map[i]? with
    | none => none
    | some gp =>
      match __nvm_page_invalidate r gp with
      | none => none
      | some r1 =>
        rrpc_invalidate_range_loop (i + 1) n
          { r1 with trans_map := r1.trans_map.set i { gp with block := none } }

/-- The function `rrpc_invalidate_range`.  The bound `slba + len` is computed
in `u64`: when it wraps around, the loop body does not run. -/
def rrpc_invalidate_range (r : rrpc) (slba len : Nat) : Option rrpc :=
  if slba + len > U64_MAX then some r
  else rrpc_invalidate_range_loop slba len r

/-- The function `nvm_update_map`: the entry returned (its index in
`trans_map`) and the state afterwards.  `BUG_ON` has no defined result. -/
def nvm_update_map (r : rrpc) (l_addr : Nat) (p_block : Option (Nat × Nat)) (p_addr : Nat)
    ( _is_gc : Nat) : Option (Nat × rrpc) :=
  if l_addr ≥ r.nr_pages then none
  else
    match r.trans_map[l_addr]? with
    | none => none
    | some gp =>
      match (if gp.block ≠ none then __nvm_page_invalidate r gp else some r) with
      | none => none
      | some r1 =>
        if u64_sub p_addr r1.poffset < r1.rev_trans_map.length then
          some (l_addr,
            { r1 with trans_map := r1.trans_map.set l_addr { addr := p_addr, block := p_block },
                      rev_trans_map := r1.rev_trans_map.set (u64_sub p_addr r1.poffset) { addr := l_addr } })
        else none

/-- The body of the loop of `rrpc_l2p_update` for entry `i` of the chunk. -/
def rrpc_l2p_update_entry (max_pages slba : Nat) (r : rrpc) (i pba : Nat) :
    Option (Option Int × rrpc) :=
  if pba ≥ max_pages ∧ pba ≠ U64_MAX then some (some (-EINVAL), r)
  else if pba = 0 then some (none, r)
  else
    match r.trans_map[slba + i]? with
    | none => none
    | some a =>
      if pba < r.rev_trans_map.length then
        some (none,
          { r with trans_map := r.trans_map.set (slba + i) { a with addr := pba },
                   rev_trans_map := r.rev_trans_map.set pba { addr := slba + i } })
      else none

/-- The loop of `rrpc_l2p_update` over the entries of one chunk, from entry `i`. -/
def rrpc_l2p_update_loop (max_pages slba : Nat) : Nat → List Nat → rrpc → Option (Int × rrpc)
  | _, [], r => some (0, r)
  | i, pba :: rest, r =>
    match rrpc_l2p_update_entry max_pages slba r i pba with
    | none => none
    | some (some ret, r1) => some (ret, r1)
    | some (none, r1) => rrpc_l2p_update_loop max_pages slba (i + 1) rest r1

/-- The function `rrpc_l2p_update (slba, nlb, entries, rrpc)`, `nlb` being the
length of `entries`. -/
def rrpc_l2p_update (slba : Nat) (entries : List Nat) (r : rrpc) : Option (Int × rrpc) :=
  let max_pages := r.dev.total_pages * (r.dev.sector_size >>> 9)
  let elba := slba + entries.length
  if elba > r.dev.total_pages then some (-EINVAL, r)
  else rrpc_l2p_update_loop max_pages slba 0 entries r

/-! ## RRPC: inflight ranges -/

/-- Modelled from the spec: the logical page a request starts at; `rrpc_discard`
computes it as `bi_sector / NR_PHY_IN_LOG`. -/
def nvm_get_laddr (b : bio) : Nat := b.bi_sector / NR_PHY_IN_LOG

/-- Modelled from the spec: the number of logical pages of a request;
`rrpc_discard` computes it as `bi_size / EXPOSED_PAGE_SIZE`. -/
def nvm_get_pages (b : bio) : Nat := b.bi_size / EXPOSED_PAGE_SIZE

/-- Modelled from the spec: the device sector of a page, the page number
multiplied by `NR_PHY_IN_LOG`. -/
def nvm_get_sector (addr : Nat) : Nat := addr * NR_PHY_IN_LOG

/-- Modelled from the spec: the range `[laddr, laddr_end]` overlaps the range
held by `x`. -/
def request_intersects (x : rrpc_inflight_rq) (laddr laddr_end : Nat) : Bool :=
  decide (x.l_start ≤ laddr_end ∧ laddr ≤ x.l_end)

/-- Modelled from the spec: `lock (range)` for the pages `laddr` to
`laddr + pages - 1`.  It returns 1 at once when a range of the partition
overlaps, and otherwise records the range in `inf`, appends it to the
partition and returns 0.  The partition is taken to be the one with index
`laddr % NVM_INFLIGHT_PARTITIONS`; one that is not there has no defined
result. -/
def rrpc_lock_laddr (r : rrpc) (laddr pages : Nat) (inf : rrpc_inflight_rq) :
    Option (Nat × rrpc × rrpc_inflight_rq) :=
  match r.inflight_map[laddr % NVM_INFLIGHT_PARTITIONS]? with
  | none => none
  | some reqs =>
    if reqs.any (fun x => request_intersects x laddr (laddr + pages - 1)) then some (1, r, inf)
    else
      some (0,
        { r with inflight_map := r.inflight_map.set (laddr % NVM_INFLIGHT_PARTITIONS)
                   (reqs ++ [{ l_start := laddr, l_end := laddr + pages - 1 }]) },
        { l_start := laddr, l_end := laddr + pages - 1 })

/-- Modelled from the spec: `unlock (range)` removes the range `inf` from the
partition of `laddr`. -/
def rrpc_unlock_laddr (r : rrpc) (laddr : Nat) (inf : rrpc_inflight_rq) : Option rrpc :=
  match r.inflight_map[laddr % NVM_INFLIGHT_PARTITIONS]? with
  | none => none
  | some reqs =>
    some { r with inflight_map :=
                    r.inflight_map.set (laddr % NVM_INFLIGHT_PARTITIONS) (reqs.erase inf) }

/-- Modelled from the spec: the range lock of a request, taken on the pages
of its bio. -/
def rrpc_lock_rq (r : rrpc) (b : bio) (rqd : nvm_rq) : Option (Nat × rrpc × nvm_rq) :=
  match rrpc_lock_laddr r (nvm_get_laddr b) (nvm_get_pages b) rqd.inflight with
  | none => none
  | some (ret, r1, inf) => some (ret, r1, { rqd with inflight := inf })

/-- Modelled from the spec: release of the range lock of a request. -/
def rrpc_unlock_rq (r : rrpc) (b : bio) (rqd : nvm_rq) : Option rrpc :=
  rrpc_unlock_laddr r (nvm_get_laddr b) rqd.inflight

/-- The function `rrpc_inflight_laddr_acquire` (the pool is taken to hand out
a request): the request that holds the range, or `none` for `NULL`. -/
def rrpc_inflight_laddr_acquire (r : rrpc) (laddr pages : Nat) : Option (Option nvm_rq × rrpc) :=
  match rrpc_lock_laddr r laddr pages nvm_rq_zero.inflight with
  | none => none
  | some (ret, r1, inf) =>
    if ret ≠ 0 then some (none, r1) else some (some { nvm_rq_zero with inflight := inf }, r1)

/-- The function `rrpc_inflight_laddr_release`. -/
def rrpc_inflight_laddr_release (r : rrpc) (rqd : nvm_rq) : Option rrpc :=
  rrpc_unlock_laddr r rqd.inflight.l_start rqd.inflight

/-- The function `rrpc_discard`.  The length is passed on as an `unsigned`.
While the range cannot be acquired the function retries without end: in a
run without other threads it has no result. -/
def rrpc_discard (r : rrpc) (b : bio) : Option rrpc :=
  let slba := b.bi_sector / NR_PHY_IN_LOG
  let len := b.bi_size / EXPOSED_PAGE_SIZE
  match rrpc_inflight_laddr_acquire r slba (len % 4294967296) with
  | none => none
  | some (none, _) => none
  | some (some rqd, r1) =>
    match rrpc_invalidate_range r1 slba (len % 4294967296) with
    | none => none
    | some r2 => rrpc_inflight_laddr_release r2 rqd

/-! ## RRPC: the write path -/

/-- Modelled from the spec: the first physical page of a block, its id
multiplied by the number of pages of a block of its LUN. -/
def block_to_addr (lun : nvm_lun) (block : nvm_block) : Nat := block.id * lun.nr_pages_per_blk

/-- Modelled from the spec: a block is full when its cursor has reached the
number of pages of a block. -/
def block_is_full (lun : nvm_lun) (block : nvm_block) : Bool :=
  decide (block.next_page = lun.nr_pages_per_blk)

/-- Modelled from the spec: allocation from an append cursor: `ADDR_EMPTY`
when the block is full, and otherwise the page at `next_page`, which is then
incremented.  A null block has no defined result. -/
def nvm_alloc_addr (dev : nvm_dev) (block : Option (Nat × Nat)) : Option (Nat × nvm_dev) :=
  match block with
  | none => none
  | some p =>
    match nvm_block_get dev p with
    | none => none
    | some (lun, blk) =>
      if block_is_full lun blk then some (ADDR_EMPTY, dev)
      else
        some (block_to_addr lun blk + blk.next_page,
          nvm_block_set dev p (fun x => { x with next_page := x.next_page + 1 }))

/-- Modelled from the spec: `nvm_get_blk` hands the request to the block
manager (`hb_get_blk`) for the LUN; the block returned is a block pointer. -/
def nvm_get_blk (dev : nvm_dev) (lun flags : Nat) : Option (Nat × Nat) × nvm_dev :=
  match (hb_get_blk_bm dev.bmp lun flags).1 with
  | none => (none, { dev with bmp := (hb_get_blk_bm dev.bmp lun flags).2 })
  | some blk => (some (lun, blk), { dev with bmp := (hb_get_blk_bm dev.bmp lun flags).2 })

/-- The function `rrpc_set_lun_cur`. -/
def rrpc_set_lun_cur (rlun : rrpc_lun) (block : Nat × Nat) : rrpc_lun :=
  { rlun with cur := some block }

/-- The function `get_next_lun`: the index of the LUN chosen and the state
afterwards.  The counter is an `int` that wraps around; `%` truncates towards
zero, and a negative index has no defined result. -/
def get_next_lun (r : rrpc) : Option (Nat × rrpc) :=
  let next : Int := (r.next_lun + 1 + 2147483648) % 4294967296 - 2147483648
  if r.nr_luns = 0 then none
  else if Int.tmod next (r.nr_luns : Int) < 0 then none
  else some ((Int.tmod next (r.nr_luns : Int)).toNat, { r with next_lun := next })

/-- One iteration of the loop of `__rrpc_get_lun_rr`. -/
def rrpc_get_lun_rr_step (r : rrpc) (max_free : Option Nat) (i : Nat) : Option Nat :=
  match max_free with
  | none => none
  | some m =>
    match r.luns[i]?, r.luns[m]? with
    | some rlun, some rmax =>
      match r.dev.bmp.luns[rlun.parent]?, r.dev.bmp.luns[rmax.parent]? with
      | some lun, some lmax => if lun.nr_free_blocks > lmax.nr_free_blocks then some i else some m
      | _, _ => none
    | _, _ => none

/-- The function `__rrpc_get_lun_rr`: the index of the LUN chosen and the
state afterwards. -/
def __rrpc_get_lun_rr (r : rrpc) (is_gc : Nat) : Option (Nat × rrpc) :=
  if is_gc = 0 then get_next_lun r
  else
    match (List.range r.nr_luns).foldl (rrpc_get_lun_rr_step r) (some 0) with
    | none => none
    | some m => some (m, r)

/-- The label `finished` of `rrpc_map_page`. -/
def rrpc_map_page_finished (r : rrpc) (laddr : Nat) (p_block : Option (Nat × Nat)) (p_addr : Nat)
    (is_gc : Nat) : Option (Option Nat × rrpc) :=
  if p_addr = ADDR_EMPTY then some (none, r)
  else
    match nvm_update_map r laddr p_block p_addr is_gc with
    | none => none
    | some (gp, r1) => some (some gp, r1)

/-- The function `rrpc_map_page`: the map entry returned (`none` for `NULL`)
and the state afterwards. -/
def rrpc_map_page (r : rrpc) (laddr : Nat) (is_gc : Nat) : Option (Option Nat × rrpc) :=
  match __rrpc_get_lun_rr r is_gc with
  | none => none
  | some (ri, r1) =>
    match r1.luns[ri]? with
    | none => none
    | some rlun =>
      match r1.dev.bmp.luns[rlun.parent]? with
      | none => none
      | some lun =>
        if is_gc = 0 ∧ lun.nr_free_blocks < r1.nr_luns * 4 % 4294967296 then some (none, r1)
        else
          match nvm_alloc_addr r1.dev rlun.cur with
          | none => none
          | some (p_addr, dev1) =>
            if p_addr = ADDR_EMPTY then
              match nvm_get_blk dev1 rlun.parent 0 with
              | (none, dev2) =>
                if is_gc ≠ 0 then
                  match nvm_alloc_addr dev2 rlun.gc_cur with
                  | none => none
                  | some (p_addr2, dev3) =>
                    if p_addr2 = ADDR_EMPTY then
                      match nvm_get_blk dev3 rlun.parent 1 with
                      | (none, dev4) =>
                        rrpc_map_page_finished { r1 with dev := dev4 } laddr none p_addr2 is_gc
                      | (some blk, dev4) =>
                        match nvm_alloc_addr dev4 (some blk) with
                        | none => none
                        | some (p_addr3, dev5) =>
                          rrpc_map_page_finished
                            { r1 with dev := dev5,
                                      luns := r1.luns.set ri { rlun with gc_cur := some blk } }
                            laddr (some blk) p_addr3 is_gc
                    else
                      rrpc_map_page_finished { r1 with dev := dev3 } laddr rlun.gc_cur p_addr2 is_gc
                else rrpc_map_page_finished { r1 with dev := dev2 } laddr none p_addr is_gc
              | (some blk, dev2) =>
                match nvm_alloc_addr dev2 (some blk) with
                | none => none
                | some (p_addr2, dev3) =>
                  rrpc_map_page_finished
                    { r1 with dev := dev3, luns := r1.luns.set ri (rrpc_set_lun_cur rlun blk) }
                    laddr (some blk) p_addr2 is_gc
            else rrpc_map_page_finished { r1 with dev := dev1 } laddr rlun.cur p_addr is_gc

/-- The function `rrpc_gc_kick`: the collector work of every LUN is queued
unless it is pending already. -/
def rrpc_gc_kick (r : rrpc) : rrpc :=
  { r with krqd_wq := List.foldl (fun wq i => if i ∈ wq then wq else wq ++ [i]) r.krqd_wq
             (List.range r.nr_luns) }

/-- The function `rrpc_end_io_write`. -/
def rrpc_end_io_write (r : rrpc) (rrqd : nvm_rq) : Option rrpc :=
  match rrqd.addr with
  | none => none
  | some gp =>
    match r.trans_map[gp]? with
    | none => none
    | some p =>
      match p.block with
      | none => none
      | some block =>
        match nvm_block_get r.dev block with
        | none => none
        | some (lun, blk) =>
          let cmnt_size := blk.data_cmnt_size + 1
          let dev1 := nvm_block_set r.dev block (fun x => { x with data_cmnt_size := cmnt_size })
          if cmnt_size ≠ lun.nr_pages_per_blk then some { r with dev := dev1 }
          else some { r with dev := dev1, kgc_wq := r.kgc_wq ++ [rrpc_work.gc_queue block] }

/-- The function `rrpc_end_io`. -/
def rrpc_end_io (r : rrpc) (rqd : nvm_rq) ( _error : Int) : Option rrpc :=
  match rqd.rq_bio with
  | none => none
  | some b =>
    match (if b.dir = bio_dir.WRITE then rrpc_end_io_write r rqd else some r) with
    | none => none
    | some r1 =>
      if rqd.flags &&& NVM_IOTYPE_GC ≠ 0 then some r1
      else rrpc_unlock_rq r1 b rqd

/-! ## RRPC: request dispatch -/

/-- The function `rrpc_read_rq`: the outcome, the state and the request
afterwards. -/
def rrpc_read_rq (r : rrpc) (b : bio) (rqd : nvm_rq) (flags : Nat) : Option (Nat × rrpc × nvm_rq) :=
  let is_gc := flags &&& NVM_IOTYPE_GC
  let l_addr := nvm_get_laddr b
  match (if is_gc = 0 then rrpc_lock_rq r b rqd else some (0, r, rqd)) with
  | none => none
  | some (locked, r1, rqd1) =>
    if locked ≠ 0 then some (NVM_IO_REQUEUE, r1, rqd1)
    else if ¬ l_addr < r1.nr_pages then none
    else
      match r1.trans_map[l_addr]? with
      | none => none
      | some gp =>
        if gp.block ≠ none then
          some (NVM_IO_OK, r1, { rqd1 with phys_sector := nvm_get_sector gp.addr, addr := some l_addr })
        else if is_gc ≠ 0 then none
        else
          match rrpc_unlock_rq r1 b rqd1 with
          | none => none
          | some r2 => some (NVM_IO_DONE, r2, rqd1)

/-- The function `rrpc_write_rq`: the outcome, the state and the request
afterwards. -/
def rrpc_write_rq (r : rrpc) (b : bio) (rqd : nvm_rq) (flags : Nat) : Option (Nat × rrpc × nvm_rq) :=
  let is_gc := flags &&& NVM_IOTYPE_GC
  let l_addr := nvm_get_laddr b
  match (if is_gc = 0 then rrpc_lock_rq r b rqd else some (0, r, rqd)) with
  | none => none
  | some (locked, r1, rqd1) =>
    if locked ≠ 0 then some (NVM_IO_REQUEUE, r1, rqd1)
    else
      match rrpc_map_page r1 l_addr is_gc with
      | none => none
      | some (none, r2) =>
        if is_gc ≠ 0 then none
        else
          match rrpc_unlock_rq r2 b rqd1 with
          | none => none
          | some r3 => some (NVM_IO_REQUEUE, rrpc_gc_kick r3, rqd1)
      | some (some p, r2) =>
        match r2.trans_map[p]? with
        | none => none
        | some gp =>
          some (NVM_IO_OK, r2, { rqd1 with phys_sector := nvm_get_sector gp.addr, addr := some p })

/-- The function `rrpc_setup_rq`. -/
def rrpc_setup_rq (r : rrpc) (b : bio) (rqd : nvm_rq) (flags : Nat) : Option (Nat × rrpc × nvm_rq) :=
  if b.dir = bio_dir.WRITE then rrpc_write_rq r b rqd flags else rrpc_read_rq r b rqd flags

/-- The function `rrpc_submit_io`; `dev_ret` is what `nvm_submit_io` returns
for the request. -/
def rrpc_submit_io (r : rrpc) (b : bio) (rqd : nvm_rq) (flags : Nat) (dev_ret : Int) :
    Option (Nat × rrpc × nvm_rq) :=
  match rrpc_setup_rq r b rqd flags with
  | none => none
  | some (err, r1, rqd1) =>
    if err ≠ 0 then some (err, r1, rqd1)
    else if dev_ret ≠ 0 then some (NVM_IO_ERR, r1, { rqd1 with rq_bio := some b, flags := flags })
    else some (NVM_IO_OK, r1, { rqd1 with rq_bio := some b, flags := flags })

/-- What `rrpc_make_rq` has done with the bio when it returns. -/
inductive bio_status where
  | submitted (rqd : nvm_rq)
  | ended (error : Int)
  | requeued
  | discarded
  | dropped
deriving DecidableEq

/-- The function `rrpc_make_rq` (the pool is taken to hand out a request). -/
def rrpc_make_rq (r : rrpc) (b : bio) (dev_ret : Int) : Option (bio_status × rrpc) :=
  if b.dir = bio_dir.DISCARD then
    match rrpc_discard r b with
    | none => none
    | some r1 => some (bio_status.discarded, r1)
  else
    match rrpc_submit_io r b nvm_rq_zero NVM_IOTYPE_NONE dev_ret with
    | none => none
    | some (err, r1, rqd) =>
      if err = NVM_IO_OK then some (bio_status.submitted rqd, r1)
      else if err = NVM_IO_ERR then some (bio_status.ended (- EIO), r1)
      else if err = NVM_IO_DONE then some (bio_status.ended 0, r1)
      else if err = NVM_IO_REQUEUE then
        some (bio_status.requeued,
          { r1 with requeue_bios := r1.requeue_bios ++ [b],
                    kgc_wq := if rrpc_work.requeue ∈ r1.kgc_wq then r1.kgc_wq
                              else r1.kgc_wq ++ [rrpc_work.requeue] })
      else some (bio_status.dropped, r1)

/-! ## RRPC: victim selection -/

/-- Number of invalid pages of the block behind shadow `rb` of a LUN. -/
def rblock_invalid (r : rrpc) (rlun : rrpc_lun) (rb : Nat) : Option Nat :=
  match rlun.blocks[rb]? with
  | none => none
  | some rblock =>
    match rblock.parent with
    | none => none
    | some p =>
      match nvm_block_get r.dev p with
      | none => none
      | some (_, blk) => some blk.nr_invalid_pages

/-- The function `rblock_max_invalid` on two shadows of a LUN. -/
def rblock_max_invalid (r : rrpc) (rlun : rrpc_lun) (ra rb : Nat) : Option Nat :=
  match rblock_invalid r rlun ra, rblock_invalid r rlun rb with
  | some a, some b => if a = b then some ra else if a < b then some rb else some ra
  | _, _ => none

/-- The loop `list_for_each_entry` of `block_prio_find_max`. -/
def block_prio_find_max_loop (r : rrpc) (rlun : rrpc_lun) : Nat → List Nat → Option Nat
  | max, [] => some max
  | max, rblock :: rest =>
    match rblock_max_invalid r rlun max rblock with
    | none => none
    | some max1 => block_prio_find_max_loop r rlun max1 rest

/-- The function `block_prio_find_max`. -/
def block_prio_find_max (r : rrpc) (rlun : rrpc_lun) : Option Nat :=
  match rlun.prio_list with
  | [] => none
  | first :: _ => block_prio_find_max_loop r rlun first rlun.prio_list

/-! ## RRPC: initialisation -/

/-- A zero-filled LUN shadow, as `kcalloc` returns it. -/
def rrpc_lun_zero : rrpc_lun :=
  { parent := 0, cur := none, gc_cur := none, nr_blocks := 0, blocks := [], prio_list := [] }

/-- A zero-filled instance on a device, as `kzalloc` returns it. -/
def rrpc_zero (dev : nvm_dev) : rrpc :=
  { dev := dev, nr_luns := 0, lun_offset := 0, nr_pages := 0, total_blocks := 0, poffset := 0,
    next_lun := 0, luns := [], trans_map := [], rev_trans_map := [], inflight_map := [],
    requeue_bios := [], krqd_wq := [], kgc_wq := [] }

/-- One iteration of the loop of `rrpc_luns_init` for LUN `i`; the LUNs of the
instance are those of the block manager from `lun_begin` on (`hb_get_luns`).
The product added to `nr_pages` is a product of 32-bit fields, computed
modulo 2^32. -/
def rrpc_luns_init_lun (lun_begin : Nat) (r : rrpc) (i : Nat) : Option rrpc :=
  match r.dev.bmp.luns[lun_begin + i]?, r.luns[i]? with
  | some lun, some rlun =>
    some { r with
      total_blocks := r.total_blocks + lun.nr_blocks,
      nr_pages := r.nr_pages + lun.nr_blocks * lun.nr_pages_per_blk % 4294967296,
      luns := r.luns.set i
        { rlun with parent := lun_begin + i,
                    nr_blocks := lun.nr_blocks,
                    prio_list := [],
                    blocks := (List.range lun.nr_blocks).map
                      (fun j => { parent := some (lun_begin + i, j) }) } }
  | _, _ => none

/-- The loop of `rrpc_luns_init`. -/
def rrpc_luns_init_loop (lun_begin : Nat) : List Nat → rrpc → Option rrpc
  | [], r => some r
  | i :: rest, r =>
    match rrpc_luns_init_lun lun_begin r i with
    | none => none
    | some r1 => rrpc_luns_init_loop lun_begin rest r1

/-- The function `rrpc_luns_init` (the allocations are taken to succeed). -/
def rrpc_luns_init (r : rrpc) (lun_begin : Nat) ( _lun_end : Nat) : Option (Int × rrpc) :=
  match rrpc_luns_init_loop lun_begin (List.range r.nr_luns)
      { r with luns := List.replicate r.nr_luns rrpc_lun_zero } with
  | none => none
  | some r1 => some (0, r1)

/-- The function `rrpc_core_init` (the allocations are taken to succeed). -/
def rrpc_core_init (r : rrpc) : Int × rrpc :=
  (0, { r with inflight_map := List.replicate NVM_INFLIGHT_PARTITIONS [] })

/-- Modelled from the spec: the device's `get_l2p_tbl` with the callback
`rrpc_l2p_update`: the table is passed chunk by chunk, the first callback
that returns an error ends the read with that error, and otherwise the device
returns its own status. -/
def rrpc_get_l2p_tbl : List (Nat × List Nat) → Int → rrpc → Option (Int × rrpc)
  | [], status, r => some (status, r)
  | chunk :: rest, status, r =>
    match rrpc_l2p_update chunk.1 chunk.2 r with
    | none => none
    | some (ret, r1) => if ret ≠ 0 then some (ret, r1) else rrpc_get_l2p_tbl rest status r1

/-- The function `rrpc_map_init` (the allocations are taken to succeed). -/
def rrpc_map_init (ops : nvm_dev_ops) (r : rrpc) : Option (Int × rrpc) :=
  let r1 := { r with trans_map := List.replicate r.nr_pages { addr := ADDR_EMPTY, block := none },
                     rev_trans_map := List.replicate r.nr_pages { addr := ADDR_EMPTY } }
  match ops.get_l2p_tbl with
  | none => some (0, r1)
  | some tbl =>
    match rrpc_get_l2p_tbl tbl.1 tbl.2 r1 with
    | none => none
    | some (ret, r2) => if ret ≠ 0 then some (-EINVAL, r2) else some (0, r2)

/-- One iteration of the loop of `rrpc_block_map_update`. -/
def rrpc_block_map_update_page (block : Nat × Nat) (r : rrpc) (offset : Nat) : Option rrpc :=
  match nvm_block_get r.dev block with
  | none => none
  | some (lun, blk) =>
    match r.rev_trans_map[block_to_addr lun blk + offset]? with
    | none => none
    | some rev =>
      if rev.addr = ADDR_EMPTY then some r
      else
        match r.trans_map[rev.addr]? with
        | none => none
        | some laddr =>
          if block_to_addr lun blk + offset = laddr.addr then
            some { r with trans_map := r.trans_map.set rev.addr { laddr with block := some block } }
          else
            some { r with dev := nvm_block_set r.dev block (fun b =>
              { b with invalid_pages := b.invalid_pages ||| (1 <<< offset),
                       nr_invalid_pages := u32_inc b.nr_invalid_pages }) }

/-- A loop that runs a step with no defined result for some states. -/
def rrpc_for_each {α : Type} (step : rrpc → α → Option rrpc) : List α → rrpc → Option rrpc
  | [], r => some r
  | a :: rest, r =>
    match step r a with
    | none => none
    | some r1 => rrpc_for_each step rest r1

/-- The function `rrpc_block_map_update`. -/
def rrpc_block_map_update (r : rrpc) (block : Nat × Nat) : Option rrpc :=
  match r.dev.bmp.luns[block.1]? with
  | none => none
  | some lun => rrpc_for_each (rrpc_block_map_update_page block) (List.range lun.nr_pages_per_blk) r

/-- The body of the LUN loop of `rrpc_blocks_init`. -/
def rrpc_blocks_init_lun (r : rrpc) (lun_iter : Nat) : Option rrpc :=
  match r.dev.bmp.luns[r.lun_offset + lun_iter]? with
  | none => none
  | some lun =>
    rrpc_for_each (fun r1 blk_iter => rrpc_block_map_update r1 (r.lun_offset + lun_iter, blk_iter))
      (List.range lun.nr_blocks) r

/-- The function `rrpc_blocks_init`. -/
def rrpc_blocks_init (r : rrpc) : Option (Int × rrpc) :=
  match rrpc_for_each rrpc_blocks_init_lun (List.range r.nr_luns) r with
  | none => none
  | some r1 => some (0, r1)

/-- The loop of `rrpc_luns_configure`. -/
def rrpc_luns_configure_loop : List Nat → rrpc → Option (Int × rrpc)
  | [], r => some (0, r)
  | i :: rest, r =>
    match r.luns[i]? with
    | none => none
    | some rlun =>
      match nvm_get_blk r.dev rlun.parent 0 with
      | (none, dev1) => some (-EINVAL, { r with dev := dev1 })
      | (some blk, dev1) =>
        match nvm_get_blk dev1 rlun.parent 1 with
        | (none, dev2) =>
          some (-EINVAL, { r with dev := dev2, luns := r.luns.set i (rrpc_set_lun_cur rlun blk) })
        | (some gc_blk, dev2) =>
          rrpc_luns_configure_loop rest
            { r with dev := dev2,
                     luns := r.luns.set i { rrpc_set_lun_cur rlun blk with gc_cur := some gc_blk } }

/-- The function `rrpc_luns_configure`. -/
def rrpc_luns_configure (r : rrpc) : Option (Int × rrpc) :=
  rrpc_luns_configure_loop (List.range r.nr_luns) r

/-- The function `rrpc_init` up to the start of the timer (the allocations
and the work queues are taken to succeed): the error, or 0 with the instance.
The product stored in `poffset` is computed in 32 bits, modulo 2^32. -/
def rrpc_init (ops : nvm_dev_ops) (dev : nvm_dev) (lun_begin lun_end : Nat) : Option (Int × rrpc) :=
  let r0 := { rrpc_zero dev with nr_luns := lun_end + 1 - lun_begin, next_lun := -1 }
  match rrpc_luns_init r0 lun_begin lun_end with
  | none => none
  | some (ret1, r1) =>
    if ret1 ≠ 0 then some (ret1, r1)
    else
      match r1.luns[0]? with
      | none => none
      | some rlun0 =>
        match r1.dev.bmp.luns[rlun0.parent]? with
        | none => none
        | some lun0 =>
          let r2 := { r1 with poffset := lun0.nr_blocks * lun0.nr_pages_per_blk * lun_begin % 4294967296,
                              lun_offset := lun_begin }
          let r3 := (rrpc_core_init r2).2
          match rrpc_map_init ops r3 with
          | none => none
          | some (ret4, r4) =>
            if ret4 ≠ 0 then some (ret4, r4)
            else
              match rrpc_blocks_init r4 with
              | none => none
              | some (ret5, r5) =>
                if ret5 ≠ 0 then some (ret5, r5)
                else
                  match rrpc_luns_configure r5 with
                  | none => none
                  | some (ret6, r6) => some (ret6, r6)

/-! ## RRPC: sequences of map operations -/

/-- An operation on the maps and the blocks: a call of `nvm_update_map` with a
block, a call of `rrpc_invalidate_range`, and the two calls of the block
manager that recycle a block. -/
inductive rrpc_op where
  | update (l_addr : Nat) (p_block : Nat × Nat) (p_addr : Nat) (is_gc : Nat)
  | invalidate (slba len : Nat)
  | get_blk (lun flags : Nat)
  | put_blk (block : Nat × Nat)
deriving DecidableEq

/-- The state after one operation. -/
def rrpc_step (r : rrpc) : rrpc_op → Option rrpc
  | rrpc_op.update l_addr p_block p_addr is_gc =>
    match nvm_update_map r l_addr (some p_block) p_addr is_gc with
    | none => none
    | some (_, r1) => some r1
  | rrpc_op.invalidate slba len => rrpc_invalidate_range r slba len
  | rrpc_op.get_blk lun flags => some { r with dev := (nvm_get_blk r.dev lun flags).2 }
  | rrpc_op.put_blk block => some { r with dev := { r.dev with bmp := hb_put_blk r.dev.bmp block } }

/-- The state after a sequence of operations. -/
def rrpc_run : rrpc → List rrpc_op → Option rrpc
  | r, [] => some r
  | r, op :: rest =>
    match rrpc_step r op with
    | none => none
    | some r1 => rrpc_run r1 rest

/-! ## RRPC: example states -/

/-- The instance on `dev_two_blocks` after attach, with empty maps and no
block taken yet. -/
def rrpc_two_blocks : rrpc :=
  (((rrpc_map_init ops_no_tables
      (rrpc_core_init
        (((rrpc_luns_init { rrpc_zero dev_two_blocks_ready with nr_luns := 1, next_lun := -1 } 0 0).getD
          (0, rrpc_zero dev_two_blocks_ready)).2)).2).getD (0, rrpc_zero dev_two_blocks_ready)).2)

/-- The device `dev_ten_blocks` after attach without tables. -/
def dev_ten_blocks_ready : nvm_dev :=
  ((hb_register ops_no_tables dev_ten_blocks).getD (0, dev_ten_blocks)).2

/-- The instance `rrpc_init` builds on all of `dev_ten_blocks`. -/
def rrpc_ten_blocks : rrpc :=
  ((rrpc_init ops_no_tables dev_ten_blocks_ready 0 0).getD (0, rrpc_zero dev_ten_blocks_ready)).2

/-! ## RRPC: predicates used by the theorems -/

/-- The pointers of a forward-map entry are valid: an address other than
`EMPTY` designates a slot of the reverse map, and a block pointer designates
a block of the device whose LUN has pages. -/
def trans_entry_ok (r : rrpc) (e : nvm_addr) : Prop :=
  (e.addr ≠ ADDR_EMPTY → u64_sub e.addr r.poffset < r.rev_trans_map.length) ∧
    ∀ B, e.block = some B →
      ∃ (lun : nvm_lun) (blk : nvm_block), nvm_block_get r.dev B = some (lun, blk) ∧
        lun.nr_pages_per_blk ≠ 0

/-- What page invalidations may change between the states `r` and `r1`: slots
of the reverse map become `EMPTY`, invalid bits of blocks become set, the
forward map changes; nothing else does. -/
def rrpc_invalidated (r r1 : rrpc) : Prop :=
  r1 = { r with dev := r1.dev, trans_map := r1.trans_map, rev_trans_map := r1.rev_trans_map } ∧
    r1.rev_trans_map.length = r.rev_trans_map.length ∧
    (∀ P : Nat, r1.rev_trans_map[P]? = r.rev_trans_map[P]? ∨
      r1.rev_trans_map[P]? = some (nvm_rev_addr.mk ADDR_EMPTY)) ∧
    ∀ (q : Nat × Nat) (lun : nvm_lun) (blk : nvm_block), nvm_block_get r.dev q = some (lun, blk) →
      ∃ (lun1 : nvm_lun) (blk1 : nvm_block), nvm_block_get r1.dev q = some (lun1, blk1) ∧
        lun1.nr_pages_per_blk = lun.nr_pages_per_blk ∧
        ∀ i : Nat, blk.invalid_pages.testBit i = true → blk1.invalid_pages.testBit i = true

/-- Forward map consistency: the reverse-map slot of the physical page of a
mapped logical page holds that logical page. -/
def forward_map_consistent (r : rrpc) : Prop :=
  ∀ (L : Nat) (e : nvm_addr), r.trans_map[L]? = some e → e.block ≠ none →
    r.rev_trans_map[u64_sub e.addr r.poffset]? = some (nvm_rev_addr.mk L)

/-- Reverse map consistency: a slot `P` of the reverse map that is not `EMPTY`
holds a logical page whose entry holds the physical page `P + poffset`. -/
def reverse_map_consistent (r : rrpc) : Prop :=
  ∀ (P : Nat) (x : nvm_rev_addr), r.rev_trans_map[P]? = some x → x.addr ≠ ADDR_EMPTY →
    ∃ e : nvm_addr, r.trans_map[x.addr]? = some e ∧ e.addr = P + r.poffset

/-- The invariant behind reverse map consistency: the physical pages of the
instance are `u64` values below `EMPTY`, and the logical page a slot of the
reverse map holds is mapped, to the page of that slot. -/
def reverse_map_inv (r : rrpc) : Prop :=
  r.poffset + r.rev_trans_map.length ≤ U64_MAX ∧
    ∀ (P : Nat) (x : nvm_rev_addr), r.rev_trans_map[P]? = some x → x.addr ≠ ADDR_EMPTY →
      ∃ e : nvm_addr, r.trans_map[x.addr]? = some e ∧ e.addr = P + r.poffset ∧ e.block ≠ none

/-- The physical page of an operation is a `sector_t` value. -/
def rrpc_op_u64 : rrpc_op → Prop
  | rrpc_op.update _ _ p_addr _ => p_addr ≤ U64_MAX
  | _ => True

/-- The number of bits set among the first `nbits` bits of a bitmap
(`bitmap_weight`). -/
def bitmap_weight (bits nbits : Nat) : Nat := (List.range nbits).countP (fun i => bits.testBit i)

/-- Every block counts its invalid pages: the weight of `invalid_pages` is
`nr_invalid_pages`; and the number of pages of a block fits an `unsigned int`. -/
def blocks_counted (dev : nvm_dev) : Prop :=
  ∀ (q : Nat × Nat) (lun : nvm_lun) (blk : nvm_block), nvm_block_get dev q = some (lun, blk) →
    bitmap_weight blk.invalid_pages lun.nr_pages_per_blk = blk.nr_invalid_pages ∧
      lun.nr_pages_per_blk ≤ UINT_MAX

/-- The page of every mapped logical page is valid (its invalid bit is
clear), and two mapped logical pages are not in the same page of a block. -/
def pages_live (dev : nvm_dev) (trans_map : List nvm_addr) : Prop :=
  (∀ (L : Nat) (e : nvm_addr) (B : Nat × Nat) (lun : nvm_lun) (blk : nvm_block),
      trans_map[L]? = some e → e.block = some B → nvm_block_get dev B = some (lun, blk) →
      blk.invalid_pages.testBit (e.addr % lun.nr_pages_per_blk) = false) ∧
    ∀ (L L1 : Nat) (e e1 : nvm_addr) (B : Nat × Nat) (lun : nvm_lun) (blk : nvm_block), L ≠ L1 →
      trans_map[L]? = some e → trans_map[L1]? = some e1 → e.block = some B →
      e1.block = some B → nvm_block_get dev B = some (lun, blk) →
      e.addr % lun.nr_pages_per_blk ≠ e1.addr % lun.nr_pages_per_blk

/-- Page `P` of block `B` is fresh: its invalid bit is clear and no logical
page is mapped to it, as for a page the append cursor of the block hands out. -/
def page_fresh (dev : nvm_dev) (trans_map : List nvm_addr) (B : Nat × Nat) (P : Nat) : Prop :=
  ∀ (lun : nvm_lun) (blk : nvm_block), nvm_block_get dev B = some (lun, blk) →
    blk.invalid_pages.testBit (P % lun.nr_pages_per_blk) = false ∧
      ∀ (L : Nat) (e : nvm_addr), trans_map[L]? = some e → e.block = some B →
        e.addr % lun.nr_pages_per_blk ≠ P % lun.nr_pages_per_blk

/-- Every `nvm_update_map` of the sequence is handed a fresh page. -/
def rrpc_updates_fresh : rrpc → List rrpc_op → Prop
  | _, [] => True
  | r, op :: rest =>
    (match op with
      | rrpc_op.update _ p_block p_addr _ => page_fresh r.dev r.trans_map p_block p_addr
      | _ => True) ∧
    match rrpc_step r op with
    | none => True
    | some r1 => rrpc_updates_fresh r1 rest

/-- The blocks of `dev1` are those of `dev`, each as it was or reset: its
invalid-page counter zero and its bitmap cleared at least in the bits of its
pages. -/
def blocks_kept_or_reset (dev dev1 : nvm_dev) : Prop :=
  ∀ (q : Nat × Nat) (lun1 : nvm_lun) (blk1 : nvm_block), nvm_block_get dev1 q = some (lun1, blk1) →
    ∃ (lun : nvm_lun) (blk : nvm_block), nvm_block_get dev q = some (lun, blk) ∧
      lun1.nr_pages_per_blk = lun.nr_pages_per_blk ∧
      (blk1 = blk ∨
        (blk1.nr_invalid_pages = 0 ∧
          (∀ i : Nat, i < lun.nr_pages_per_blk → blk1.invalid_pages.testBit i = false) ∧
          ∀ i : Nat, blk1.invalid_pages.testBit i = true → blk.invalid_pages.testBit i = true))

/-! ## RRPC: example states -/

/-- Block 1 of `dev_two_blocks` is allocated, pages 0 and 1 are written to its
two pages and discarded one after the other, the block is released and
allocated again, and page 1 is written to its first page. -/
def ops_recycle : List rrpc_op :=
  [rrpc_op.get_blk 0 0, rrpc_op.update 0 (0, 1) 2 0, rrpc_op.update 1 (0, 1) 3 0,
   rrpc_op.invalidate 0 1, rrpc_op.invalidate 1 1, rrpc_op.put_blk (0, 1), rrpc_op.get_blk 0 0,
   rrpc_op.update 1 (0, 1) 2 0]

/-- The state of `rrpc_two_blocks` after `ops_recycle`. -/
def rrpc_two_blocks_recycled : rrpc := (rrpc_run rrpc_two_blocks ops_recycle).getD rrpc_two_blocks

/-- Block 1 of `dev_two_blocks` is allocated and page 0 is written to its
first page. -/
def rrpc_two_blocks_written : rrpc :=
  (rrpc_run rrpc_two_blocks [rrpc_op.get_blk 0 0, rrpc_op.update 0 (0, 1) 2 0]).getD rrpc_two_blocks

/-- Block 1 of `dev_two_blocks` is allocated and pages 0 and 1 are written to
its two pages. -/
def rrpc_two_blocks_full : rrpc :=
  (rrpc_run rrpc_two_blocks
    [rrpc_op.get_blk 0 0, rrpc_op.update 0 (0, 1) 2 0, rrpc_op.update 1 (0, 1) 3 0]).getD
    rrpc_two_blocks

/-- A host write of logical page 10. -/
def bio_write_10 : bio := { dir := bio_dir.WRITE, bi_sector := 80, bi_size := 4096 }

/-- A host read of logical page 10. -/
def bio_read_10 : bio := { dir := bio_dir.READ, bi_sector := 80, bi_size := 4096 }

/-- A host read of logical page 5. -/
def bio_read_5 : bio := { dir := bio_dir.READ, bi_sector := 40, bi_size := 4096 }

/-- The result of the host write `bio_write_10` on `rrpc_ten_blocks`. -/
def rrpc_ten_write : Nat × rrpc × nvm_rq :=
  (rrpc_submit_io rrpc_ten_blocks bio_write_10 nvm_rq_zero NVM_IOTYPE_NONE 0).getD
    (NVM_IO_ERR, rrpc_ten_blocks, nvm_rq_zero)

/-- The state of `rrpc_ten_blocks` while the write of page 10 is in flight. -/
def rrpc_ten_written : rrpc := rrpc_ten_write.2.1

/-- The request of the write of page 10 that is in flight. -/
def rqd_ten_written : nvm_rq := rrpc_ten_write.2.2

/-- The state of `rrpc_ten_blocks` when the write of page 10 has completed. -/
def rrpc_ten_completed : rrpc := (rrpc_end_io rrpc_ten_written rqd_ten_written 0).getD rrpc_ten_written

/-- A LUN of four blocks of eight pages whose blocks 1, 2 and 3 are full and
hold 3, 7 and 5 invalid pages. -/
def lun_three_full : nvm_lun :=
  { id := 0, reserved_blocks := 2, nr_blocks := 4, nr_free_blocks := 0, nr_pages_per_blk := 8,
    blocks := [{ nvm_block_zero with id := 0 },
               { id := 1, type := 0, invalid_pages := 7, next_page := 8, nr_invalid_pages := 3,
                 data_cmnt_size := 8 },
               { id := 2, type := 0, invalid_pages := 127, next_page := 8, nr_invalid_pages := 7,
                 data_cmnt_size := 8 },
               { id := 3, type := 0, invalid_pages := 31, next_page := 8, nr_invalid_pages := 5,
                 data_cmnt_size := 8 }],
    free_list := [], used_list := [1, 2, 3], bb_list := [] }

/-- The shadow of `lun_three_full` with the three full blocks on its priority list. -/
def rlun_three_full : rrpc_lun :=
  { parent := 0, cur := some (0, 3), gc_cur := none, nr_blocks := 4,
    blocks := [{ parent := some (0, 0) }, { parent := some (0, 1) }, { parent := some (0, 2) },
               { parent := some (0, 3) }],
    prio_list := [1, 2, 3] }

/-- An instance whose only LUN is `lun_three_full`. -/
def rrpc_three_full : rrpc :=
  { rrpc_zero { nr_luns := 1, sector_size := 512, max_pages_per_blk := 8, total_pages := 32,
                total_blocks := 4, rsp := 1, chnls := [], bmp := { luns := [lun_three_full] } } with
    nr_luns := 1, nr_pages := 32, total_blocks := 4, luns := [rlun_three_full] }

/-! ## RRPC: checks of the predicates on concrete states -/

/-- Check of `trans_entry_ok`. -/
def trans_entry_ok_b (r : rrpc) (e : nvm_addr) : Bool :=
  (e.addr == ADDR_EMPTY || decide (u64_sub e.addr r.poffset < r.rev_trans_map.length)) &&
    match e.block with
    | none => true
    | some B =>
      match nvm_block_get r.dev B with
      | none => false
      | some x => x.1.nr_pages_per_blk != 0

/-- Check of `blocks_counted`. -/
def blocks_counted_b (dev : nvm_dev) : Bool :=
  dev.bmp.luns.all (fun lun =>
    decide (lun.nr_pages_per_blk ≤ UINT_MAX) &&
      lun.blocks.all (fun blk =>
        bitmap_weight blk.invalid_pages lun.nr_pages_per_blk == blk.nr_invalid_pages))

/-- Check of `page_fresh`. -/
def page_fresh_b (dev : nvm_dev) (trans_map : List nvm_addr) (B : Nat × Nat) (P : Nat) : Bool :=
  match nvm_block_get dev B with
  | none => true
  | some x =>
    !x.2.invalid_pages.testBit (P % x.1.nr_pages_per_blk) &&
      trans_map.all (fun e =>
        e.block != some B || e.addr % x.1.nr_pages_per_blk != P % x.1.nr_pages_per_blk)

/-- Check of `rrpc_updates_fresh`. -/
def rrpc_updates_fresh_b : rrpc → List rrpc_op → Bool
  | _, [] => true
  | r, op :: rest =>
    (match op with
      | rrpc_op.update _ p_block p_addr _ => page_fresh_b r.dev r.trans_map p_block p_addr
      | _ => true) &&
    match rrpc_step r op with
    | none => true
    | some r1 => rrpc_updates_fresh_b r1 rest

/-! ## RRPC: runs of the write path, discards and releases -/

/-- The kernel's `bitmap_full (bits, nbits)`: the first `nbits` bits are set. -/
def bitmap_full (bits nbits : Nat) : Bool := (List.range nbits).all (fun i => bits.testBit i)

/-- A step of the FTL that touches the maps or the blocks: a write, host or
GC, that is mapped by `rrpc_map_page`; a discard; and the end of
`rrpc_block_gc` when the valid pages of the block have been moved by GC
writes: the block is released when `rrpc_move_valid_pages` finds its bitmap
full, and kept otherwise. -/
inductive rrpc_sys_op where
  | write (laddr is_gc : Nat)
  | discard (slba len : Nat)
  | release (block : Nat × Nat)
deriving DecidableEq

/-- The state after one step. -/
def rrpc_sys_step (r : rrpc) : rrpc_sys_op → Option rrpc
  | rrpc_sys_op.write laddr is_gc =>
    match rrpc_map_page r laddr is_gc with
    | none => none
    | some (_, r1) => some r1
  | rrpc_sys_op.discard slba len => rrpc_invalidate_range r slba len
  | rrpc_sys_op.release block =>
    match nvm_block_get r.dev block with
    | none => none
    | some (lun, blk) =>
      if bitmap_full blk.invalid_pages lun.nr_pages_per_blk then
        some { r with dev := { r.dev with bmp := hb_put_blk r.dev.bmp block } }
      else some r

/-- The state after a sequence of steps. -/
def rrpc_sys_run : rrpc → List rrpc_sys_op → Option rrpc
  | r, [] => some r
  | r, op :: rest =>
    match rrpc_sys_step r op with
    | none => none
    | some r1 => rrpc_sys_run r1 rest

/-- The append cursor of every block is within the block, and the invalid
bits of the block and the pages of the logical pages mapped to it are all
below the cursor. -/
def cursors_ok (dev : nvm_dev) (trans_map : List nvm_addr) : Prop :=
  ∀ (B : Nat × Nat) (lun : nvm_lun) (blk : nvm_block), nvm_block_get dev B = some (lun, blk) →
    blk.next_page ≤ lun.nr_pages_per_blk ∧
      (∀ i : Nat, i < lun.nr_pages_per_blk → blk.invalid_pages.testBit i = true →
        i < blk.next_page) ∧
      ∀ (L : Nat) (e : nvm_addr), trans_map[L]? = some e → e.block = some B →
        e.addr % lun.nr_pages_per_blk < blk.next_page

/-- No block is twice on a free list, and no logical page is mapped to a
block that is on the free list of its LUN. -/
def free_blocks_ok (dev : nvm_dev) (trans_map : List nvm_addr) : Prop :=
  ∀ (k : Nat) (lun : nvm_lun), dev.bmp.luns[k]? = some lun →
    lun.free_list.Nodup ∧
      ∀ b ∈ lun.free_list, ∀ (L : Nat) (e : nvm_addr), trans_map[L]? = some e →
        e.block ≠ some (k, b)

/-- A block that is the host or the GC cursor of a LUN shadow and is on the
free list of its LUN is full. -/
def cur_ok (dev : nvm_dev) (luns : List rrpc_lun) : Prop :=
  ∀ rlun ∈ luns, ∀ B : Nat × Nat, (rlun.cur = some B ∨ rlun.gc_cur = some B) →
    ∀ (lun : nvm_lun) (blk : nvm_block), nvm_block_get dev B = some (lun, blk) →
      B.2 ∈ lun.free_list → blk.next_page = lun.nr_pages_per_blk

/-- The cursors and the free lists are consistent with the map `trans_map`
and the LUN shadows `luns`. -/
def cursor_inv (dev : nvm_dev) (trans_map : List nvm_addr) (luns : List rrpc_lun) : Prop :=
  cursors_ok dev trans_map ∧ free_blocks_ok dev trans_map ∧ cur_ok dev luns

/-- The invariant of the write path on a device, a map and the LUN shadows:
the blocks count their invalid pages, the mapped pages are valid and
distinct, and the cursors and the free lists are consistent with the map. -/
def pages_inv (dev : nvm_dev) (trans_map : List nvm_addr) (luns : List rrpc_lun) : Prop :=
  blocks_counted dev ∧ pages_live dev trans_map ∧ cursor_inv dev trans_map luns

/-- The invariant of the write path on a state of the FTL. -/
def rrpc_pages_inv (r : rrpc) : Prop := pages_inv r.dev r.trans_map r.luns

/-- Block `B` exists, is not on the free list of its LUN, and page `P` is
below its cursor. -/
def page_placed (dev : nvm_dev) (B : Nat × Nat) (P : Nat) : Prop :=
  ∃ (lun : nvm_lun) (blk : nvm_block), nvm_block_get dev B = some (lun, blk) ∧
    P % lun.nr_pages_per_blk < blk.next_page ∧ B.2 ∉ lun.free_list

/-- Block `B`, if it exists and is on the free list of its LUN, is full. -/
def block_cur_ok (dev : nvm_dev) (B : Nat × Nat) : Prop :=
  ∀ (lun : nvm_lun) (blk : nvm_block), nvm_block_get dev B = some (lun, blk) →
    B.2 ∈ lun.free_list → blk.next_page = lun.nr_pages_per_blk

/-! ## RRPC: a run of the write path -/

/-- Pages 0 and 1 are written to block 1, page 0 is written again and page 1
discarded, so block 1 holds no valid page and is released; host writes and
then GC writes take the other free blocks until block 1 is allocated again
and page 2 is moved to its first page, which empties block 3; block 3 is
released and page 2 discarded. -/
def ops_write_recycle : List rrpc_sys_op :=
  [rrpc_sys_op.write 0 0, rrpc_sys_op.write 1 0, rrpc_sys_op.write 0 0, rrpc_sys_op.discard 1 1,
   rrpc_sys_op.release (0, 1), rrpc_sys_op.write 2 0, rrpc_sys_op.write 3 0,
   rrpc_sys_op.write 4 0, rrpc_sys_op.write 5 0, rrpc_sys_op.write 6 0, rrpc_sys_op.write 7 0,
   rrpc_sys_op.write 8 0, rrpc_sys_op.write 9 0, rrpc_sys_op.write 10 0, rrpc_sys_op.write 11 0,
   rrpc_sys_op.write 12 0, rrpc_sys_op.write 13 1, rrpc_sys_op.write 14 1, rrpc_sys_op.write 0 1,
   rrpc_sys_op.write 2 1, rrpc_sys_op.release (0, 3), rrpc_sys_op.discard 2 1]

/-- The state of `rrpc_ten_blocks` after `ops_write_recycle`. -/
def rrpc_ten_recycled : rrpc :=
  (rrpc_sys_run rrpc_ten_blocks ops_write_recycle).getD rrpc_ten_blocks

/-! ## RRPC: checks of the invariant of the write path -/

/-- Check of `cursors_ok`. -/
def cursors_ok_b (dev : nvm_dev) (trans_map : List nvm_addr) : Bool :=
  (List.range dev.bmp.luns.length).all (fun k =>
    match dev.bmp.luns[k]? with
    | none => true
    | some lun =>
      (List.range lun.blocks.length).all (fun b =>
        match lun.blocks[b]? with
        | none => true
        | some blk =>
          decide (blk.next_page ≤ lun.nr_pages_per_blk) &&
            (List.range lun.nr_pages_per_blk).all
              (fun i => !blk.invalid_pages.testBit i || decide (i < blk.next_page)) &&
            trans_map.all (fun e =>
              e.block != some (k, b) || decide (e.addr % lun.nr_pages_per_blk < blk.next_page))))

/-- Check of `free_blocks_ok`. -/
def free_blocks_ok_b (dev : nvm_dev) (trans_map : List nvm_addr) : Bool :=
  (List.range dev.bmp.luns.length).all (fun k =>
    match dev.bmp.luns[k]? with
    | none => true
    | some lun =>
      decide lun.free_list.Nodup &&
        lun.free_list.all (fun b => trans_map.all (fun e => e.block != some (k, b))))

/-- Check of `block_cur_ok` for a cursor of a LUN shadow. -/
def block_cur_ok_b (dev : nvm_dev) (cur : Option (Nat × Nat)) : Bool :=
  match cur with
  | none => true
  | some B =>
    match nvm_block_get dev B with
    | none => true
    | some x => !decide (B.2 ∈ x.1.free_list) || decide (x.2.next_page = x.1.nr_pages_per_blk)

/-- Check of `cur_ok`. -/
def cur_ok_b (dev : nvm_dev) (luns : List rrpc_lun) : Bool :=
  luns.all (fun rlun => block_cur_ok_b dev rlun.cur && block_cur_ok_b dev rlun.gc_cur)

/-- Check of `rrpc_pages_inv` on a state in which no logical page is mapped. -/
def rrpc_pages_inv_b (r : rrpc) : Bool :=
  blocks_counted_b r.dev && r.trans_map.all (fun e => e.block == none) &&
    cursors_ok_b r.dev r.trans_map && free_blocks_ok_b r.dev r.trans_map && cur_ok_b r.dev r.luns

/-! ## RRPC: capacity -/

/-- The function `rrpc_capacity`.  The fields `nr_luns` and
`max_pages_per_blk` are taken to be 32-bit, as the other counters, so their
product with 4 is computed modulo 2^32 before it is stored in the `sector_t`
`reserved`; the result is a `sector_t`, computed modulo 2^64. -/
def rrpc_capacity (r : rrpc) : Nat :=
  let reserved := r.nr_luns * r.dev.max_pages_per_blk * 4 % 4294967296
  if reserved > r.nr_pages then 0
  else (r.nr_pages - reserved) / 10 * 9 * NR_PHY_IN_LOG % 18446744073709551616

/-! ## RRPC: garbage collection -/

/-- The kernel's `find_first_zero_bit (bits, nbits)`: the first clear bit
among the first `nbits` bits, and `nbits` when there is none. -/
def find_first_zero_bit (bits nbits : Nat) : Nat :=
  ((List.range nbits).find? (fun i => !bits.testBit i)).getD nbits

/-- One pass of the loop body of `rrpc_move_valid_pages` for `slot`: the state
afterwards, with `true` when the pass leaves the loop for the label
`finished` and `false` when the loop goes on.  `submit_io` is what
`nvm_submit_io` returns for a request with the given bio; the device
completes a request it has accepted, which calls `rrpc_end_io`.  The pass for
a page whose reverse-map slot is `EMPTY`, and the pass that cannot acquire
the range, start again without end in a run without other threads: they have
no result. -/
def rrpc_move_valid_page (submit_io : bio → Int) (r : rrpc) (block : Nat × Nat) (slot : Nat) :
    Option (Bool × rrpc) :=
  match nvm_block_get r.dev block with
  | none => none
  | some (lun, blk) =>
    match r.rev_trans_map[u64_sub (block_to_addr lun blk + slot) r.poffset]? with
    | none => none
    | some rev =>
      if rev.addr = ADDR_EMPTY then none
      else
        match rrpc_inflight_laddr_acquire r rev.addr 1 with
        | none => none
        | some (none, _) => none
        | some (some rqd, r1) =>
          let rbio : bio :=
            { dir := bio_dir.READ, bi_sector := nvm_get_sector rev.addr, bi_size := EXPOSED_PAGE_SIZE }
          let wbio : bio :=
            { dir := bio_dir.WRITE, bi_sector := nvm_get_sector rev.addr, bi_size := EXPOSED_PAGE_SIZE }
          match rrpc_submit_io r1 rbio rqd NVM_IOTYPE_GC (submit_io rbio) with
          | none => none
          | some (err, r2, rqd2) =>
            if err ≠ 0 then (rrpc_inflight_laddr_release r2 rqd2).map (fun x => (true, x))
            else
              match rrpc_end_io r2 rqd2 0 with
              | none => none
              | some r3 =>
                match rrpc_submit_io r3 wbio rqd2 NVM_IOTYPE_GC (submit_io wbio) with
                | none => none
                | some (err2, r4, rqd4) =>
                  if err2 ≠ 0 then (rrpc_inflight_laddr_release r4 rqd4).map (fun x => (true, x))
                  else
                    match rrpc_end_io r4 rqd4 0 with
                    | none => none
                    | some r5 => (rrpc_inflight_laddr_release r5 rqd4).map (fun x => (false, x))

/-- The loop of `rrpc_move_valid_pages`, for at most `fuel` passes of its
body; a run that needs more passes has no result. -/
def rrpc_move_valid_pages_loop (submit_io : bio → Int) (block : Nat × Nat) :
    Nat → rrpc → Option rrpc
  | 0, r =>
    match nvm_block_get r.dev block with
    | none => none
    | some (lun, blk) =>
      if find_first_zero_bit blk.invalid_pages lun.nr_pages_per_blk < lun.nr_pages_per_blk then none
      else some r
  | fuel + 1, r =>
    match nvm_block_get r.dev block with
    | none => none
    | some (lun, blk) =>
      if find_first_zero_bit blk.invalid_pages lun.nr_pages_per_blk < lun.nr_pages_per_blk then
        match rrpc_move_valid_page submit_io r block
            (find_first_zero_bit blk.invalid_pages lun.nr_pages_per_blk) with
        | none => none
        | some (true, r1) => some r1
        | some (false, r1) => rrpc_move_valid_pages_loop submit_io block fuel r1
      else some r

/-- The function `rrpc_move_valid_pages` (the allocations are taken to
succeed): its return value and the state afterwards. -/
def rrpc_move_valid_pages (submit_io : bio → Int) (fuel : Nat) (r : rrpc) (block : Nat × Nat) :
    Option (Int × rrpc) :=
  match nvm_block_get r.dev block with
  | none => none
  | some (lun, blk) =>
    if bitmap_full blk.invalid_pages lun.nr_pages_per_blk then some (0, r)
    else
      match rrpc_move_valid_pages_loop submit_io block fuel r with
      | none => none
      | some r1 =>
        match nvm_block_get r1.dev block with
        | none => none
        | some (lun1, blk1) =>
          if bitmap_full blk1.invalid_pages lun1.nr_pages_per_blk then some (0, r1)
          else some (- EIO, r1)

/-- The function `rrpc_block_gc`: whether the block was erased and released,
and the state afterwards.  Modelled from the spec: `nvm_erase_blk` forwards
to the device and changes nothing in the host, `nvm_put_blk` is `hb_put_blk`. -/
def rrpc_block_gc (submit_io : bio → Int) (fuel : Nat) (r : rrpc) (block : Nat × Nat) :
    Option (Bool × rrpc) :=
  match rrpc_move_valid_pages submit_io fuel r block with
  | none => none
  | some (ret, r1) =>
    if ret ≠ 0 then some (false, r1)
    else some (true, { r1 with dev := { r1.dev with bmp := hb_put_blk r1.dev.bmp block } })

/-- The block behind shadow `rb` of a LUN. -/
def rblock_parent (rlun : rrpc_lun) (rb : Nat) : Option (Nat × Nat) :=
  match rlun.blocks[rb]? with
  | none => none
  | some rblock => rblock.parent

/-- The loop of `rrpc_lun_gc` on LUN shadow `ri`, for at most `n` passes of
its body; a run that needs more passes has no result.  A pass unlinks a
shadow, so the length of the priority list bounds the passes.  The allocation
of the work item is taken to succeed. -/
def rrpc_lun_gc_loop (ri : Nat) : Nat → Nat → rrpc → Option rrpc
  | 0, nr_blocks_need, r =>
    match r.luns[ri]? with
    | none => none
    | some rlun =>
      match r.dev.bmp.luns[rlun.parent]? with
      | none => none
      | some lun =>
        if nr_blocks_need > lun.nr_free_blocks ∧ rlun.prio_list ≠ [] then none else some r
  | n + 1, nr_blocks_need, r =>
    match r.luns[ri]? with
    | none => none
    | some rlun =>
      match r.dev.bmp.luns[rlun.parent]? with
      | none => none
      | some lun =>
        if nr_blocks_need > lun.nr_free_blocks ∧ rlun.prio_list ≠ [] then
          match block_prio_find_max r rlun with
          | none => none
          | some rb =>
            match rblock_parent rlun rb with
            | none => none
            | some p =>
              match nvm_block_get r.dev p with
              | none => none
              | some (plun, blk) =>
                if blk.nr_invalid_pages = 0 then some r
                else if block_is_full plun blk = false then none
                else
                  rrpc_lun_gc_loop ri n (nr_blocks_need - 1)
                    { r with luns := r.luns.set ri
                               { rlun with prio_list := rlun.prio_list.erase rb },
                             kgc_wq := r.kgc_wq ++ [rrpc_work.block_gc p] }
        else some r

/-- The function `rrpc_lun_gc` on LUN shadow `ri`.  The constant
`GC_LIMIT_INVERSE` is declared in the header, which is not part of the
sources: it is the parameter `gc_limit_inverse`. -/
def rrpc_lun_gc (gc_limit_inverse : Nat) (r : rrpc) (ri : Nat) : Option rrpc :=
  match r.luns[ri]? with
  | none => none
  | some rlun =>
    match r.dev.bmp.luns[rlun.parent]? with
    | none => none
    | some lun =>
      if gc_limit_inverse = 0 then none
      else
        rrpc_lun_gc_loop ri rlun.prio_list.length
          (if lun.nr_blocks / gc_limit_inverse < r.nr_luns then r.nr_luns
           else lun.nr_blocks / gc_limit_inverse) r

/-- The function `rrpc_gc_queue` for the block of its work item.  A negative
index into the LUN shadows, an index outside an array and a division by zero
have no defined result. -/
def rrpc_gc_queue (r : rrpc) (block : Nat × Nat) : Option rrpc :=
  match nvm_block_get r.dev block with
  | none => none
  | some (lun, blk) =>
    if lun.id < r.lun_offset ∨ lun.nr_blocks = 0 then none
    else
      match r.luns[lun.id - r.lun_offset]? with
      | none => none
      | some rlun =>
        if blk.id % lun.nr_blocks < rlun.blocks.length then
          some { r with luns := r.luns.set (lun.id - r.lun_offset)
                          { rlun with prio_list := rlun.prio_list ++ [blk.id % lun.nr_blocks] } }
        else none

/-! ## Example states of the later theorems -/

/-- A device whose bad-block table marks blocks 2 and 5 and whose L2P table
holds the entry 4, the first page of block 2. -/
def ops_bad_mapped : nvm_dev_ops :=
  { get_bb_tbl := some (fun _ _ =>
      some [false, false, true, false, false, true, false, false, false, false]),
    get_l2p_tbl := some ([(0, [0, 4])], 0) }

/-- The device `dev_ten_blocks` after attach with the tables of `ops_bad_mapped`. -/
def dev_ten_bad_mapped : nvm_dev :=
  ((hb_register ops_bad_mapped dev_ten_blocks).getD (0, dev_ten_blocks)).2

/-- LUN 0 of `dev_ten_bad_mapped`. -/
def lun_ten_bad_mapped : nvm_lun := dev_ten_bad_mapped.bmp.luns.getD 0 nvm_lun_zero

/-- A device of three LUNs of two blocks of two pages. -/
def dev_three_luns : nvm_dev :=
  { nr_luns := 3, sector_size := 512, max_pages_per_blk := 0, total_pages := 0, total_blocks := 0,
    rsp := 1, chnls := [chnl_two_blocks, chnl_two_blocks, chnl_two_blocks], bmp := { luns := [] } }

/-- A device whose L2P table maps logical page 3 to physical page 5, the
second page of the first block of LUN 1. -/
def ops_l2p_lun_one : nvm_dev_ops :=
  { get_bb_tbl := none, get_l2p_tbl := some ([(0, [0, 0, 0, 5])], 0) }

/-- The device `dev_three_luns` after attach with the table of `ops_l2p_lun_one`. -/
def dev_three_luns_ready : nvm_dev :=
  ((hb_register ops_l2p_lun_one dev_three_luns).getD (0, dev_three_luns)).2

/-- The instance on LUNs 1 and 2 of `dev_three_luns` as `rrpc_init` has it
before it calls `rrpc_map_init`: eight pages, `poffset` 4. -/
def rrpc_lun_one_core : rrpc :=
  (rrpc_core_init
    { ((rrpc_luns_init { rrpc_zero dev_three_luns_ready with nr_luns := 2, next_lun := -1 } 1 2).getD
        (0, rrpc_zero dev_three_luns_ready)).2 with poffset := 4, lun_offset := 1 }).2

/-- The instance on LUNs 1 and 2 after `rrpc_map_init`. -/
def rrpc_lun_one_maps : rrpc :=
  ((rrpc_map_init ops_l2p_lun_one rrpc_lun_one_core).getD (0, rrpc_lun_one_core)).2

/-- The instance on LUNs 1 and 2 after `rrpc_block_map_update` of the first
block of LUN 1. -/
def rrpc_lun_one_block : rrpc :=
  (rrpc_block_map_update rrpc_lun_one_maps (1, 0)).getD rrpc_lun_one_maps

/-- The instance on LUNs 1 and 2 after logical page 3 is written again, to
physical page 6. -/
def rrpc_lun_one_rewritten : rrpc :=
  ((nvm_update_map rrpc_lun_one_block 3 (some (1, 1)) 6 0).getD (0, rrpc_lun_one_block)).2

/-- The instance on `dev_ten_blocks` after pages 0 and 1 are written to block
1 and page 0 is written again: block 1 is full and holds one valid page, that
of logical page 1. -/
def rrpc_ten_one_valid : rrpc :=
  (rrpc_sys_run rrpc_ten_blocks
    [rrpc_sys_op.write 0 0, rrpc_sys_op.write 1 0, rrpc_sys_op.write 0 0]).getD rrpc_ten_blocks

/-- A device that accepts every request. -/
def submit_ok : bio → Int := fun _ => 0

/-- A device that refuses writes. -/
def submit_fail_write : bio → Int := fun b => if b.dir = bio_dir.WRITE then - EIO else 0

/-- A device that refuses reads. -/
def submit_fail_read : bio → Int := fun b => if b.dir = bio_dir.READ then - EIO else 0

/-- The state after `rrpc_block_gc` of block 1 on a device that refuses writes. -/
def rrpc_ten_lost : rrpc :=
  ((rrpc_block_gc submit_fail_write 2 rrpc_ten_one_valid (0, 1)).getD (false, rrpc_ten_one_valid)).2

/-- The state after `rrpc_block_gc` of block 1 on a device that accepts
every request. -/
def rrpc_ten_collected : rrpc :=
  ((rrpc_block_gc submit_ok 2 rrpc_ten_one_valid (0, 1)).getD (false, rrpc_ten_one_valid)).2

/-- The state after the host write of page 10 on `rrpc_ten_blocks` that the
device refuses. -/
def rrpc_ten_refused : rrpc :=
  ((rrpc_make_rq rrpc_ten_blocks bio_write_10 (- EIO)).getD
    (bio_status.dropped, rrpc_ten_blocks)).2

/-- A LUN of three blocks of two pages. -/
def chnl_three_blocks : nvm_id_chnl :=
  { queue_size := 1, gran_read := 512, gran_write := 512, gran_erase := 1024,
    laddr_begin := 0, laddr_end := 5 }

/-- A device whose LUN 0 has three blocks and whose LUN 1 has two. -/
def dev_mixed_luns : nvm_dev :=
  { nr_luns := 2, sector_size := 512, max_pages_per_blk := 0, total_pages := 0, total_blocks := 0,
    rsp := 1, chnls := [chnl_three_blocks, chnl_two_blocks], bmp := { luns := [] } }

/-- The device `dev_mixed_luns` after attach without tables. -/
def dev_mixed_luns_ready : nvm_dev :=
  ((hb_register ops_no_tables dev_mixed_luns).getD (0, dev_mixed_luns)).2

/-- The instance `rrpc_init` builds on all of `dev_mixed_luns`. -/
def rrpc_mixed_luns : rrpc :=
  ((rrpc_init ops_no_tables dev_mixed_luns_ready 0 1).getD (0, rrpc_zero dev_mixed_luns_ready)).2

/-! ## The lists and the counter of a LUN -/

/-- The part of a LUN that block allocation works on: the free list, the used
list, the free counter and the reserve. -/
def lun_counts (lun : nvm_lun) : List Nat × List Nat × Nat × Nat :=
  (lun.free_list, lun.used_list, lun.nr_free_blocks, lun.reserved_blocks)

/-- The lists and counters of all LUNs of a device. -/
def dev_counts (dev : nvm_dev) : List (List Nat × List Nat × Nat × Nat) :=
  dev.bmp.luns.map lun_counts

/-! ## Example states of host writes -/

/-- A shadow LUN without blocks. -/
def rrpc_lun_none : rrpc_lun :=
  { parent := 0, cur := none, gc_cur := none, nr_blocks := 0, blocks := [], prio_list := [] }

/-- The instance `rrpc_ten_blocks` after the host writes of pages 0 and 1,
which fill the block of the cursor. -/
def rrpc_ten_two_written : rrpc :=
  (rrpc_sys_run rrpc_ten_blocks [rrpc_sys_op.write 0 0, rrpc_sys_op.write 1 0]).getD rrpc_ten_blocks

/-- The state `rrpc_ten_two_written` when the next host write has chosen its LUN. -/
def rrpc_ten_two_next : rrpc :=
  ((__rrpc_get_lun_rr rrpc_ten_two_written 0).getD (0, rrpc_ten_two_written)).2

/-- The state `rrpc_ten_two_written` after the host write of page 0. -/
def rrpc_ten_third_written : rrpc :=
  ((rrpc_map_page rrpc_ten_two_written 0 0).getD (none, rrpc_ten_two_written)).2

/-- The state `rrpc_ten_recycled` when the next host write has chosen its LUN. -/
def rrpc_ten_recycled_next : rrpc :=
  ((__rrpc_get_lun_rr rrpc_ten_recycled 0).getD (0, rrpc_ten_recycled)).2

/-! ## RRPC: the priority list of the collector -/

/-- Every shadow on the priority list of a LUN has a block behind it, and that
block is full: `rrpc_gc_queue` is run for a block when the last of its pages
has been written. -/
def prio_blocks_full (r : rrpc) (rlun : rrpc_lun) : Prop :=
  ∀ rb ∈ rlun.prio_list, ∃ (p : Nat × Nat) (plun : nvm_lun) (blk : nvm_block),
    rblock_parent rlun rb = some p ∧ nvm_block_get r.dev p = some (plun, blk) ∧
      block_is_full plun blk = true

/-- Check of `prio_blocks_full`. -/
def prio_blocks_full_b (r : rrpc) (rlun : rrpc_lun) : Bool :=
  rlun.prio_list.all (fun rb =>
    match rblock_parent rlun rb with
    | none => false
    | some p =>
      match nvm_block_get r.dev p with
      | none => false
      | some (plun, blk) => block_is_full plun blk)

/-- The number of blocks `rrpc_lun_gc` wants free on a LUN:
`max (nr_blocks / GC_LIMIT_INVERSE, nr_luns)`. -/
def gc_blocks_need (gc_limit_inverse : Nat) (r : rrpc) (lun : nvm_lun) : Nat :=
  max (lun.nr_blocks / gc_limit_inverse) r.nr_luns

/-! ## The numbering of the blocks and the shadows of an instance -/

/-- The part of a LUN that `rrpc_gc_queue` reads: its id, its number of blocks
and the ids of its blocks. -/
def lun_ids (lun : nvm_lun) : Nat × Nat × List Nat :=
  (lun.id, lun.nr_blocks, lun.blocks.map (fun b => b.id))

/-- The ids of all LUNs and blocks of a block manager. -/
def bm_ids (bm : bm_hb) : List (Nat × Nat × List Nat) := bm.luns.map lun_ids

/-- The numbering `hb_luns_init` and `hb_blocks_init` give to LUNs of `N`
blocks each: LUN `i` has id `i`, and its block `j` has id `i * N + j`. -/
def luns_numbered (N : Nat) (bm : bm_hb) : Prop :=
  bm_ids bm =
    (List.range bm.luns.length).map (fun i => (i, N, (List.range N).map (fun j => i * N + j)))

/-- The shadows `rrpc_luns_init` builds for an instance that starts at LUN
`lun_begin`: shadow LUN `k` stands for LUN `lun_begin + k`, and its shadow
block `j` for block `j` of that LUN. -/
def shadows_built (lun_begin : Nat) (dev : nvm_dev) (luns : List rrpc_lun) : Prop :=
  luns.map (fun rl => (rl.parent, rl.blocks)) =
    (List.range luns.length).map (fun k =>
      (lun_begin + k,
        (List.range (dev.bmp.luns.getD (lun_begin + k) nvm_lun_zero).nr_blocks).map
          (fun j => ({ parent := some (lun_begin + k, j) } : rrpc_block))))

/-- What two states of an instance have in common when the ids of the LUNs
and blocks, the shadows and the LUN offset are the same. -/
def rrpc_ids_frame (a b : rrpc) : Prop :=
  bm_ids a.dev.bmp = bm_ids b.dev.bmp ∧
    a.luns.map (fun rl => (rl.parent, rl.blocks)) = b.luns.map (fun rl => (rl.parent, rl.blocks)) ∧
    a.lun_offset = b.lun_offset

/-! ## Example states of the device table and of requests in flight -/

/-- LUN 0 of `dev_two_blocks` after attach without tables. -/
def lun_two_blocks_ready : nvm_lun := dev_two_blocks_ready.bmp.luns.getD 0 nvm_lun_zero

/-- The entries of a device L2P table, chunk after chunk. -/
def l2p_entries : List (Nat × List Nat) → List Nat
  | [] => []
  | c :: rest => c.2 ++ l2p_entries rest

/-- A device of three LUNs whose L2P table comes in two chunks, `[0, 6, 5]`
from page 0 and `[9, 0, 6]` from page 3: page 6 is in block 1 of LUN 1, page
5 in block 0 of LUN 1 and page 9 in block 0 of LUN 2. -/
def ops_l2p_two_chunks : nvm_dev_ops :=
  { get_bb_tbl := none, get_l2p_tbl := some ([(0, [0, 6, 5]), (3, [9, 0, 6])], 0) }

/-- The device `dev_three_luns` when `hb_luns_init` has run. -/
def dev_three_luns_init : nvm_dev :=
  ((hb_luns_init dev_three_luns).getD (0, dev_three_luns)).2

/-- The device `dev_three_luns` after attach with the table of
`ops_l2p_two_chunks`. -/
def dev_three_luns_mapped : nvm_dev :=
  ((hb_blocks_init ops_l2p_two_chunks dev_three_luns_init).getD (0, dev_three_luns_init)).2

/-- One LUN of four blocks of two pages on a device with sectors of 4096
bytes. -/
def chnl_four_blocks_4k : nvm_id_chnl :=
  { queue_size := 1, gran_read := 4096, gran_write := 4096, gran_erase := 8192,
    laddr_begin := 0, laddr_end := 7 }

/-- A device with the LUN `chnl_four_blocks_4k` and sectors of 4096 bytes:
eight pages, and `total_pages * (sector_size >> 9) = 64`. -/
def dev_four_blocks_4k : nvm_dev :=
  { nr_luns := 1, sector_size := 4096, max_pages_per_blk := 0, total_pages := 0,
    total_blocks := 0, rsp := 1, chnls := [chnl_four_blocks_4k], bmp := { luns := [] } }

/-- The device `dev_four_blocks_4k` when `hb_luns_init` has run. -/
def dev_four_blocks_4k_luns : nvm_dev :=
  ((hb_luns_init dev_four_blocks_4k).getD (0, dev_four_blocks_4k)).2

/-- A device whose L2P table holds the entry 64. -/
def ops_l2p_entry_64 : nvm_dev_ops :=
  { get_bb_tbl := none, get_l2p_tbl := some ([(0, [0, 0, 64, 0])], 0) }

/-- One LUN of twenty blocks of two pages. -/
def chnl_twenty_blocks : nvm_id_chnl :=
  { queue_size := 1, gran_read := 512, gran_write := 512, gran_erase := 1024,
    laddr_begin := 0, laddr_end := 39 }

/-- A device with the LUN `chnl_twenty_blocks`: forty pages. -/
def dev_twenty_blocks : nvm_dev :=
  { nr_luns := 1, sector_size := 512, max_pages_per_blk := 0, total_pages := 0, total_blocks := 0,
    rsp := 1, chnls := [chnl_twenty_blocks], bmp := { luns := [] } }

/-- The device `dev_twenty_blocks` after attach without tables. -/
def dev_twenty_blocks_ready : nvm_dev :=
  ((hb_register ops_no_tables dev_twenty_blocks).getD (0, dev_twenty_blocks)).2

/-- The instance `rrpc_init` builds on `dev_twenty_blocks`. -/
def rrpc_twenty_blocks : rrpc :=
  ((rrpc_init ops_no_tables dev_twenty_blocks_ready 0 0).getD
    (0, rrpc_zero dev_twenty_blocks_ready)).2

/-- A host write of the logical pages 5 to 37. -/
def bio_write_5_37 : bio := { dir := bio_dir.WRITE, bi_sector := 40, bi_size := 135168 }

/-- A host read of logical page 37. -/
def bio_read_37 : bio := { dir := bio_dir.READ, bi_sector := 296, bi_size := 4096 }

/-- The state of `rrpc_twenty_blocks` while the write `bio_write_5_37` is in
flight. -/
def rrpc_twenty_inflight : rrpc :=
  ((rrpc_make_rq rrpc_twenty_blocks bio_write_5_37 0).getD
    (bio_status.dropped, rrpc_twenty_blocks)).2

/-- A host write of logical page 6. -/
def bio_write_6 : bio := { dir := bio_dir.WRITE, bi_sector := 48, bi_size := 4096 }

/-- A host read of logical page 6. -/
def bio_read_6 : bio := { dir := bio_dir.READ, bi_sector := 48, bi_size := 4096 }

/-- A discard of the logical pages 5 and 6. -/
def bio_discard_5_6 : bio := { dir := bio_dir.DISCARD, bi_sector := 40, bi_size := 8192 }

/-- The state of `rrpc_ten_blocks` while the host write of page 6 is in
flight. -/
def rrpc_ten_write_6 : rrpc :=
  ((rrpc_make_rq rrpc_ten_blocks bio_write_6 0).getD (bio_status.dropped, rrpc_ten_blocks)).2

/-- The state `rrpc_ten_write_6` after the discard of pages 5 and 6. -/
def rrpc_ten_discarded_5_6 : rrpc :=
  ((rrpc_make_rq rrpc_ten_write_6 bio_discard_5_6 0).getD
    (bio_status.dropped, rrpc_ten_write_6)).2

theorem testBit_bitmap_zero (dst nbits i : Nat) (h : i < nbits) :
    (bitmap_zero dst nbits).testBit i = false := by
  unfold bitmap_zero
  simp only [Nat.testBit_shiftLeft]
  have hk : nbits ≤ (nbits + BITS_PER_LONG - 1) / BITS_PER_LONG * BITS_PER_LONG := by
    unfold BITS_PER_LONG
    omega
  have : ¬ (i ≥ (nbits + BITS_PER_LONG - 1) / BITS_PER_LONG * BITS_PER_LONG) := by omega
  simp [this]

theorem u32_dec_pos (n : Nat) (h : 0 < n) : u32_dec n + 1 = n := by
  unfold u32_dec
  rw [if_neg (by omega)]
  omega

theorem update_block_get_self (lun : nvm_lun) (i : Nat) (f : nvm_block → nvm_block) (b : nvm_block)
    (h : lun.blocks[i]? = some b) : (update_block lun i f).blocks[i]? = some (f b) := by
  unfold update_block
  rw [h]
  have hi : i < lun.blocks.length := by
    rcases Nat.lt_or_ge i lun.blocks.length with h1 | h1
    · exact h1
    · rw [List.getElem?_eq_none h1] at h; cases h
  simp [List.getElem?_set, hi]

theorem update_block_get_other (lun : nvm_lun) (i j : Nat) (f : nvm_block → nvm_block)
    (h : j ≠ i) : (update_block lun i f).blocks[j]? = lun.blocks[j]? := by
  unfold update_block
  cases hb : lun.blocks[i]? with
  | none => rfl
  | some b =>
    simp only
    rw [List.getElem?_set_ne (Ne.symm h)]

@[simp] theorem update_block_free_list (lun : nvm_lun) (i : Nat) (f : nvm_block → nvm_block) :
    (update_block lun i f).free_list = lun.free_list := by
  unfold update_block; cases lun.blocks[i]? <;> rfl

@[simp] theorem update_block_used_list (lun : nvm_lun) (i : Nat) (f : nvm_block → nvm_block) :
    (update_block lun i f).used_list = lun.used_list := by
  unfold update_block; cases lun.blocks[i]? <;> rfl

@[simp] theorem update_block_bb_list (lun : nvm_lun) (i : Nat) (f : nvm_block → nvm_block) :
    (update_block lun i f).bb_list = lun.bb_list := by
  unfold update_block; cases lun.blocks[i]? <;> rfl

@[simp] theorem update_block_nr_free_blocks (lun : nvm_lun) (i : Nat) (f : nvm_block → nvm_block) :
    (update_block lun i f).nr_free_blocks = lun.nr_free_blocks := by
  unfold update_block; cases lun.blocks[i]? <;> rfl

@[simp] theorem update_block_nr_blocks (lun : nvm_lun) (i : Nat) (f : nvm_block → nvm_block) :
    (update_block lun i f).nr_blocks = lun.nr_blocks := by
  unfold update_block; cases lun.blocks[i]? <;> rfl

@[simp] theorem update_block_nr_pages_per_blk (lun : nvm_lun) (i : Nat) (f : nvm_block → nvm_block) :
    (update_block lun i f).nr_pages_per_blk = lun.nr_pages_per_blk := by
  unfold update_block; cases lun.blocks[i]? <;> rfl

@[simp] theorem update_block_reserved_blocks (lun : nvm_lun) (i : Nat) (f : nvm_block → nvm_block) :
    (update_block lun i f).reserved_blocks = lun.reserved_blocks := by
  unfold update_block; cases lun.blocks[i]? <;> rfl

@[simp] theorem update_block_id (lun : nvm_lun) (i : Nat) (f : nvm_block → nvm_block) :
    (update_block lun i f).id = lun.id := by
  unfold update_block; cases lun.blocks[i]? <;> rfl

@[simp] theorem update_block_length (lun : nvm_lun) (i : Nat) (f : nvm_block → nvm_block) :
    (update_block lun i f).blocks.length = lun.blocks.length := by
  unfold update_block; cases lun.blocks[i]? <;> simp

/-- C1: for every LUN whose free list is not empty (head `block`) and every
caller allowed to allocate (a GC caller, or a host caller whose LUN has at
least `reserved_blocks` free blocks, which includes every LUN above the
reserve), `hb_get_blk` returns the head of the free list, the free list loses
its head, the block becomes the last element of the used list,
`nr_free_blocks` decreases by exactly one, the returned block has no invalid
page bit set below `nr_pages_per_blk`, `next_page`, `nr_invalid_pages` and the
committed count are zero, and every other block is unchanged and on the list it
was on.  The counter is an unsigned machine integer, so it is taken to be
positive, as it is whenever the free list is not empty in a state reachable
from attach. -/
theorem hb_get_blk_allocates (lun : nvm_lun) (flags block : Nat) (rest : List Nat) (b : nvm_block)
    (hfree : lun.free_list = block :: rest)
    (hallow : flags &&& NVM_IOTYPE_GC ≠ 0 ∨ lun.reserved_blocks ≤ lun.nr_free_blocks)
    (hpos : 0 < lun.nr_free_blocks)
    (hblk : lun.blocks[block]? = some b) :
    (hb_get_blk lun flags).1 = some block ∧
    (hb_get_blk lun flags).2.free_list = rest ∧
    (hb_get_blk lun flags).2.used_list = lun.used_list.erase block ++ [block] ∧
    (hb_get_blk lun flags).2.used_list.getLast? = some block ∧
    (hb_get_blk lun flags).2.nr_free_blocks + 1 = lun.nr_free_blocks ∧
    (∃ b1, (hb_get_blk lun flags).2.blocks[block]? = some b1 ∧
      (∀ i, i < lun.nr_pages_per_blk → b1.invalid_pages.testBit i = false) ∧
      b1.next_page = 0 ∧ b1.nr_invalid_pages = 0 ∧ b1.data_cmnt_size = 0 ∧
      b1.id = b.id ∧ b1.type = b.type) ∧
    (∀ i, i ≠ block → (hb_get_blk lun flags).2.blocks[i]? = lun.blocks[i]?) ∧
    (∀ i, i ≠ block → (i ∈ (hb_get_blk lun flags).2.used_list ↔ i ∈ lun.used_list)) ∧
    (∀ i, i ≠ block → (i ∈ (hb_get_blk lun flags).2.bb_list ↔ i ∈ lun.bb_list)) := by
  have hguard : ¬ (flags &&& NVM_IOTYPE_GC = 0 ∧ lun.nr_free_blocks < lun.reserved_blocks) := by
    rintro ⟨h1, h2⟩
    rcases hallow with h | h
    · exact h h1
    · omega
  have hrun : hb_get_blk lun flags =
      (some block,
        update_block
          { list_move_tail_used lun block with
              nr_free_blocks := u32_dec (list_move_tail_used lun block).nr_free_blocks }
          block
          (nvm_reset_block
            { list_move_tail_used lun block with
              nr_free_blocks := u32_dec (list_move_tail_used lun block).nr_free_blocks })) := by
    unfold hb_get_blk
    simp only [hfree, if_neg hguard]
  rw [hrun]
  have hb2 : ({ list_move_tail_used lun block with
        nr_free_blocks := u32_dec (list_move_tail_used lun block).nr_free_blocks } : nvm_lun).blocks[block]?
      = some b := hblk
  refine ⟨rfl, ?_, ?_, ?_, ?_, ?_, ?_, ?_, ?_⟩
  · simp [list_move_tail_used, list_del, hfree]
  · simp [list_move_tail_used, list_del]
  · simp [list_move_tail_used, list_del]
  · simp only [update_block_nr_free_blocks, list_move_tail_used, list_del]
    exact u32_dec_pos _ hpos
  · refine ⟨_, update_block_get_self _ _ _ _ hb2, ?_, rfl, rfl, rfl, rfl, rfl⟩
    intro i hi
    exact testBit_bitmap_zero _ _ _ hi
  · intro i hi
    rw [update_block_get_other _ _ _ _ hi]
    rfl
  · intro i hi
    simp [list_move_tail_used, list_del, List.mem_erase_of_ne hi, hi]
  · intro i hi
    simp [list_move_tail_used, list_del, List.mem_erase_of_ne hi]

/-- C2, the code at the failing input: the LUN that attach leaves on a device
of two blocks has `nr_free_blocks = 2` and `reserved_blocks = 2`, the reserve
that `hb_luns_init` sets aside "for GC only", and a free list that is not
empty.  A host request is not refused: `hb_get_blk` returns block 1, moves it
to the used list and leaves `nr_free_blocks = 1`, below the reserve, so that
the next host request is refused and only one block is left for GC. -/
theorem hb_get_blk_host_takes_reserve :
    lun_two_blocks_ready.nr_free_blocks = 2 ∧ lun_two_blocks_ready.reserved_blocks = 2 ∧
      lun_two_blocks_ready.free_list = [1] ∧
      (hb_get_blk lun_two_blocks_ready 0).1 = some 1 ∧
      (hb_get_blk lun_two_blocks_ready 0).2.free_list = [] ∧
      (hb_get_blk lun_two_blocks_ready 0).2.used_list = [1] ∧
      (hb_get_blk lun_two_blocks_ready 0).2.nr_free_blocks = 1 ∧
      (hb_get_blk lun_two_blocks_ready 0).2.reserved_blocks = 2 ∧
      (hb_get_blk lun_at_reserve 0).1 = some 2 ∧
      (hb_get_blk lun_at_reserve 0).2.nr_free_blocks = 1 ∧
      (hb_get_blk (hb_get_blk lun_at_reserve 0).2 0).1 = none ∧
      (hb_get_blk (hb_get_blk lun_at_reserve 0).2 NVM_IOTYPE_GC).1 = some 3 := by
  decide

/-- The guard of `hb_get_blk` as it is coded: no block is returned exactly
when the free list is empty or the caller is not GC and
`nr_free_blocks < reserved_blocks`, and then the LUN is unchanged; with
`nr_free_blocks = 1`, `reserved_blocks = 2` and a free list that is not empty
a host request returns none while a GC request returns the head of the free
list. -/
theorem hb_get_blk_none_iff (lun : nvm_lun) (flags : Nat) :
    ((hb_get_blk lun flags).1 = none ↔
      (lun.free_list = [] ∨
        (flags &&& NVM_IOTYPE_GC = 0 ∧ lun.nr_free_blocks < lun.reserved_blocks))) ∧
    ((hb_get_blk lun flags).1 = none → (hb_get_blk lun flags).2 = lun) ∧
    (lun.nr_free_blocks = 1 → lun.reserved_blocks = 2 → lun.free_list ≠ [] →
      (hb_get_blk lun 0).1 = none ∧ (hb_get_blk lun NVM_IOTYPE_GC).1 = lun.free_list.head?) := by
  refine ⟨?_, ?_, ?_⟩
  · unfold hb_get_blk
    cases hfree : lun.free_list with
    | nil => simp
    | cons block rest =>
      by_cases hg : flags &&& NVM_IOTYPE_GC = 0 ∧ lun.nr_free_blocks < lun.reserved_blocks
      · simp [hg]
      · simp only [if_neg hg]
        simp [hg]
  · unfold hb_get_blk
    cases hfree : lun.free_list with
    | nil => simp
    | cons block rest =>
      by_cases hg : flags &&& NVM_IOTYPE_GC = 0 ∧ lun.nr_free_blocks < lun.reserved_blocks
      · simp [hg]
      · simp only [if_neg hg]
        simp
  · intro h1 h2 h3
    unfold hb_get_blk
    cases hfree : lun.free_list with
    | nil => exact absurd hfree h3
    | cons block rest =>
      have e1 : (0 &&& NVM_IOTYPE_GC) = 0 := by decide
      have e2 : NVM_IOTYPE_GC ≠ 0 := by decide
      simp [h1, h2, e1, e2]

theorem u32_inc_lt (n : Nat) (h : n ≠ UINT_MAX) : u32_inc n = n + 1 := by
  unfold u32_inc
  rw [if_neg h]

/-- C3: for every block on the used list of its LUN, `hb_put_blk` removes it
from the used list, appends it at the tail of the free list and increases
`nr_free_blocks` by exactly one; the block array (bitmaps, counters, cursors),
the bad list and every other LUN are unchanged.  The lists are those of an
intrusive list structure (no block linked twice) and the unsigned counter is
below its maximum, as it is in every reachable state with a used block. -/
theorem hb_put_blk_releases (bm : bm_hb) (lun_id blk : Nat) (lun : nvm_lun)
    (hlun : bm.luns[lun_id]? = some lun)
    (hused : blk ∈ lun.used_list)
    (hnodup : (lun.free_list ++ lun.used_list ++ lun.bb_list).Nodup)
    (hmax : lun.nr_free_blocks ≠ UINT_MAX) :
    hb_put_blk bm (lun_id, blk) =
      { luns := bm.luns.set lun_id
          { lun with free_list := lun.free_list ++ [blk],
                     used_list := lun.used_list.erase blk,
                     nr_free_blocks := lun.nr_free_blocks + 1 } } ∧
    blk ∉ lun.used_list.erase blk ∧
    (∀ j, j ≠ lun_id → (hb_put_blk bm (lun_id, blk)).luns[j]? = bm.luns[j]?) := by
  have hnd := hnodup
  rw [List.append_assoc, List.nodup_append] at hnd
  obtain ⟨hf, hub, hdis⟩ := hnd
  rw [List.nodup_append] at hub
  obtain ⟨hu, hb, hdis2⟩ := hub
  have h1 : blk ∉ lun.free_list := fun h => hdis h (List.mem_append_left _ hused)
  have h2 : blk ∉ lun.bb_list := fun h => hdis2 hused h
  have heq : hb_put_blk bm (lun_id, blk) =
      { luns := bm.luns.set lun_id
          { lun with free_list := lun.free_list ++ [blk],
                     used_list := lun.used_list.erase blk,
                     nr_free_blocks := lun.nr_free_blocks + 1 } } := by
    unfold hb_put_blk
    simp only [hlun, hb_put_blk_lun, list_move_tail_free, list_del]
    rw [List.erase_of_not_mem h1, List.erase_of_not_mem h2, u32_inc_lt _ hmax]
  refine ⟨heq, ?_, ?_⟩
  · exact fun h => (List.Nodup.mem_erase_iff hu).1 h |>.1 rfl
  · intro j hj
    rw [heq]
    simp only
    rw [List.getElem?_set_ne (Ne.symm hj)]

theorem hb_get_blk_some_free (lun : nvm_lun) (flags blk : Nat)
    (h : (hb_get_blk lun flags).1 = some blk) :
    lun.free_list = blk :: (hb_get_blk lun flags).2.free_list := by
  unfold hb_get_blk at h ⊢
  cases hfree : lun.free_list with
  | nil => simp [hfree] at h
  | cons block rest =>
    simp only [hfree] at h ⊢
    by_cases hg : flags &&& NVM_IOTYPE_GC = 0 ∧ lun.nr_free_blocks < lun.reserved_blocks
    · simp [hg] at h
    · simp only [if_neg hg] at h ⊢
      simp at h
      subst h
      simp [list_move_tail_used, list_del, hfree]

theorem hb_get_blk_none_same (lun : nvm_lun) (flags : Nat)
    (h : (hb_get_blk lun flags).1 = none) : (hb_get_blk lun flags).2 = lun := by
  unfold hb_get_blk at h ⊢
  cases hfree : lun.free_list with
  | nil => simp
  | cons block rest =>
    simp only [hfree] at h ⊢
    by_cases hg : flags &&& NVM_IOTYPE_GC = 0 ∧ lun.nr_free_blocks < lun.reserved_blocks
    · simp [hg]
    · simp [hg] at h

theorem hb_put_blk_lun_free (lun : nvm_lun) (blk : Nat) (h : blk ∉ lun.free_list) :
    (hb_put_blk_lun lun blk).free_list = lun.free_list ++ [blk] := by
  simp [hb_put_blk_lun, list_move_tail_free, list_del, List.erase_of_not_mem h]

theorem hb_run_queue (calls : List hb_call) : ∀ (lun : nvm_lun), hb_puts_in_use lun calls →
    (hb_run lun calls).1 ++ (hb_run lun calls).2.free_list = lun.free_list ++ hb_released calls := by
  induction calls with
  | nil => intro lun _; simp [hb_run, hb_released]
  | cons c rest ih =>
    intro lun hv
    cases c with
    | get flags =>
      simp only [hb_puts_in_use] at hv
      have := ih _ hv
      simp only [hb_run, hb_released]
      cases hr : (hb_get_blk lun flags).1 with
      | none =>
        simp only
        rw [this, hb_get_blk_none_same lun flags hr]
      | some blk =>
        simp only [List.cons_append]
        rw [this, hb_get_blk_some_free lun flags blk hr]
        simp
    | put blk =>
      simp only [hb_puts_in_use] at hv
      have := ih _ hv.2
      simp only [hb_run, hb_released]
      rw [this, hb_put_blk_lun_free lun blk hv.1]
      simp

/-- C4: the free list of a LUN is a FIFO queue.  For every LUN and every
sequence of `hb_get_blk` and `hb_put_blk` calls that releases blocks not
already free, the blocks returned followed by the final free list are the
initial free list followed by the released blocks, so blocks are handed out in
the order in which they were placed on the free list; and a block released by
the first call is handed out again only after every block that was free at
its release. -/
theorem hb_free_list_fifo (lun : nvm_lun) (calls : List hb_call) (h : hb_puts_in_use lun calls) :
    (hb_run lun calls).1 ++ (hb_run lun calls).2.free_list = lun.free_list ++ hb_released calls ∧
    (hb_run lun calls).1 <+: lun.free_list ++ hb_released calls ∧
    (∀ blk rest, calls = hb_call.put blk :: rest → blk ∈ (hb_run lun calls).1 →
        lun.free_list ++ [blk] <+: (hb_run lun calls).1) := by
  have hq := hb_run_queue calls lun h
  refine ⟨hq, ⟨_, hq⟩, ?_⟩
  intro blk rest hc hmem
  subst hc
  simp only [hb_released] at hq
  have hnf : blk ∉ lun.free_list := h.1
  have hp1 : (hb_run lun (hb_call.put blk :: rest)).1 <+: (lun.free_list ++ [blk]) ++ hb_released rest :=
    ⟨_, by rw [hq]; simp⟩
  have hp2 : lun.free_list ++ [blk] <+: (lun.free_list ++ [blk]) ++ hb_released rest :=
    List.prefix_append _ _
  rcases List.prefix_or_prefix_of_prefix hp1 hp2 with h1 | h1
  · -- the returned blocks are a prefix of free ++ [blk] and contain blk
    obtain ⟨t, ht⟩ := h1
    rcases List.eq_nil_or_concat t with rfl | ⟨t', x, rfl⟩
    · rw [List.append_nil] at ht
      rw [ht]
    · exfalso
      rw [List.concat_eq_append, ← List.append_assoc] at ht
      have := List.append_inj_left' ht rfl
      have hm : blk ∈ lun.free_list := by
        rw [← this]
        exact List.mem_append_left _ hmem
      exact hnf hm
  · exact h1

theorem hb_luns_init_step_spec (dev dev1 : nvm_dev) (i : Nat) (r : Option Int)
    (h : hb_luns_init_step dev i = some (r, dev1)) :
    ∃ lun lun1, dev.bmp.luns[i]? = some lun ∧ dev1.bmp.luns = dev.bmp.luns.set i lun1 ∧
      dev1.nr_luns = dev.nr_luns ∧ dev1.sector_size = dev.sector_size ∧ dev1.rsp = dev.rsp ∧
      (lun.blocks = [] → lun_initialised i lun1) := by
  unfold hb_luns_init_step at h
  cases hc : dev.chnls[i]? with
  | none => simp [hc] at h
  | some chnl =>
    cases hl : dev.bmp.luns[i]? with
    | none => simp [hc, hl] at h
    | some lun =>
      simp only [hc, hl] at h
      split at h
      · cases h
      · split at h
        · simp only [Option.some.injEq, Prod.mk.injEq] at h
          obtain ⟨_, rfl⟩ := h
          refine ⟨lun, _, rfl, rfl, rfl, rfl, rfl, ?_⟩
          intro hb
          refine ⟨rfl, hb, rfl, rfl, rfl, rfl, ?_, rfl⟩
          exact Nat.mod_lt _ (by norm_num)
        · simp only [Option.some.injEq, Prod.mk.injEq] at h
          obtain ⟨_, rfl⟩ := h
          refine ⟨lun, _, rfl, rfl, rfl, rfl, rfl, ?_⟩
          intro hb
          refine ⟨rfl, hb, rfl, rfl, rfl, rfl, ?_, rfl⟩
          exact Nat.mod_lt _ (by norm_num)

theorem hb_luns_init_loop_spec (n : Nat) : ∀ (m k : Nat) (dev dev1 : nvm_dev),
    k + m = n → luns_init_inv n k dev →
    hb_luns_init_loop (List.range' k m) dev = some (0, dev1) →
    luns_init_inv n n dev1 ∧ dev1.sector_size = dev.sector_size ∧ dev1.rsp = dev.rsp := by
  intro m
  induction m with
  | zero =>
    intro k dev dev1 hk hinv h
    simp only [List.range'_zero, hb_luns_init_loop, Option.some.injEq, Prod.mk.injEq, true_and] at h
    subst h
    have : k = n := by omega
    subst this
    exact ⟨hinv, rfl, rfl⟩
  | succ m ih =>
    intro k dev dev1 hk hinv h
    rw [List.range'_succ] at h
    simp only [hb_luns_init_loop] at h
    cases hs : hb_luns_init_step dev k with
    | none => simp [hs] at h
    | some res =>
      obtain ⟨r, dev2⟩ := res
      obtain ⟨lun, lun1, hl, hset, hn, hss, hrsp, hgood⟩ := hb_luns_init_step_spec dev dev2 k r hs
      cases r with
      | some ret =>
        simp only [hs, Option.some.injEq, Prod.mk.injEq] at h
        -- the loop left with the error `ret`, which is not zero
        obtain ⟨h1, _⟩ := h
        exfalso
        unfold hb_luns_init_step at hs
        revert hs
        cases dev.chnls[k]? <;> cases dev.bmp.luns[k]? <;> simp only [reduceCtorEq, false_implies]
        split
        · simp
        · split
          · simp only [Option.some.injEq, Prod.mk.injEq, and_imp]
            intro h2 _
            rw [← h2] at h1
            simp [EINVAL] at h1
          · simp
      | none =>
        simp only [hs] at h
        obtain ⟨hn0, hlen, hall⟩ := hinv
        have hinv2 : luns_init_inv n (k + 1) dev2 := by
          refine ⟨by omega, by rw [hset]; simpa using hlen, ?_⟩
          intro i l hi
          rw [hset] at hi
          by_cases hik : i = k
          · subst hik
            have hlt : i < dev.bmp.luns.length := by omega
            rw [List.getElem?_set_self hlt] at hi
            cases hi
            have := hgood (hall i lun hl).1
            exact ⟨this.2.1, fun _ => this⟩
          · rw [List.getElem?_set_ne (Ne.symm hik)] at hi
            refine ⟨(hall i l hi).1, fun hlt => (hall i l hi).2 (by omega)⟩
        have := ih (k + 1) dev2 dev1 (by omega) hinv2 h
        exact ⟨this.1, by rw [this.2.1, hss], by rw [this.2.2, hrsp]⟩

theorem hb_luns_init_spec (dev dev1 : nvm_dev) (h : hb_luns_init dev = some (0, dev1)) :
    dev1.nr_luns = dev.nr_luns ∧ dev1.bmp.luns.length = dev.nr_luns ∧
    dev1.sector_size = dev.sector_size ∧ dev1.rsp = dev.rsp ∧
    ∀ i lun, dev1.bmp.luns[i]? = some lun → lun_initialised i lun := by
  unfold hb_luns_init at h
  rw [List.range_eq_range'] at h
  have hinv : luns_init_inv dev.nr_luns 0
      { dev with bmp := { luns := List.replicate dev.nr_luns nvm_lun_zero } } := by
    refine ⟨rfl, by simp, ?_⟩
    intro i lun hi
    simp only [List.getElem?_replicate] at hi
    split at hi
    · cases hi
      exact ⟨rfl, fun h => absurd h (Nat.not_lt_zero _)⟩
    · cases hi
  obtain ⟨⟨h1, h2, h3⟩, h4, h5⟩ := hb_luns_init_loop_spec dev.nr_luns dev.nr_luns 0 _ dev1 (by omega) hinv h
  refine ⟨h1, h2, h4, h5, ?_⟩
  intro i lun hi
  have hlt : i < dev1.bmp.luns.length := by
    rcases Nat.lt_or_ge i dev1.bmp.luns.length with h | h
    · exact h
    · rw [List.getElem?_eq_none h] at hi; cases hi
  exact (h3 i lun hi).2 (by omega)

theorem getElem?_some_lt {α : Type} (l : List α) (i : Nat) (a : α) (h : l[i]? = some a) :
    i < l.length := by
  rcases Nat.lt_or_ge i l.length with h1 | h1
  · exact h1
  · rw [List.getElem?_eq_none h1] at h; cases h

theorem update_block_get (lun : nvm_lun) (i j : Nat) (f : nvm_block → nvm_block) (blk : nvm_block)
    (h : (update_block lun i f).blocks[j]? = some blk) :
    ∃ blk0, lun.blocks[j]? = some blk0 ∧ ((j = i ∧ blk = f blk0) ∨ (j ≠ i ∧ blk = blk0)) := by
  by_cases hji : j = i
  · subst hji
    cases hb : lun.blocks[j]? with
    | none =>
      have : (update_block lun j f) = lun := by unfold update_block; rw [hb]
      simp [this, hb] at h
    | some b =>
      rw [update_block_get_self lun j f b hb] at h
      simp only [Option.some.injEq] at h
      subst h
      exact ⟨b, rfl, Or.inl ⟨rfl, rfl⟩⟩
  · rw [update_block_get_other lun i j f hji] at h
    exact ⟨blk, h, Or.inr ⟨hji, rfl⟩⟩

theorem hb_blocks_init_block_loop (lun_iter : Nat) (lun0 : nvm_lun) (c : Nat) : ∀ k : Nat,
    ((List.range k).foldl (hb_blocks_init_block lun_iter) (lun0, c)).2 = c + k ∧
    ((List.range k).foldl (hb_blocks_init_block lun_iter) (lun0, c)).1.free_list =
      lun0.free_list ++ (List.range k).filter (fun b => !decide (lun_iter = 0 ∧ b = 0)) ∧
    blocks_loop_frame ((List.range k).foldl (hb_blocks_init_block lun_iter) (lun0, c)).1 lun0 := by
  intro k
  induction k with
  | zero =>
    exact ⟨rfl, by simp, rfl, rfl, rfl, rfl, rfl, rfl, rfl, rfl, fun j blk h => ⟨blk, h, rfl⟩⟩
  | succ k ih =>
    rw [List.range_succ, List.foldl_append]
    obtain ⟨h1, h2, h3, h4, h5, h6, h7, h8, h9, h10, h11⟩ := ih
    generalize (List.range k).foldl (hb_blocks_init_block lun_iter) (lun0, c) = st at *
    simp only [List.foldl_cons, List.foldl_nil, List.filter_append]
    have hframe : ∀ (j : Nat) (blk : nvm_block), (update_block st.1 k (fun x => { x with id := st.2 })).blocks[j]? = some blk →
        ∃ blk0 : nvm_block, lun0.blocks[j]? = some blk0 ∧ blk = { blk0 with id := blk.id } := by
      intro j blk h
      obtain ⟨b1, hb1, hcase⟩ := update_block_get _ _ _ _ _ h
      obtain ⟨b0, hb0, he⟩ := h11 j b1 hb1
      refine ⟨b0, hb0, ?_⟩
      rcases hcase with ⟨_, rfl⟩ | ⟨_, rfl⟩
      · rw [he]
      · exact he
    unfold hb_blocks_init_block
    by_cases hres : lun_iter = 0 ∧ k = 0
    · simp only [if_pos hres]
      refine ⟨by omega, ?_, ?_⟩
      · simp [h2, hres]
      · exact ⟨by simpa using h3, by simpa using h4, by simpa using h5, by simpa using h6,
          by simpa using h7, by simpa using h8, by simpa using h9, by simpa using h10, hframe⟩
    · simp only [if_neg hres]
      refine ⟨by omega, ?_, ?_⟩
      · have hor : lun_iter ≠ 0 ∨ k ≠ 0 := by omega
        rcases hor with ho | ho <;> simp [h2, ho]
      · exact ⟨by simpa using h3, by simpa using h4, by simpa using h5, by simpa using h6,
          by simpa using h7, by simpa using h8, by simpa using h9, by simpa using h10, hframe⟩

/-- The loop of `hb_block_bb` over a duplicate-free list of blocks of the LUN,
none of them used or bad, moves exactly these blocks to the bad list. -/
theorem hb_block_bb_loop_spec : ∀ (bits : List Nat) (lun : nvm_lun),
    bits.Nodup → (∀ i ∈ bits, i < lun.blocks.length) →
    lun.free_list.Nodup → lun.used_list = [] → (∀ i ∈ bits, i ∉ lun.bb_list) →
    hb_block_bb_loop bits lun =
      some { lun with free_list := lun.free_list.filter (fun b => !decide (b ∈ bits)),
                      bb_list := lun.bb_list ++ bits } := by
  intro bits
  induction bits with
  | nil =>
    intro lun _ _ _ _ _
    simp [hb_block_bb_loop]
  | cons i rest ih =>
    intro lun hnd hlt hfree hused hbb
    rw [List.nodup_cons] at hnd
    have hi : i < lun.blocks.length := hlt i (List.mem_cons_self _ _)
    simp only [hb_block_bb_loop, if_pos hi]
    have hnotbb : i ∉ lun.bb_list := hbb i (List.mem_cons_self _ _)
    rw [ih (list_move_tail_bb lun i) hnd.2]
    · simp only [list_move_tail_bb, list_del, hused, List.erase_nil, List.erase_of_not_mem hnotbb,
        List.append_assoc, List.singleton_append]
      have hflt : List.filter (fun b => !decide (b ∈ rest)) (lun.free_list.erase i) =
          List.filter (fun b => !decide (b ∈ i :: rest)) lun.free_list := by
        rw [List.Nodup.erase_eq_filter hfree, List.filter_filter]
        apply List.filter_congr
        intro b _
        by_cases hbi : b = i
        · subst hbi; simp
        · by_cases hbr : b ∈ rest <;> simp [hbr, hbi]
      rw [hflt]
    · intro j hj
      exact hlt j (List.mem_cons_of_mem _ hj)
    · simp only [list_move_tail_bb, list_del]
      exact hfree.erase i
    · simp [list_move_tail_bb, list_del, hused]
    · intro j hj
      simp only [list_move_tail_bb, list_del, List.erase_of_not_mem hnotbb, List.mem_append,
        List.mem_singleton, not_or]
      refine ⟨hbb j (List.mem_cons_of_mem _ hj), ?_⟩
      rintro rfl
      exact hnd.1 hj

theorem bb_bitmap_empty_iff (bb_bitmap : List Bool) (nr_blocks : Nat) :
    bb_bitmap_empty bb_bitmap nr_blocks = true ↔
      ∀ i, i < nr_blocks → bb_bitmap.getD i false = false := by
  unfold bb_bitmap_empty
  simp [List.all_eq_true, List.mem_range]

theorem hb_blocks_init_lun_spec (ops : nvm_dev_ops) (st : bm_hb × Nat) (k : Nat) (lun : nvm_lun)
    (hl : st.1.luns[k]? = some lun) (hinit : lun_initialised k lun) :
    ∃ lun1, hb_blocks_init_lun ops st k = some ({ luns := st.1.luns.set k lun1 }, st.2 + lun.nr_blocks) ∧
      lun_attached ops k lun lun1 := by
  obtain ⟨hid, hblocks, hfree, hused, hbb, hnf, hnb, hres⟩ := hinit
  have hk : k < st.1.luns.length := getElem?_some_lt _ _ _ hl
  obtain ⟨h1, h2, h3, h4, h5, h6, h7, h8, h9, h10, h11⟩ :=
    hb_blocks_init_block_loop k { lun with blocks := List.replicate lun.nr_blocks nvm_block_zero }
      st.2 lun.nr_blocks
  unfold hb_blocks_init_lun
  simp only [hl]
  generalize hr : (List.range lun.nr_blocks).foldl (hb_blocks_init_block k)
    ({ lun with blocks := List.replicate lun.nr_blocks nvm_block_zero }, st.2) = r at *
  simp only [List.length_replicate] at h10
  simp only [hfree, List.nil_append] at h2
  have hzero : ∀ (j : Nat) (blk : nvm_block), r.1.blocks[j]? = some blk →
      blk = { nvm_block_zero with id := blk.id } := by
    intro j blk hj
    obtain ⟨b0, hb0, he⟩ := h11 j blk hj
    simp only [List.getElem?_replicate] at hb0
    split at hb0
    · cases hb0
      exact he
    · cases hb0
  -- the LUN when the device reports no bad block
  have hplain : lun_attached ops k lun r.1 →
      ∃ lun1, some (({ luns := st.1.luns.set k r.1 } : bm_hb), r.2) =
          some ({ luns := st.1.luns.set k lun1 }, st.2 + lun.nr_blocks) ∧
        lun_attached ops k lun lun1 := by
    intro h
    exact ⟨r.1, by rw [h1], h⟩
  have hnobits : (∀ b, b < lun.nr_blocks → bb_bit ops k lun.nr_blocks b = false) →
      lun_attached ops k lun r.1 := by
    intro hno
    refine ⟨?_, by rw [h8, hused], ?_, by rw [h3, hid], h5, h7, by rw [h6, h5, hnf], by rw [h4, hres],
      by rw [h5]; exact hnb, by rw [h10, h5], hzero⟩
    · rw [h2, h5]
      apply List.filter_congr
      intro b hb
      rw [hno b (List.mem_range.1 hb)]
      simp
    · rw [h9, hbb, h5]
      symm
      rw [List.filter_eq_nil_iff]
      intro b hb
      rw [hno b (List.mem_range.1 hb)]
      simp
  cases hops : ops.get_bb_tbl with
  | none =>
    simp only
    apply hplain
    apply hnobits
    intro b _
    simp [bb_bit, hops]
  | some tbl =>
    simp only [dev_get_bb_tbl, h3, hid, h5]
    cases htbl : tbl k lun.nr_blocks with
    | none =>
      simp only
      apply hplain
      apply hnobits
      intro b _
      simp [bb_bit, hops, htbl]
    | some bb_bitmap =>
      have hbit : ∀ b, bb_bit ops k lun.nr_blocks b = bb_bitmap.getD b false := by
        intro b
        simp [bb_bit, hops, htbl]
      simp only [hb_block_bb, List.getElem?_set_self hk]
      by_cases hempty : bb_bitmap_empty bb_bitmap lun.nr_blocks = true
      · simp only [hempty, if_true]
        apply hplain
        apply hnobits
        intro b hb
        rw [hbit]
        exact (bb_bitmap_empty_iff _ _).1 hempty b hb
      · simp only [hempty, Bool.false_eq_true, if_false]
        have hspec := hb_block_bb_loop_spec
          ((List.range lun.nr_blocks).filter (fun i => bb_bitmap.getD i false)) r.1
          ((List.nodup_range _).filter _)
          (by
            intro i hi
            rw [h10]
            exact List.mem_range.1 (List.mem_filter.1 hi).1)
          (by rw [h2]; exact (List.nodup_range _).filter _)
          (by rw [h8, hused])
          (by
            intro i _
            rw [h9, hbb]
            exact List.not_mem_nil _)
        rw [hspec]
        simp only [List.set_set]
        refine ⟨_, by rw [h1], ?_⟩
        refine ⟨?_, by simp only; rw [h8, hused], ?_, by simp only; rw [h3, hid], h5, h7,
          by simp only; rw [h6, h5, hnf], by simp only; rw [h4, hres],
          by simp only; rw [h5]; exact hnb, by simp only; rw [h10, h5], hzero⟩
        · simp only [h2, h5, List.filter_filter]
          apply List.filter_congr
          intro b hb
          rw [hbit]
          simp only [List.mem_filter, hb, true_and]
          cases bb_bitmap.getD b false <;> simp
        · simp only [h9, hbb, h5, List.nil_append]
          apply List.filter_congr
          intro b _
          rw [hbit]

theorem hb_blocks_init_loop_spec (ops : nvm_dev_ops) (bm0 : bm_hb) (n : Nat)
    (hlen0 : bm0.luns.length = n)
    (hinit : ∀ (i : Nat) (lun : nvm_lun), bm0.luns[i]? = some lun → lun_initialised i lun) :
    ∀ (m k : Nat) (st : bm_hb × Nat), k + m = n → st.1.luns.length = n →
      (∀ i, k ≤ i → st.1.luns[i]? = bm0.luns[i]?) →
      (∀ i, i < k → ∃ lun0 lun, bm0.luns[i]? = some lun0 ∧ st.1.luns[i]? = some lun ∧
        lun_attached ops i lun0 lun) →
      ∃ st1, hb_blocks_init_loop ops (List.range' k m) st = some st1 ∧ st1.1.luns.length = n ∧
        ∀ i, i < n → ∃ lun0 lun, bm0.luns[i]? = some lun0 ∧ st1.1.luns[i]? = some lun ∧
          lun_attached ops i lun0 lun := by
  intro m
  induction m with
  | zero =>
    intro k st hk hlen _ hdone
    have : k = n := by omega
    subst this
    exact ⟨st, by simp [hb_blocks_init_loop], hlen, hdone⟩
  | succ m ih =>
    intro k st hk hlen htodo hdone
    have hkn : k < bm0.luns.length := by omega
    have hl0 : bm0.luns[k]? = some bm0.luns[k] := List.getElem?_eq_getElem hkn
    have hl : st.1.luns[k]? = some bm0.luns[k] := by rw [htodo k (Nat.le_refl k), hl0]
    obtain ⟨lun1, hstep, hatt⟩ := hb_blocks_init_lun_spec ops st k _ hl (hinit k _ hl0)
    rw [List.range'_succ]
    simp only [hb_blocks_init_loop, hstep]
    apply ih (k + 1) _ (by omega)
    · simpa using hlen
    · intro i hi
      simp only
      rw [List.getElem?_set_ne (by omega)]
      exact htodo i (by omega)
    · intro i hi
      by_cases hik : i = k
      · subst hik
        refine ⟨_, lun1, hl0, ?_, hatt⟩
        simp only
        rw [List.getElem?_set_self (by omega)]
      · obtain ⟨a, b, h1, h2, h3⟩ := hdone i (by omega)
        refine ⟨a, b, h1, ?_, h3⟩
        simp only
        rw [List.getElem?_set_ne (Ne.symm hik)]
        exact h2

/-- The LUN loop of `hb_blocks_init`, run on what `hb_luns_init` built, never
faults and leaves every LUN in the state `lun_attached`. -/
theorem hb_blocks_init_luns (ops : nvm_dev_ops) (dev dev1 : nvm_dev)
    (h : hb_luns_init dev = some (0, dev1)) :
    ∃ st, hb_blocks_init_loop ops (List.range dev1.nr_luns) (dev1.bmp, 0) = some st ∧
      st.1.luns.length = dev1.nr_luns ∧
      ∀ i, i < dev1.nr_luns → ∃ lun0 lun, dev1.bmp.luns[i]? = some lun0 ∧ st.1.luns[i]? = some lun ∧
        lun_attached ops i lun0 lun := by
  obtain ⟨h1, h2, _, _, h5⟩ := hb_luns_init_spec dev dev1 h
  rw [List.range_eq_range']
  exact hb_blocks_init_loop_spec ops dev1.bmp dev1.nr_luns (by rw [h2, h1]) h5 dev1.nr_luns 0
    (dev1.bmp, 0) (by omega) (by rw [h2, h1]) (fun _ _ => rfl)
    (fun i hi => absurd hi (Nat.not_lt_zero _))

theorem moved_lists_nodup (f u b : List Nat) (x : Nat) (h : (f ++ u ++ b).Nodup) :
    (x :: (f.erase x ++ u.erase x ++ b.erase x)).Nodup := by
  have hsub : (f.erase x ++ u.erase x ++ b.erase x).Sublist (f ++ u ++ b) :=
    ((List.erase_sublist x f).append (List.erase_sublist x u)).append (List.erase_sublist x b)
  rw [List.append_assoc, List.nodup_append] at h
  obtain ⟨hf, hub, _⟩ := h
  rw [List.nodup_append] at hub
  obtain ⟨hu, hb, _⟩ := hub
  rw [List.nodup_cons]
  refine ⟨?_, List.Nodup.sublist hsub (by
    rw [List.append_assoc, List.nodup_append]
    refine ⟨hf, ?_, by assumption⟩
    rw [List.nodup_append]
    exact ⟨hu, hb, by assumption⟩)⟩
  simp only [List.mem_append, not_or]
  exact ⟨⟨fun h => ((List.Nodup.mem_erase_iff hf).1 h).1 rfl,
    fun h => ((List.Nodup.mem_erase_iff hu).1 h).1 rfl⟩,
    fun h => ((List.Nodup.mem_erase_iff hb).1 h).1 rfl⟩

theorem moved_lists_mem (f u b : List Nat) (x y : Nat) (h : (f ++ u ++ b).Nodup) :
    y ∈ x :: (f.erase x ++ u.erase x ++ b.erase x) ↔ y = x ∨ y ∈ f ++ u ++ b := by
  rw [List.append_assoc, List.nodup_append] at h
  obtain ⟨hf, hub, _⟩ := h
  rw [List.nodup_append] at hub
  obtain ⟨hu, hb, _⟩ := hub
  simp only [List.mem_cons, List.mem_append, List.Nodup.mem_erase_iff hf,
    List.Nodup.mem_erase_iff hu, List.Nodup.mem_erase_iff hb]
  by_cases hyx : y = x
  · simp [hyx]
  · simp [hyx]

theorem lun_all_move_used (lun : nvm_lun) (x : Nat) :
    (lun_all (list_move_tail_used lun x)).Perm
      (x :: (lun.free_list.erase x ++ lun.used_list.erase x ++ lun.bb_list.erase x)) := by
  simp only [lun_all, list_move_tail_used, list_del]
  rw [List.perm_iff_count]
  intro a
  simp only [List.count_append, List.count_cons, List.count_nil]
  omega

theorem lun_all_move_free (lun : nvm_lun) (x : Nat) :
    (lun_all (list_move_tail_free lun x)).Perm
      (x :: (lun.free_list.erase x ++ lun.used_list.erase x ++ lun.bb_list.erase x)) := by
  simp only [lun_all, list_move_tail_free, list_del]
  rw [List.perm_iff_count]
  intro a
  simp only [List.count_append, List.count_cons, List.count_nil]
  omega

theorem lun_all_move_bb (lun : nvm_lun) (x : Nat) :
    (lun_all (list_move_tail_bb lun x)).Perm
      (x :: (lun.free_list.erase x ++ lun.used_list.erase x ++ lun.bb_list.erase x)) := by
  simp only [lun_all, list_move_tail_bb, list_del]
  rw [List.perm_iff_count]
  intro a
  simp only [List.count_append, List.count_cons, List.count_nil]
  omega

/-- Moving a block of the LUN to the tail of one of its lists keeps the lists
well formed. -/
theorem lun_lists_wf_of_perm (i : Nat) (lun lun1 : nvm_lun) (x : Nat)
    (hwf : lun_lists_wf i lun) (hx : x < lun.nr_blocks)
    (hperm : (lun_all lun1).Perm
      (x :: (lun.free_list.erase x ++ lun.used_list.erase x ++ lun.bb_list.erase x)))
    (hlen : lun1.blocks.length = lun.blocks.length) (hnr : lun1.nr_blocks = lun.nr_blocks) :
    lun_lists_wf i lun1 := by
  obtain ⟨h1, h2, h3, h4⟩ := hwf
  have hmem : ∀ y, y ∈ lun_all lun1 ↔ y = x ∨ y ∈ lun_all lun := by
    intro y
    rw [hperm.mem_iff]
    exact moved_lists_mem _ _ _ x y h2
  refine ⟨by rw [hlen, hnr, h1], ?_, ?_, ?_⟩
  · rw [hperm.nodup_iff]
    exact moved_lists_nodup _ _ _ x h2
  · intro y hy
    rw [hnr]
    rcases (hmem y).1 hy with rfl | h
    · exact hx
    · exact h3 y h
  · intro y hy
    rw [hnr] at hy
    rcases h4 y hy with h | h
    · exact Or.inl h
    · exact Or.inr ((hmem y).2 (Or.inr h))

/-- With well-formed lists the three lengths add up to the number of blocks,
less one when the first block of LUN 0 is on no list. -/
theorem lun_lists_wf_count (i : Nat) (lun : nvm_lun) (hwf : lun_lists_wf i lun) :
    lun.free_list.length + lun.used_list.length + lun.bb_list.length +
      (if i = 0 ∧ 0 < lun.nr_blocks ∧ 0 ∉ lun_all lun then 1 else 0) = lun.nr_blocks := by
  obtain ⟨_, h2, h3, h4⟩ := hwf
  have hlen : lun.free_list.length + lun.used_list.length + lun.bb_list.length =
      (lun_all lun).length := by
    simp only [lun_all, List.length_append]
  rw [hlen]
  by_cases hc : i = 0 ∧ 0 < lun.nr_blocks ∧ 0 ∉ lun_all lun
  · rw [if_pos hc]
    have hp : (0 :: lun_all lun).Perm (List.range lun.nr_blocks) := by
      rw [List.perm_ext_iff_of_nodup (List.nodup_cons.2 ⟨hc.2.2, h2⟩) (List.nodup_range _)]
      intro a
      simp only [List.mem_cons, List.mem_range]
      constructor
      · rintro (rfl | h)
        · exact hc.2.1
        · exact h3 a h
      · intro h
        rcases h4 a h with h | h
        · exact Or.inl h.2
        · exact Or.inr h
    have := hp.length_eq
    simp only [List.length_cons, List.length_range] at this
    exact this
  · rw [if_neg hc, Nat.add_zero]
    have hp : (lun_all lun).Perm (List.range lun.nr_blocks) := by
      rw [List.perm_ext_iff_of_nodup h2 (List.nodup_range _)]
      intro a
      simp only [List.mem_range]
      constructor
      · exact h3 a
      · intro h
        rcases h4 a h with ⟨h5, h6⟩ | h
        · subst h6
          by_contra hn
          exact hc ⟨h5, h, hn⟩
        · exact h
    have := hp.length_eq
    simp only [List.length_range] at this
    exact this

theorem lun_attached_wf (ops : nvm_dev_ops) (i : Nat) (lun0 lun : nvm_lun)
    (h : lun_attached ops i lun0 lun) : lun_lists_wf i lun := by
  obtain ⟨hf, hu, hb, _, _, _, _, _, _, hlen, _⟩ := h
  have hall : lun_all lun =
      (List.range lun.nr_blocks).filter
          (fun b => !decide (i = 0 ∧ b = 0) && !bb_bit ops i lun.nr_blocks b) ++
        (List.range lun.nr_blocks).filter (fun b => bb_bit ops i lun.nr_blocks b) := by
    unfold lun_all
    rw [hu, List.append_nil, ← hf, ← hb]
  refine ⟨hlen, ?_, ?_, ?_⟩
  · rw [hall, List.nodup_append]
    refine ⟨(List.nodup_range _).filter _, (List.nodup_range _).filter _, ?_⟩
    intro a ha hb2
    have h1 := (List.mem_filter.1 ha).2
    have h2 := (List.mem_filter.1 hb2).2
    simp only [h2, Bool.not_true, Bool.and_false] at h1
    cases h1
  · intro b hb2
    rw [hall, List.mem_append] at hb2
    rcases hb2 with h | h
    · exact List.mem_range.1 (List.mem_filter.1 h).1
    · exact List.mem_range.1 (List.mem_filter.1 h).1
  · intro b hb2
    rw [hall]
    by_cases hres : i = 0 ∧ b = 0
    · exact Or.inl hres
    · right
      rw [List.mem_append, List.mem_filter, List.mem_filter]
      cases hbit : bb_bit ops i lun.nr_blocks b
      · left
        exact ⟨List.mem_range.2 hb2, by simp [hres]⟩
      · right
        exact ⟨List.mem_range.2 hb2, rfl⟩

theorem bm_all_set (P : Nat → nvm_lun → Prop) (bm : bm_hb) (i : Nat) (lun1 : nvm_lun)
    (hall : bm_all P bm) (h1 : P i lun1) : bm_all P { bm with luns := bm.luns.set i lun1 } := by
  intro j lun hj
  simp only at hj
  by_cases hji : j = i
  · subst hji
    have hlt : j < bm.luns.length := by
      have := getElem?_some_lt _ _ _ hj
      simpa using this
    rw [List.getElem?_set_self hlt] at hj
    cases hj
    exact h1
  · rw [List.getElem?_set_ne (Ne.symm hji)] at hj
    exact hall j lun hj

theorem hb_block_map_entry_all (P : Nat → nvm_lun → Prop) (hP : used_move_stable P)
    (max_pages tpl : Nat) (bm bm1 : bm_hb) (pba : Nat) (r : Option Int)
    (hall : bm_all P bm) (h : hb_block_map_entry max_pages tpl bm pba = some (r, bm1)) :
    bm_all P bm1 := by
  unfold hb_block_map_entry at h
  split at h
  · cases h; exact hall
  · split at h
    · cases h; exact hall
    · split at h
      · cases h
      · simp only at h
        cases hl : bm.luns[pba / tpl]? with
        | none => simp [hl] at h
        | some lun =>
          simp only [hl] at h
          split at h
          · cases h
          · cases hb : lun.blocks[(pba - tpl * (pba / tpl)) / lun.nr_pages_per_blk]? with
            | none => simp [hb] at h
            | some blk =>
              simp only [hb] at h
              by_cases htype : blk.type = 0
              · simp only [htype, if_true, Option.some.injEq, Prod.mk.injEq] at h
                obtain ⟨_, rfl⟩ := h
                exact bm_all_set P bm _ _ hall (hP _ lun _ blk (hall _ lun hl) hb htype)
              · simp only [htype, if_false, Option.some.injEq, Prod.mk.injEq] at h
                rw [← h.2]; exact hall

theorem hb_block_map_loop_all (P : Nat → nvm_lun → Prop) (hP : used_move_stable P)
    (max_pages tpl : Nat) : ∀ (entries : List Nat) (bm bm1 : bm_hb) (r : Int),
    bm_all P bm → hb_block_map_loop max_pages tpl entries bm = some (r, bm1) →
    bm_all P bm1 := by
  intro entries
  induction entries with
  | nil =>
    intro bm bm1 r hall h
    simp only [hb_block_map_loop, Option.some.injEq, Prod.mk.injEq] at h
    rw [← h.2]; exact hall
  | cons pba rest ih =>
    intro bm bm1 r hall h
    simp only [hb_block_map_loop] at h
    cases he : hb_block_map_entry max_pages tpl bm pba with
    | none => simp [he] at h
    | some res =>
      obtain ⟨r1, bm2⟩ := res
      have hall2 := hb_block_map_entry_all P hP max_pages tpl bm bm2 pba r1 hall he
      cases r1 with
      | some ret =>
        simp only [he, Option.some.injEq, Prod.mk.injEq] at h
        rw [← h.2]; exact hall2
      | none =>
        simp only [he] at h
        exact ih bm2 bm1 r hall2 h

theorem hb_block_map_all (P : Nat → nvm_lun → Prop) (hP : used_move_stable P)
    (slba : Nat) (entries : List Nat) (dev dev1 : nvm_dev) (r : Int)
    (hall : bm_all P dev.bmp) (h : hb_block_map slba entries dev = some (r, dev1)) :
    bm_all P dev1.bmp := by
  unfold hb_block_map at h
  cases hl : dev.bmp.luns[0]? with
  | none => simp [hl] at h
  | some lun0 =>
    simp only [hl] at h
    split at h
    · cases h; exact hall
    · cases hloop : hb_block_map_loop (dev.total_pages * (dev.sector_size >>> 9))
          (lun0.nr_blocks * lun0.nr_pages_per_blk % 4294967296) entries dev.bmp with
      | none => simp [hloop] at h
      | some res =>
        obtain ⟨r1, bm1⟩ := res
        simp only [hloop, Option.some.injEq, Prod.mk.injEq] at h
        rw [← h.2]
        exact hb_block_map_loop_all P hP _ _ entries dev.bmp bm1 r1 hall hloop

theorem dev_get_l2p_tbl_all (P : Nat → nvm_lun → Prop) (hP : used_move_stable P) :
    ∀ (chunks : List (Nat × List Nat)) (status : Int) (dev dev1 : nvm_dev) (r : Int),
    bm_all P dev.bmp → dev_get_l2p_tbl chunks status dev = some (r, dev1) →
    bm_all P dev1.bmp := by
  intro chunks
  induction chunks with
  | nil =>
    intro status dev dev1 r hall h
    simp only [dev_get_l2p_tbl, Option.some.injEq, Prod.mk.injEq] at h
    rw [← h.2]; exact hall
  | cons chunk rest ih =>
    intro status dev dev1 r hall h
    simp only [dev_get_l2p_tbl] at h
    cases hm : hb_block_map chunk.1 chunk.2 dev with
    | none => simp [hm] at h
    | some res =>
      obtain ⟨r1, dev2⟩ := res
      have hall2 := hb_block_map_all P hP _ _ dev dev2 r1 hall hm
      simp only [hm] at h
      split at h
      · simp only [Option.some.injEq, Prod.mk.injEq] at h
        rw [← h.2]; exact hall2
      · exact ih status dev2 dev1 r hall2 h

/-- A property that every LUN has when the LUN loop of `hb_blocks_init` is
done, and that survives taking blocks into use, holds after attach. -/
theorem hb_blocks_init_all (P : Nat → nvm_lun → Prop) (hP : used_move_stable P)
    (ops : nvm_dev_ops)
    (hinit : ∀ (i : Nat) (lun0 lun : nvm_lun), lun_attached ops i lun0 lun → P i lun)
    (dev dev1 dev2 : nvm_dev) (r : Int)
    (h1 : hb_luns_init dev = some (0, dev1)) (h2 : hb_blocks_init ops dev1 = some (r, dev2)) :
    r = 0 ∧ bm_all P dev2.bmp := by
  obtain ⟨st, hst, hlen, hall⟩ := hb_blocks_init_luns ops dev dev1 h1
  have hwf : bm_all P st.1 := by
    intro i lun hi
    have hlt : i < dev1.nr_luns := by
      rw [← hlen]; exact getElem?_some_lt _ _ _ hi
    obtain ⟨lun0, lun1, _, hb, hc⟩ := hall i hlt
    rw [hi] at hb
    cases hb
    exact hinit i lun0 lun hc
  unfold hb_blocks_init at h2
  simp only [hst] at h2
  cases hops : ops.get_l2p_tbl with
  | none =>
    simp only [hops, Option.some.injEq, Prod.mk.injEq] at h2
    rw [← h2.1, ← h2.2]
    exact ⟨rfl, hwf⟩
  | some tbl =>
    simp only [hops] at h2
    cases hd : dev_get_l2p_tbl tbl.1 tbl.2 { dev1 with bmp := st.1 } with
    | none => simp [hd] at h2
    | some res =>
      obtain ⟨r1, dev3⟩ := res
      simp only [hd, Option.some.injEq, Prod.mk.injEq] at h2
      rw [← h2.1, ← h2.2]
      exact ⟨rfl, dev_get_l2p_tbl_all P hP tbl.1 tbl.2 _ dev3 r1 hwf hd⟩

theorem lun_lists_wf_stable : used_move_stable lun_lists_wf := by
  intro i lun b blk hw hb _
  have hx : b < lun.nr_blocks := by rw [← hw.1]; exact getElem?_some_lt _ _ _ hb
  apply lun_lists_wf_of_perm _ lun _ _ hw hx
  · have := lun_all_move_used lun b
    simpa [lun_all, lun_claim] using this
  · simp [lun_claim, list_move_tail_used, list_del]
  · simp [lun_claim, list_move_tail_used, list_del]

/-- After attach every LUN has well-formed lists. -/
theorem hb_blocks_init_wf (ops : nvm_dev_ops) (dev dev1 dev2 : nvm_dev) (r : Int)
    (h1 : hb_luns_init dev = some (0, dev1)) (h2 : hb_blocks_init ops dev1 = some (r, dev2)) :
    r = 0 ∧ bm_lists_wf dev2.bmp :=
  hb_blocks_init_all lun_lists_wf lun_lists_wf_stable ops (lun_attached_wf ops) dev dev1 dev2 r h1 h2

theorem hb_get_blk_wf (i : Nat) (lun : nvm_lun) (flags : Nat) (hwf : lun_lists_wf i lun) :
    lun_lists_wf i (hb_get_blk lun flags).2 := by
  unfold hb_get_blk
  cases hfree : lun.free_list with
  | nil => exact hwf
  | cons block rest =>
    simp only
    split
    · exact hwf
    · have hmem : block ∈ lun_all lun := by
        simp [lun_all, hfree]
      have hx := hwf.2.2.1 block hmem
      apply lun_lists_wf_of_perm _ lun _ _ hwf hx
      · have := lun_all_move_used lun block
        simpa [lun_all] using this
      · simp [list_move_tail_used, list_del]
      · simp [list_move_tail_used, list_del]

theorem hb_put_blk_lun_wf (i : Nat) (lun : nvm_lun) (blk : Nat) (hwf : lun_lists_wf i lun)
    (hblk : blk < lun.blocks.length) : lun_lists_wf i (hb_put_blk_lun lun blk) := by
  unfold hb_put_blk_lun
  apply lun_lists_wf_of_perm _ lun _ _ hwf (by rw [← hwf.1]; exact hblk)
  · have := lun_all_move_free lun blk
    simpa [lun_all] using this
  · simp [list_move_tail_free, list_del]
  · simp [list_move_tail_free, list_del]

theorem hb_reachable_wf (bm0 bm : bm_hb) (hwf : bm_lists_wf bm0) (h : hb_reachable bm0 bm) :
    bm_lists_wf bm := by
  induction h with
  | init => exact hwf
  | get bm lun_id flags _ ih =>
    unfold hb_get_blk_bm
    cases hl : bm.luns[lun_id]? with
    | none => exact ih
    | some lun =>
      simp only
      exact bm_all_set lun_lists_wf bm lun_id _ ih (hb_get_blk_wf lun_id lun flags (ih lun_id lun hl))
  | put bm blk lun _ hl hb ih =>
    unfold hb_put_blk
    simp only [hl]
    exact bm_all_set lun_lists_wf bm blk.1 _ ih (hb_put_blk_lun_wf blk.1 lun blk.2 (ih blk.1 lun hl) hb)

/-- C5, counterexample: after attach of one LUN of two blocks, with no bad
block and no L2P table, LUN 0 has one free block, no used and no bad block, so
the three lengths add up to 1, not to `nr_blocks = 2`, and `nr_free_blocks` is
2, not the length 1 of the free list. -/
theorem hb_attach_counts_counterexample :
    ∃ dev1 dev2 lun, hb_luns_init dev_two_blocks = some (0, dev1) ∧
      hb_blocks_init ops_no_tables dev1 = some (0, dev2) ∧ dev2.bmp.luns[0]? = some lun ∧
      lun.free_list.length + lun.used_list.length + lun.bb_list.length ≠ lun.nr_blocks ∧
      lun.nr_free_blocks ≠ lun.free_list.length := by
  refine ⟨_, _, _, rfl, rfl, rfl, ?_⟩
  decide

/-- C5, amended: in the state produced by attach (for any bad-block table and
any L2P table) and in every state reachable from it by `hb_get_blk` and
`hb_put_blk`, no block of a LUN is on two lists or twice on one, and the
lengths of the free, used and bad lists add up to `nr_blocks`, less one for
LUN 0 while its reserved first block is on no list. -/
theorem hb_attach_list_counts (ops : nvm_dev_ops) (dev dev1 dev2 : nvm_dev) (r : Int) (bm : bm_hb)
    (h1 : hb_luns_init dev = some (0, dev1)) (h2 : hb_blocks_init ops dev1 = some (r, dev2))
    (hr : hb_reachable dev2.bmp bm) (i : Nat) (lun : nvm_lun) (hl : bm.luns[i]? = some lun) :
    (lun.free_list ++ lun.used_list ++ lun.bb_list).Nodup ∧
    lun.free_list.length + lun.used_list.length + lun.bb_list.length +
      (if i = 0 ∧ 0 < lun.nr_blocks ∧ 0 ∉ lun.free_list ++ lun.used_list ++ lun.bb_list then 1 else 0)
      = lun.nr_blocks := by
  have hwf := hb_reachable_wf dev2.bmp bm (hb_blocks_init_wf ops dev dev1 dev2 r h1 h2).2 hr i lun hl
  exact ⟨hwf.2.1, lun_lists_wf_count i lun hwf⟩

theorem first_block_not_free_stable : used_move_stable first_block_not_free := by
  intro i lun b blk h _ _ hi
  have := h hi
  simp only [lun_claim, update_block_free_list, list_move_tail_used, list_del]
  exact fun hm => this (List.mem_of_mem_erase hm)

theorem first_block_not_free_attached (ops : nvm_dev_ops) (i : Nat) (lun0 lun : nvm_lun)
    (h : lun_attached ops i lun0 lun) : first_block_not_free i lun := by
  intro hi hm
  rw [h.1, List.mem_filter] at hm
  simp [hi] at hm

theorem hb_get_blk_first_block (lun : nvm_lun) (flags : Nat) (h : 0 ∉ lun.free_list) :
    0 ∉ (hb_get_blk lun flags).2.free_list ∧ (hb_get_blk lun flags).1 ≠ some 0 := by
  cases hr : (hb_get_blk lun flags).1 with
  | none =>
    rw [hb_get_blk_none_same lun flags hr]
    exact ⟨h, by simp⟩
  | some blk =>
    have hf := hb_get_blk_some_free lun flags blk hr
    constructor
    · intro hm
      apply h
      rw [hf]
      exact List.mem_cons_of_mem _ hm
    · intro he
      cases he
      apply h
      rw [hf]
      exact List.mem_cons_self _ _

theorem hb_trace_first_block (bm0 bm : bm_hb) (got : List (Nat × Nat))
    (h0 : bm_all first_block_not_free bm0) (h : hb_trace bm0 bm got) :
    bm_all first_block_not_free bm ∧ (0, 0) ∉ got := by
  induction h with
  | init => exact ⟨h0, List.not_mem_nil _⟩
  | get bm got lun_id flags _ ih =>
    obtain ⟨ih1, ih2⟩ := ih
    unfold hb_get_blk_bm
    cases hl : bm.luns[lun_id]? with
    | none => exact ⟨ih1, ih2⟩
    | some lun =>
      simp only
      constructor
      · apply bm_all_set first_block_not_free bm lun_id _ ih1
        intro hi
        exact (hb_get_blk_first_block lun flags (ih1 lun_id lun hl hi)).1
      · cases hr : (hb_get_blk lun flags).1 with
        | none => exact ih2
        | some blk =>
          simp only [List.mem_cons, not_or]
          refine ⟨?_, ih2⟩
          intro he
          simp only [Prod.mk.injEq] at he
          obtain ⟨ha, hb⟩ := he
          have := (hb_get_blk_first_block lun flags (ih1 lun_id lun hl ha.symm)).2
          rw [hr, ← hb] at this
          exact this rfl
  | put bm got blk _ hmem ih =>
    obtain ⟨ih1, ih2⟩ := ih
    refine ⟨?_, ih2⟩
    unfold hb_put_blk
    cases hl : bm.luns[blk.1]? with
    | none => exact ih1
    | some lun =>
      simp only
      apply bm_all_set first_block_not_free bm blk.1 _ ih1
      intro hi hm
      have hne : blk.2 ≠ 0 := by
        intro h2
        apply ih2
        have : blk = (0, 0) := Prod.ext hi h2
        rw [← this]
        exact hmem
      simp only [hb_put_blk_lun, list_move_tail_free, list_del, List.mem_append,
        List.mem_singleton] at hm
      rcases hm with hm | hm
      · exact ih1 blk.1 lun hl hi (List.mem_of_mem_erase hm)
      · exact hne hm.symm

/-- C7: the first block of LUN 0 is never on a free list: after attach, for
every bad-block table and every L2P table, and in every state reachable by
`hb_get_blk` and by `hb_put_blk` of blocks that `hb_get_blk` has returned, block
0 is not on the free list of LUN 0, and it is not among the blocks
`hb_get_blk` has returned. -/
theorem hb_first_block_never_free (ops : nvm_dev_ops) (dev dev1 dev2 : nvm_dev) (r : Int)
    (bm : bm_hb) (got : List (Nat × Nat))
    (h1 : hb_luns_init dev = some (0, dev1)) (h2 : hb_blocks_init ops dev1 = some (r, dev2))
    (ht : hb_trace dev2.bmp bm got) :
    (∀ lun, bm.luns[0]? = some lun → 0 ∉ lun.free_list) ∧ (0, 0) ∉ got := by
  have h0 := (hb_blocks_init_all first_block_not_free first_block_not_free_stable ops
    (first_block_not_free_attached ops) dev dev1 dev2 r h1 h2).2
  obtain ⟨ha, hb⟩ := hb_trace_first_block dev2.bmp bm got h0 ht
  exact ⟨fun lun hl => ha 0 lun hl rfl, hb⟩

theorem hb_block_map_loop_zeros_same (mp T : Nat) : ∀ (entries : List Nat) (bm : bm_hb),
    (∀ e, e ∈ entries → e = 0) → ∃ r, hb_block_map_loop mp T entries bm = some (r, bm) := by
  intro entries
  induction entries with
  | nil => intro bm _; exact ⟨0, rfl⟩
  | cons e rest ih =>
    intro bm hz
    have he : e = 0 := hz e (List.mem_cons_self _ _)
    subst he
    by_cases hmp : 0 ≥ mp ∧ 0 ≠ U64_MAX
    · have hstep : hb_block_map_entry mp T bm 0 = some (some (-EINVAL), bm) := by
        unfold hb_block_map_entry
        rw [if_pos hmp]
      exact ⟨-EINVAL, by simp only [hb_block_map_loop, hstep]⟩
    · have hstep : hb_block_map_entry mp T bm 0 = some (none, bm) := by
        unfold hb_block_map_entry
        rw [if_neg hmp, if_pos rfl]
      simp only [hb_block_map_loop, hstep]
      exact ih bm (fun x hx => hz x (List.mem_cons_of_mem _ hx))

theorem dev_get_l2p_tbl_zeros : ∀ (chunks : List (Nat × List Nat)) (status : Int) (dev : nvm_dev),
    dev.bmp.luns ≠ [] → (∀ c, c ∈ chunks → ∀ e, e ∈ c.2 → e = 0) →
    ∃ r, dev_get_l2p_tbl chunks status dev = some (r, dev) := by
  intro chunks
  induction chunks with
  | nil => intro status dev _ _; exact ⟨status, rfl⟩
  | cons c rest ih =>
    intro status dev hne hz
    obtain ⟨lun0, tl, hl⟩ := List.exists_cons_of_ne_nil hne
    have hl0 : dev.bmp.luns[0]? = some lun0 := by rw [hl]; simp
    obtain ⟨r, hr⟩ := hb_block_map_loop_zeros_same (dev.total_pages * (dev.sector_size >>> 9))
      (lun0.nr_blocks * lun0.nr_pages_per_blk % 4294967296) c.2 dev.bmp
      (hz c (List.mem_cons_self _ _))
    have hmap : ∃ r1, hb_block_map c.1 c.2 dev = some (r1, dev) := by
      unfold hb_block_map
      simp only [hl0]
      split
      · exact ⟨_, rfl⟩
      · simp only [hr]
        exact ⟨r, rfl⟩
    obtain ⟨r1, hr1⟩ := hmap
    simp only [dev_get_l2p_tbl, hr1]
    split
    · exact ⟨r1, rfl⟩
    · exact ih status dev hne (fun c1 hc1 => hz c1 (List.mem_cons_of_mem _ hc1))

/-- What the LUN loop of attach leaves is a state from which `hb_block_map`
can classify the blocks: well-formed lists, no block in use, every type zero
and a counter equal to the number of blocks. -/
theorem lun_attached_l2p_start (ops : nvm_dev_ops) (i : Nat) (lun0 lun : nvm_lun)
    (h : lun_attached ops i lun0 lun) :
    lun_lists_wf i lun ∧ lun.used_list = [] ∧ (∀ blk, blk ∈ lun.blocks → blk.type = 0) ∧
      lun.nr_blocks ≤ lun.nr_free_blocks := by
  have hwf := lun_attached_wf ops i lun0 lun h
  obtain ⟨_, hu, _, _, _, _, hnf, _, _, _, hz⟩ := h
  refine ⟨hwf, hu, ?_, by omega⟩
  intro blk hblk
  obtain ⟨j, hj⟩ := List.mem_iff_getElem?.1 hblk
  rw [hz j blk hj]
  rfl

/-- C6: after attach with the bad-block bitmaps the device reports and no L2P
entries (no `get_l2p_tbl`, no chunk, or only entries equal to 0), the bad list of every LUN holds exactly the blocks whose bit is set
and the free list holds exactly the other blocks, the first block of LUN 0
excepted, both in index order, and no block is in use; for LUN 0 with 10
blocks and bits 2 and 5 set, the free list has 7 blocks and the bad list 2. -/
theorem hb_attach_bad_blocks :
    (∀ (ops : nvm_dev_ops) (dev dev1 : nvm_dev), hb_luns_init dev = some (0, dev1) →
      (ops.get_l2p_tbl = none ∨
        ∃ chunks status, ops.get_l2p_tbl = some (chunks, status) ∧
          (chunks = [] ∨ (0 < dev1.nr_luns ∧ ∀ c, c ∈ chunks → ∀ e, e ∈ c.2 → e = 0))) →
      ∃ dev2, hb_blocks_init ops dev1 = some (0, dev2) ∧
        ∀ i, i < dev1.nr_luns → ∃ lun, dev2.bmp.luns[i]? = some lun ∧
          lun.bb_list = (List.range lun.nr_blocks).filter (fun b => bb_bit ops i lun.nr_blocks b) ∧
          lun.free_list = (List.range lun.nr_blocks).filter
            (fun b => !decide (i = 0 ∧ b = 0) && !bb_bit ops i lun.nr_blocks b) ∧
          lun.used_list = []) ∧
    (∃ dev2 lun, hb_register ops_bad_2_5 dev_ten_blocks = some (1, dev2) ∧
      dev2.bmp.luns[0]? = some lun ∧ lun.nr_blocks = 10 ∧
      lun.free_list.length = 7 ∧ lun.bb_list.length = 2) := by
  constructor
  · intro ops dev dev1 h1 hl2p
    obtain ⟨st, hst, hlen, hall⟩ := hb_blocks_init_luns ops dev dev1 h1
    refine ⟨{ dev1 with bmp := st.1 }, ?_, ?_⟩
    · unfold hb_blocks_init
      simp only [hst]
      rcases hl2p with h | ⟨chunks, status, h, hc⟩
      · simp only [h]
      · simp only [h]
        rcases hc with hc | ⟨hn, hz⟩
        · subst hc
          simp only [dev_get_l2p_tbl]
        · have hne : ({ dev1 with bmp := st.1 } : nvm_dev).bmp.luns ≠ [] := by
            intro hnil
            have : st.1.luns.length = 0 := by
              have hnil' : st.1.luns = [] := hnil
              rw [hnil']; rfl
            omega
          obtain ⟨r, hr⟩ := dev_get_l2p_tbl_zeros chunks status { dev1 with bmp := st.1 } hne hz
          simp only [hr]
    · intro i hi
      obtain ⟨lun0, lun, _, hb, hc⟩ := hall i hi
      exact ⟨lun, hb, hc.2.2.1, hc.1, hc.2.1⟩
  · refine ⟨_, _, rfl, rfl, ?_⟩
    decide

theorem hb_block_map_entry_eval (mp T : Nat) (bm : bm_hb) (e : Nat) (lun : nvm_lun) (blk : nvm_block)
    (h1 : e < mp) (h0 : e ≠ 0) (hT : T ≠ 0) (hl : bm.luns[e / T]? = some lun)
    (hp : lun.nr_pages_per_blk ≠ 0)
    (hb : lun.blocks[(e - T * (e / T)) / lun.nr_pages_per_blk]? = some blk) :
    hb_block_map_entry mp T bm e =
      some (none, if blk.type = 0 then
          { bm with luns := bm.luns.set (e / T) (lun_claim lun ((e - T * (e / T)) / lun.nr_pages_per_blk)) }
        else bm) := by
  unfold hb_block_map_entry
  have h1' : ¬ (e ≥ mp ∧ e ≠ U64_MAX) := by
    intro h; omega
  simp only [h1', if_false, h0, hT, hl, hp, hb]
  split <;> rfl

theorem nodup_lt_length (l : List Nat) (n : Nat) (hnd : l.Nodup) (hlt : ∀ b, b ∈ l → b < n) :
    l.length ≤ n := by
  have h := (List.subperm_of_subset hnd (fun b hb => List.mem_range.2 (hlt b hb))).length_le
  simpa using h

theorem l2p_progress_claim (T P i : Nat) (lun0 lun1 : nvm_lun) (seen : List Nat) (e : Nat)
    (blk : nvm_block)
    (hprog : l2p_progress T P i lun0 lun1 seen) (hfree0 : lun0.nr_blocks ≤ lun0.nr_free_blocks)
    (he0 : e ≠ 0) (hei : e / T = i)
    (hb : lun1.blocks[e % T / P]? = some blk) (htype : blk.type = 0) :
    l2p_progress T P i lun0 (lun_claim lun1 (e % T / P)) (seen ++ [e]) := by
  obtain ⟨h1, h2, hwf, htyp, hused, hcnt, hfr, hbb⟩ := hprog
  have hblt : e % T / P < lun1.blocks.length := getElem?_some_lt _ _ _ hb
  have hnotused : e % T / P ∉ lun1.used_list := by
    intro hm
    exact ((htyp _ blk hb).2 hm) htype
  have hnd := hwf.2.1
  unfold lun_all at hnd
  rw [List.append_assoc, List.nodup_append] at hnd
  obtain ⟨hfnd, hub, _⟩ := hnd
  rw [List.nodup_append] at hub
  obtain ⟨hund, hbnd, _⟩ := hub
  have hwf2 : lun_lists_wf i (lun_claim lun1 (e % T / P)) :=
    lun_lists_wf_stable i lun1 _ blk hwf hb htype
  have husedl : (lun_claim lun1 (e % T / P)).used_list = lun1.used_list ++ [e % T / P] := by
    simp [lun_claim, list_move_tail_used, list_del, List.erase_of_not_mem hnotused]
  have hfreel : (lun_claim lun1 (e % T / P)).free_list = lun1.free_list.erase (e % T / P) := by
    simp [lun_claim, list_move_tail_used, list_del]
  have hbbl : (lun_claim lun1 (e % T / P)).bb_list = lun1.bb_list.erase (e % T / P) := by
    simp [lun_claim, list_move_tail_used, list_del]
  refine ⟨by simpa [lun_claim, list_move_tail_used, list_del] using h1,
    by simpa [lun_claim, list_move_tail_used, list_del] using h2, hwf2, ?_, ?_, ?_, ?_, ?_⟩
  · intro j b hj
    rw [husedl]
    have hj' : (update_block (list_move_tail_used lun1 (e % T / P)) (e % T / P)
        (fun x => { x with type := 1 })).blocks[j]? = some b := hj
    obtain ⟨b0, hb0, hcase⟩ := update_block_get _ _ _ _ _ hj'
    have hb0' : lun1.blocks[j]? = some b0 := hb0
    rcases hcase with ⟨hje, rfl⟩ | ⟨hje, rfl⟩
    · subst hje
      simp
    · rw [htyp j b hb0']
      simp [hje]
  · intro b
    rw [husedl, List.mem_append, hused b]
    constructor
    · rintro (⟨x, hx, hx2⟩ | hb2)
      · exact ⟨x, List.mem_append_left _ hx, hx2⟩
      · simp only [List.mem_singleton] at hb2
        exact ⟨e, by simp, he0, hei, hb2.symm⟩
    · rintro ⟨x, hx, hx0, hxi, hxb⟩
      rw [List.mem_append] at hx
      rcases hx with hx | hx
      · exact Or.inl ⟨x, hx, hx0, hxi, hxb⟩
      · simp only [List.mem_singleton] at hx
        subst hx
        right
        simp [hxb]
  · rw [husedl]
    have hlen : (e % T / P :: lun1.used_list).length ≤ lun1.nr_blocks := by
      apply nodup_lt_length
      · exact List.nodup_cons.2 ⟨hnotused, hund⟩
      · intro b hb2
        rcases List.mem_cons.1 hb2 with rfl | hb2
        · rw [← hwf.1]; exact hblt
        · exact hwf.2.2.1 b (by simp [lun_all, hb2])
    simp only [List.length_cons] at hlen
    have hpos : 0 < lun1.nr_free_blocks := by omega
    have hdec : (lun_claim lun1 (e % T / P)).nr_free_blocks + 1 = lun1.nr_free_blocks := by
      simp only [lun_claim, update_block_nr_free_blocks, list_move_tail_used, list_del]
      exact u32_dec_pos _ hpos
    simp only [List.length_append, List.length_singleton]
    omega
  · intro b
    rw [hfreel, husedl, List.Nodup.mem_erase_iff hfnd, hfr b, List.mem_append, List.mem_singleton]
    tauto
  · intro b
    rw [hbbl, husedl, List.Nodup.mem_erase_iff hbnd, hbb b, List.mem_append, List.mem_singleton]
    tauto

theorem l2p_progress_seen (T P i : Nat) (lun0 lun1 : nvm_lun) (seen : List Nat) (e : Nat)
    (hprog : l2p_progress T P i lun0 lun1 seen)
    (he : e = 0 ∨ e / T ≠ i ∨ e % T / P ∈ lun1.used_list) :
    l2p_progress T P i lun0 lun1 (seen ++ [e]) := by
  obtain ⟨h1, h2, hwf, htyp, hused, hcnt, hfr, hbb⟩ := hprog
  refine ⟨h1, h2, hwf, htyp, ?_, hcnt, hfr, hbb⟩
  intro b
  rw [hused b]
  constructor
  · rintro ⟨x, hx, hx2⟩
    exact ⟨x, List.mem_append_left _ hx, hx2⟩
  · rintro ⟨x, hx, hx0, hxi, hxb⟩
    rw [List.mem_append] at hx
    rcases hx with hx | hx
    · exact ⟨x, hx, hx0, hxi, hxb⟩
    · simp only [List.mem_singleton] at hx
      subst hx
      rcases he with h | h | h
      · exact absurd h hx0
      · exact absurd hxi h
      · rw [hxb] at h
        exact (hused b).1 h

theorem l2p_progress_entry (mp T P : Nat) (bm0 bm1 : bm_hb) (seen : List Nat) (e : Nat)
    (hall : l2p_progress_all T P bm0 bm1 seen)
    (hgeom : ∀ (i : Nat) (lun0 : nvm_lun), bm0.luns[i]? = some lun0 →
      lun0.nr_pages_per_blk = P ∧ lun0.nr_blocks * P = T ∧ lun0.nr_blocks ≤ lun0.nr_free_blocks)
    (hP : 0 < P) (hT : 0 < T) (hmp : bm0.luns.length * T ≤ mp) (hmp0 : 0 < mp)
    (he : e = 0 ∨ e < bm0.luns.length * T) :
    ∃ bm2, hb_block_map_entry mp T bm1 e = some (none, bm2) ∧
      l2p_progress_all T P bm0 bm2 (seen ++ [e]) := by
  obtain ⟨hlen, hluns⟩ := hall
  by_cases he0 : e = 0
  · subst he0
    refine ⟨bm1, ?_, hlen, ?_⟩
    · unfold hb_block_map_entry
      have : ¬ (0 ≥ mp ∧ 0 ≠ U64_MAX) := by
        intro h; omega
      simp only [this, if_false, if_true]
    · intro i lun0 hi
      obtain ⟨lun1, hl1, hp1⟩ := hluns i lun0 hi
      exact ⟨lun1, hl1, l2p_progress_seen T P i lun0 lun1 seen 0 hp1 (Or.inl rfl)⟩
  · have helt : e < bm0.luns.length * T := by
      rcases he with h | h
      · exact absurd h he0
      · exact h
    have hi : e / T < bm0.luns.length := by
      apply Nat.div_lt_of_lt_mul
      rw [Nat.mul_comm]
      exact helt
    have hl0 : bm0.luns[e / T]? = some bm0.luns[e / T] := List.getElem?_eq_getElem hi
    obtain ⟨hg1, hg2, hg3⟩ := hgeom _ _ hl0
    obtain ⟨lun1, hl1, hp1⟩ := hluns _ _ hl0
    have hmod : e - T * (e / T) = e % T := (Nat.mod_def e T).symm
    have hppb : lun1.nr_pages_per_blk = P := by rw [hp1.2.1, hg1]
    have hblt : e % T / P < lun1.blocks.length := by
      rw [hp1.2.2.1.1, hp1.1, Nat.div_lt_iff_lt_mul hP, hg2]
      exact Nat.mod_lt _ hT
    have hb : lun1.blocks[e % T / P]? = some lun1.blocks[e % T / P] :=
      List.getElem?_eq_getElem hblt
    have heval := hb_block_map_entry_eval mp T bm1 e lun1 lun1.blocks[e % T / P] (by omega) he0
      (by omega) hl1 (by omega) (by rw [hmod, hppb]; exact hb)
    rw [hmod, hppb] at heval
    rw [heval]
    refine ⟨_, rfl, ?_⟩
    by_cases htype : lun1.blocks[e % T / P].type = 0
    · rw [if_pos htype]
      refine ⟨by simpa using hlen, ?_⟩
      intro j lun0 hj
      by_cases hji : j = e / T
      · subst hji
        rw [hl0] at hj
        cases hj
        refine ⟨_, ?_, l2p_progress_claim T P _ _ lun1 seen e _ hp1 hg3 he0 rfl hb htype⟩
        simp only
        rw [List.getElem?_set_self (by rw [hlen]; exact hi)]
      · obtain ⟨lunj, hlj, hpj⟩ := hluns j lun0 hj
        refine ⟨lunj, ?_, l2p_progress_seen T P j lun0 lunj seen e hpj (Or.inr (Or.inl (Ne.symm hji)))⟩
        simp only
        rw [List.getElem?_set_ne (Ne.symm hji)]
        exact hlj
    · rw [if_neg htype]
      refine ⟨hlen, ?_⟩
      intro j lun0 hj
      obtain ⟨lunj, hlj, hpj⟩ := hluns j lun0 hj
      refine ⟨lunj, hlj, l2p_progress_seen T P j lun0 lunj seen e hpj ?_⟩
      by_cases hji : j = e / T
      · subst hji
        rw [hl1] at hlj
        cases hlj
        exact Or.inr (Or.inr ((hp1.2.2.2.1 _ _ hb).1 htype))
      · exact Or.inr (Or.inl (Ne.symm hji))

theorem hb_block_map_loop_progress (mp T P : Nat) (bm0 : bm_hb)
    (hgeom : ∀ (i : Nat) (lun0 : nvm_lun), bm0.luns[i]? = some lun0 →
      lun0.nr_pages_per_blk = P ∧ lun0.nr_blocks * P = T ∧ lun0.nr_blocks ≤ lun0.nr_free_blocks)
    (hP : 0 < P) (hT : 0 < T) (hmp : bm0.luns.length * T ≤ mp) (hmp0 : 0 < mp) :
    ∀ (rest seen : List Nat) (bm1 : bm_hb), l2p_progress_all T P bm0 bm1 seen →
      (∀ e, e ∈ rest → e = 0 ∨ e < bm0.luns.length * T) →
      ∃ bm2, hb_block_map_loop mp T rest bm1 = some (0, bm2) ∧
        l2p_progress_all T P bm0 bm2 (seen ++ rest) := by
  intro rest
  induction rest with
  | nil =>
    intro seen bm1 hall _
    exact ⟨bm1, rfl, by simpa using hall⟩
  | cons e rest ih =>
    intro seen bm1 hall hvalid
    obtain ⟨bm2, hstep, hall2⟩ := l2p_progress_entry mp T P bm0 bm1 seen e hall hgeom hP hT hmp hmp0
      (hvalid e (List.mem_cons_self _ _))
    obtain ⟨bm3, hloop, hall3⟩ := ih (seen ++ [e]) bm2 hall2
      (fun x hx => hvalid x (List.mem_cons_of_mem _ hx))
    refine ⟨bm3, ?_, ?_⟩
    · simp only [hb_block_map_loop, hstep, hloop]
    · simpa using hall3

theorem hb_block_map_loop_zeros (mp T : Nat) (hmp0 : 0 < mp) : ∀ (entries : List Nat) (bm : bm_hb),
    (∀ e, e ∈ entries → e = 0) → hb_block_map_loop mp T entries bm = some (0, bm) := by
  intro entries
  induction entries with
  | nil => intro bm _; rfl
  | cons e rest ih =>
    intro bm hz
    have he : e = 0 := hz e (List.mem_cons_self _ _)
    subst he
    have hstep : hb_block_map_entry mp T bm 0 = some (none, bm) := by
      unfold hb_block_map_entry
      have : ¬ (0 ≥ mp ∧ 0 ≠ U64_MAX) := by
        intro h; omega
      simp only [this, if_false, if_true]
    simp only [hb_block_map_loop, hstep]
    exact ih bm (fun x hx => hz x (List.mem_cons_of_mem _ hx))

theorem l2p_progress_start (T P i : Nat) (lun : nvm_lun) (hwf : lun_lists_wf i lun)
    (hused : lun.used_list = []) (htype : ∀ blk, blk ∈ lun.blocks → blk.type = 0) :
    l2p_progress T P i lun lun [] := by
  refine ⟨rfl, rfl, hwf, ?_, ?_, ?_, ?_, ?_⟩
  · intro j blk hj
    rw [hused]
    have := htype blk (List.getElem?_mem hj)
    simp [this]
  · intro b
    simp [hused]
  · simp [hused]
  · intro b
    simp [hused]
  · intro b
    simp [hused]

/-- C8, counterexample: the entry 1 lies in the first block of LUN 0, which
attach keeps off the free list; `hb_block_map` puts that block on the used
list although it was not taken from the free list. -/
theorem hb_block_map_reserved_counterexample :
    ∃ dev1 lun lun1, hb_block_map 0 [1, 0, 0, 0] dev_two_blocks_ready = some (0, dev1) ∧
      dev_two_blocks_ready.bmp.luns[0]? = some lun ∧ dev1.bmp.luns[0]? = some lun1 ∧
      1 < dev_two_blocks_ready.total_pages ∧
      ¬ (0 ∈ lun1.used_list → 0 ∈ lun.free_list) := by
  refine ⟨_, _, _, rfl, rfl, rfl, ?_⟩
  decide

theorem hb_block_map_entry_ret (mp T : Nat) (bm bm1 : bm_hb) (pba : Nat) (ret : Int)
    (h : hb_block_map_entry mp T bm pba = some (some ret, bm1)) : ret = -EINVAL := by
  unfold hb_block_map_entry at h
  split at h
  · simp only [Option.some.injEq, Prod.mk.injEq] at h
    exact h.1.symm
  · split at h
    · simp at h
    · split at h
      · cases h
      · simp only at h
        split at h
        · cases h
        · split at h
          · cases h
          · split at h
            · cases h
            · split at h <;> simp at h

theorem hb_block_map_loop_append (mp T : Nat) : ∀ (pre rest : List Nat) (bm bm1 : bm_hb),
    hb_block_map_loop mp T pre bm = some (0, bm1) →
    hb_block_map_loop mp T (pre ++ rest) bm = hb_block_map_loop mp T rest bm1 := by
  intro pre
  induction pre with
  | nil =>
    intro rest bm bm1 h
    simp only [hb_block_map_loop, Option.some.injEq, Prod.mk.injEq, true_and] at h
    subst h
    rfl
  | cons e pre ih =>
    intro rest bm bm1 h
    simp only [hb_block_map_loop, List.cons_append] at h ⊢
    cases he : hb_block_map_entry mp T bm e with
    | none => simp [he] at h
    | some res =>
      obtain ⟨r, bm2⟩ := res
      cases r with
      | some ret =>
        simp only [he, Option.some.injEq, Prod.mk.injEq] at h
        have := hb_block_map_entry_ret mp T bm bm2 e ret he
        rw [h.1] at this
        simp [EINVAL] at this
      | none =>
        simp only [he] at h ⊢
        exact ih rest bm2 bm1 h

/-- C9, counterexample: the table of the device holds the entry 8, which is not
below the total page count 8 and is not `U64_MAX`, and `hb_register` reports a
successful attach. -/
theorem hb_l2p_out_of_bounds_counterexample :
    ∃ dev2, hb_register ops_l2p_out_of_bounds dev_four_blocks = some (1, dev2) ∧
      ops_l2p_out_of_bounds.get_l2p_tbl = some ([(0, [0, 0, 8, 0])], 0) ∧
      dev2.total_pages ≤ 8 ∧ 8 ≠ U64_MAX := by
  refine ⟨_, rfl, rfl, ?_⟩
  decide

/-- C10, the code at the failing input: the table maps page 2 and then holds
the out-of-range entry 8.  `get_l2p_tbl` returns `-EINVAL`, attach succeeds,
and block 1 stays on the used list with `nr_free_blocks` decremented to 3. -/
theorem hb_l2p_partial_failure :
    ∃ dev2 lun,
      dev_get_l2p_tbl [(0, [0, 0, 2, 8])] 0 dev_four_blocks_ready = some (-EINVAL, dev2) ∧
      hb_register ops_l2p_partial dev_four_blocks = some (1, dev2) ∧
      dev2.bmp.luns[0]? = some lun ∧ lun.used_list = [1] ∧ lun.free_list = [2, 3] ∧
      lun.nr_blocks = 4 ∧ lun.nr_free_blocks = 3 := by
  refine ⟨_, _, rfl, rfl, rfl, ?_⟩
  decide

/-! ## The free counter in reachable states -/

theorem lun_wf_lists_nodup (i : Nat) (lun : nvm_lun) (hwf : lun_lists_wf i lun) :
    lun.free_list.Nodup ∧ lun.used_list.Nodup ∧ lun.bb_list.Nodup ∧
      (∀ b, b ∈ lun.free_list → b ∉ lun.used_list) ∧
      (∀ b, b ∈ lun.free_list → b ∉ lun.bb_list) ∧
      (∀ b, b ∈ lun.used_list → b ∉ lun.bb_list) := by
  have hnd := hwf.2.1
  unfold lun_all at hnd
  rw [List.append_assoc, List.nodup_append] at hnd
  obtain ⟨hf, hub, hd1⟩ := hnd
  rw [List.nodup_append] at hub
  obtain ⟨hu, hb, hd2⟩ := hub
  exact ⟨hf, hu, hb, fun b h1 h2 => hd1 h1 (List.mem_append_left _ h2),
    fun b h1 h2 => hd1 h1 (List.mem_append_right _ h2), fun b h1 h2 => hd2 h1 h2⟩

/-- With well-formed lists, a block of the LUN that is not in use leaves room
in the used list. -/
theorem used_length_lt (i : Nat) (lun : nvm_lun) (b : Nat) (hwf : lun_lists_wf i lun)
    (hb : b < lun.nr_blocks) (hnot : b ∉ lun.used_list) : lun.used_list.length < lun.nr_blocks := by
  have hlen : (b :: lun.used_list).length ≤ lun.nr_blocks := by
    apply nodup_lt_length
    · exact List.nodup_cons.2 ⟨hnot, (lun_wf_lists_nodup i lun hwf).2.1⟩
    · intro x hx
      rcases List.mem_cons.1 hx with rfl | hx
      · exact hb
      · exact hwf.2.2.1 x (by simp [lun_all, hx])
  simpa using hlen

theorem lun_attach_inv_stable : used_move_stable lun_attach_inv := by
  intro i lun b blk hinv hb htype
  obtain ⟨⟨hwf, hcnt, hnb⟩, htyp⟩ := hinv
  have hblt : b < lun.nr_blocks := by rw [← hwf.1]; exact getElem?_some_lt _ _ _ hb
  have hnotused : b ∉ lun.used_list := fun hm => ((htyp b blk hb).2 hm) htype
  have hlt := used_length_lt i lun b hwf hblt hnotused
  have husedl : (lun_claim lun b).used_list = lun.used_list ++ [b] := by
    simp [lun_claim, list_move_tail_used, list_del, List.erase_of_not_mem hnotused]
  have hdec : (lun_claim lun b).nr_free_blocks + 1 = lun.nr_free_blocks := by
    simp only [lun_claim, update_block_nr_free_blocks, list_move_tail_used, list_del]
    exact u32_dec_pos _ (by omega)
  refine ⟨⟨lun_lists_wf_stable i lun b blk hwf hb htype, ?_, ?_⟩, ?_⟩
  · rw [husedl]
    simp only [List.length_append, List.length_singleton]
    have : (lun_claim lun b).nr_blocks = lun.nr_blocks := by
      simp [lun_claim, list_move_tail_used, list_del]
    omega
  · have : (lun_claim lun b).nr_blocks = lun.nr_blocks := by
      simp [lun_claim, list_move_tail_used, list_del]
    omega
  · intro j x hj
    rw [husedl]
    have hj' : (update_block (list_move_tail_used lun b) b
        (fun x => { x with type := 1 })).blocks[j]? = some x := hj
    obtain ⟨b0, hb0, hcase⟩ := update_block_get _ _ _ _ _ hj'
    have hb0' : lun.blocks[j]? = some b0 := hb0
    rcases hcase with ⟨hje, rfl⟩ | ⟨hje, rfl⟩
    · subst hje
      simp
    · rw [htyp j x hb0']
      simp [hje]

theorem lun_attach_inv_attached (ops : nvm_dev_ops) (i : Nat) (lun0 lun : nvm_lun)
    (h : lun_attached ops i lun0 lun) : lun_attach_inv i lun := by
  have hwf := lun_attached_wf ops i lun0 lun h
  obtain ⟨_, hu, _, _, _, _, hnf, _, hnb, _, hz⟩ := h
  refine ⟨⟨hwf, by rw [hnf, hu]; rfl, hnb⟩, ?_⟩
  intro j blk hj
  rw [hu, hz j blk hj]
  simp [nvm_block_zero]

theorem hb_get_blk_counter_ok (i : Nat) (lun : nvm_lun) (flags : Nat) (h : lun_counter_ok i lun) :
    lun_counter_ok i (hb_get_blk lun flags).2 := by
  obtain ⟨hwf, hcnt, hnb⟩ := h
  refine ⟨hb_get_blk_wf i lun flags hwf, ?_⟩
  unfold hb_get_blk
  cases hfree : lun.free_list with
  | nil => exact ⟨hcnt, hnb⟩
  | cons block rest =>
    simp only
    split
    · exact ⟨hcnt, hnb⟩
    · have hmem : block ∈ lun.free_list := by rw [hfree]; exact List.mem_cons_self _ _
      have hnotused : block ∉ lun.used_list := (lun_wf_lists_nodup i lun hwf).2.2.2.1 block hmem
      have hblt : block < lun.nr_blocks := hwf.2.2.1 block (by simp [lun_all, hmem])
      have hlt := used_length_lt i lun block hwf hblt hnotused
      simp only [update_block_nr_free_blocks, update_block_used_list, update_block_nr_blocks,
        list_move_tail_used, list_del, List.erase_of_not_mem hnotused, List.length_append,
        List.length_singleton]
      have := u32_dec_pos lun.nr_free_blocks (by omega)
      exact ⟨by omega, hnb⟩

theorem hb_put_blk_lun_counter_ok (i : Nat) (lun : nvm_lun) (blk : Nat) (h : lun_counter_ok i lun)
    (hused : blk ∈ lun.used_list) : lun_counter_ok i (hb_put_blk_lun lun blk) := by
  obtain ⟨hwf, hcnt, hnb⟩ := h
  have hblt : blk < lun.blocks.length := by
    rw [hwf.1]; exact hwf.2.2.1 blk (by simp [lun_all, hused])
  refine ⟨hb_put_blk_lun_wf i lun blk hwf hblt, ?_, ?_⟩
  · have hpos : 0 < lun.used_list.length := List.length_pos_of_mem hused
    have hne : lun.nr_free_blocks ≠ UINT_MAX := by
      unfold UINT_MAX; omega
    simp only [hb_put_blk_lun, list_move_tail_free, list_del, u32_inc_lt _ hne,
      List.length_erase_of_mem hused]
    omega
  · simpa [hb_put_blk_lun, list_move_tail_free, list_del] using hnb

/-- In every state reachable from attach by `hb_get_blk` and by `hb_put_blk` of
used blocks, the counter of each LUN is `nr_blocks` less the length of the
used list. -/
theorem hb_reachable_used_counter_ok (ops : nvm_dev_ops) (dev dev1 dev2 : nvm_dev) (r : Int)
    (bm : bm_hb) (h1 : hb_luns_init dev = some (0, dev1))
    (h2 : hb_blocks_init ops dev1 = some (r, dev2)) (hr : hb_reachable_used dev2.bmp bm) :
    bm_all lun_counter_ok bm := by
  have h0 : bm_all lun_counter_ok dev2.bmp := fun i lun hl =>
    ((hb_blocks_init_all lun_attach_inv lun_attach_inv_stable ops (lun_attach_inv_attached ops)
      dev dev1 dev2 r h1 h2).2 i lun hl).1
  induction hr with
  | init => exact h0
  | get bm lun_id flags _ ih =>
    unfold hb_get_blk_bm
    cases hl : bm.luns[lun_id]? with
    | none => exact ih
    | some lun =>
      simp only
      exact bm_all_set lun_counter_ok bm lun_id _ ih
        (hb_get_blk_counter_ok lun_id lun flags (ih lun_id lun hl))
  | put bm blk lun _ hl hb ih =>
    unfold hb_put_blk
    simp only [hl]
    exact bm_all_set lun_counter_ok bm blk.1 _ ih
      (hb_put_blk_lun_counter_ok blk.1 lun blk.2 (ih blk.1 lun hl) hb)

/-- In such a state a LUN with a free block has a positive counter, at least
the length of its free list, and a LUN with a used block has a counter below
`UINT_MAX`. -/
theorem lun_counter_ok_bounds (i : Nat) (lun : nvm_lun) (h : lun_counter_ok i lun) :
    lun.free_list.length ≤ lun.nr_free_blocks ∧
      (lun.free_list ≠ [] → 0 < lun.nr_free_blocks) ∧
      (lun.used_list ≠ [] → lun.nr_free_blocks ≠ UINT_MAX) := by
  obtain ⟨hwf, hcnt, hnb⟩ := h
  have hsum := lun_lists_wf_count i lun hwf
  have hle : lun.free_list.length ≤ lun.nr_free_blocks := by omega
  refine ⟨hle, ?_, ?_⟩
  · intro hne
    have := List.length_pos.2 hne
    omega
  · intro hne
    have := List.length_pos.2 hne
    unfold UINT_MAX
    omega

/-! ## RRPC: blocks and map updates -/

theorem list_set_same {α : Type} (l : List α) (i : Nat) (a : α) (h : l[i]? = some a) :
    l.set i a = l := by
  apply List.ext_getElem?
  intro j
  rw [List.getElem?_set]
  by_cases hij : i = j
  · subst hij
    have hlt := getElem?_some_lt l i a h
    simp [hlt, h]
  · simp [hij]

theorem nvm_block_get_set (dev : nvm_dev) (p q : Nat × Nat) (f : nvm_block → nvm_block) :
    nvm_block_get (nvm_block_set dev p f) q =
      (nvm_block_get dev q).map
        (fun x => (if q.1 = p.1 then update_block x.1 p.2 f else x.1, if q = p then f x.2 else x.2)) := by
  unfold nvm_block_get nvm_block_set
  cases hp : dev.bmp.luns[p.1]? with
  | none =>
    simp only
    have hne : q.1 ≠ p.1 ∨ dev.bmp.luns[q.1]? = none := by
      by_cases h : q.1 = p.1
      · right; rw [h]; exact hp
      · left; exact h
    rcases hne with hne | hnone
    · have hqp : q ≠ p := fun h => hne (by rw [h])
      cases hq : dev.bmp.luns[q.1]? with
      | none => simp
      | some lq =>
        cases hb : lq.blocks[q.2]? with
        | none => simp [hb]
        | some b => simp [hb, hne, hqp]
    · simp [hnone]
  | some lp =>
    have hplt := getElem?_some_lt _ _ _ hp
    simp only
    by_cases h1 : q.1 = p.1
    · rw [h1, List.getElem?_set_self hplt, hp]
      simp only
      by_cases h2 : q.2 = p.2
      · have hqp : q = p := Prod.ext h1 h2
        rw [h2]
        cases hb : lp.blocks[p.2]? with
        | none =>
          have : (update_block lp p.2 f).blocks[p.2]? = none := by
            unfold update_block; rw [hb]; exact hb
          rw [this]; rfl
        | some b =>
          rw [update_block_get_self lp p.2 f b hb]
          simp [hqp]
      · have hqp : q ≠ p := fun h => h2 (by rw [h])
        rw [update_block_get_other lp p.2 q.2 f h2]
        cases hb : lp.blocks[q.2]? with
        | none => rfl
        | some b => simp [hqp]
    · have hqp : q ≠ p := fun h => h1 (by rw [h])
      rw [List.getElem?_set_ne (Ne.symm h1)]
      cases hq : dev.bmp.luns[q.1]? with
      | none => rfl
      | some lq =>
        cases hb : lq.blocks[q.2]? with
        | none => simp [hb]
        | some b => simp [hb, h1, hqp]

theorem nvm_block_get_set_self (dev : nvm_dev) (p : Nat × Nat) (f : nvm_block → nvm_block)
    (lun : nvm_lun) (b : nvm_block) (h : nvm_block_get dev p = some (lun, b)) :
    nvm_block_get (nvm_block_set dev p f) p = some (update_block lun p.2 f, f b) := by
  rw [nvm_block_get_set, h]
  simp

theorem nvm_block_get_set_ne (dev : nvm_dev) (p q : Nat × Nat) (f : nvm_block → nvm_block)
    (hne : q ≠ p) :
    (nvm_block_get (nvm_block_set dev p f) q).map Prod.snd = (nvm_block_get dev q).map Prod.snd := by
  rw [nvm_block_get_set]
  cases nvm_block_get dev q with
  | none => rfl
  | some x => simp [hne]

theorem testBit_set_bit (bits k i : Nat) :
    (bits ||| (1 <<< k)).testBit i = (bits.testBit i || decide (k = i)) := by
  rw [Nat.testBit_or, Nat.one_shiftLeft, Nat.testBit_two_pow]

theorem page_invalidate_mapped (r : rrpc) (P1 : Nat) (B1 : Nat × Nat) (lun1 : nvm_lun)
    (blk1 : nvm_block) (hP1 : P1 ≠ ADDR_EMPTY) (hB1 : nvm_block_get r.dev B1 = some (lun1, blk1))
    (hppb : lun1.nr_pages_per_blk ≠ 0) (hidx : u64_sub P1 r.poffset < r.rev_trans_map.length) :
    __nvm_page_invalidate r { addr := P1, block := some B1 } =
      some { r with dev := nvm_block_set r.dev B1 (block_invalidate (P1 % lun1.nr_pages_per_blk)),
                    rev_trans_map := r.rev_trans_map.set (u64_sub P1 r.poffset) { addr := ADDR_EMPTY } } := by
  unfold __nvm_page_invalidate invalidate_block_page
  simp [hP1, hB1, hppb, hidx]

theorem nvm_update_map_mapped (r : rrpc) (L P1 P2 is_gc : Nat) (B1 : Nat × Nat)
    (p_block : Option (Nat × Nat)) (lun1 : nvm_lun) (blk1 : nvm_block)
    (hL : L < r.nr_pages)
    (hmap : r.trans_map[L]? = some { addr := P1, block := some B1 })
    (hP1 : P1 ≠ ADDR_EMPTY) (hB1 : nvm_block_get r.dev B1 = some (lun1, blk1))
    (hppb : lun1.nr_pages_per_blk ≠ 0)
    (hidx1 : u64_sub P1 r.poffset < r.rev_trans_map.length)
    (hidx2 : u64_sub P2 r.poffset < r.rev_trans_map.length) :
    nvm_update_map r L p_block P2 is_gc =
      some (L,
        { r with dev := nvm_block_set r.dev B1 (block_invalidate (P1 % lun1.nr_pages_per_blk)),
                 trans_map := r.trans_map.set L { addr := P2, block := p_block },
                 rev_trans_map := (r.rev_trans_map.set (u64_sub P1 r.poffset) { addr := ADDR_EMPTY }).set
                   (u64_sub P2 r.poffset) { addr := L } }) := by
  unfold nvm_update_map
  have hnl : ¬ L ≥ r.nr_pages := by omega
  rw [if_neg hnl, hmap]
  simp only [ne_eq, reduceCtorEq, not_false_eq_true, if_true]
  rw [page_invalidate_mapped r P1 B1 lun1 blk1 hP1 hB1 hppb hidx1]
  simp [hidx2]

theorem rrpc_lock_laddr_frame (r r1 : rrpc) (laddr pages ret : Nat) (inf inf1 : rrpc_inflight_rq)
    (h : rrpc_lock_laddr r laddr pages inf = some (ret, r1, inf1)) :
    ∃ m, r1 = { r with inflight_map := m } := by
  unfold rrpc_lock_laddr at h
  cases hp : r.inflight_map[laddr % NVM_INFLIGHT_PARTITIONS]? with
  | none => rw [hp] at h; cases h
  | some reqs =>
    rw [hp] at h
    simp only at h
    split at h
    · simp only [Option.some.injEq, Prod.mk.injEq] at h
      exact ⟨r.inflight_map, by rw [← h.2.1]⟩
    · simp only [Option.some.injEq, Prod.mk.injEq] at h
      exact ⟨_, h.2.1.symm⟩

theorem rrpc_lock_rq_frame (r r1 : rrpc) (b : bio) (ret : Nat) (rqd rqd1 : nvm_rq)
    (h : rrpc_lock_rq r b rqd = some (ret, r1, rqd1)) :
    ∃ m, r1 = { r with inflight_map := m } := by
  unfold rrpc_lock_rq at h
  cases hl : rrpc_lock_laddr r (nvm_get_laddr b) (nvm_get_pages b) rqd.inflight with
  | none => rw [hl] at h; cases h
  | some x =>
    obtain ⟨ret0, r0, inf0⟩ := x
    rw [hl] at h
    simp only [Option.some.injEq, Prod.mk.injEq] at h
    obtain ⟨m, hm⟩ := rrpc_lock_laddr_frame r r0 _ _ ret0 _ inf0 hl
    exact ⟨m, by rw [← h.2.1, hm]⟩

theorem rrpc_admit_frame (r r3 : rrpc) (b : bio) (rqd rqd3 : nvm_rq) (flags ret : Nat)
    (h : (if flags &&& NVM_IOTYPE_GC = 0 then rrpc_lock_rq r b rqd else some (0, r, rqd)) =
      some (ret, r3, rqd3)) :
    ∃ m, r3 = { r with inflight_map := m } := by
  split at h
  · exact rrpc_lock_rq_frame r r3 b ret rqd rqd3 h
  · simp only [Option.some.injEq, Prod.mk.injEq] at h
    exact ⟨r.inflight_map, by rw [← h.2.1]⟩

theorem rrpc_read_rq_mapped (r r3 : rrpc) (b : bio) (rqd rqd3 : nvm_rq) (flags P : Nat)
    (B : Nat × Nat)
    (hadm : (if flags &&& NVM_IOTYPE_GC = 0 then rrpc_lock_rq r b rqd else some (0, r, rqd)) =
      some (0, r3, rqd3))
    (hL : nvm_get_laddr b < r.nr_pages)
    (hmap : r.trans_map[nvm_get_laddr b]? = some { addr := P, block := some B }) :
    rrpc_read_rq r b rqd flags =
      some (NVM_IO_OK, r3,
        { rqd3 with phys_sector := nvm_get_sector P, addr := some (nvm_get_laddr b) }) := by
  obtain ⟨m, hm⟩ := rrpc_admit_frame r r3 b rqd rqd3 flags 0 hadm
  unfold rrpc_read_rq
  simp only [hadm]
  have h1 : r3.nr_pages = r.nr_pages := by rw [hm]
  have h2 : r3.trans_map = r.trans_map := by rw [hm]
  simp [h1, h2, hL, hmap]

/-! ## RRPC: the effect of `nvm_update_map` -/

/-- C12: for every logical page `L < nr_pages` that is mapped to a physical
page `P1` in block `B1`, `nvm_update_map (L, B2, P2)` returns the entry of `L`
in a state that differs from the one before only as follows: bit
`P1 mod nr_pages_per_blk` of `B1.invalid_pages` is set and
`B1.nr_invalid_pages` is one larger, `rev_trans_map[P1 - poffset]` is `EMPTY`,
`trans_map[L]` is `(P2, B2)` and `rev_trans_map[P2 - poffset]` is `L`; no
other block and no other map entry changes, and a read of `L` that is
admitted resolves to `P2`.  With the state after a first write of `L` to
`(P1, B1)` this is the effect of the second write. -/
theorem nvm_update_map_remaps (r : rrpc) (L P1 P2 is_gc : Nat) (B1 B2 : Nat × Nat)
    (lun1 : nvm_lun) (blk1 : nvm_block)
    (hL : L < r.nr_pages)
    (hmap : r.trans_map[L]? = some { addr := P1, block := some B1 })
    (hP1 : P1 ≠ ADDR_EMPTY) (hB1 : nvm_block_get r.dev B1 = some (lun1, blk1))
    (hppb : lun1.nr_pages_per_blk ≠ 0) (hcnt : blk1.nr_invalid_pages ≠ UINT_MAX)
    (hidx1 : u64_sub P1 r.poffset < r.rev_trans_map.length)
    (hidx2 : u64_sub P2 r.poffset < r.rev_trans_map.length) :
    ∃ r1 lun2,
      nvm_update_map r L (some B2) P2 is_gc = some (L, r1) ∧
      r1 = { r with dev := r1.dev, trans_map := r1.trans_map, rev_trans_map := r1.rev_trans_map } ∧
      nvm_block_get r1.dev B1 =
        some (lun2, { blk1 with
          invalid_pages := blk1.invalid_pages ||| (1 <<< (P1 % lun1.nr_pages_per_blk)),
          nr_invalid_pages := blk1.nr_invalid_pages + 1 }) ∧
      (blk1.invalid_pages ||| (1 <<< (P1 % lun1.nr_pages_per_blk))).testBit
        (P1 % lun1.nr_pages_per_blk) = true ∧
      (∀ q, q ≠ B1 → (nvm_block_get r1.dev q).map Prod.snd = (nvm_block_get r.dev q).map Prod.snd) ∧
      r1.trans_map[L]? = some { addr := P2, block := some B2 } ∧
      (∀ L', L' ≠ L → r1.trans_map[L']? = r.trans_map[L']?) ∧
      r1.rev_trans_map[u64_sub P2 r.poffset]? = some { addr := L } ∧
      (u64_sub P1 r.poffset ≠ u64_sub P2 r.poffset →
        r1.rev_trans_map[u64_sub P1 r.poffset]? = some { addr := ADDR_EMPTY }) ∧
      (∀ P, P ≠ u64_sub P1 r.poffset → P ≠ u64_sub P2 r.poffset →
        r1.rev_trans_map[P]? = r.rev_trans_map[P]?) ∧
      (∀ (b : bio) (rqd rqd3 : nvm_rq) (flags : Nat) (r3 : rrpc), nvm_get_laddr b = L →
        (if flags &&& NVM_IOTYPE_GC = 0 then rrpc_lock_rq r1 b rqd else some (0, r1, rqd)) =
          some (0, r3, rqd3) →
        rrpc_read_rq r1 b rqd flags =
          some (NVM_IO_OK, r3, { rqd3 with phys_sector := nvm_get_sector P2, addr := some L })) := by
  have hLlen : L < r.trans_map.length := getElem?_some_lt _ _ _ hmap
  refine ⟨_, update_block lun1 B1.2 (block_invalidate (P1 % lun1.nr_pages_per_blk)),
    nvm_update_map_mapped r L P1 P2 is_gc B1 (some B2) lun1 blk1 hL hmap hP1 hB1 hppb hidx1 hidx2,
    rfl, ?_, ?_, ?_, ?_, ?_, ?_, ?_, ?_, ?_⟩
  · simp only
    rw [nvm_block_get_set_self r.dev B1 _ lun1 blk1 hB1]
    simp [block_invalidate, u32_inc_lt _ hcnt]
  · rw [testBit_set_bit]; simp
  · intro q hq
    exact nvm_block_get_set_ne r.dev B1 q _ hq
  · simp only
    exact List.getElem?_set_self hLlen
  · intro L' hne
    simp only
    exact List.getElem?_set_ne (Ne.symm hne)
  · simp only
    apply List.getElem?_set_self
    rw [List.length_set]
    exact hidx2
  · intro hne
    simp only
    rw [List.getElem?_set_ne (Ne.symm hne)]
    exact List.getElem?_set_self hidx1
  · intro P h1 h2
    simp only
    rw [List.getElem?_set_ne (Ne.symm h2), List.getElem?_set_ne (Ne.symm h1)]
  · intro b rqd rqd3 flags r3 hb hadm
    have := rrpc_read_rq_mapped _ r3 b rqd rqd3 flags P2 B2 hadm (by rw [hb]; exact hL)
      (by rw [hb]; simp only; exact List.getElem?_set_self hLlen)
    rw [this, hb]

/-! ## RRPC: discards -/

theorem rrpc_invalidated_refl (r : rrpc) : rrpc_invalidated r r :=
  ⟨rfl, rfl, fun _ => Or.inl rfl, fun _ lun blk h => ⟨lun, blk, h, rfl, fun _ hi => hi⟩⟩

theorem rrpc_invalidated_trans (r r1 r2 : rrpc) (h1 : rrpc_invalidated r r1)
    (h2 : rrpc_invalidated r1 r2) : rrpc_invalidated r r2 := by
  obtain ⟨e1, l1, v1, b1⟩ := h1
  obtain ⟨e2, l2, v2, b2⟩ := h2
  refine ⟨?_, by rw [l2, l1], ?_, ?_⟩
  · rw [e2]
    simp only
    rw [e1]
  · intro P
    rcases v2 P with h | h
    · rcases v1 P with h' | h'
      · left; rw [h, h']
      · right; rw [h, h']
    · right; exact h
  · intro q lun blk hq
    obtain ⟨lun1, blk1, hq1, hp1, hm1⟩ := b1 q lun blk hq
    obtain ⟨lun2, blk2, hq2, hp2, hm2⟩ := b2 q lun1 blk1 hq1
    exact ⟨lun2, blk2, hq2, by rw [hp2, hp1], fun i hi => hm2 i (hm1 i hi)⟩

theorem trans_entry_ok_invalidated (r r1 : rrpc) (e : nvm_addr) (h : rrpc_invalidated r r1)
    (he : trans_entry_ok r e) : trans_entry_ok r1 e := by
  obtain ⟨e1, l1, _, b1⟩ := h
  have hpo : r1.poffset = r.poffset := by rw [e1]
  refine ⟨?_, ?_⟩
  · intro hne
    rw [hpo, l1]
    exact he.1 hne
  · intro B hB
    obtain ⟨lun, blk, hg, hp⟩ := he.2 B hB
    obtain ⟨lun1, blk1, hg1, hp1, _⟩ := b1 B lun blk hg
    exact ⟨lun1, blk1, hg1, by rw [hp1]; exact hp⟩

theorem nvm_block_set_invalidated (r : rrpc) (B : Nat × Nat) (k : Nat) :
    ∀ (q : Nat × Nat) (lun : nvm_lun) (blk : nvm_block), nvm_block_get r.dev q = some (lun, blk) →
      ∃ (lun1 : nvm_lun) (blk1 : nvm_block),
        nvm_block_get (nvm_block_set r.dev B (block_invalidate k)) q = some (lun1, blk1) ∧
        lun1.nr_pages_per_blk = lun.nr_pages_per_blk ∧
        ∀ i : Nat, blk.invalid_pages.testBit i = true → blk1.invalid_pages.testBit i = true := by
  intro q lun blk hq
  rw [nvm_block_get_set, hq]
  refine ⟨_, _, rfl, ?_, ?_⟩
  · by_cases h : q.1 = B.1 <;> simp [h]
  · intro i hi
    by_cases h : q = B
    · simp only [h, if_true, block_invalidate]
      rw [testBit_set_bit, hi]
      rfl
    · simp only [h, if_false]
      exact hi

theorem page_invalidate_ok (r : rrpc) (gp : nvm_addr) (hok : trans_entry_ok r gp) :
    ∃ r1, __nvm_page_invalidate r gp = some r1 ∧ r1.trans_map = r.trans_map ∧
      rrpc_invalidated r r1 ∧
      (gp.addr ≠ ADDR_EMPTY →
        r1.rev_trans_map[u64_sub gp.addr r.poffset]? = some (nvm_rev_addr.mk ADDR_EMPTY) ∧
        ∀ B, gp.block = some B →
          ∃ (lun : nvm_lun) (blk : nvm_block), nvm_block_get r1.dev B = some (lun, blk) ∧
            blk.invalid_pages.testBit (gp.addr % lun.nr_pages_per_blk) = true) := by
  by_cases hE : gp.addr = ADDR_EMPTY
  · refine ⟨r, ?_, rfl, rrpc_invalidated_refl r, fun h => absurd hE h⟩
    unfold __nvm_page_invalidate
    rw [if_pos hE]
  · have hidx := hok.1 hE
    cases hb : gp.block with
    | none =>
      refine ⟨{ r with rev_trans_map :=
                  r.rev_trans_map.set (u64_sub gp.addr r.poffset) (nvm_rev_addr.mk ADDR_EMPTY) },
                ?_, rfl, ?_, ?_⟩
      · unfold __nvm_page_invalidate invalidate_block_page
        simp [hE, hb, hidx]
      · refine ⟨rfl, by simp, ?_, fun q lun blk h => ⟨lun, blk, h, rfl, fun _ hi => hi⟩⟩
        intro P
        by_cases hP : u64_sub gp.addr r.poffset = P
        · right; subst hP; simp only; exact List.getElem?_set_self hidx
        · left; simp only; exact List.getElem?_set_ne hP
      · intro _
        refine ⟨?_, fun B hB => by cases hB⟩
        simp only
        exact List.getElem?_set_self hidx
    | some B =>
      obtain ⟨lun, blk, hg, hp⟩ := hok.2 B hb
      have hgp : gp = { addr := gp.addr, block := some B } := by
        cases gp; simp only at hb; simp [hb]
      refine ⟨{ r with
                  dev := nvm_block_set r.dev B (block_invalidate (gp.addr % lun.nr_pages_per_blk)),
                  rev_trans_map :=
                    r.rev_trans_map.set (u64_sub gp.addr r.poffset) (nvm_rev_addr.mk ADDR_EMPTY) },
                ?_, ?_, ?_, ?_⟩
      · rw [hgp]
        exact page_invalidate_mapped r gp.addr B lun blk hE hg hp hidx
      · rfl
      · refine ⟨rfl, by simp, ?_, nvm_block_set_invalidated r B _⟩
        intro P
        by_cases hP : u64_sub gp.addr r.poffset = P
        · right; subst hP; simp only; exact List.getElem?_set_self hidx
        · left; simp only; exact List.getElem?_set_ne hP
      · intro _
        refine ⟨?_, ?_⟩
        · simp only
          exact List.getElem?_set_self hidx
        · intro B' hB'
          simp only [Option.some.injEq] at hB'
          subst hB'
          refine ⟨_, _, nvm_block_get_set_self r.dev B _ lun blk hg, ?_⟩
          simp only [update_block_nr_pages_per_blk, block_invalidate]
          rw [testBit_set_bit]
          simp

theorem rrpc_invalidated_poffset (r r1 : rrpc) (h : rrpc_invalidated r r1) :
    r1.poffset = r.poffset ∧ r1.nr_pages = r.nr_pages ∧ r1.inflight_map = r.inflight_map := by
  obtain ⟨e1, _⟩ := h
  refine ⟨?_, ?_, ?_⟩ <;> rw [e1]

theorem rrpc_invalidate_range_loop_spec :
    ∀ (n i : Nat) (r : rrpc),
      i + n ≤ r.trans_map.length →
      (∀ (j : Nat) (e : nvm_addr), i ≤ j → j < i + n → r.trans_map[j]? = some e →
        trans_entry_ok r e) →
      ∃ r1, rrpc_invalidate_range_loop i n r = some r1 ∧ rrpc_invalidated r r1 ∧
        r1.trans_map.length = r.trans_map.length ∧
        (∀ j : Nat, r1.trans_map[j]? =
          if i ≤ j ∧ j < i + n then (r.trans_map[j]?).map (fun e => { e with block := none })
          else r.trans_map[j]?) ∧
        (∀ (j : Nat) (e : nvm_addr), i ≤ j → j < i + n → r.trans_map[j]? = some e →
          e.addr ≠ ADDR_EMPTY →
          r1.rev_trans_map[u64_sub e.addr r.poffset]? = some (nvm_rev_addr.mk ADDR_EMPTY) ∧
          ∀ B, e.block = some B →
            ∃ (lun : nvm_lun) (blk : nvm_block), nvm_block_get r1.dev B = some (lun, blk) ∧
              blk.invalid_pages.testBit (e.addr % lun.nr_pages_per_blk) = true) := by
  intro n
  induction n with
  | zero =>
    intro i r _ _
    refine ⟨r, rfl, rrpc_invalidated_refl r, rfl, ?_, ?_⟩
    · intro j
      have : ¬ (i ≤ j ∧ j < i + 0) := by omega
      rw [if_neg this]
    · intro j e h1 h2
      omega
  | succ n ih =>
    intro i r hlen hok
    have hi : i < r.trans_map.length := by omega
    obtain ⟨gp, hgp⟩ : ∃ gp, r.trans_map[i]? = some gp := ⟨r.trans_map[i], List.getElem?_eq_getElem hi⟩
    have hgpok := hok i gp (Nat.le_refl _) (by omega) hgp
    obtain ⟨r', hr', htr', hinv', hbits'⟩ := page_invalidate_ok r gp hgpok
    have hinv'' : rrpc_invalidated r
        { r' with trans_map := r'.trans_map.set i { gp with block := none } } := by
      obtain ⟨e1, l1, v1, b1⟩ := hinv'
      refine ⟨?_, l1, v1, b1⟩
      simp only
      rw [e1]
    have hpo'' := rrpc_invalidated_poffset _ _ hinv''
    have hget'' : ∀ j : Nat, j ≠ i →
        ({ r' with trans_map := r'.trans_map.set i { gp with block := none } } : rrpc).trans_map[j]? =
          r.trans_map[j]? := by
      intro j hj
      simp only
      rw [List.getElem?_set_ne (Ne.symm hj), htr']
    obtain ⟨r1, hr1, hinv1, hlen1, htr1, hbits1⟩ :=
      ih (i + 1) { r' with trans_map := r'.trans_map.set i { gp with block := none } }
        (by simp only [List.length_set]; rw [htr']; omega)
        (by
          intro j e h1 h2 he
          rw [hget'' j (by omega)] at he
          exact trans_entry_ok_invalidated _ _ e hinv'' (hok j e (by omega) (by omega) he))
    refine ⟨r1, ?_, rrpc_invalidated_trans _ _ _ hinv'' hinv1, ?_, ?_, ?_⟩
    · simp only [rrpc_invalidate_range_loop, hgp, hr']
      exact hr1
    · rw [hlen1]; simp only [List.length_set]; rw [htr']
    · intro j
      rw [htr1 j]
      by_cases hji : j = i
      · subst hji
        have h1 : ¬ (j + 1 ≤ j ∧ j < j + 1 + n) := by omega
        have h2 : j ≤ j ∧ j < j + (n + 1) := by omega
        rw [if_neg h1, if_pos h2, hgp]
        simp only
        rw [List.getElem?_set_self (by rw [htr']; exact hi)]
        rfl
      · rw [hget'' j hji]
        by_cases hr : i ≤ j ∧ j < i + (n + 1)
        · have h1 : i + 1 ≤ j ∧ j < i + 1 + n := by omega
          rw [if_pos h1, if_pos hr]
        · have h1 : ¬ (i + 1 ≤ j ∧ j < i + 1 + n) := by omega
          rw [if_neg h1, if_neg hr]
    · intro j e h1 h2 he hne
      by_cases hji : j = i
      · subst hji
        rw [hgp] at he
        simp only [Option.some.injEq] at he
        subst he
        obtain ⟨hrev, hblk⟩ := hbits' hne
        obtain ⟨_, _, v1, b1⟩ := hinv1
        refine ⟨?_, ?_⟩
        · rcases v1 (u64_sub gp.addr r.poffset) with h | h
          · rw [h]; exact hrev
          · exact h
        · intro B hB
          obtain ⟨lun, blk, hg, hbit⟩ := hblk B hB
          obtain ⟨lun1, blk1, hg1, hp1, hm1⟩ := b1 B lun blk hg
          exact ⟨lun1, blk1, hg1, by rw [hp1]; exact hm1 _ hbit⟩
      · have := hbits1 j e (by omega) (by omega) (by rw [hget'' j hji]; exact he) hne
        rw [hpo''.1] at this
        exact this

/-! ## RRPC: the invalid-page counters -/

theorem bitmap_weight_succ (bits n : Nat) :
    bitmap_weight bits (n + 1) = bitmap_weight bits n + (if bits.testBit n then 1 else 0) := by
  unfold bitmap_weight
  rw [List.range_succ, List.countP_append]
  simp [List.countP_cons]

theorem bitmap_weight_le (bits n : Nat) : bitmap_weight bits n ≤ n := by
  unfold bitmap_weight
  have := List.countP_le_length (fun i => bits.testBit i) (l := List.range n)
  simpa using this

theorem bitmap_weight_set_ge (bits n k : Nat) (hk : n ≤ k) :
    bitmap_weight (bits ||| (1 <<< k)) n = bitmap_weight bits n := by
  induction n with
  | zero => rfl
  | succ n ih =>
    rw [bitmap_weight_succ, bitmap_weight_succ, ih (by omega), testBit_set_bit]
    have : ¬ k = n := by omega
    simp [this]

theorem bitmap_weight_set (bits n k : Nat) (hk : k < n) (hclear : bits.testBit k = false) :
    bitmap_weight (bits ||| (1 <<< k)) n = bitmap_weight bits n + 1 := by
  induction n with
  | zero => omega
  | succ n ih =>
    rw [bitmap_weight_succ, bitmap_weight_succ, testBit_set_bit]
    by_cases hkn : k = n
    · subst hkn
      rw [bitmap_weight_set_ge bits k k (Nat.le_refl _), hclear]
      simp
    · rw [ih (by omega)]
      simp [hkn]
      omega

theorem bitmap_weight_lt (bits n k : Nat) (hk : k < n) (hclear : bits.testBit k = false) :
    bitmap_weight bits n < n := by
  have h1 := bitmap_weight_set bits n k hk hclear
  have h2 := bitmap_weight_le (bits ||| (1 <<< k)) n
  omega

theorem bitmap_weight_clear (bits n : Nat) (h : ∀ i : Nat, i < n → bits.testBit i = false) :
    bitmap_weight bits n = 0 := by
  induction n with
  | zero => rfl
  | succ n ih =>
    rw [bitmap_weight_succ, ih (fun i hi => h i (by omega)), h n (by omega)]
    simp

theorem testBit_bitmap_zero_mono (dst nbits i : Nat)
    (h : (bitmap_zero dst nbits).testBit i = true) : dst.testBit i = true := by
  unfold bitmap_zero at h
  simp only [Nat.testBit_shiftLeft, Nat.testBit_shiftRight, Bool.and_eq_true,
    decide_eq_true_eq] at h
  obtain ⟨h1, h2⟩ := h
  have : (nbits + BITS_PER_LONG - 1) / BITS_PER_LONG * BITS_PER_LONG +
      (i - (nbits + BITS_PER_LONG - 1) / BITS_PER_LONG * BITS_PER_LONG) = i := by omega
  rw [this] at h2
  exact h2

theorem blocks_counted_invalidate (dev : nvm_dev) (B : Nat × Nat) (lun : nvm_lun) (blk : nvm_block)
    (a : Nat) (hc : blocks_counted dev) (hg : nvm_block_get dev B = some (lun, blk))
    (hp : lun.nr_pages_per_blk ≠ 0)
    (hclear : blk.invalid_pages.testBit (a % lun.nr_pages_per_blk) = false) :
    blocks_counted (nvm_block_set dev B (block_invalidate (a % lun.nr_pages_per_blk))) := by
  intro q lun1 blk1 hq
  rw [nvm_block_get_set] at hq
  cases hq0 : nvm_block_get dev q with
  | none => rw [hq0] at hq; cases hq
  | some x =>
    obtain ⟨lun0, blk0⟩ := x
    rw [hq0] at hq
    simp only [Option.map_some', Option.some.injEq, Prod.mk.injEq] at hq
    obtain ⟨hl, hb⟩ := hq
    have hppb : lun1.nr_pages_per_blk = lun0.nr_pages_per_blk := by
      rw [← hl]
      by_cases h : q.1 = B.1 <;> simp [h]
    obtain ⟨hw0, hu0⟩ := hc q lun0 blk0 hq0
    rw [hppb]
    by_cases hqB : q = B
    · rw [if_pos hqB] at hb
      subst hqB
      rw [hg] at hq0
      simp only [Option.some.injEq, Prod.mk.injEq] at hq0
      obtain ⟨rfl, rfl⟩ := hq0
      have hoff : a % lun.nr_pages_per_blk < lun.nr_pages_per_blk := Nat.mod_lt _ (by omega)
      have hlt := bitmap_weight_lt _ _ _ hoff hclear
      have hne : blk.nr_invalid_pages ≠ UINT_MAX := by omega
      rw [← hb]
      simp only [block_invalidate]
      rw [bitmap_weight_set _ _ _ hoff hclear, u32_inc_lt _ hne, hw0]
      exact ⟨rfl, hu0⟩
    · rw [if_neg hqB] at hb
      subst hb
      exact ⟨hw0, hu0⟩

theorem pages_live_unmap (dev : nvm_dev) (trans : List nvm_addr) (i : Nat) (e1 : nvm_addr)
    (hlive : pages_live dev trans) (he1 : e1.block = none) :
    pages_live dev (trans.set i e1) := by
  obtain ⟨hb, hc⟩ := hlive
  have hget : ∀ (L : Nat) (e : nvm_addr) (B : Nat × Nat), (trans.set i e1)[L]? = some e →
      e.block = some B → L ≠ i ∧ trans[L]? = some e := by
    intro L e B hL hB
    by_cases hLi : L = i
    · subst hLi
      rw [List.getElem?_set] at hL
      simp only [if_true] at hL
      split at hL
      · simp only [Option.some.injEq] at hL
        subst hL
        rw [he1] at hB; cases hB
      · cases hL
    · rw [List.getElem?_set_ne (Ne.symm hLi)] at hL
      exact ⟨hLi, hL⟩
  refine ⟨?_, ?_⟩
  · intro L e B lun blk hL hB hg
    exact hb L e B lun blk (hget L e B hL hB).2 hB hg
  · intro L L1 e e' B lun blk hne hL hL1 hB hB' hg
    exact hc L L1 e e' B lun blk hne (hget L e B hL hB).2 (hget L1 e' B hL1 hB').2 hB hB' hg

theorem pages_live_invalidate (dev : nvm_dev) (trans : List nvm_addr) (i : Nat) (gp e1 : nvm_addr)
    (B : Nat × Nat) (lun : nvm_lun) (blk : nvm_block)
    (hlive : pages_live dev trans) (hgp : trans[i]? = some gp) (hB : gp.block = some B)
    (hg : nvm_block_get dev B = some (lun, blk)) (he1 : e1.block = none) :
    pages_live (nvm_block_set dev B (block_invalidate (gp.addr % lun.nr_pages_per_blk)))
      (trans.set i e1) := by
  obtain ⟨hb, hc⟩ := hlive
  have hget : ∀ (L : Nat) (e : nvm_addr) (B' : Nat × Nat), (trans.set i e1)[L]? = some e →
      e.block = some B' → L ≠ i ∧ trans[L]? = some e := by
    intro L e B' hL hB'
    by_cases hLi : L = i
    · subst hLi
      rw [List.getElem?_set] at hL
      simp only [if_true] at hL
      split at hL
      · simp only [Option.some.injEq] at hL
        subst hL
        rw [he1] at hB'; cases hB'
      · cases hL
    · rw [List.getElem?_set_ne (Ne.symm hLi)] at hL
      exact ⟨hLi, hL⟩
  have hblock : ∀ (q : Nat × Nat) (lun1 : nvm_lun) (blk1 : nvm_block),
      nvm_block_get (nvm_block_set dev B (block_invalidate (gp.addr % lun.nr_pages_per_blk))) q =
        some (lun1, blk1) →
      ∃ (lun0 : nvm_lun) (blk0 : nvm_block), nvm_block_get dev q = some (lun0, blk0) ∧
        lun1.nr_pages_per_blk = lun0.nr_pages_per_blk ∧
        blk1 = if q = B then block_invalidate (gp.addr % lun.nr_pages_per_blk) blk0 else blk0 := by
    intro q lun1 blk1 hq
    rw [nvm_block_get_set] at hq
    cases hq0 : nvm_block_get dev q with
    | none => rw [hq0] at hq; cases hq
    | some x =>
      obtain ⟨lun0, blk0⟩ := x
      rw [hq0] at hq
      simp only [Option.map_some', Option.some.injEq, Prod.mk.injEq] at hq
      refine ⟨lun0, blk0, rfl, ?_, hq.2.symm⟩
      rw [← hq.1]
      by_cases h : q.1 = B.1 <;> simp [h]
  refine ⟨?_, ?_⟩
  · intro L e B' lun1 blk1 hL hB' hg1
    obtain ⟨hLi, hL0⟩ := hget L e B' hL hB'
    obtain ⟨lun0, blk0, hg0, hp, hblk⟩ := hblock B' lun1 blk1 hg1
    have hold := hb L e B' lun0 blk0 hL0 hB' hg0
    rw [hp, hblk]
    by_cases hBB : B' = B
    · subst hBB
      rw [hg] at hg0
      simp only [Option.some.injEq, Prod.mk.injEq] at hg0
      obtain ⟨rfl, rfl⟩ := hg0
      rw [if_pos rfl]
      simp only [block_invalidate]
      rw [testBit_set_bit, hold]
      have hdiff := hc i L gp e B' lun blk (Ne.symm hLi) hgp hL0 hB hB' hg
      simp [hdiff]
    · rw [if_neg hBB]
      exact hold
  · intro L L1 e e' B' lun1 blk1 hne hL hL1 hB1 hB1' hg1
    obtain ⟨lun0, blk0, hg0, hp, _⟩ := hblock B' lun1 blk1 hg1
    rw [hp]
    exact hc L L1 e e' B' lun0 blk0 hne (hget L e B' hL hB1).2 (hget L1 e' B' hL1 hB1').2
      hB1 hB1' hg0

theorem page_fresh_unmap (dev : nvm_dev) (trans : List nvm_addr) (i : Nat) (e1 : nvm_addr)
    (B2 : Nat × Nat) (P2 : Nat) (hf : page_fresh dev trans B2 P2) (he1 : e1.block = none) :
    page_fresh dev (trans.set i e1) B2 P2 := by
  intro lun blk hg
  obtain ⟨hbit, hmap⟩ := hf lun blk hg
  refine ⟨hbit, ?_⟩
  intro L e hL hB
  by_cases hLi : L = i
  · subst hLi
    rw [List.getElem?_set] at hL
    simp only [if_true] at hL
    split at hL
    · simp only [Option.some.injEq] at hL
      subst hL
      rw [he1] at hB; cases hB
    · cases hL
  · rw [List.getElem?_set_ne (Ne.symm hLi)] at hL
    exact hmap L e hL hB

theorem page_fresh_invalidate (dev : nvm_dev) (trans : List nvm_addr) (i : Nat) (gp e1 : nvm_addr)
    (B B2 : Nat × Nat) (P2 : Nat) (lun : nvm_lun) (blk : nvm_block)
    (hf : page_fresh dev trans B2 P2) (hgp : trans[i]? = some gp) (hB : gp.block = some B)
    (hg : nvm_block_get dev B = some (lun, blk)) (he1 : e1.block = none) :
    page_fresh (nvm_block_set dev B (block_invalidate (gp.addr % lun.nr_pages_per_blk)))
      (trans.set i e1) B2 P2 := by
  intro lun1 blk1 hg1
  rw [nvm_block_get_set] at hg1
  cases hq0 : nvm_block_get dev B2 with
  | none => rw [hq0] at hg1; cases hg1
  | some x =>
    obtain ⟨lun0, blk0⟩ := x
    rw [hq0] at hg1
    simp only [Option.map_some', Option.some.injEq, Prod.mk.injEq] at hg1
    obtain ⟨hl, hb⟩ := hg1
    have hppb : lun1.nr_pages_per_blk = lun0.nr_pages_per_blk := by
      rw [← hl]
      by_cases h : B2.1 = B.1 <;> simp [h]
    obtain ⟨hbit, hmap⟩ := hf lun0 blk0 hq0
    rw [hppb]
    refine ⟨?_, ?_⟩
    · rw [← hb]
      by_cases hBB : B2 = B
      · subst hBB
        rw [hg] at hq0
        simp only [Option.some.injEq, Prod.mk.injEq] at hq0
        obtain ⟨rfl, rfl⟩ := hq0
        rw [if_pos rfl]
        simp only [block_invalidate]
        rw [testBit_set_bit, hbit]
        have := hmap i gp hgp hB
        simp [this]
      · rw [if_neg hBB]
        exact hbit
    · intro L e hL hBe
      by_cases hLi : L = i
      · subst hLi
        rw [List.getElem?_set] at hL
        simp only [if_true] at hL
        split at hL
        · simp only [Option.some.injEq] at hL
          subst hL
          rw [he1] at hBe; cases hBe
        · cases hL
      · rw [List.getElem?_set_ne (Ne.symm hLi)] at hL
        exact hmap L e hL hBe

theorem pages_live_map (dev : nvm_dev) (trans : List nvm_addr) (i P2 : Nat) (B2 : Nat × Nat)
    (hlive : pages_live dev trans) (hf : page_fresh dev trans B2 P2) :
    pages_live dev (trans.set i { addr := P2, block := some B2 }) := by
  obtain ⟨hb, hc⟩ := hlive
  have hget : ∀ (L : Nat) (e : nvm_addr), (trans.set i { addr := P2, block := some B2 })[L]? = some e →
      (L = i ∧ e = { addr := P2, block := some B2 }) ∨ (L ≠ i ∧ trans[L]? = some e) := by
    intro L e hL
    by_cases hLi : L = i
    · subst hLi
      rw [List.getElem?_set] at hL
      simp only [if_true] at hL
      split at hL
      · simp only [Option.some.injEq] at hL
        exact Or.inl ⟨rfl, hL.symm⟩
      · cases hL
    · rw [List.getElem?_set_ne (Ne.symm hLi)] at hL
      exact Or.inr ⟨hLi, hL⟩
  refine ⟨?_, ?_⟩
  · intro L e B lun blk hL hB hg
    rcases hget L e hL with ⟨_, rfl⟩ | ⟨_, hL0⟩
    · simp only [Option.some.injEq] at hB
      subst hB
      exact (hf lun blk hg).1
    · exact hb L e B lun blk hL0 hB hg
  · intro L L1 e e' B lun blk hne hL hL1 hB hB' hg
    rcases hget L e hL with ⟨hLi, rfl⟩ | ⟨hLi, hL0⟩
    · rcases hget L1 e' hL1 with ⟨hLi1, _⟩ | ⟨_, hL10⟩
      · exact absurd (hLi.trans hLi1.symm) hne
      · simp only [Option.some.injEq] at hB
        subst hB
        exact Ne.symm ((hf lun blk hg).2 L1 e' hL10 hB')
    · rcases hget L1 e' hL1 with ⟨_, rfl⟩ | ⟨_, hL10⟩
      · simp only [Option.some.injEq] at hB'
        subst hB'
        exact (hf lun blk hg).2 L e hL0 hB
      · exact hc L L1 e e' B lun blk hne hL0 hL10 hB hB' hg

theorem blocks_counted_kept (dev dev1 : nvm_dev) (hc : blocks_counted dev)
    (hk : blocks_kept_or_reset dev dev1) : blocks_counted dev1 := by
  intro q lun1 blk1 hq
  obtain ⟨lun, blk, hg, hp, hcase⟩ := hk q lun1 blk1 hq
  obtain ⟨hw, hu⟩ := hc q lun blk hg
  rw [hp]
  rcases hcase with rfl | ⟨h0, hclear, _⟩
  · exact ⟨hw, hu⟩
  · rw [bitmap_weight_clear _ _ hclear, h0]
    exact ⟨rfl, hu⟩

theorem pages_live_kept (dev dev1 : nvm_dev) (trans : List nvm_addr) (hlive : pages_live dev trans)
    (hk : blocks_kept_or_reset dev dev1) : pages_live dev1 trans := by
  obtain ⟨hb, hc⟩ := hlive
  refine ⟨?_, ?_⟩
  · intro L e B lun1 blk1 hL hB hq
    obtain ⟨lun, blk, hg, hp, hcase⟩ := hk B lun1 blk1 hq
    have hold := hb L e B lun blk hL hB hg
    rw [hp]
    rcases hcase with rfl | ⟨_, _, hmono⟩
    · exact hold
    · cases hbit : blk1.invalid_pages.testBit (e.addr % lun.nr_pages_per_blk) with
      | false => rfl
      | true => rw [hmono _ hbit] at hold; cases hold
  · intro L L1 e e' B lun1 blk1 hne hL hL1 hB hB' hq
    obtain ⟨lun, blk, hg, hp, _⟩ := hk B lun1 blk1 hq
    rw [hp]
    exact hc L L1 e e' B lun blk hne hL hL1 hB hB' hg

theorem blocks_kept_or_reset_set (dev : nvm_dev) (k : Nat) (lun lun1 : nvm_lun)
    (hk : dev.bmp.luns[k]? = some lun) (hp : lun1.nr_pages_per_blk = lun.nr_pages_per_blk)
    (hblocks : ∀ (j : Nat) (blk1 : nvm_block), lun1.blocks[j]? = some blk1 →
      ∃ blk : nvm_block, lun.blocks[j]? = some blk ∧
        (blk1 = blk ∨
          (blk1.nr_invalid_pages = 0 ∧
            (∀ i : Nat, i < lun.nr_pages_per_blk → blk1.invalid_pages.testBit i = false) ∧
            ∀ i : Nat, blk1.invalid_pages.testBit i = true → blk.invalid_pages.testBit i = true))) :
    blocks_kept_or_reset dev { dev with bmp := { luns := dev.bmp.luns.set k lun1 } } := by
  intro q l1 b1 hq
  unfold nvm_block_get at hq ⊢
  simp only at hq
  by_cases hqk : q.1 = k
  · rw [hqk, List.getElem?_set_self (getElem?_some_lt _ _ _ hk)] at hq
    simp only at hq
    cases hb : lun1.blocks[q.2]? with
    | none => rw [hb] at hq; cases hq
    | some blk1 =>
      rw [hb] at hq
      simp only [Option.some.injEq, Prod.mk.injEq] at hq
      obtain ⟨rfl, rfl⟩ := hq
      obtain ⟨blk, hblk, hcase⟩ := hblocks q.2 blk1 hb
      refine ⟨lun, blk, ?_, hp, hcase⟩
      rw [hqk, hk]
      simp only [hblk]
  · rw [List.getElem?_set_ne (Ne.symm hqk)] at hq
    cases hl : dev.bmp.luns[q.1]? with
    | none => rw [hl] at hq; cases hq
    | some l0 =>
      rw [hl] at hq
      simp only at hq
      cases hb : l0.blocks[q.2]? with
      | none => rw [hb] at hq; cases hq
      | some b0 =>
        rw [hb] at hq
        simp only [Option.some.injEq, Prod.mk.injEq] at hq
        obtain ⟨rfl, rfl⟩ := hq
        exact ⟨l0, b0, by simp only [hb], rfl, Or.inl rfl⟩

theorem blocks_kept_or_reset_refl (dev : nvm_dev) : blocks_kept_or_reset dev dev :=
  fun _ lun1 blk1 hq => ⟨lun1, blk1, hq, rfl, Or.inl rfl⟩

theorem hb_get_blk_blocks (lun : nvm_lun) (flags : Nat) :
    (hb_get_blk lun flags).2.nr_pages_per_blk = lun.nr_pages_per_blk ∧
      ∀ (j : Nat) (blk1 : nvm_block), (hb_get_blk lun flags).2.blocks[j]? = some blk1 →
        ∃ blk : nvm_block, lun.blocks[j]? = some blk ∧
          (((hb_get_blk lun flags).1 ≠ some j ∧ blk1 = blk) ∨
            ((hb_get_blk lun flags).1 = some j ∧
              blk1 = { blk with invalid_pages := bitmap_zero blk.invalid_pages lun.nr_pages_per_blk,
                                next_page := 0, nr_invalid_pages := 0, data_cmnt_size := 0 })) := by
  unfold hb_get_blk
  cases hfree : lun.free_list with
  | nil =>
    simp only
    exact ⟨trivial, fun j blk1 h => ⟨blk1, h, Or.inl ⟨by simp, rfl⟩⟩⟩
  | cons block rest =>
    simp only
    by_cases hg : flags &&& NVM_IOTYPE_GC = 0 ∧ lun.nr_free_blocks < lun.reserved_blocks
    · rw [if_pos hg]
      exact ⟨rfl, fun j blk1 h => ⟨blk1, h, Or.inl ⟨by simp, rfl⟩⟩⟩
    · rw [if_neg hg]
      refine ⟨by simp [list_move_tail_used, list_del], ?_⟩
      intro j blk1 h
      simp only at h
      obtain ⟨blk0, hblk0, hcase⟩ := update_block_get _ _ _ _ _ h
      simp only [list_move_tail_used, list_del] at hblk0
      refine ⟨blk0, hblk0, ?_⟩
      rcases hcase with ⟨hj, hb⟩ | ⟨hj, hb⟩
      · right
        refine ⟨by simp [hj], ?_⟩
        rw [hb]
        simp [nvm_reset_block, list_move_tail_used, list_del]
      · left
        refine ⟨?_, hb⟩
        simp only [ne_eq, Option.some.injEq]
        exact fun h' => hj h'.symm

theorem nvm_get_blk_kept (dev : nvm_dev) (lun flags : Nat) :
    blocks_kept_or_reset dev (nvm_get_blk dev lun flags).2 := by
  have hdev : (nvm_get_blk dev lun flags).2 = { dev with bmp := (hb_get_blk_bm dev.bmp lun flags).2 } := by
    unfold nvm_get_blk
    cases (hb_get_blk_bm dev.bmp lun flags).1 <;> rfl
  rw [hdev]
  unfold hb_get_blk_bm
  cases hl : dev.bmp.luns[lun]? with
  | none => exact blocks_kept_or_reset_refl dev
  | some l0 =>
    simp only
    obtain ⟨hp, hblocks⟩ := hb_get_blk_blocks l0 flags
    apply blocks_kept_or_reset_set dev lun l0 _ hl hp
    intro j blk1 hj
    obtain ⟨blk, hblk, hcase⟩ := hblocks j blk1 hj
    refine ⟨blk, hblk, ?_⟩
    rcases hcase with ⟨_, h⟩ | ⟨_, h⟩
    · exact Or.inl h
    · right
      rw [h]
      exact ⟨rfl, fun i hi => testBit_bitmap_zero _ _ i hi,
        fun i hi => testBit_bitmap_zero_mono _ _ i hi⟩

theorem hb_put_blk_kept (dev : nvm_dev) (block : Nat × Nat) :
    blocks_kept_or_reset dev { dev with bmp := hb_put_blk dev.bmp block } := by
  unfold hb_put_blk
  cases hl : dev.bmp.luns[block.1]? with
  | none => exact blocks_kept_or_reset_refl dev
  | some l0 =>
    simp only
    apply blocks_kept_or_reset_set dev block.1 l0 _ hl
    · simp [hb_put_blk_lun, list_move_tail_free, list_del]
    · intro j blk1 hj
      simp only [hb_put_blk_lun, list_move_tail_free, list_del] at hj
      exact ⟨blk1, hj, Or.inl rfl⟩

/-! ## RRPC: reverse map consistency -/

theorem page_invalidate_inv (r r1 : rrpc) (gp : nvm_addr)
    (h : __nvm_page_invalidate r gp = some r1) :
    (gp.addr = ADDR_EMPTY ∧ r1 = r) ∨
      (gp.addr ≠ ADDR_EMPTY ∧ u64_sub gp.addr r.poffset < r.rev_trans_map.length ∧
        ∃ dev1, invalidate_block_page r.dev gp = some dev1 ∧
          r1 = { r with dev := dev1,
                        rev_trans_map :=
                          r.rev_trans_map.set (u64_sub gp.addr r.poffset) (nvm_rev_addr.mk ADDR_EMPTY) }) := by
  unfold __nvm_page_invalidate at h
  by_cases hE : gp.addr = ADDR_EMPTY
  · rw [if_pos hE] at h
    simp only [Option.some.injEq] at h
    exact Or.inl ⟨hE, h.symm⟩
  · rw [if_neg hE] at h
    right
    cases hd : invalidate_block_page r.dev gp with
    | none => rw [hd] at h; cases h
    | some dev1 =>
      rw [hd] at h
      simp only at h
      by_cases hidx : u64_sub gp.addr r.poffset < r.rev_trans_map.length
      · rw [if_pos hidx] at h
        simp only [Option.some.injEq] at h
        exact ⟨hE, hidx, dev1, rfl, h.symm⟩
      · rw [if_neg hidx] at h; cases h

theorem invalidate_block_page_inv (dev dev1 : nvm_dev) (gp : nvm_addr)
    (h : invalidate_block_page dev gp = some dev1) :
    (gp.block = none ∧ dev1 = dev) ∨
      ∃ (B : Nat × Nat) (lun : nvm_lun) (blk : nvm_block), gp.block = some B ∧
        nvm_block_get dev B = some (lun, blk) ∧ lun.nr_pages_per_blk ≠ 0 ∧
        dev1 = nvm_block_set dev B (block_invalidate (gp.addr % lun.nr_pages_per_blk)) := by
  unfold invalidate_block_page at h
  cases hb : gp.block with
  | none =>
    rw [hb] at h
    simp only [Option.some.injEq] at h
    exact Or.inl ⟨rfl, h.symm⟩
  | some B =>
    rw [hb] at h
    simp only at h
    cases hg : nvm_block_get dev B with
    | none => rw [hg] at h; cases h
    | some x =>
      obtain ⟨lun, blk⟩ := x
      rw [hg] at h
      simp only at h
      by_cases hp : lun.nr_pages_per_blk = 0
      · rw [if_pos hp] at h; cases h
      · rw [if_neg hp] at h
        simp only [Option.some.injEq] at h
        exact Or.inr ⟨B, lun, blk, rfl, hg, hp, h.symm⟩

theorem nvm_update_map_inv (r r1 : rrpc) (L P2 is_gc x : Nat) (p_block : Option (Nat × Nat))
    (h : nvm_update_map r L p_block P2 is_gc = some (x, r1)) :
    x = L ∧ L < r.nr_pages ∧
      ∃ (gp : nvm_addr) (r' : rrpc), r.trans_map[L]? = some gp ∧
        (if gp.block ≠ none then __nvm_page_invalidate r gp else some r) = some r' ∧
        u64_sub P2 r'.poffset < r'.rev_trans_map.length ∧
        r1 = { r' with trans_map := r'.trans_map.set L { addr := P2, block := p_block },
                       rev_trans_map :=
                         r'.rev_trans_map.set (u64_sub P2 r'.poffset) (nvm_rev_addr.mk L) } := by
  unfold nvm_update_map at h
  by_cases hL : L ≥ r.nr_pages
  · rw [if_pos hL] at h; cases h
  · rw [if_neg hL] at h
    cases hgp : r.trans_map[L]? with
    | none => rw [hgp] at h; cases h
    | some gp =>
      rw [hgp] at h
      simp only at h
      cases hr' : (if gp.block ≠ none then __nvm_page_invalidate r gp else some r) with
      | none => rw [hr'] at h; cases h
      | some r' =>
        rw [hr'] at h
        simp only at h
        by_cases hidx : u64_sub P2 r'.poffset < r'.rev_trans_map.length
        · rw [if_pos hidx] at h
          simp only [Option.some.injEq, Prod.mk.injEq] at h
          exact ⟨h.1.symm, by omega, gp, r', rfl, hr', hidx, h.2.symm⟩
        · rw [if_neg hidx] at h; cases h

theorem u64_sub_index (a po len : Nat) (ha : a ≤ U64_MAX) (hpo : po + len ≤ U64_MAX)
    (h : u64_sub a po < len) : u64_sub a po + po = a := by
  unfold u64_sub U64_MAX at *
  omega

theorem u64_sub_add (P po : Nat) (h : P + po ≤ U64_MAX) : u64_sub (P + po) po = P := by
  unfold u64_sub U64_MAX at *
  omega

theorem reverse_map_inv_page_invalidate (r r1 : rrpc) (i : Nat) (gp : nvm_addr)
    (hinv : reverse_map_inv r) (hgp : r.trans_map[i]? = some gp)
    (h : __nvm_page_invalidate r gp = some r1) :
    r1.trans_map = r.trans_map ∧ r1.poffset = r.poffset ∧
      r1.rev_trans_map.length = r.rev_trans_map.length ∧
      ∀ (P : Nat) (x : nvm_rev_addr), r1.rev_trans_map[P]? = some x → x.addr ≠ ADDR_EMPTY →
        x.addr ≠ i ∧ ∃ e : nvm_addr, r.trans_map[x.addr]? = some e ∧ e.addr = P + r.poffset ∧
          e.block ≠ none := by
  obtain ⟨h64, hrev⟩ := hinv
  rcases page_invalidate_inv r r1 gp h with ⟨hE, rfl⟩ | ⟨hE, hidx, dev1, _, rfl⟩
  · refine ⟨rfl, rfl, rfl, ?_⟩
    intro P x hx hne
    obtain ⟨e, he, hea, heb⟩ := hrev P x hx hne
    refine ⟨?_, e, he, hea, heb⟩
    intro hxi
    rw [hxi, hgp] at he
    simp only [Option.some.injEq] at he
    subst he
    have hP := getElem?_some_lt _ _ _ hx
    rw [hea] at hE
    unfold ADDR_EMPTY at hE
    unfold U64_MAX at h64
    omega
  · refine ⟨rfl, rfl, by simp, ?_⟩
    intro P x hx hne
    simp only at hx
    by_cases hP : u64_sub gp.addr r.poffset = P
    · subst hP
      rw [List.getElem?_set_self hidx] at hx
      simp only [Option.some.injEq] at hx
      subst hx
      exact absurd rfl hne
    · rw [List.getElem?_set_ne hP] at hx
      obtain ⟨e, he, hea, heb⟩ := hrev P x hx hne
      refine ⟨?_, e, he, hea, heb⟩
      intro hxi
      rw [hxi, hgp] at he
      simp only [Option.some.injEq] at he
      subst he
      have hPlt := getElem?_some_lt _ _ _ hx
      apply hP
      rw [hea]
      exact u64_sub_add P r.poffset (by omega)

theorem reverse_map_inv_update (r r1 : rrpc) (L P2 is_gc x : Nat) (B2 : Nat × Nat)
    (hinv : reverse_map_inv r) (hP2 : P2 ≤ U64_MAX)
    (h : nvm_update_map r L (some B2) P2 is_gc = some (x, r1)) : reverse_map_inv r1 := by
  obtain ⟨_, hL, gp, r', hgp, hr', hidx, rfl⟩ := nvm_update_map_inv r r1 L P2 is_gc x _ h
  have hLlen := getElem?_some_lt _ _ _ hgp
  have hfacts : r'.trans_map = r.trans_map ∧ r'.poffset = r.poffset ∧
      r'.rev_trans_map.length = r.rev_trans_map.length ∧
      ∀ (P : Nat) (x : nvm_rev_addr), r'.rev_trans_map[P]? = some x → x.addr ≠ ADDR_EMPTY →
        x.addr ≠ L ∧ ∃ e : nvm_addr, r.trans_map[x.addr]? = some e ∧ e.addr = P + r.poffset ∧
          e.block ≠ none := by
    by_cases hb : gp.block ≠ none
    · rw [if_pos hb] at hr'
      exact reverse_map_inv_page_invalidate r r' L gp hinv hgp hr'
    · rw [if_neg hb] at hr'
      simp only [Option.some.injEq] at hr'
      subst hr'
      refine ⟨rfl, rfl, rfl, ?_⟩
      intro P x hx hne
      obtain ⟨e, he, hea, heb⟩ := hinv.2 P x hx hne
      refine ⟨?_, e, he, hea, heb⟩
      intro hxi
      rw [hxi, hgp] at he
      simp only [Option.some.injEq] at he
      subst he
      exact hb heb
  obtain ⟨htr, hpo, hlen, hrev'⟩ := hfacts
  refine ⟨?_, ?_⟩
  · simp only [List.length_set]
    rw [hpo, hlen]
    exact hinv.1
  · intro P x hx hne
    simp only at hx ⊢
    by_cases hP : u64_sub P2 r'.poffset = P
    · subst hP
      rw [List.getElem?_set_self hidx] at hx
      simp only [Option.some.injEq] at hx
      subst hx
      simp only
      refine ⟨_, List.getElem?_set_self (by rw [htr]; exact hLlen), ?_, by simp⟩
      simp only
      have := u64_sub_index P2 r'.poffset r'.rev_trans_map.length hP2
        (by rw [hpo, hlen]; exact hinv.1) hidx
      omega
    · rw [List.getElem?_set_ne hP] at hx
      obtain ⟨hxL, e, he, hea, heb⟩ := hrev' P x hx hne
      refine ⟨e, ?_, by rw [hpo]; exact hea, heb⟩
      rw [List.getElem?_set_ne (Ne.symm hxL), htr]
      exact he

theorem reverse_map_inv_invalidate_loop :
    ∀ (n i : Nat) (r r1 : rrpc), reverse_map_inv r →
      rrpc_invalidate_range_loop i n r = some r1 → reverse_map_inv r1 := by
  intro n
  induction n with
  | zero =>
    intro i r r1 hinv h
    simp only [rrpc_invalidate_range_loop, Option.some.injEq] at h
    subst h
    exact hinv
  | succ n ih =>
    intro i r r1 hinv h
    simp only [rrpc_invalidate_range_loop] at h
    cases hgp : r.trans_map[i]? with
    | none => rw [hgp] at h; cases h
    | some gp =>
      rw [hgp] at h
      simp only at h
      cases hr' : __nvm_page_invalidate r gp with
      | none => rw [hr'] at h; cases h
      | some r' =>
        rw [hr'] at h
        simp only at h
        obtain ⟨htr, hpo, hlen, hrev'⟩ := reverse_map_inv_page_invalidate r r' i gp hinv hgp hr'
        refine ih (i + 1) _ r1 ?_ h
        refine ⟨?_, ?_⟩
        · simp only
          rw [hpo, hlen]
          exact hinv.1
        · intro P x hx hne
          simp only at hx ⊢
          obtain ⟨hxi, e, he, hea, heb⟩ := hrev' P x hx hne
          refine ⟨e, ?_, by rw [hpo]; exact hea, heb⟩
          rw [List.getElem?_set_ne (Ne.symm hxi), htr]
          exact he

theorem reverse_map_inv_step (r r1 : rrpc) (op : rrpc_op) (hinv : reverse_map_inv r)
    (hop : rrpc_op_u64 op) (h : rrpc_step r op = some r1) : reverse_map_inv r1 := by
  cases op with
  | update l_addr p_block p_addr is_gc =>
    simp only [rrpc_step] at h
    cases hu : nvm_update_map r l_addr (some p_block) p_addr is_gc with
    | none => rw [hu] at h; cases h
    | some y =>
      obtain ⟨x, r2⟩ := y
      rw [hu] at h
      simp only [Option.some.injEq] at h
      subst h
      exact reverse_map_inv_update r r2 l_addr p_addr is_gc x p_block hinv hop hu
  | invalidate slba len =>
    simp only [rrpc_step, rrpc_invalidate_range] at h
    split at h
    · simp only [Option.some.injEq] at h
      subst h
      exact hinv
    · exact reverse_map_inv_invalidate_loop len slba r r1 hinv h
  | get_blk lun flags =>
    simp only [rrpc_step, Option.some.injEq] at h
    subst h
    exact hinv
  | put_blk block =>
    simp only [rrpc_step, Option.some.injEq] at h
    subst h
    exact hinv

theorem reverse_map_inv_run :
    ∀ (ops : List rrpc_op) (r r1 : rrpc), reverse_map_inv r → (∀ op ∈ ops, rrpc_op_u64 op) →
      rrpc_run r ops = some r1 → reverse_map_inv r1 := by
  intro ops
  induction ops with
  | nil =>
    intro r r1 hinv _ h
    simp only [rrpc_run, Option.some.injEq] at h
    subst h
    exact hinv
  | cons op rest ih =>
    intro r r1 hinv hops h
    simp only [rrpc_run] at h
    cases hs : rrpc_step r op with
    | none => rw [hs] at h; cases h
    | some r2 =>
      rw [hs] at h
      simp only at h
      exact ih r2 r1 (reverse_map_inv_step r r2 op hinv (hops op (List.mem_cons_self _ _)) hs)
        (fun o ho => hops o (List.mem_cons_of_mem _ ho)) h

/-- C14: reverse map consistency is an invariant.  From the empty reverse
map `rrpc_map_init` builds (whatever the forward map holds, so from empty
maps in particular), with the physical pages of the instance below `EMPTY`,
after every sequence of `nvm_update_map` calls (with a block and a
`sector_t` page), `rrpc_invalidate_range` calls and block allocations and
releases that runs to its end, every slot `P` of the reverse map that is not
`EMPTY` holds a logical page whose map entry holds `P + poffset`. -/
theorem rrpc_reverse_map_invariant (r0 r : rrpc) (ops : List rrpc_op)
    (hrev : r0.rev_trans_map = List.replicate r0.nr_pages { addr := ADDR_EMPTY })
    (h64 : r0.poffset + r0.nr_pages ≤ U64_MAX)
    (hops : ∀ op ∈ ops, rrpc_op_u64 op)
    (hrun : rrpc_run r0 ops = some r) :
    reverse_map_consistent r := by
  have h0 : reverse_map_inv r0 := by
    refine ⟨by rw [hrev, List.length_replicate]; exact h64, ?_⟩
    intro P x hx hne
    rw [hrev] at hx
    have := List.getElem?_replicate (a := nvm_rev_addr.mk ADDR_EMPTY) (n := r0.nr_pages) (m := P)
    rw [this] at hx
    split at hx
    · simp only [Option.some.injEq] at hx
      subst hx
      exact absurd rfl hne
    · cases hx
  have h1 := reverse_map_inv_run ops r0 r h0 hops hrun
  intro P x hx hne
  obtain ⟨e, he, hea, _⟩ := h1.2 P x hx hne
  exact ⟨e, he, hea⟩

/-! ## RRPC: invalid pages are counted once -/

theorem bitmap_inv_page_invalidate (r r1 : rrpc) (i : Nat) (gp e1 : nvm_addr)
    (hc : blocks_counted r.dev) (hlive : pages_live r.dev r.trans_map)
    (hgp : r.trans_map[i]? = some gp) (he1 : e1.block = none)
    (h : __nvm_page_invalidate r gp = some r1) :
    r1.trans_map = r.trans_map ∧ blocks_counted r1.dev ∧
      pages_live r1.dev (r.trans_map.set i e1) ∧
      ∀ (B2 : Nat × Nat) (P2 : Nat), page_fresh r.dev r.trans_map B2 P2 →
        page_fresh r1.dev (r.trans_map.set i e1) B2 P2 := by
  rcases page_invalidate_inv r r1 gp h with ⟨_, rfl⟩ | ⟨_, _, dev1, hd, rfl⟩
  · exact ⟨rfl, hc, pages_live_unmap _ _ i e1 hlive he1,
      fun B2 P2 hf => page_fresh_unmap _ _ i e1 B2 P2 hf he1⟩
  · rcases invalidate_block_page_inv r.dev dev1 gp hd with ⟨_, rfl⟩ | ⟨B, lun, blk, hB, hg, hp, rfl⟩
    · exact ⟨rfl, hc, pages_live_unmap _ _ i e1 hlive he1,
        fun B2 P2 hf => page_fresh_unmap _ _ i e1 B2 P2 hf he1⟩
    · have hclear := hlive.1 i gp B lun blk hgp hB hg
      exact ⟨rfl, blocks_counted_invalidate r.dev B lun blk gp.addr hc hg hp hclear,
        pages_live_invalidate r.dev r.trans_map i gp e1 B lun blk hlive hgp hB hg he1,
        fun B2 P2 hf => page_fresh_invalidate r.dev r.trans_map i gp e1 B B2 P2 lun blk hf hgp hB
          hg he1⟩

theorem bitmap_inv_update (r r1 : rrpc) (L P2 is_gc x : Nat) (B2 : Nat × Nat)
    (hc : blocks_counted r.dev) (hlive : pages_live r.dev r.trans_map)
    (hf : page_fresh r.dev r.trans_map B2 P2)
    (h : nvm_update_map r L (some B2) P2 is_gc = some (x, r1)) :
    blocks_counted r1.dev ∧ pages_live r1.dev r1.trans_map := by
  obtain ⟨_, _, gp, r', hgp, hr', _, rfl⟩ := nvm_update_map_inv r r1 L P2 is_gc x _ h
  have hmid : r'.trans_map = r.trans_map ∧ blocks_counted r'.dev ∧
      pages_live r'.dev (r.trans_map.set L { gp with block := none }) ∧
      page_fresh r'.dev (r.trans_map.set L { gp with block := none }) B2 P2 := by
    by_cases hb : gp.block ≠ none
    · rw [if_pos hb] at hr'
      obtain ⟨h1, h2, h3, h4⟩ :=
        bitmap_inv_page_invalidate r r' L gp { gp with block := none } hc hlive hgp rfl hr'
      exact ⟨h1, h2, h3, h4 B2 P2 hf⟩
    · rw [if_neg hb] at hr'
      simp only [Option.some.injEq] at hr'
      subst hr'
      exact ⟨rfl, hc, pages_live_unmap _ _ L _ hlive rfl, page_fresh_unmap _ _ L _ B2 P2 hf rfl⟩
  obtain ⟨htr, hc', hlive', hf'⟩ := hmid
  refine ⟨hc', ?_⟩
  simp only
  have := pages_live_map r'.dev _ L P2 B2 hlive' hf'
  rw [List.set_set] at this
  rw [htr]
  exact this

theorem bitmap_inv_invalidate_loop :
    ∀ (n i : Nat) (r r1 : rrpc), blocks_counted r.dev → pages_live r.dev r.trans_map →
      rrpc_invalidate_range_loop i n r = some r1 →
      blocks_counted r1.dev ∧ pages_live r1.dev r1.trans_map := by
  intro n
  induction n with
  | zero =>
    intro i r r1 hc hlive h
    simp only [rrpc_invalidate_range_loop, Option.some.injEq] at h
    subst h
    exact ⟨hc, hlive⟩
  | succ n ih =>
    intro i r r1 hc hlive h
    simp only [rrpc_invalidate_range_loop] at h
    cases hgp : r.trans_map[i]? with
    | none => rw [hgp] at h; cases h
    | some gp =>
      rw [hgp] at h
      simp only at h
      cases hr' : __nvm_page_invalidate r gp with
      | none => rw [hr'] at h; cases h
      | some r' =>
        rw [hr'] at h
        simp only at h
        obtain ⟨h1, h2, h3, _⟩ :=
          bitmap_inv_page_invalidate r r' i gp { gp with block := none } hc hlive hgp rfl hr'
        refine ih (i + 1) _ r1 ?_ ?_ h
        · exact h2
        · simp only
          rw [h1]
          exact h3

theorem bitmap_inv_step (r r1 : rrpc) (op : rrpc_op)
    (hc : blocks_counted r.dev) (hlive : pages_live r.dev r.trans_map)
    (hf : match op with
      | rrpc_op.update _ p_block p_addr _ => page_fresh r.dev r.trans_map p_block p_addr
      | _ => True)
    (h : rrpc_step r op = some r1) :
    blocks_counted r1.dev ∧ pages_live r1.dev r1.trans_map := by
  cases op with
  | update l_addr p_block p_addr is_gc =>
    simp only [rrpc_step] at h
    cases hu : nvm_update_map r l_addr (some p_block) p_addr is_gc with
    | none => rw [hu] at h; cases h
    | some y =>
      obtain ⟨x, r2⟩ := y
      rw [hu] at h
      simp only [Option.some.injEq] at h
      subst h
      exact bitmap_inv_update r r2 l_addr p_addr is_gc x p_block hc hlive hf hu
  | invalidate slba len =>
    simp only [rrpc_step, rrpc_invalidate_range] at h
    split at h
    · simp only [Option.some.injEq] at h
      subst h
      exact ⟨hc, hlive⟩
    · exact bitmap_inv_invalidate_loop len slba r r1 hc hlive h
  | get_blk lun flags =>
    simp only [rrpc_step, Option.some.injEq] at h
    subst h
    exact ⟨blocks_counted_kept _ _ hc (nvm_get_blk_kept r.dev lun flags),
      pages_live_kept _ _ _ hlive (nvm_get_blk_kept r.dev lun flags)⟩
  | put_blk block =>
    simp only [rrpc_step, Option.some.injEq] at h
    subst h
    exact ⟨blocks_counted_kept _ _ hc (hb_put_blk_kept r.dev block),
      pages_live_kept _ _ _ hlive (hb_put_blk_kept r.dev block)⟩

theorem bitmap_inv_run :
    ∀ (ops : List rrpc_op) (r r1 : rrpc), blocks_counted r.dev → pages_live r.dev r.trans_map →
      rrpc_updates_fresh r ops → rrpc_run r ops = some r1 →
      blocks_counted r1.dev ∧ pages_live r1.dev r1.trans_map := by
  intro ops
  induction ops with
  | nil =>
    intro r r1 hc hlive _ h
    simp only [rrpc_run, Option.some.injEq] at h
    subst h
    exact ⟨hc, hlive⟩
  | cons op rest ih =>
    intro r r1 hc hlive hf h
    simp only [rrpc_run] at h
    cases hs : rrpc_step r op with
    | none => rw [hs] at h; cases h
    | some r2 =>
      rw [hs] at h
      simp only at h
      obtain ⟨hf1, hf2⟩ := hf
      rw [hs] at hf2
      obtain ⟨hc2, hlive2⟩ := bitmap_inv_step r r2 op hc hlive hf1 hs
      exact ih r2 r1 hc2 hlive2 hf2 h

/-! ## RRPC: unmapped reads and discarded ranges -/

theorem rrpc_lock_unlock (r : rrpc) (laddr pages : Nat) (inf : rrpc_inflight_rq)
    (reqs : List rrpc_inflight_rq) (hpages : 1 ≤ pages)
    (hpart : r.inflight_map[laddr % NVM_INFLIGHT_PARTITIONS]? = some reqs)
    (hfree : ∀ x ∈ reqs, request_intersects x laddr (laddr + pages - 1) = false) :
    ∃ r1, rrpc_lock_laddr r laddr pages inf =
        some (0, r1, { l_start := laddr, l_end := laddr + pages - 1 }) ∧
      r1 = { r with inflight_map :=
                      r.inflight_map.set (laddr % NVM_INFLIGHT_PARTITIONS)
                        (reqs ++ [{ l_start := laddr, l_end := laddr + pages - 1 }]) } ∧
      rrpc_unlock_laddr r1 laddr { l_start := laddr, l_end := laddr + pages - 1 } = some r := by
  have hlt := getElem?_some_lt _ _ _ hpart
  have hany : reqs.any (fun x => request_intersects x laddr (laddr + pages - 1)) = false := by
    rw [List.any_eq_false]
    intro x hx
    rw [hfree x hx]
    simp
  have hnew : (rrpc_inflight_rq.mk laddr (laddr + pages - 1)) ∉ reqs := by
    intro hmem
    have := hfree _ hmem
    unfold request_intersects at this
    simp only [decide_eq_false_iff_not, not_and_or] at this
    omega
  refine ⟨_, ?_, rfl, ?_⟩
  · unfold rrpc_lock_laddr
    rw [hpart]
    simp only [hany]
    rfl
  · unfold rrpc_unlock_laddr
    simp only
    rw [List.getElem?_set_self hlt]
    simp only
    have herase : (reqs ++ [rrpc_inflight_rq.mk laddr (laddr + pages - 1)]).erase
        (rrpc_inflight_rq.mk laddr (laddr + pages - 1)) = reqs := by
      rw [List.erase_append_right _ hnew]
      simp
    rw [herase, List.set_set, list_set_same _ _ _ hpart]

theorem rrpc_read_rq_done_eq (r : rrpc) (b : bio) (rqd : nvm_rq) (flags : Nat) (gp : nvm_addr)
    (reqs : List rrpc_inflight_rq)
    (hhost : flags &&& NVM_IOTYPE_GC = 0)
    (hL : nvm_get_laddr b < r.nr_pages)
    (hgp : r.trans_map[nvm_get_laddr b]? = some gp) (hblk : gp.block = none)
    (hpages : 1 ≤ nvm_get_pages b)
    (hpart : r.inflight_map[nvm_get_laddr b % NVM_INFLIGHT_PARTITIONS]? = some reqs)
    (hfree : ∀ x ∈ reqs,
      request_intersects x (nvm_get_laddr b) (nvm_get_laddr b + nvm_get_pages b - 1) = false) :
    rrpc_read_rq r b rqd flags =
      some (NVM_IO_DONE, r,
        { rqd with inflight :=
            { l_start := nvm_get_laddr b, l_end := nvm_get_laddr b + nvm_get_pages b - 1 } }) := by
  obtain ⟨r1, hlock, hr1, hunlock⟩ :=
    rrpc_lock_unlock r (nvm_get_laddr b) (nvm_get_pages b) rqd.inflight reqs hpages hpart hfree
  have h1 : r1.nr_pages = r.nr_pages := by rw [hr1]
  have h2 : r1.trans_map = r.trans_map := by rw [hr1]
  unfold rrpc_read_rq
  simp only [hhost, if_true]
  unfold rrpc_lock_rq
  rw [hlock]
  simp only [ne_eq, not_true_eq_false, if_false, h1, hL, h2, hgp, hblk]
  unfold rrpc_unlock_rq
  simp only [hunlock]

/-! ## RRPC: the write path -/

theorem page_invalidate_trans (r r1 : rrpc) (gp : nvm_addr)
    (h : __nvm_page_invalidate r gp = some r1) :
    r1.trans_map = r.trans_map ∧ r1.nr_pages = r.nr_pages := by
  rcases page_invalidate_inv r r1 gp h with ⟨_, rfl⟩ | ⟨_, _, dev1, _, rfl⟩
  · exact ⟨rfl, rfl⟩
  · exact ⟨rfl, rfl⟩

theorem nvm_update_map_entry (r r1 : rrpc) (L P2 is_gc x : Nat) (p_block : Option (Nat × Nat))
    (h : nvm_update_map r L p_block P2 is_gc = some (x, r1)) :
    x = L ∧ L < r1.nr_pages ∧ r1.trans_map[L]? = some { addr := P2, block := p_block } := by
  obtain ⟨hx, hL, gp, r', hgp, hr', _, rfl⟩ := nvm_update_map_inv r r1 L P2 is_gc x _ h
  have hfr : r'.trans_map = r.trans_map ∧ r'.nr_pages = r.nr_pages := by
    by_cases hb : gp.block ≠ none
    · rw [if_pos hb] at hr'
      exact page_invalidate_trans r r' gp hr'
    · rw [if_neg hb] at hr'
      simp only [Option.some.injEq] at hr'
      subst hr'
      exact ⟨rfl, rfl⟩
  refine ⟨hx, by simp only; rw [hfr.2]; exact hL, ?_⟩
  simp only
  apply List.getElem?_set_self
  rw [hfr.1]
  exact getElem?_some_lt _ _ _ hgp

theorem rrpc_map_page_finished_some (r r2 : rrpc) (L pa is_gc p : Nat) (pb : Option (Nat × Nat))
    (h : rrpc_map_page_finished r L pb pa is_gc = some (some p, r2)) :
    p = L ∧ L < r2.nr_pages ∧ pa ≠ ADDR_EMPTY ∧
      r2.trans_map[L]? = some { addr := pa, block := pb } := by
  unfold rrpc_map_page_finished at h
  by_cases hE : pa = ADDR_EMPTY
  · rw [if_pos hE] at h
    simp at h
  · rw [if_neg hE] at h
    cases hu : nvm_update_map r L pb pa is_gc with
    | none => rw [hu] at h; cases h
    | some y =>
      obtain ⟨x, r3⟩ := y
      rw [hu] at h
      simp only [Option.some.injEq, Prod.mk.injEq] at h
      obtain ⟨rfl, rfl⟩ := h
      obtain ⟨h1, h2, h3⟩ := nvm_update_map_entry r r3 L pa is_gc x pb hu
      exact ⟨h1, h2, hE, h3⟩

theorem nvm_alloc_addr_some (dev dev1 : nvm_dev) (block : Option (Nat × Nat)) (a : Nat)
    (h : nvm_alloc_addr dev block = some (a, dev1)) : ∃ B, block = some B := by
  cases block with
  | none => simp [nvm_alloc_addr] at h
  | some B => exact ⟨B, rfl⟩

theorem rrpc_map_page_some (r r2 : rrpc) (L is_gc p : Nat)
    (h : rrpc_map_page r L is_gc = some (some p, r2)) :
    p = L ∧ L < r2.nr_pages ∧
      ∃ (P : Nat) (B : Nat × Nat), P ≠ ADDR_EMPTY ∧
        r2.trans_map[L]? = some { addr := P, block := some B } := by
  unfold rrpc_map_page at h
  split at h
  · cases h
  · split at h
    · cases h
    · split at h
      · cases h
      · split at h
        · simp at h
        · split at h
          · cases h
          · rename_i rlun _ _ _ _ p_addr dev1 halloc
            split at h
            · split at h
              · split at h
                · split at h
                  · cases h
                  · rename_i p_addr2 dev3 halloc2
                    split at h
                    · split at h
                      · rename_i hE2 _ _ _
                        obtain ⟨_, _, hne, _⟩ := rrpc_map_page_finished_some _ _ _ _ _ _ _ h
                        exact absurd hE2 hne
                      · split at h
                        · cases h
                        · obtain ⟨h1, h2, h3, h4⟩ := rrpc_map_page_finished_some _ _ _ _ _ _ _ h
                          exact ⟨h1, h2, _, _, h3, h4⟩
                    · obtain ⟨h1, h2, h3, h4⟩ := rrpc_map_page_finished_some _ _ _ _ _ _ _ h
                      obtain ⟨B, hB⟩ := nvm_alloc_addr_some _ _ _ _ halloc2
                      rw [hB] at h4
                      exact ⟨h1, h2, _, _, h3, h4⟩
                · rename_i hE _ _ _ _
                  obtain ⟨_, _, hne, _⟩ := rrpc_map_page_finished_some _ _ _ _ _ _ _ h
                  exact absurd hE hne
              · split at h
                · cases h
                · obtain ⟨h1, h2, h3, h4⟩ := rrpc_map_page_finished_some _ _ _ _ _ _ _ h
                  exact ⟨h1, h2, _, _, h3, h4⟩
            · obtain ⟨h1, h2, h3, h4⟩ := rrpc_map_page_finished_some _ _ _ _ _ _ _ h
              obtain ⟨B, hB⟩ := nvm_alloc_addr_some _ _ _ _ halloc
              rw [hB] at h4
              exact ⟨h1, h2, _, _, h3, h4⟩

theorem rrpc_write_rq_ok (r r2 : rrpc) (b : bio) (rqd rqd2 : nvm_rq) (flags : Nat)
    (h : rrpc_write_rq r b rqd flags = some (NVM_IO_OK, r2, rqd2)) :
    nvm_get_laddr b < r2.nr_pages ∧
      ∃ (P : Nat) (B : Nat × Nat), P ≠ ADDR_EMPTY ∧
        r2.trans_map[nvm_get_laddr b]? = some { addr := P, block := some B } ∧
        rqd2.phys_sector = nvm_get_sector P := by
  unfold rrpc_write_rq at h
  simp only at h
  split at h
  · cases h
  · rename_i locked r1 rqd1 _
    split at h
    · simp only [Option.some.injEq, Prod.mk.injEq] at h
      exact absurd h.1 (by decide)
    · split at h
      · cases h
      · split at h
        · cases h
        · split at h
          · cases h
          · simp only [Option.some.injEq, Prod.mk.injEq] at h
            exact absurd h.1 (by decide)
      · rename_i p r2' hmap
        obtain ⟨hp, hL, P, B, hP, hentry⟩ := rrpc_map_page_some _ _ _ _ _ hmap
        subst hp
        rw [hentry] at h
        simp only [Option.some.injEq, Prod.mk.injEq] at h
        obtain ⟨_, rfl, rfl⟩ := h
        exact ⟨hL, P, B, hP, hentry, rfl⟩

theorem rrpc_unlock_laddr_frame (r r1 : rrpc) (laddr : Nat) (inf : rrpc_inflight_rq)
    (h : rrpc_unlock_laddr r laddr inf = some r1) : ∃ m, r1 = { r with inflight_map := m } := by
  unfold rrpc_unlock_laddr at h
  cases hp : r.inflight_map[laddr % NVM_INFLIGHT_PARTITIONS]? with
  | none => rw [hp] at h; cases h
  | some reqs =>
    rw [hp] at h
    simp only [Option.some.injEq] at h
    exact ⟨_, h.symm⟩

theorem rrpc_end_io_write_frame (r r1 : rrpc) (rqd : nvm_rq) (h : rrpc_end_io_write r rqd = some r1) :
    r1.trans_map = r.trans_map ∧ r1.nr_pages = r.nr_pages ∧ r1.rev_trans_map = r.rev_trans_map ∧
      r1.inflight_map = r.inflight_map := by
  unfold rrpc_end_io_write at h
  split at h
  · cases h
  · split at h
    · cases h
    · split at h
      · cases h
      · split at h
        · cases h
        · simp only at h
          split at h
          · simp only [Option.some.injEq] at h
            subst h
            exact ⟨rfl, rfl, rfl, rfl⟩
          · simp only [Option.some.injEq] at h
            subst h
            exact ⟨rfl, rfl, rfl, rfl⟩

theorem rrpc_end_io_frame (r r1 : rrpc) (rqd : nvm_rq) (error : Int)
    (h : rrpc_end_io r rqd error = some r1) :
    r1.trans_map = r.trans_map ∧ r1.nr_pages = r.nr_pages ∧ r1.rev_trans_map = r.rev_trans_map := by
  unfold rrpc_end_io at h
  split at h
  · cases h
  · rename_i b _
    split at h
    · cases h
    · rename_i r' hw
      have hfr : r'.trans_map = r.trans_map ∧ r'.nr_pages = r.nr_pages ∧
          r'.rev_trans_map = r.rev_trans_map := by
        split at hw
        · obtain ⟨h1, h2, h3, _⟩ := rrpc_end_io_write_frame r r' rqd hw
          exact ⟨h1, h2, h3⟩
        · simp only [Option.some.injEq] at hw
          subst hw
          exact ⟨rfl, rfl, rfl⟩
      split at h
      · simp only [Option.some.injEq] at h
        subst h
        exact hfr
      · unfold rrpc_unlock_rq at h
        obtain ⟨m, hm⟩ := rrpc_unlock_laddr_frame _ _ _ _ h
        rw [hm]
        exact hfr

theorem rrpc_lock_rq_conflict (r : rrpc) (b : bio) (rqd : nvm_rq) (reqs : List rrpc_inflight_rq)
    (x : rrpc_inflight_rq)
    (hpart : r.inflight_map[nvm_get_laddr b % NVM_INFLIGHT_PARTITIONS]? = some reqs)
    (hx : x ∈ reqs)
    (hover : request_intersects x (nvm_get_laddr b) (nvm_get_laddr b + nvm_get_pages b - 1) = true) :
    rrpc_lock_rq r b rqd = some (1, r, rqd) := by
  unfold rrpc_lock_rq rrpc_lock_laddr
  rw [hpart]
  have hany : reqs.any
      (fun y => request_intersects y (nvm_get_laddr b) (nvm_get_laddr b + nvm_get_pages b - 1)) =
      true := List.any_eq_true.mpr ⟨x, hx, hover⟩
  simp only [hany, if_true]

theorem rrpc_lock_rq_granted (r : rrpc) (b : bio) (rqd : nvm_rq) (reqs : List rrpc_inflight_rq)
    (hpart : r.inflight_map[nvm_get_laddr b % NVM_INFLIGHT_PARTITIONS]? = some reqs)
    (hfree : ∀ y ∈ reqs,
      request_intersects y (nvm_get_laddr b) (nvm_get_laddr b + nvm_get_pages b - 1) = false) :
    rrpc_lock_rq r b rqd =
      some (0,
        { r with inflight_map :=
                   r.inflight_map.set (nvm_get_laddr b % NVM_INFLIGHT_PARTITIONS)
                     (reqs ++ [{ l_start := nvm_get_laddr b,
                                 l_end := nvm_get_laddr b + nvm_get_pages b - 1 }]) },
        { rqd with inflight := { l_start := nvm_get_laddr b,
                                 l_end := nvm_get_laddr b + nvm_get_pages b - 1 } }) := by
  unfold rrpc_lock_rq rrpc_lock_laddr
  rw [hpart]
  have hany : reqs.any
      (fun y => request_intersects y (nvm_get_laddr b) (nvm_get_laddr b + nvm_get_pages b - 1)) =
      false := by
    rw [List.any_eq_false]
    intro y hy
    rw [hfree y hy]
    simp
  simp only [hany]
  rfl

theorem page_invalidate_inflight (r r1 : rrpc) (gp : nvm_addr)
    (h : __nvm_page_invalidate r gp = some r1) : r1.inflight_map = r.inflight_map := by
  rcases page_invalidate_inv r r1 gp h with ⟨_, rfl⟩ | ⟨_, _, dev1, _, rfl⟩ <;> rfl

theorem nvm_update_map_inflight (r r1 : rrpc) (L P2 is_gc x : Nat) (p_block : Option (Nat × Nat))
    (h : nvm_update_map r L p_block P2 is_gc = some (x, r1)) :
    r1.inflight_map = r.inflight_map := by
  obtain ⟨_, _, gp, r', _, hr', _, rfl⟩ := nvm_update_map_inv r r1 L P2 is_gc x _ h
  simp only
  by_cases hb : gp.block ≠ none
  · rw [if_pos hb] at hr'
    exact page_invalidate_inflight r r' gp hr'
  · rw [if_neg hb] at hr'
    simp only [Option.some.injEq] at hr'
    rw [← hr']

theorem rrpc_map_page_finished_inflight (r r2 : rrpc) (L pa is_gc : Nat) (x : Option Nat)
    (pb : Option (Nat × Nat)) (h : rrpc_map_page_finished r L pb pa is_gc = some (x, r2)) :
    r2.inflight_map = r.inflight_map := by
  unfold rrpc_map_page_finished at h
  split at h
  · simp only [Option.some.injEq, Prod.mk.injEq] at h
    rw [← h.2]
  · split at h
    · cases h
    · rename_i gp r1 hu
      simp only [Option.some.injEq, Prod.mk.injEq] at h
      rw [← h.2]
      exact nvm_update_map_inflight _ _ _ _ _ _ _ hu

theorem rrpc_get_lun_rr_inflight (r r1 : rrpc) (is_gc ri : Nat)
    (h : __rrpc_get_lun_rr r is_gc = some (ri, r1)) : r1.inflight_map = r.inflight_map := by
  unfold __rrpc_get_lun_rr at h
  split at h
  · unfold get_next_lun at h
    simp only at h
    split at h
    · cases h
    · split at h
      · cases h
      · simp only [Option.some.injEq, Prod.mk.injEq] at h
        rw [← h.2]
  · split at h
    · cases h
    · simp only [Option.some.injEq, Prod.mk.injEq] at h
      rw [← h.2]

theorem rrpc_map_page_inflight (r r2 : rrpc) (L is_gc : Nat) (x : Option Nat)
    (h : rrpc_map_page r L is_gc = some (x, r2)) : r2.inflight_map = r.inflight_map := by
  unfold rrpc_map_page at h
  split at h
  · cases h
  · rename_i ri r1 hrr
    have h0 := rrpc_get_lun_rr_inflight _ _ _ _ hrr
    split at h
    · cases h
    · split at h
      · cases h
      · split at h
        · simp only [Option.some.injEq, Prod.mk.injEq] at h
          rw [← h.2]; exact h0
        · split at h
          · cases h
          · split at h
            · split at h
              · split at h
                · split at h
                  · cases h
                  · split at h
                    · split at h
                      · rw [rrpc_map_page_finished_inflight _ _ _ _ _ _ _ h]; exact h0
                      · split at h
                        · cases h
                        · rw [rrpc_map_page_finished_inflight _ _ _ _ _ _ _ h]; exact h0
                    · rw [rrpc_map_page_finished_inflight _ _ _ _ _ _ _ h]; exact h0
                · rw [rrpc_map_page_finished_inflight _ _ _ _ _ _ _ h]; exact h0
              · split at h
                · cases h
                · rw [rrpc_map_page_finished_inflight _ _ _ _ _ _ _ h]; exact h0
            · rw [rrpc_map_page_finished_inflight _ _ _ _ _ _ _ h]; exact h0

theorem rrpc_write_rq_ok_inflight (r r2 : rrpc) (b : bio) (rqd rqd2 : nvm_rq) (flags : Nat)
    (hhost : flags &&& NVM_IOTYPE_GC = 0)
    (h : rrpc_write_rq r b rqd flags = some (NVM_IO_OK, r2, rqd2)) :
    ∃ reqs : List rrpc_inflight_rq,
      r2.inflight_map[nvm_get_laddr b % NVM_INFLIGHT_PARTITIONS]? = some reqs ∧
      { l_start := nvm_get_laddr b, l_end := nvm_get_laddr b + nvm_get_pages b - 1 } ∈ reqs := by
  unfold rrpc_write_rq at h
  simp only [hhost, if_true] at h
  split at h
  · cases h
  · rename_i locked r1 rqd1 hlock
    split at h
    · simp only [Option.some.injEq, Prod.mk.injEq] at h
      exact absurd h.1 (by decide)
    · rename_i hl0
      have hl : locked = 0 := by
        by_contra hne
        exact hl0 hne
      subst hl
      split at h
      · cases h
      · split at h
        · cases h
        · split at h
          · cases h
          · simp only [Option.some.injEq, Prod.mk.injEq] at h
            exact absurd h.1 (by decide)
      · rename_i p r2' hmap
        have hfr := rrpc_map_page_inflight _ _ _ _ _ hmap
        split at h
        · cases h
        · simp only [Option.some.injEq, Prod.mk.injEq] at h
          obtain ⟨_, rfl, _⟩ := h
          rw [hfr]
          cases hp : r.inflight_map[nvm_get_laddr b % NVM_INFLIGHT_PARTITIONS]? with
          | none =>
            unfold rrpc_lock_rq rrpc_lock_laddr at hlock
            rw [hp] at hlock
            cases hlock
          | some reqs =>
            cases hany : reqs.any (fun y =>
                request_intersects y (nvm_get_laddr b) (nvm_get_laddr b + nvm_get_pages b - 1)) with
            | true =>
              obtain ⟨y, hy, hover⟩ := List.any_eq_true.mp hany
              rw [rrpc_lock_rq_conflict r b rqd reqs y hp hy hover] at hlock
              simp only [Option.some.injEq, Prod.mk.injEq] at hlock
              exact absurd hlock.1 (by decide)
            | false =>
              have hfree : ∀ y ∈ reqs, request_intersects y (nvm_get_laddr b)
                  (nvm_get_laddr b + nvm_get_pages b - 1) = false := by
                intro y hy
                cases hyb : request_intersects y (nvm_get_laddr b)
                    (nvm_get_laddr b + nvm_get_pages b - 1) with
                | false => rfl
                | true =>
                  have : reqs.any (fun y => request_intersects y (nvm_get_laddr b)
                      (nvm_get_laddr b + nvm_get_pages b - 1)) = true :=
                    List.any_eq_true.mpr ⟨y, hy, hyb⟩
                  rw [hany] at this
                  cases this
              rw [rrpc_lock_rq_granted r b rqd reqs hp hfree] at hlock
              simp only [Option.some.injEq, Prod.mk.injEq, true_and] at hlock
              obtain ⟨rfl, _⟩ := hlock
              refine ⟨reqs ++ [{ l_start := nvm_get_laddr b,
                                 l_end := nvm_get_laddr b + nvm_get_pages b - 1 }], ?_, by simp⟩
              simp only
              exact List.getElem?_set_self (getElem?_some_lt _ _ _ hp)

/-- C18 (amended): if `rrpc_write_rq` for `L` returns `OK` having directed the
write to sector `S`, then in every later state in which the map entry of `L`
is the one the write installed (no write or discard of `L` in between), and
in particular in the state after `rrpc_end_io` has completed the write, a
read of `L` that is granted the range lock, or that bypasses it as a GC read
does, returns `OK` with `phys_sector == S`; whereas a host read of `L` in the
state the host write returned in, its range still in flight, returns
`REQUEUE`. -/
theorem rrpc_write_then_read (r r1 : rrpc) (bw br : bio) (rqd rqd1 : nvm_rq) (flags : Nat)
    (hw : rrpc_write_rq r bw rqd flags = some (NVM_IO_OK, r1, rqd1))
    (hL : nvm_get_laddr br = nvm_get_laddr bw) :
    (∀ (r2 r3 : rrpc) (rqd2 rqd3 : nvm_rq) (rflags : Nat),
      r2.nr_pages = r1.nr_pages →
      r2.trans_map[nvm_get_laddr bw]? = r1.trans_map[nvm_get_laddr bw]? →
      (if rflags &&& NVM_IOTYPE_GC = 0 then rrpc_lock_rq r2 br rqd2 else some (0, r2, rqd2)) =
        some (0, r3, rqd3) →
      rrpc_read_rq r2 br rqd2 rflags =
        some (NVM_IO_OK, r3,
          { rqd3 with phys_sector := rqd1.phys_sector, addr := some (nvm_get_laddr bw) })) ∧
      (∀ (rqdc : nvm_rq) (error : Int) (r2 : rrpc), rrpc_end_io r1 rqdc error = some r2 →
        r2.nr_pages = r1.nr_pages ∧
          r2.trans_map[nvm_get_laddr bw]? = r1.trans_map[nvm_get_laddr bw]?) ∧
      (flags &&& NVM_IOTYPE_GC = 0 → 1 ≤ nvm_get_pages bw → 1 ≤ nvm_get_pages br →
        ∀ (rqd2 : nvm_rq) (rflags : Nat), rflags &&& NVM_IOTYPE_GC = 0 →
          rrpc_read_rq r1 br rqd2 rflags = some (NVM_IO_REQUEUE, r1, rqd2)) := by
  obtain ⟨hlt, P, B, _, hentry, hsec⟩ := rrpc_write_rq_ok r r1 bw rqd rqd1 flags hw
  refine ⟨?_, ?_, ?_⟩
  · intro r2 r3 rqd2 rqd3 rflags hnp htr hadm
    have := rrpc_read_rq_mapped r2 r3 br rqd2 rqd3 rflags P B hadm (by rw [hL, hnp]; exact hlt)
      (by rw [hL, htr]; exact hentry)
    rw [this, hsec, hL]
  · intro rqdc error r2 hend
    obtain ⟨h1, h2, _⟩ := rrpc_end_io_frame r1 r2 rqdc error hend
    exact ⟨h2, by rw [h1]⟩
  · intro hhost hpw hpr rqd2 rflags hrhost
    obtain ⟨reqs, hpart, hmem⟩ := rrpc_write_rq_ok_inflight r r1 bw rqd rqd1 flags hhost hw
    have hover : request_intersects
        { l_start := nvm_get_laddr bw, l_end := nvm_get_laddr bw + nvm_get_pages bw - 1 }
        (nvm_get_laddr br) (nvm_get_laddr br + nvm_get_pages br - 1) = true := by
      unfold request_intersects
      simp only [decide_eq_true_eq]
      rw [hL]
      omega
    have hlock := rrpc_lock_rq_conflict r1 br rqd2 reqs _ (by rw [hL]; exact hpart) hmem hover
    unfold rrpc_read_rq
    simp only [hrhost, if_true, hlock]
    rfl

/-! ## RRPC: the victim with most invalid pages -/

theorem block_prio_find_max_loop_spec (r : rrpc) (rlun : rrpc_lun) :
    ∀ (rest : List Nat) (max n0 : Nat), rblock_invalid r rlun max = some n0 →
      (∀ x ∈ rest, (rblock_invalid r rlun x).isSome) →
      ∃ m n, block_prio_find_max_loop r rlun max rest = some m ∧ rblock_invalid r rlun m = some n ∧
        ((m = max ∧ ∀ x ∈ rest, ∃ k, rblock_invalid r rlun x = some k ∧ k ≤ n) ∨
         (n0 < n ∧ ∃ pre post, rest = pre ++ m :: post ∧
            (∀ x ∈ pre, ∃ k, rblock_invalid r rlun x = some k ∧ k < n) ∧
            (∀ x ∈ post, ∃ k, rblock_invalid r rlun x = some k ∧ k ≤ n))) := by
  intro rest
  induction rest with
  | nil =>
    intro max n0 hmax _
    exact ⟨max, n0, rfl, hmax, Or.inl ⟨rfl, by simp⟩⟩
  | cons x xs ih =>
    intro max n0 hmax hval
    have hx := hval x (List.mem_cons_self _ _)
    obtain ⟨b, hb⟩ := Option.isSome_iff_exists.mp hx
    have hxs : ∀ y ∈ xs, (rblock_invalid r rlun y).isSome :=
      fun y hy => hval y (List.mem_cons_of_mem _ hy)
    by_cases hle : b ≤ n0
    · have hstep : rblock_max_invalid r rlun max x = some max := by
        unfold rblock_max_invalid
        rw [hmax, hb]
        by_cases he : n0 = b
        · simp [he]
        · have : ¬ n0 < b := by omega
          simp [he, this]
      obtain ⟨m, n, hm, hn, hcase⟩ := ih max n0 hmax hxs
      refine ⟨m, n, ?_, hn, ?_⟩
      · simp only [block_prio_find_max_loop, hstep]; exact hm
      · rcases hcase with ⟨hmm, hall⟩ | ⟨hlt, pre, post, hsplit, hpre, hpost⟩
        · left
          refine ⟨hmm, ?_⟩
          intro y hy
          rcases List.mem_cons.mp hy with rfl | hy
          · refine ⟨b, hb, ?_⟩
            subst hmm
            rw [hmax] at hn
            simp only [Option.some.injEq] at hn
            omega
          · exact hall y hy
        · right
          refine ⟨hlt, x :: pre, post, by simp [hsplit], ?_, hpost⟩
          intro y hy
          rcases List.mem_cons.mp hy with rfl | hy
          · exact ⟨b, hb, by omega⟩
          · exact hpre y hy
    · have hlt : n0 < b := by omega
      have hstep : rblock_max_invalid r rlun max x = some x := by
        unfold rblock_max_invalid
        rw [hmax, hb]
        have : ¬ n0 = b := by omega
        simp [this, hlt]
      obtain ⟨m, n, hm, hn, hcase⟩ := ih x b hb hxs
      refine ⟨m, n, ?_, hn, Or.inr ?_⟩
      · simp only [block_prio_find_max_loop, hstep]; exact hm
      · rcases hcase with ⟨hmm, hall⟩ | ⟨hlt2, pre, post, hsplit, hpre, hpost⟩
        · subst hmm
          rw [hb] at hn
          simp only [Option.some.injEq] at hn
          subst hn
          exact ⟨hlt, [], xs, rfl, by simp, hall⟩
        · refine ⟨by omega, x :: pre, post, by simp [hsplit], ?_, hpost⟩
          intro y hy
          rcases List.mem_cons.mp hy with rfl | hy
          · exact ⟨b, hb, hlt2⟩
          · exact hpre y hy

/-- C20: on a non-empty priority list whose shadows all have a block behind
them, `block_prio_find_max` returns a member `m` of the list such that every
member before it has strictly fewer invalid pages and every member after it
has at most as many: the first of the members with the largest
`nr_invalid_pages`. -/
theorem block_prio_find_max_first (r : rrpc) (rlun : rrpc_lun)
    (hne : rlun.prio_list ≠ [])
    (hval : ∀ x ∈ rlun.prio_list, (rblock_invalid r rlun x).isSome) :
    ∃ m n pre post, block_prio_find_max r rlun = some m ∧ rlun.prio_list = pre ++ m :: post ∧
      rblock_invalid r rlun m = some n ∧
      (∀ x ∈ pre, ∃ k, rblock_invalid r rlun x = some k ∧ k < n) ∧
      (∀ x ∈ post, ∃ k, rblock_invalid r rlun x = some k ∧ k ≤ n) := by
  cases hl : rlun.prio_list with
  | nil => exact absurd hl hne
  | cons first tl =>
    rw [hl] at hval
    obtain ⟨n0, h0⟩ := Option.isSome_iff_exists.mp (hval first (List.mem_cons_self _ _))
    obtain ⟨m, n, hm, hn, hcase⟩ := block_prio_find_max_loop_spec r rlun (first :: tl) first n0 h0 hval
    have hres : block_prio_find_max r rlun = some m := by
      unfold block_prio_find_max
      rw [hl]
      exact hm
    rcases hcase with ⟨hmm, hall⟩ | ⟨_, pre, post, hsplit, hpre, hpost⟩
    · subst hmm
      exact ⟨m, n, [], tl, hres, rfl, hn, by simp,
        fun x hx => hall x (List.mem_cons_of_mem _ hx)⟩
    · exact ⟨m, n, pre, post, hres, hsplit, hn, hpre, hpost⟩

/-! ## RRPC: checks on concrete states -/

theorem trans_entry_ok_of_b (r : rrpc) (e : nvm_addr) (h : trans_entry_ok_b r e = true) :
    trans_entry_ok r e := by
  unfold trans_entry_ok_b at h
  simp only [Bool.and_eq_true, Bool.or_eq_true, beq_iff_eq, decide_eq_true_eq] at h
  obtain ⟨h1, h2⟩ := h
  refine ⟨?_, ?_⟩
  · intro hne
    rcases h1 with h1 | h1
    · exact absurd h1 hne
    · exact h1
  · intro B hB
    rw [hB] at h2
    simp only at h2
    cases hg : nvm_block_get r.dev B with
    | none => rw [hg] at h2; cases h2
    | some x =>
      obtain ⟨lun, blk⟩ := x
      rw [hg] at h2
      simp only [bne_iff_ne, ne_eq] at h2
      exact ⟨lun, blk, rfl, h2⟩

theorem blocks_counted_of_b (dev : nvm_dev) (h : blocks_counted_b dev = true) :
    blocks_counted dev := by
  unfold blocks_counted_b at h
  rw [List.all_eq_true] at h
  intro q lun blk hq
  unfold nvm_block_get at hq
  cases hl : dev.bmp.luns[q.1]? with
  | none => rw [hl] at hq; cases hq
  | some l0 =>
    rw [hl] at hq
    simp only at hq
    cases hb : l0.blocks[q.2]? with
    | none => rw [hb] at hq; cases hq
    | some b0 =>
      rw [hb] at hq
      simp only [Option.some.injEq, Prod.mk.injEq] at hq
      obtain ⟨rfl, rfl⟩ := hq
      have hmem := List.getElem?_mem hl
      have := h l0 hmem
      simp only [Bool.and_eq_true, decide_eq_true_eq, List.all_eq_true, beq_iff_eq] at this
      exact ⟨this.2 b0 (List.getElem?_mem hb), this.1⟩

theorem page_fresh_of_b (dev : nvm_dev) (trans : List nvm_addr) (B : Nat × Nat) (P : Nat)
    (h : page_fresh_b dev trans B P = true) : page_fresh dev trans B P := by
  unfold page_fresh_b at h
  intro lun blk hg
  rw [hg] at h
  simp only [Bool.and_eq_true, Bool.not_eq_true', List.all_eq_true, Bool.or_eq_true, bne_iff_ne,
    ne_eq] at h
  refine ⟨h.1, ?_⟩
  intro L e hL hB
  rcases h.2 e (List.getElem?_mem hL) with h' | h'
  · exact absurd hB h'
  · exact h'

theorem rrpc_updates_fresh_of_b :
    ∀ (ops : List rrpc_op) (r : rrpc), rrpc_updates_fresh_b r ops = true →
      rrpc_updates_fresh r ops := by
  intro ops
  induction ops with
  | nil => intro r _; trivial
  | cons op rest ih =>
    intro r h
    unfold rrpc_updates_fresh_b at h
    simp only [Bool.and_eq_true] at h
    obtain ⟨h1, h2⟩ := h
    unfold rrpc_updates_fresh
    refine ⟨?_, ?_⟩
    · cases op with
      | update l b p g => exact page_fresh_of_b _ _ _ _ h1
      | invalidate s l => trivial
      | get_blk l f => trivial
      | put_blk b => trivial
    · cases hs : rrpc_step r op with
      | none => trivial
      | some r1 =>
        rw [hs] at h2
        exact ih r1 h2

theorem pages_live_of_unmapped (dev : nvm_dev) (trans : List nvm_addr)
    (h : ∀ e ∈ trans, e.block = none) : pages_live dev trans := by
  refine ⟨?_, ?_⟩
  · intro L e B lun blk hL hB _
    rw [h e (List.getElem?_mem hL)] at hB
    cases hB
  · intro L L1 e e1 B lun blk _ hL _ hB _ _
    rw [h e (List.getElem?_mem hL)] at hB
    cases hB

/-! ## RRPC: the cursors and the free lists -/

theorem nvm_alloc_addr_fresh (dev dev1 : nvm_dev) (trans : List nvm_addr) (B : Nat × Nat) (P : Nat)
    (lun : nvm_lun) (blk : nvm_block)
    (hg : nvm_block_get dev B = some (lun, blk))
    (hle : blk.next_page ≤ lun.nr_pages_per_blk)
    (hbits : ∀ i : Nat, i < lun.nr_pages_per_blk → blk.invalid_pages.testBit i = true →
      i < blk.next_page)
    (hmapped : ∀ (L : Nat) (e : nvm_addr), trans[L]? = some e → e.block = some B →
      e.addr % lun.nr_pages_per_blk < blk.next_page)
    (halloc : nvm_alloc_addr dev (some B) = some (P, dev1)) (hP : P ≠ ADDR_EMPTY) :
    P = blk.id * lun.nr_pages_per_blk + blk.next_page ∧ page_fresh dev1 trans B P := by
  unfold nvm_alloc_addr at halloc
  simp only [hg] at halloc
  by_cases hfull : block_is_full lun blk = true
  · rw [if_pos hfull] at halloc
    simp only [Option.some.injEq, Prod.mk.injEq] at halloc
    exact absurd halloc.1.symm hP
  · rw [if_neg hfull] at halloc
    simp only [Option.some.injEq, Prod.mk.injEq, block_to_addr] at halloc
    obtain ⟨hPeq, hdev⟩ := halloc
    have hne : blk.next_page ≠ lun.nr_pages_per_blk := by
      intro h
      apply hfull
      unfold block_is_full
      simp [h]
    have hlt : blk.next_page < lun.nr_pages_per_blk := by omega
    have hmod : P % lun.nr_pages_per_blk = blk.next_page := by
      rw [← hPeq, Nat.mul_add_mod_of_lt hlt]
    refine ⟨hPeq.symm, ?_⟩
    intro lun1 blk1 hg1
    rw [← hdev, nvm_block_get_set_self dev B _ lun blk hg] at hg1
    simp only [Option.some.injEq, Prod.mk.injEq] at hg1
    obtain ⟨rfl, rfl⟩ := hg1
    simp only [update_block_nr_pages_per_blk]
    rw [hmod]
    refine ⟨?_, ?_⟩
    · cases hb : blk.invalid_pages.testBit blk.next_page with
      | false => rfl
      | true => exact absurd (hbits _ hlt hb) (Nat.lt_irrefl _)
    · intro L e hL hB
      have := hmapped L e hL hB
      omega

theorem nvm_block_set_view (dev : nvm_dev) (B q : Nat × Nat) (f : nvm_block → nvm_block)
    (lun1 : nvm_lun) (blk1 : nvm_block)
    (h : nvm_block_get (nvm_block_set dev B f) q = some (lun1, blk1)) :
    ∃ (lun : nvm_lun) (blk : nvm_block), nvm_block_get dev q = some (lun, blk) ∧
      lun1.nr_pages_per_blk = lun.nr_pages_per_blk ∧ lun1.free_list = lun.free_list ∧
      ((q = B ∧ blk1 = f blk) ∨ (q ≠ B ∧ blk1 = blk)) := by
  rw [nvm_block_get_set] at h
  cases hq : nvm_block_get dev q with
  | none => rw [hq] at h; cases h
  | some x =>
    obtain ⟨lun, blk⟩ := x
    rw [hq] at h
    simp only [Option.map_some', Option.some.injEq, Prod.mk.injEq] at h
    obtain ⟨hl, hb⟩ := h
    refine ⟨lun, blk, rfl, ?_, ?_, ?_⟩
    · rw [← hl]; split <;> simp
    · rw [← hl]; split <;> simp
    · by_cases hqB : q = B
      · rw [if_pos hqB] at hb
        exact Or.inl ⟨hqB, hb.symm⟩
      · rw [if_neg hqB] at hb
        exact Or.inr ⟨hqB, hb.symm⟩

theorem nvm_block_set_luns (dev : nvm_dev) (B : Nat × Nat) (f : nvm_block → nvm_block) (k : Nat)
    (lun1 : nvm_lun) (h : (nvm_block_set dev B f).bmp.luns[k]? = some lun1) :
    ∃ lun : nvm_lun, dev.bmp.luns[k]? = some lun ∧ lun1.free_list = lun.free_list := by
  unfold nvm_block_set at h
  cases hB : dev.bmp.luns[B.1]? with
  | none =>
    rw [hB] at h
    exact ⟨lun1, h, rfl⟩
  | some l0 =>
    rw [hB] at h
    simp only at h
    by_cases hk : B.1 = k
    · subst hk
      rw [List.getElem?_set_self (getElem?_some_lt _ _ _ hB)] at h
      simp only [Option.some.injEq] at h
      subst h
      exact ⟨l0, hB, by simp⟩
    · rw [List.getElem?_set_ne hk] at h
      exact ⟨lun1, h, rfl⟩

theorem nvm_block_get_lun (dev : nvm_dev) (q : Nat × Nat) (lun : nvm_lun) (blk : nvm_block)
    (h : nvm_block_get dev q = some (lun, blk)) : dev.bmp.luns[q.1]? = some lun := by
  unfold nvm_block_get at h
  cases hl : dev.bmp.luns[q.1]? with
  | none => rw [hl] at h; cases h
  | some l0 =>
    rw [hl] at h
    simp only at h
    cases hb : l0.blocks[q.2]? with
    | none => rw [hb] at h; cases h
    | some b =>
      rw [hb] at h
      simp only [Option.some.injEq, Prod.mk.injEq] at h
      rw [h.1]

theorem trans_set_unmapped (trans : List nvm_addr) (i : Nat) (e1 : nvm_addr) (he1 : e1.block = none)
    (L : Nat) (e : nvm_addr) (B : Nat × Nat) (hL : (trans.set i e1)[L]? = some e)
    (hB : e.block = some B) : trans[L]? = some e := by
  by_cases hLi : i = L
  · subst hLi
    rw [List.getElem?_set] at hL
    simp only [if_true] at hL
    split at hL
    · simp only [Option.some.injEq] at hL
      subst hL
      rw [he1] at hB; cases hB
    · cases hL
  · rw [List.getElem?_set_ne hLi] at hL
    exact hL

theorem cursor_inv_unmap (dev : nvm_dev) (trans : List nvm_addr) (luns : List rrpc_lun) (i : Nat)
    (e1 : nvm_addr) (h : cursor_inv dev trans luns) (he1 : e1.block = none) :
    cursor_inv dev (trans.set i e1) luns := by
  obtain ⟨h1, h2, h3⟩ := h
  refine ⟨?_, ?_, h3⟩
  · intro q lun blk hq
    obtain ⟨hle, hbits, hmap⟩ := h1 q lun blk hq
    exact ⟨hle, hbits, fun L e hL hB => hmap L e (trans_set_unmapped trans i e1 he1 L e q hL hB) hB⟩
  · intro k lun hk
    obtain ⟨hnd, hun⟩ := h2 k lun hk
    refine ⟨hnd, ?_⟩
    intro b hb L e hL hB
    exact hun b hb L e (trans_set_unmapped trans i e1 he1 L e (k, b) hL hB) hB

theorem cursor_inv_set_bit (dev : nvm_dev) (trans : List nvm_addr) (luns : List rrpc_lun)
    (B : Nat × Nat) (lun : nvm_lun) (blk : nvm_block) (k : Nat)
    (h : cursor_inv dev trans luns) (hg : nvm_block_get dev B = some (lun, blk))
    (hk : k < blk.next_page) :
    cursor_inv (nvm_block_set dev B (block_invalidate k)) trans luns := by
  obtain ⟨h1, h2, h3⟩ := h
  refine ⟨?_, ?_, ?_⟩
  · intro q lun1 blk1 hq
    obtain ⟨lun0, blk0, hq0, hp, _, hcase⟩ := nvm_block_set_view dev B q _ lun1 blk1 hq
    obtain ⟨hle, hbits, hmap⟩ := h1 q lun0 blk0 hq0
    rw [hp]
    rcases hcase with ⟨hqB, rfl⟩ | ⟨_, rfl⟩
    · subst hqB
      rw [hg] at hq0
      simp only [Option.some.injEq, Prod.mk.injEq] at hq0
      obtain ⟨rfl, rfl⟩ := hq0
      refine ⟨hle, ?_, hmap⟩
      intro i hi hbit
      simp only [block_invalidate, testBit_set_bit, Bool.or_eq_true, decide_eq_true_eq] at hbit
      rcases hbit with hbit | rfl
      · exact hbits i hi hbit
      · exact hk
    · exact ⟨hle, hbits, hmap⟩
  · intro j lun1 hj
    obtain ⟨lun0, hj0, hfl⟩ := nvm_block_set_luns dev B _ j lun1 hj
    rw [hfl]
    exact h2 j lun0 hj0
  · intro rlun hmem B' hcur lun1 blk1 hq hin
    obtain ⟨lun0, blk0, hq0, hp, hfl, hcase⟩ := nvm_block_set_view dev B B' _ lun1 blk1 hq
    rw [hfl] at hin
    have := h3 rlun hmem B' hcur lun0 blk0 hq0 hin
    rw [hp]
    rcases hcase with ⟨_, rfl⟩ | ⟨_, rfl⟩
    · exact this
    · exact this

theorem cursor_inv_bump (dev : nvm_dev) (trans : List nvm_addr) (luns : List rrpc_lun)
    (B : Nat × Nat) (lun : nvm_lun) (blk : nvm_block)
    (h : cursor_inv dev trans luns) (hg : nvm_block_get dev B = some (lun, blk))
    (hlt : blk.next_page < lun.nr_pages_per_blk) (hfree : B.2 ∉ lun.free_list) :
    cursor_inv (nvm_block_set dev B (fun x => { x with next_page := x.next_page + 1 })) trans
      luns := by
  obtain ⟨h1, h2, h3⟩ := h
  refine ⟨?_, ?_, ?_⟩
  · intro q lun1 blk1 hq
    obtain ⟨lun0, blk0, hq0, hp, _, hcase⟩ := nvm_block_set_view dev B q _ lun1 blk1 hq
    obtain ⟨hle, hbits, hmap⟩ := h1 q lun0 blk0 hq0
    rw [hp]
    rcases hcase with ⟨hqB, rfl⟩ | ⟨_, rfl⟩
    · subst hqB
      rw [hg] at hq0
      simp only [Option.some.injEq, Prod.mk.injEq] at hq0
      obtain ⟨rfl, rfl⟩ := hq0
      refine ⟨hlt, ?_, ?_⟩
      · intro i hi hbit
        exact Nat.lt_succ_of_lt (hbits i hi hbit)
      · intro L e hL hB
        exact Nat.lt_succ_of_lt (hmap L e hL hB)
    · exact ⟨hle, hbits, hmap⟩
  · intro j lun1 hj
    obtain ⟨lun0, hj0, hfl⟩ := nvm_block_set_luns dev B _ j lun1 hj
    rw [hfl]
    exact h2 j lun0 hj0
  · intro rlun hmem B' hcur lun1 blk1 hq hin
    obtain ⟨lun0, blk0, hq0, hp, hfl, hcase⟩ := nvm_block_set_view dev B B' _ lun1 blk1 hq
    rw [hfl] at hin
    rw [hp]
    rcases hcase with ⟨hqB, rfl⟩ | ⟨_, rfl⟩
    · subst hqB
      rw [hg] at hq0
      simp only [Option.some.injEq, Prod.mk.injEq] at hq0
      obtain ⟨rfl, rfl⟩ := hq0
      exact absurd hin hfree
    · exact h3 rlun hmem B' hcur lun0 _ hq0 hin

theorem cursor_inv_map (dev : nvm_dev) (trans : List nvm_addr) (luns : List rrpc_lun)
    (i P2 : Nat) (B2 : Nat × Nat) (h : cursor_inv dev trans luns)
    (hpl : page_placed dev B2 P2) :
    cursor_inv dev (trans.set i { addr := P2, block := some B2 }) luns := by
  obtain ⟨h1, h2, h3⟩ := h
  obtain ⟨lun2, blk2, hg2, hoff, hfree⟩ := hpl
  have hget : ∀ (L : Nat) (e : nvm_addr), (trans.set i { addr := P2, block := some B2 })[L]? = some e →
      e = { addr := P2, block := some B2 } ∨ trans[L]? = some e := by
    intro L e hL
    by_cases hLi : i = L
    · subst hLi
      rw [List.getElem?_set] at hL
      simp only [if_true] at hL
      split at hL
      · simp only [Option.some.injEq] at hL
        exact Or.inl hL.symm
      · cases hL
    · rw [List.getElem?_set_ne hLi] at hL
      exact Or.inr hL
  refine ⟨?_, ?_, h3⟩
  · intro q lun blk hq
    obtain ⟨hle, hbits, hmap⟩ := h1 q lun blk hq
    refine ⟨hle, hbits, ?_⟩
    intro L e hL hB
    rcases hget L e hL with rfl | hold
    · simp only [Option.some.injEq] at hB
      subst hB
      rw [hg2] at hq
      simp only [Option.some.injEq, Prod.mk.injEq] at hq
      obtain ⟨rfl, rfl⟩ := hq
      exact hoff
    · exact hmap L e hold hB
  · intro k lun hk
    obtain ⟨hnd, hun⟩ := h2 k lun hk
    refine ⟨hnd, ?_⟩
    intro b hb L e hL
    rcases hget L e hL with rfl | hold
    · simp only [ne_eq, Option.some.injEq]
      intro hB
      subst hB
      have := nvm_block_get_lun dev _ lun2 blk2 hg2
      simp only at this
      rw [hk] at this
      simp only [Option.some.injEq] at this
      subst this
      exact hfree hb
    · exact hun b hb L e hold

theorem page_placed_set_bit (dev : nvm_dev) (B B2 : Nat × Nat) (P2 k : Nat)
    (h : page_placed dev B2 P2) :
    page_placed (nvm_block_set dev B (block_invalidate k)) B2 P2 := by
  obtain ⟨lun2, blk2, hg2, hoff, hfree⟩ := h
  have := nvm_block_get_set dev B B2 (block_invalidate k)
  rw [hg2] at this
  simp only [Option.map_some'] at this
  refine ⟨_, _, this, ?_, ?_⟩
  · have h1 : (if B2.1 = B.1 then update_block lun2 B.2 (block_invalidate k) else lun2).nr_pages_per_blk
        = lun2.nr_pages_per_blk := by split <;> simp
    have h2 : (if B2 = B then block_invalidate k blk2 else blk2).next_page = blk2.next_page := by
      split <;> simp [block_invalidate]
    rw [h1, h2]
    exact hoff
  · have h1 : (if B2.1 = B.1 then update_block lun2 B.2 (block_invalidate k) else lun2).free_list
        = lun2.free_list := by split <;> simp
    rw [h1]
    exact hfree

theorem hb_get_blk_lists (lun : nvm_lun) (flags : Nat) :
    (∀ b : Nat, b ∈ (hb_get_blk lun flags).2.free_list → b ∈ lun.free_list) ∧
      (lun.free_list.Nodup → (hb_get_blk lun flags).2.free_list.Nodup) ∧
      ∀ b : Nat, (hb_get_blk lun flags).1 = some b →
        b ∈ lun.free_list ∧ (lun.free_list.Nodup → b ∉ (hb_get_blk lun flags).2.free_list) := by
  unfold hb_get_blk
  cases hfree : lun.free_list with
  | nil =>
    simp only
    rw [hfree]
    exact ⟨fun b h => h, fun h => h, fun b h => by cases h⟩
  | cons block rest =>
    simp only
    by_cases hg : flags &&& NVM_IOTYPE_GC = 0 ∧ lun.nr_free_blocks < lun.reserved_blocks
    · rw [if_pos hg]
      simp only
      rw [hfree]
      exact ⟨fun b h => h, fun h => h, fun b h => by cases h⟩
    · rw [if_neg hg]
      simp only [update_block_free_list, list_move_tail_used, list_del, hfree,
        List.erase_cons_head, Option.some.injEq]
      refine ⟨fun b h => List.mem_cons_of_mem _ h, fun h => (List.nodup_cons.mp h).2, ?_⟩
      intro b hb
      subst hb
      exact ⟨List.mem_cons_self _ _, fun h => (List.nodup_cons.mp h).1⟩

theorem nvm_get_blk_none (dev : nvm_dev) (k flags : Nat) (hk : dev.bmp.luns[k]? = none) :
    nvm_get_blk dev k flags = (none, dev) := by
  unfold nvm_get_blk hb_get_blk_bm
  rw [hk]

theorem nvm_get_blk_some (dev : nvm_dev) (k flags : Nat) (l0 : nvm_lun)
    (hk : dev.bmp.luns[k]? = some l0) :
    nvm_get_blk dev k flags =
      ((hb_get_blk l0 flags).1.map (fun b => (k, b)),
        { dev with bmp := { luns := dev.bmp.luns.set k (hb_get_blk l0 flags).2 } }) := by
  unfold nvm_get_blk hb_get_blk_bm
  rw [hk]
  simp only
  cases (hb_get_blk l0 flags).1 <;> rfl

theorem nvm_get_blk_luns (dev : nvm_dev) (k flags j : Nat) (lun1 : nvm_lun)
    (h : (nvm_get_blk dev k flags).2.bmp.luns[j]? = some lun1) :
    ∃ lun : nvm_lun, dev.bmp.luns[j]? = some lun ∧
      (∀ b : Nat, b ∈ lun1.free_list → b ∈ lun.free_list) ∧
      (lun.free_list.Nodup → lun1.free_list.Nodup) := by
  cases hk : dev.bmp.luns[k]? with
  | none =>
    rw [nvm_get_blk_none dev k flags hk] at h
    exact ⟨lun1, h, fun b hb => hb, fun hn => hn⟩
  | some l0 =>
    rw [nvm_get_blk_some dev k flags l0 hk] at h
    simp only at h
    by_cases hkj : k = j
    · subst hkj
      rw [List.getElem?_set_self (getElem?_some_lt _ _ _ hk)] at h
      simp only [Option.some.injEq] at h
      subst h
      exact ⟨l0, hk, (hb_get_blk_lists l0 flags).1, (hb_get_blk_lists l0 flags).2.1⟩
    · rw [List.getElem?_set_ne hkj] at h
      exact ⟨lun1, h, fun b hb => hb, fun hn => hn⟩

theorem nvm_get_blk_view (dev : nvm_dev) (k flags : Nat) (q : Nat × Nat) (lun1 : nvm_lun)
    (blk1 : nvm_block) (h : nvm_block_get (nvm_get_blk dev k flags).2 q = some (lun1, blk1)) :
    ∃ (lun : nvm_lun) (blk : nvm_block), nvm_block_get dev q = some (lun, blk) ∧
      lun1.nr_pages_per_blk = lun.nr_pages_per_blk ∧
      (∀ b : Nat, b ∈ lun1.free_list → b ∈ lun.free_list) ∧
      (((nvm_get_blk dev k flags).1 ≠ some q ∧ blk1 = blk) ∨
        ((nvm_get_blk dev k flags).1 = some q ∧ q.2 ∈ lun.free_list ∧
          (lun.free_list.Nodup → q.2 ∉ lun1.free_list) ∧ blk1.next_page = 0 ∧
          ∀ i : Nat, i < lun.nr_pages_per_blk → blk1.invalid_pages.testBit i = false)) := by
  cases hk : dev.bmp.luns[k]? with
  | none =>
    rw [nvm_get_blk_none dev k flags hk] at h ⊢
    exact ⟨lun1, blk1, h, rfl, fun b hb => hb, Or.inl ⟨by simp, rfl⟩⟩
  | some l0 =>
    rw [nvm_get_blk_some dev k flags l0 hk] at h ⊢
    unfold nvm_block_get at h ⊢
    simp only at h ⊢
    by_cases hkq : k = q.1
    · rw [← hkq] at h ⊢
      rw [List.getElem?_set_self (getElem?_some_lt _ _ _ hk)] at h
      rw [hk]
      simp only at h ⊢
      cases hb1 : (hb_get_blk l0 flags).2.blocks[q.2]? with
      | none => rw [hb1] at h; cases h
      | some b1 =>
        rw [hb1] at h
        simp only [Option.some.injEq, Prod.mk.injEq] at h
        obtain ⟨hl, hb⟩ := h
        subst hl
        subst hb
        obtain ⟨hp, hblocks⟩ := hb_get_blk_blocks l0 flags
        obtain ⟨blk, hblk, hcase⟩ := hblocks q.2 b1 hb1
        obtain ⟨hsub, hnd, hret⟩ := hb_get_blk_lists l0 flags
        rw [hblk]
        refine ⟨l0, blk, rfl, hp, hsub, ?_⟩
        rcases hcase with ⟨hne, hb⟩ | ⟨he, hb⟩
        · left
          refine ⟨?_, hb⟩
          intro hv
          apply hne
          cases hr : (hb_get_blk l0 flags).1 with
          | none => rw [hr] at hv; cases hv
          | some b =>
            rw [hr] at hv
            simp only [Option.map_some', Option.some.injEq] at hv
            rw [← hv]
        · right
          obtain ⟨hin, hout⟩ := hret q.2 he
          refine ⟨?_, hin, hout, ?_, ?_⟩
          · rw [he]
            simp only [Option.map_some', Option.some.injEq]
            exact Prod.ext hkq rfl
          · rw [hb]
          · intro i hi
            rw [hb]
            exact testBit_bitmap_zero _ _ i hi
    · rw [List.getElem?_set_ne hkq] at h
      cases hl : dev.bmp.luns[q.1]? with
      | none => rw [hl] at h; cases h
      | some lq =>
        rw [hl] at h
        simp only at h ⊢
        cases hb : lq.blocks[q.2]? with
        | none => rw [hb] at h; cases h
        | some b =>
          rw [hb] at h
          simp only [Option.some.injEq, Prod.mk.injEq] at h
          obtain ⟨rfl, rfl⟩ := h
          refine ⟨_, _, rfl, rfl, fun b hb => hb, Or.inl ⟨?_, rfl⟩⟩
          intro hv
          cases hr : (hb_get_blk l0 flags).1 with
          | none => rw [hr] at hv; cases hv
          | some b =>
            rw [hr] at hv
            simp only [Option.map_some', Option.some.injEq] at hv
            apply hkq
            rw [← hv]

theorem cursor_inv_get_blk (dev : nvm_dev) (trans : List nvm_addr) (luns : List rrpc_lun)
    (k flags : Nat) (h : cursor_inv dev trans luns) :
    cursor_inv (nvm_get_blk dev k flags).2 trans luns ∧
      ∀ B : Nat × Nat, (nvm_get_blk dev k flags).1 = some B →
        ∀ (lun : nvm_lun) (blk : nvm_block),
          nvm_block_get (nvm_get_blk dev k flags).2 B = some (lun, blk) → B.2 ∉ lun.free_list := by
  obtain ⟨h1, h2, h3⟩ := h
  refine ⟨⟨?_, ?_, ?_⟩, ?_⟩
  · intro q lun1 blk1 hq
    obtain ⟨lun, blk, hq0, hp, hsub, hcase⟩ := nvm_get_blk_view dev k flags q lun1 blk1 hq
    obtain ⟨hle, hbits, hmap⟩ := h1 q lun blk hq0
    rw [hp]
    rcases hcase with ⟨_, rfl⟩ | ⟨_, hin, _, hnp, hclear⟩
    · exact ⟨hle, hbits, hmap⟩
    · rw [hnp]
      refine ⟨Nat.zero_le _, ?_, ?_⟩
      · intro i hi hbit
        rw [hclear i hi] at hbit
        cases hbit
      · intro L e hL hB
        have hk := nvm_block_get_lun dev q lun blk hq0
        exact absurd hB ((h2 q.1 lun hk).2 q.2 hin L e hL)
  · intro j lun1 hj
    obtain ⟨lun, hj0, hsub, hnd⟩ := nvm_get_blk_luns dev k flags j lun1 hj
    obtain ⟨hn, hun⟩ := h2 j lun hj0
    exact ⟨hnd hn, fun b hb => hun b (hsub b hb)⟩
  · intro rlun hmem B hcur lun1 blk1 hq hin
    obtain ⟨lun, blk, hq0, hp, hsub, hcase⟩ := nvm_get_blk_view dev k flags B lun1 blk1 hq
    rw [hp]
    rcases hcase with ⟨_, rfl⟩ | ⟨_, _, hout, _, _⟩
    · exact h3 rlun hmem B hcur lun _ hq0 (hsub _ hin)
    · have hk := nvm_block_get_lun dev B lun blk hq0
      exact absurd hin (hout (h2 B.1 lun hk).1)
  · intro B hret lun1 blk1 hq
    obtain ⟨lun, blk, hq0, hp, hsub, hcase⟩ := nvm_get_blk_view dev k flags B lun1 blk1 hq
    rcases hcase with ⟨hne, _⟩ | ⟨_, _, hout, _, _⟩
    · exact absurd hret hne
    · have hk := nvm_block_get_lun dev B lun blk hq0
      exact hout (h2 B.1 lun hk).1

theorem bitmap_full_testBit (bits nbits i : Nat) (h : bitmap_full bits nbits = true)
    (hi : i < nbits) : bits.testBit i = true := by
  unfold bitmap_full at h
  rw [List.all_eq_true] at h
  exact h i (List.mem_range.mpr hi)

theorem hb_put_blk_view (dev : nvm_dev) (B q : Nat × Nat) (lun1 : nvm_lun) (blk1 : nvm_block)
    (h : nvm_block_get { dev with bmp := hb_put_blk dev.bmp B } q = some (lun1, blk1)) :
    ∃ lun : nvm_lun, nvm_block_get dev q = some (lun, blk1) ∧
      lun1.nr_pages_per_blk = lun.nr_pages_per_blk ∧
      ∀ b : Nat, b ∈ lun1.free_list → b ∈ lun.free_list ∨ (q.1 = B.1 ∧ b = B.2) := by
  unfold hb_put_blk at h
  cases hB : dev.bmp.luns[B.1]? with
  | none =>
    rw [hB] at h
    exact ⟨lun1, h, rfl, fun b hb => Or.inl hb⟩
  | some l0 =>
    rw [hB] at h
    unfold nvm_block_get at h ⊢
    simp only at h ⊢
    by_cases hkq : B.1 = q.1
    · rw [← hkq] at h ⊢
      rw [List.getElem?_set_self (getElem?_some_lt _ _ _ hB)] at h
      rw [hB]
      simp only [hb_put_blk_lun, list_move_tail_free, list_del] at h ⊢
      cases hb : l0.blocks[q.2]? with
      | none => rw [hb] at h; cases h
      | some b0 =>
        rw [hb] at h
        simp only [Option.some.injEq, Prod.mk.injEq] at h
        obtain ⟨rfl, rfl⟩ := h
        refine ⟨l0, rfl, rfl, ?_⟩
        intro b hb
        simp only [List.mem_append, List.mem_singleton] at hb
        rcases hb with hb | hb
        · exact Or.inl (List.mem_of_mem_erase hb)
        · exact Or.inr ⟨trivial, hb⟩
    · rw [List.getElem?_set_ne hkq] at h
      cases hl : dev.bmp.luns[q.1]? with
      | none => rw [hl] at h; cases h
      | some lq =>
        rw [hl] at h
        simp only at h ⊢
        cases hb : lq.blocks[q.2]? with
        | none => rw [hb] at h; cases h
        | some b =>
          rw [hb] at h
          simp only [Option.some.injEq, Prod.mk.injEq] at h
          obtain ⟨rfl, rfl⟩ := h
          exact ⟨_, rfl, rfl, fun b hb => Or.inl hb⟩

theorem hb_put_blk_luns (dev : nvm_dev) (B : Nat × Nat) (j : Nat) (lun1 : nvm_lun)
    (h : (hb_put_blk dev.bmp B).luns[j]? = some lun1) :
    ∃ lun : nvm_lun, dev.bmp.luns[j]? = some lun ∧
      (lun.free_list.Nodup → lun1.free_list.Nodup) ∧
      ∀ b : Nat, b ∈ lun1.free_list → b ∈ lun.free_list ∨ (j = B.1 ∧ b = B.2) := by
  unfold hb_put_blk at h
  cases hB : dev.bmp.luns[B.1]? with
  | none =>
    rw [hB] at h
    exact ⟨lun1, h, fun hn => hn, fun b hb => Or.inl hb⟩
  | some l0 =>
    rw [hB] at h
    simp only at h
    by_cases hkj : B.1 = j
    · subst hkj
      rw [List.getElem?_set_self (getElem?_some_lt _ _ _ hB)] at h
      simp only [Option.some.injEq] at h
      subst h
      refine ⟨l0, hB, ?_, ?_⟩
      · intro hn
        simp only [hb_put_blk_lun, list_move_tail_free, list_del]
        rw [List.nodup_append]
        refine ⟨hn.erase _, List.nodup_singleton _, ?_⟩
        intro a ha hb
        simp only [List.mem_singleton] at hb
        subst hb
        exact (List.Nodup.not_mem_erase hn) ha
      · intro b hb
        simp only [hb_put_blk_lun, list_move_tail_free, list_del, List.mem_append,
          List.mem_singleton] at hb
        rcases hb with hb | hb
        · exact Or.inl (List.mem_of_mem_erase hb)
        · exact Or.inr ⟨rfl, hb⟩
    · rw [List.getElem?_set_ne hkj] at h
      exact ⟨lun1, h, fun hn => hn, fun b hb => Or.inl hb⟩

theorem cursor_inv_put_blk (dev : nvm_dev) (trans : List nvm_addr) (luns : List rrpc_lun)
    (B : Nat × Nat) (lun : nvm_lun) (blk : nvm_block)
    (h : cursor_inv dev trans luns) (hlive : pages_live dev trans)
    (hg : nvm_block_get dev B = some (lun, blk))
    (hfull : bitmap_full blk.invalid_pages lun.nr_pages_per_blk = true) :
    cursor_inv { dev with bmp := hb_put_blk dev.bmp B } trans luns := by
  obtain ⟨h1, h2, h3⟩ := h
  obtain ⟨hle, hbits, hmap⟩ := h1 B lun blk hg
  have hunmapped : ∀ (L : Nat) (e : nvm_addr), trans[L]? = some e → e.block ≠ some B := by
    intro L e hL hB
    have hoff := hmap L e hL hB
    have hclear := hlive.1 L e B lun blk hL hB hg
    rw [bitmap_full_testBit _ _ _ hfull (by omega)] at hclear
    cases hclear
  have hisfull : blk.next_page = lun.nr_pages_per_blk := by
    rcases Nat.eq_zero_or_pos lun.nr_pages_per_blk with h0 | hpos
    · omega
    · have := hbits (lun.nr_pages_per_blk - 1) (by omega)
        (bitmap_full_testBit _ _ _ hfull (by omega))
      omega
  refine ⟨?_, ?_, ?_⟩
  · intro q lun1 blk1 hq
    obtain ⟨lun0, hq0, hp, _⟩ := hb_put_blk_view dev B q lun1 blk1 hq
    rw [hp]
    exact h1 q lun0 blk1 hq0
  · intro j lun1 hj
    obtain ⟨lun0, hj0, hnd, hsub⟩ := hb_put_blk_luns dev B j lun1 hj
    obtain ⟨hn, hun⟩ := h2 j lun0 hj0
    refine ⟨hnd hn, ?_⟩
    intro b hb L e hL
    rcases hsub b hb with hold | ⟨rfl, rfl⟩
    · exact hun b hold L e hL
    · exact hunmapped L e hL
  · intro rlun hmem B' hcur lun1 blk1 hq hin
    obtain ⟨lun0, hq0, hp, hsub⟩ := hb_put_blk_view dev B B' lun1 blk1 hq
    rw [hp]
    rcases hsub _ hin with hold | ⟨h1', h2'⟩
    · exact h3 rlun hmem B' hcur lun0 blk1 hq0 hold
    · have hBB : B' = B := Prod.ext h1' h2'
      subst hBB
      rw [hg] at hq0
      simp only [Option.some.injEq, Prod.mk.injEq] at hq0
      obtain ⟨rfl, rfl⟩ := hq0
      exact hisfull

theorem cur_ok_set (dev : nvm_dev) (luns : List rrpc_lun) (ri : Nat) (rlun rlun1 : rrpc_lun)
    (h : cur_ok dev luns) (hri : luns[ri]? = some rlun)
    (hnew : ∀ B : Nat × Nat, (rlun1.cur = some B ∨ rlun1.gc_cur = some B) →
      (rlun.cur = some B ∨ rlun.gc_cur = some B) ∨ block_cur_ok dev B) :
    cur_ok dev (luns.set ri rlun1) := by
  intro x hx B hcur
  rcases List.mem_or_eq_of_mem_set hx with hmem | rfl
  · exact h x hmem B hcur
  · rcases hnew B hcur with hold | hok
    · exact h rlun (List.getElem?_mem hri) B hold
    · exact hok

theorem blocks_counted_set_frame (dev : nvm_dev) (B : Nat × Nat) (f : nvm_block → nvm_block)
    (hf : ∀ b : nvm_block, (f b).invalid_pages = b.invalid_pages ∧
      (f b).nr_invalid_pages = b.nr_invalid_pages)
    (hc : blocks_counted dev) : blocks_counted (nvm_block_set dev B f) := by
  intro q lun1 blk1 hq
  obtain ⟨lun, blk, hq0, hp, _, hcase⟩ := nvm_block_set_view dev B q f lun1 blk1 hq
  have := hc q lun blk hq0
  rw [hp]
  rcases hcase with ⟨_, rfl⟩ | ⟨_, rfl⟩
  · rw [(hf blk).1, (hf blk).2]
    exact this
  · exact this

theorem pages_live_set_frame (dev : nvm_dev) (trans : List nvm_addr) (B : Nat × Nat)
    (f : nvm_block → nvm_block)
    (hf : ∀ b : nvm_block, (f b).invalid_pages = b.invalid_pages)
    (hlive : pages_live dev trans) : pages_live (nvm_block_set dev B f) trans := by
  obtain ⟨hb, hc⟩ := hlive
  refine ⟨?_, ?_⟩
  · intro L e q lun1 blk1 hL hB hq
    obtain ⟨lun, blk, hq0, hp, _, hcase⟩ := nvm_block_set_view dev B q f lun1 blk1 hq
    have := hb L e q lun blk hL hB hq0
    rw [hp]
    rcases hcase with ⟨_, rfl⟩ | ⟨_, rfl⟩
    · rw [hf blk]
      exact this
    · exact this
  · intro L L1 e e' q lun1 blk1 hne hL hL1 hB hB' hq
    obtain ⟨lun, blk, hq0, hp, _, _⟩ := nvm_block_set_view dev B q f lun1 blk1 hq
    rw [hp]
    exact hc L L1 e e' q lun blk hne hL hL1 hB hB' hq0

theorem pages_inv_alloc (dev dev1 : nvm_dev) (trans : List nvm_addr) (luns : List rrpc_lun)
    (B : Nat × Nat) (P : Nat) (h : pages_inv dev trans luns) (hB : block_cur_ok dev B)
    (halloc : nvm_alloc_addr dev (some B) = some (P, dev1)) :
    pages_inv dev1 trans luns ∧ block_cur_ok dev1 B ∧
      (P ≠ ADDR_EMPTY → page_fresh dev1 trans B P ∧ page_placed dev1 B P) := by
  obtain ⟨hc, hlive, hcur⟩ := h
  have halloc0 := halloc
  unfold nvm_alloc_addr at halloc
  simp only at halloc
  cases hg : nvm_block_get dev B with
  | none => rw [hg] at halloc; cases halloc
  | some x =>
    obtain ⟨lun, blk⟩ := x
    rw [hg] at halloc
    simp only at halloc
    by_cases hfull : block_is_full lun blk = true
    · rw [if_pos hfull] at halloc
      simp only [Option.some.injEq, Prod.mk.injEq] at halloc
      obtain ⟨rfl, rfl⟩ := halloc
      exact ⟨⟨hc, hlive, hcur⟩, hB, fun hne => absurd rfl hne⟩
    · rw [if_neg hfull] at halloc
      simp only [Option.some.injEq, Prod.mk.injEq] at halloc
      obtain ⟨hPeq, hdev⟩ := halloc
      have hne : blk.next_page ≠ lun.nr_pages_per_blk := by
        intro h
        apply hfull
        unfold block_is_full
        simp [h]
      obtain ⟨hle, hbits, hmap⟩ := hcur.1 B lun blk hg
      have hlt : blk.next_page < lun.nr_pages_per_blk := by omega
      have hfree : B.2 ∉ lun.free_list := fun hin => hne (hB lun blk hg hin)
      have hg1 := nvm_block_get_set_self dev B (fun x => { x with next_page := x.next_page + 1 })
        lun blk hg
      rw [hdev] at hg1
      refine ⟨⟨?_, ?_, ?_⟩, ?_, ?_⟩
      · rw [← hdev]
        exact blocks_counted_set_frame dev B _ (fun b => ⟨rfl, rfl⟩) hc
      · rw [← hdev]
        exact pages_live_set_frame dev trans B _ (fun b => rfl) hlive
      · rw [← hdev]
        exact cursor_inv_bump dev trans luns B lun blk hcur hg hlt hfree
      · intro lun1 blk1 hq hin
        rw [hg1] at hq
        simp only [Option.some.injEq, Prod.mk.injEq] at hq
        obtain ⟨rfl, rfl⟩ := hq
        simp only [update_block_free_list] at hin
        exact absurd hin hfree
      · intro hP
        obtain ⟨hPv, hfresh⟩ :=
          nvm_alloc_addr_fresh dev dev1 trans B P lun blk hg hle hbits hmap halloc0 hP
        refine ⟨hfresh, _, _, hg1, ?_, ?_⟩
        · simp only [update_block_nr_pages_per_blk]
          rw [hPv, Nat.mul_add_mod_of_lt hlt]
          exact Nat.lt_succ_self _
        · simp only [update_block_free_list]
          exact hfree

theorem pages_inv_get_blk (dev : nvm_dev) (trans : List nvm_addr) (luns : List rrpc_lun)
    (k flags : Nat) (h : pages_inv dev trans luns) :
    pages_inv (nvm_get_blk dev k flags).2 trans luns ∧
      ∀ B : Nat × Nat, (nvm_get_blk dev k flags).1 = some B →
        block_cur_ok (nvm_get_blk dev k flags).2 B := by
  obtain ⟨hc, hlive, hcur⟩ := h
  obtain ⟨h1, h2⟩ := cursor_inv_get_blk dev trans luns k flags hcur
  refine ⟨⟨blocks_counted_kept _ _ hc (nvm_get_blk_kept dev k flags),
    pages_live_kept _ _ _ hlive (nvm_get_blk_kept dev k flags), h1⟩, ?_⟩
  intro B hB lun blk hq hin
  exact absurd hin (h2 B hB lun blk hq)

theorem pages_inv_luns_set (dev : nvm_dev) (trans : List nvm_addr) (luns : List rrpc_lun)
    (ri : Nat) (rlun rlun1 : rrpc_lun) (h : pages_inv dev trans luns)
    (hri : luns[ri]? = some rlun)
    (hnew : ∀ B : Nat × Nat, (rlun1.cur = some B ∨ rlun1.gc_cur = some B) →
      (rlun.cur = some B ∨ rlun.gc_cur = some B) ∨ block_cur_ok dev B) :
    pages_inv dev trans (luns.set ri rlun1) := by
  obtain ⟨hc, hlive, h1, h2, h3⟩ := h
  exact ⟨hc, hlive, h1, h2, cur_ok_set dev luns ri rlun rlun1 h3 hri hnew⟩

theorem pages_inv_page_invalidate (r r1 : rrpc) (i : Nat) (gp e1 : nvm_addr)
    (h : rrpc_pages_inv r) (hgp : r.trans_map[i]? = some gp) (he1 : e1.block = none)
    (hinv : __nvm_page_invalidate r gp = some r1) :
    r1.trans_map = r.trans_map ∧ r1.luns = r.luns ∧
      pages_inv r1.dev (r.trans_map.set i e1) r.luns ∧
      ∀ (B2 : Nat × Nat) (P2 : Nat), page_fresh r.dev r.trans_map B2 P2 →
        page_placed r.dev B2 P2 →
        page_fresh r1.dev (r.trans_map.set i e1) B2 P2 ∧ page_placed r1.dev B2 P2 := by
  obtain ⟨hc, hlive, hcur⟩ := h
  obtain ⟨ht, hc1, hlive1, hfresh⟩ := bitmap_inv_page_invalidate r r1 i gp e1 hc hlive hgp he1 hinv
  rcases page_invalidate_inv r r1 gp hinv with ⟨_, rfl⟩ | ⟨_, _, dev1, hd, rfl⟩
  · exact ⟨rfl, rfl, ⟨hc1, hlive1, cursor_inv_unmap _ _ _ i e1 hcur he1⟩,
      fun B2 P2 hf hp => ⟨hfresh B2 P2 hf, hp⟩⟩
  · rcases invalidate_block_page_inv r.dev dev1 gp hd with ⟨_, rfl⟩ | ⟨B, lun, blk, hB, hg, hp, rfl⟩
    · exact ⟨rfl, rfl, ⟨hc1, hlive1, cursor_inv_unmap _ _ _ i e1 hcur he1⟩,
        fun B2 P2 hf hp => ⟨hfresh B2 P2 hf, hp⟩⟩
    · have hoff := (hcur.1 B lun blk hg).2.2 i gp hgp hB
      refine ⟨rfl, rfl, ⟨hc1, hlive1, ?_⟩, ?_⟩
      · exact cursor_inv_unmap _ _ _ i e1
          (cursor_inv_set_bit r.dev r.trans_map r.luns B lun blk _ hcur hg hoff) he1
      · intro B2 P2 hf hpl
        exact ⟨hfresh B2 P2 hf, page_placed_set_bit r.dev B B2 P2 _ hpl⟩

theorem pages_inv_update (r r1 : rrpc) (L P2 is_gc x : Nat) (B2 : Nat × Nat)
    (h : rrpc_pages_inv r) (hf : page_fresh r.dev r.trans_map B2 P2)
    (hpl : page_placed r.dev B2 P2)
    (hu : nvm_update_map r L (some B2) P2 is_gc = some (x, r1)) : rrpc_pages_inv r1 := by
  obtain ⟨_, _, gp, r', hgp, hr', _, rfl⟩ := nvm_update_map_inv r r1 L P2 is_gc x _ hu
  have hmid : r'.trans_map = r.trans_map ∧ r'.luns = r.luns ∧
      pages_inv r'.dev (r.trans_map.set L { gp with block := none }) r.luns ∧
      page_fresh r'.dev (r.trans_map.set L { gp with block := none }) B2 P2 ∧
      page_placed r'.dev B2 P2 := by
    by_cases hb : gp.block ≠ none
    · rw [if_pos hb] at hr'
      obtain ⟨h1, h2, h3, h4⟩ :=
        pages_inv_page_invalidate r r' L gp { gp with block := none } h hgp rfl hr'
      exact ⟨h1, h2, h3, h4 B2 P2 hf hpl⟩
    · rw [if_neg hb] at hr'
      simp only [Option.some.injEq] at hr'
      subst hr'
      obtain ⟨hc, hlive, hcur⟩ := h
      exact ⟨rfl, rfl, ⟨hc, pages_live_unmap _ _ L _ hlive rfl, cursor_inv_unmap _ _ _ L _ hcur rfl⟩,
        page_fresh_unmap _ _ L _ B2 P2 hf rfl, hpl⟩
  obtain ⟨htr, hluns, ⟨hc', hlive', hcur'⟩, hf', hpl'⟩ := hmid
  unfold rrpc_pages_inv
  simp only
  rw [htr, hluns]
  have h1 := pages_live_map r'.dev _ L P2 B2 hlive' hf'
  have h2 := cursor_inv_map r'.dev _ r.luns L P2 B2 hcur' hpl'
  rw [List.set_set] at h1 h2
  exact ⟨hc', h1, h2⟩

theorem pages_inv_invalidate_loop :
    ∀ (n i : Nat) (r r1 : rrpc), rrpc_pages_inv r →
      rrpc_invalidate_range_loop i n r = some r1 → rrpc_pages_inv r1 := by
  intro n
  induction n with
  | zero =>
    intro i r r1 hinv h
    simp only [rrpc_invalidate_range_loop, Option.some.injEq] at h
    subst h
    exact hinv
  | succ n ih =>
    intro i r r1 hinv h
    simp only [rrpc_invalidate_range_loop] at h
    cases hgp : r.trans_map[i]? with
    | none => rw [hgp] at h; cases h
    | some gp =>
      rw [hgp] at h
      simp only at h
      cases hr' : __nvm_page_invalidate r gp with
      | none => rw [hr'] at h; cases h
      | some r' =>
        rw [hr'] at h
        simp only at h
        obtain ⟨h1, h2, h3, _⟩ :=
          pages_inv_page_invalidate r r' i gp { gp with block := none } hinv hgp rfl hr'
        refine ih (i + 1) _ r1 ?_ h
        unfold rrpc_pages_inv
        simp only
        rw [h1, h2]
        exact h3

theorem pages_inv_finished (r r2 : rrpc) (L P is_gc : Nat) (pb : Option (Nat × Nat))
    (x : Option Nat) (h : rrpc_pages_inv r)
    (hP : P ≠ ADDR_EMPTY → ∃ B : Nat × Nat, pb = some B ∧ page_fresh r.dev r.trans_map B P ∧
      page_placed r.dev B P)
    (hfin : rrpc_map_page_finished r L pb P is_gc = some (x, r2)) : rrpc_pages_inv r2 := by
  unfold rrpc_map_page_finished at hfin
  by_cases hE : P = ADDR_EMPTY
  · rw [if_pos hE] at hfin
    simp only [Option.some.injEq, Prod.mk.injEq] at hfin
    rw [← hfin.2]
    exact h
  · rw [if_neg hE] at hfin
    obtain ⟨B, rfl, hf, hpl⟩ := hP hE
    cases hu : nvm_update_map r L (some B) P is_gc with
    | none => rw [hu] at hfin; cases hfin
    | some y =>
      obtain ⟨z, r3⟩ := y
      rw [hu] at hfin
      simp only [Option.some.injEq, Prod.mk.injEq] at hfin
      rw [← hfin.2]
      exact pages_inv_update r r3 L P is_gc z B h hf hpl hu

theorem rrpc_get_lun_rr_frame (r r1 : rrpc) (is_gc ri : Nat)
    (h : __rrpc_get_lun_rr r is_gc = some (ri, r1)) :
    r1.dev = r.dev ∧ r1.trans_map = r.trans_map ∧ r1.luns = r.luns := by
  unfold __rrpc_get_lun_rr at h
  split at h
  · unfold get_next_lun at h
    simp only at h
    split at h
    · cases h
    · split at h
      · cases h
      · simp only [Option.some.injEq, Prod.mk.injEq] at h
        rw [← h.2]
        exact ⟨rfl, rfl, rfl⟩
  · split at h
    · cases h
    · simp only [Option.some.injEq, Prod.mk.injEq] at h
      rw [← h.2]
      exact ⟨rfl, rfl, rfl⟩

theorem pages_inv_map_page (r r2 : rrpc) (L is_gc : Nat) (x : Option Nat)
    (hinv : rrpc_pages_inv r) (h : rrpc_map_page r L is_gc = some (x, r2)) :
    rrpc_pages_inv r2 := by
  unfold rrpc_map_page at h
  cases hrr : __rrpc_get_lun_rr r is_gc with
  | none => rw [hrr] at h; cases h
  | some y =>
    obtain ⟨ri, r1⟩ := y
    rw [hrr] at h
    simp only at h
    obtain ⟨hd, ht, hl⟩ := rrpc_get_lun_rr_frame r r1 is_gc ri hrr
    have hinv1 : pages_inv r1.dev r1.trans_map r1.luns := by
      rw [hd, ht, hl]; exact hinv
    cases hri : r1.luns[ri]? with
    | none => rw [hri] at h; cases h
    | some rlun =>
      rw [hri] at h
      simp only at h
      have hmem : rlun ∈ r1.luns := List.getElem?_mem hri
      cases hlun : r1.dev.bmp.luns[rlun.parent]? with
      | none => rw [hlun] at h; cases h
      | some lun =>
        rw [hlun] at h
        simp only at h
        by_cases hres : is_gc = 0 ∧ lun.nr_free_blocks < r1.nr_luns * 4 % 4294967296
        · rw [if_pos hres] at h
          simp only [Option.some.injEq, Prod.mk.injEq] at h
          rw [← h.2]
          exact hinv1
        · rw [if_neg hres] at h
          cases ha1 : nvm_alloc_addr r1.dev rlun.cur with
          | none => rw [ha1] at h; cases h
          | some y1 =>
            obtain ⟨p_addr, dev1⟩ := y1
            rw [ha1] at h
            simp only at h
            obtain ⟨Bc, hBc⟩ := nvm_alloc_addr_some _ _ _ _ ha1
            rw [hBc] at ha1
            have hcurok : block_cur_ok r1.dev Bc := hinv1.2.2.2.2 rlun hmem Bc (Or.inl hBc)
            obtain ⟨hI1, _, hF1⟩ := pages_inv_alloc _ _ _ _ Bc p_addr hinv1 hcurok ha1
            by_cases hE : p_addr = ADDR_EMPTY
            · rw [if_pos hE] at h
              have hG := pages_inv_get_blk dev1 r1.trans_map r1.luns rlun.parent 0 hI1
              cases hgb : nvm_get_blk dev1 rlun.parent 0 with
              | mk ret dev2 =>
                rw [hgb] at h hG
                simp only at h hG
                obtain ⟨hI2, hnew2⟩ := hG
                cases ret with
                | none =>
                  simp only at h
                  by_cases hgc : is_gc ≠ 0
                  · rw [if_pos hgc] at h
                    cases ha2 : nvm_alloc_addr dev2 rlun.gc_cur with
                    | none => rw [ha2] at h; cases h
                    | some y2 =>
                      obtain ⟨p_addr2, dev3⟩ := y2
                      rw [ha2] at h
                      simp only at h
                      obtain ⟨Bg, hBg⟩ := nvm_alloc_addr_some _ _ _ _ ha2
                      rw [hBg] at ha2
                      have hgcok : block_cur_ok dev2 Bg := hI2.2.2.2.2 rlun hmem Bg (Or.inr hBg)
                      obtain ⟨hI3, _, hF3⟩ := pages_inv_alloc _ _ _ _ Bg p_addr2 hI2 hgcok ha2
                      by_cases hE2 : p_addr2 = ADDR_EMPTY
                      · rw [if_pos hE2] at h
                        have hG4 := pages_inv_get_blk dev3 r1.trans_map r1.luns rlun.parent 1 hI3
                        cases hgb4 : nvm_get_blk dev3 rlun.parent 1 with
                        | mk ret4 dev4 =>
                          rw [hgb4] at h hG4
                          simp only at h hG4
                          obtain ⟨hI4, hnew4⟩ := hG4
                          cases ret4 with
                          | none =>
                            simp only at h
                            refine pages_inv_finished _ _ _ _ _ _ _ ?_ (fun hne => absurd hE2 hne) h
                            exact hI4
                          | some blk =>
                            simp only at h
                            cases ha3 : nvm_alloc_addr dev4 (some blk) with
                            | none => rw [ha3] at h; cases h
                            | some y3 =>
                              obtain ⟨p_addr3, dev5⟩ := y3
                              rw [ha3] at h
                              simp only at h
                              obtain ⟨hI5, hB5, hF5⟩ :=
                                pages_inv_alloc _ _ _ _ blk p_addr3 hI4 (hnew4 blk rfl) ha3
                              refine pages_inv_finished _ _ _ _ _ _ _ ?_ ?_ h
                              · apply pages_inv_luns_set dev5 _ r1.luns ri rlun _ hI5 hri
                                intro B hB
                                rcases hB with hB | hB
                                · exact Or.inl (Or.inl hB)
                                · simp only [Option.some.injEq] at hB
                                  subst hB
                                  exact Or.inr hB5
                              · intro hne
                                exact ⟨blk, rfl, hF5 hne⟩
                      · rw [if_neg hE2, hBg] at h
                        refine pages_inv_finished _ _ _ _ _ _ _ ?_ (fun hne => ⟨Bg, rfl, hF3 hne⟩) h
                        exact hI3
                  · rw [if_neg hgc] at h
                    refine pages_inv_finished _ _ _ _ _ _ _ ?_ (fun hne => absurd hE hne) h
                    exact hI2
                | some blk =>
                  simp only at h
                  cases ha2 : nvm_alloc_addr dev2 (some blk) with
                  | none => rw [ha2] at h; cases h
                  | some y2 =>
                    obtain ⟨p_addr2, dev3⟩ := y2
                    rw [ha2] at h
                    simp only at h
                    obtain ⟨hI3, hB3, hF3⟩ :=
                      pages_inv_alloc _ _ _ _ blk p_addr2 hI2 (hnew2 blk rfl) ha2
                    refine pages_inv_finished _ _ _ _ _ _ _ ?_ ?_ h
                    · apply pages_inv_luns_set dev3 _ r1.luns ri rlun _ hI3 hri
                      intro B hB
                      rcases hB with hB | hB
                      · simp only [rrpc_set_lun_cur, Option.some.injEq] at hB
                        subst hB
                        exact Or.inr hB3
                      · exact Or.inl (Or.inr hB)
                    · intro hne
                      exact ⟨blk, rfl, hF3 hne⟩
            · rw [if_neg hE, hBc] at h
              refine pages_inv_finished _ _ _ _ _ _ _ ?_ (fun hne => ⟨Bc, rfl, hF1 hne⟩) h
              exact hI1

theorem pages_inv_sys_step (r r1 : rrpc) (op : rrpc_sys_op) (hinv : rrpc_pages_inv r)
    (h : rrpc_sys_step r op = some r1) : rrpc_pages_inv r1 := by
  cases op with
  | write laddr is_gc =>
    simp only [rrpc_sys_step] at h
    cases hm : rrpc_map_page r laddr is_gc with
    | none => rw [hm] at h; cases h
    | some y =>
      obtain ⟨x, r2⟩ := y
      rw [hm] at h
      simp only [Option.some.injEq] at h
      subst h
      exact pages_inv_map_page r r2 laddr is_gc x hinv hm
  | discard slba len =>
    simp only [rrpc_sys_step, rrpc_invalidate_range] at h
    split at h
    · simp only [Option.some.injEq] at h
      subst h
      exact hinv
    · exact pages_inv_invalidate_loop len slba r r1 hinv h
  | release block =>
    simp only [rrpc_sys_step] at h
    cases hg : nvm_block_get r.dev block with
    | none => rw [hg] at h; cases h
    | some y =>
      obtain ⟨lun, blk⟩ := y
      rw [hg] at h
      simp only at h
      by_cases hfull : bitmap_full blk.invalid_pages lun.nr_pages_per_blk = true
      · rw [if_pos hfull] at h
        simp only [Option.some.injEq] at h
        subst h
        obtain ⟨hc, hlive, hcur⟩ := hinv
        exact ⟨blocks_counted_kept _ _ hc (hb_put_blk_kept r.dev block),
          pages_live_kept _ _ _ hlive (hb_put_blk_kept r.dev block),
          cursor_inv_put_blk r.dev r.trans_map r.luns block lun blk hcur hlive hg hfull⟩
      · rw [if_neg hfull] at h
        simp only [Option.some.injEq] at h
        subst h
        exact hinv

theorem pages_inv_sys_run :
    ∀ (ops : List rrpc_sys_op) (r r1 : rrpc), rrpc_pages_inv r → rrpc_sys_run r ops = some r1 →
      rrpc_pages_inv r1 := by
  intro ops
  induction ops with
  | nil =>
    intro r r1 hinv h
    simp only [rrpc_sys_run, Option.some.injEq] at h
    subst h
    exact hinv
  | cons op rest ih =>
    intro r r1 hinv h
    simp only [rrpc_sys_run] at h
    cases hs : rrpc_sys_step r op with
    | none => rw [hs] at h; cases h
    | some r2 =>
      rw [hs] at h
      simp only at h
      exact ih r2 r1 (pages_inv_sys_step r r2 op hinv hs) h

theorem nvm_block_get_parts (dev : nvm_dev) (q : Nat × Nat) (lun : nvm_lun) (blk : nvm_block)
    (h : nvm_block_get dev q = some (lun, blk)) :
    dev.bmp.luns[q.1]? = some lun ∧ lun.blocks[q.2]? = some blk := by
  unfold nvm_block_get at h
  cases hl : dev.bmp.luns[q.1]? with
  | none => rw [hl] at h; cases h
  | some l0 =>
    rw [hl] at h
    simp only at h
    cases hb : l0.blocks[q.2]? with
    | none => rw [hb] at h; cases h
    | some b =>
      rw [hb] at h
      simp only [Option.some.injEq, Prod.mk.injEq] at h
      obtain ⟨rfl, rfl⟩ := h
      exact ⟨rfl, hb⟩

theorem cursors_ok_of_b (dev : nvm_dev) (trans : List nvm_addr)
    (h : cursors_ok_b dev trans = true) : cursors_ok dev trans := by
  unfold cursors_ok_b at h
  rw [List.all_eq_true] at h
  intro q lun blk hq
  obtain ⟨hl, hb⟩ := nvm_block_get_parts dev q lun blk hq
  have h1 := h q.1 (List.mem_range.mpr (getElem?_some_lt _ _ _ hl))
  rw [hl] at h1
  simp only [List.all_eq_true] at h1
  have h2 := h1 q.2 (List.mem_range.mpr (getElem?_some_lt _ _ _ hb))
  rw [hb] at h2
  simp only [Bool.and_eq_true, decide_eq_true_eq, List.all_eq_true, Bool.or_eq_true,
    Bool.not_eq_true', bne_iff_ne, ne_eq, List.mem_range] at h2
  obtain ⟨⟨hle, hbits⟩, hmap⟩ := h2
  refine ⟨hle, ?_, ?_⟩
  · intro i hi hbit
    rcases hbits i hi with h' | h'
    · rw [h'] at hbit; cases hbit
    · exact h'
  · intro L e hL hB
    rcases hmap e (List.getElem?_mem hL) with h' | h'
    · exact absurd hB h'
    · exact h'

theorem free_blocks_ok_of_b (dev : nvm_dev) (trans : List nvm_addr)
    (h : free_blocks_ok_b dev trans = true) : free_blocks_ok dev trans := by
  unfold free_blocks_ok_b at h
  rw [List.all_eq_true] at h
  intro k lun hk
  have h1 := h k (List.mem_range.mpr (getElem?_some_lt _ _ _ hk))
  rw [hk] at h1
  simp only [Bool.and_eq_true, decide_eq_true_eq, List.all_eq_true, bne_iff_ne, ne_eq] at h1
  exact ⟨h1.1, fun b hb L e hL => h1.2 b hb e (List.getElem?_mem hL)⟩

theorem block_cur_ok_of_b (dev : nvm_dev) (B : Nat × Nat)
    (h : block_cur_ok_b dev (some B) = true) : block_cur_ok dev B := by
  unfold block_cur_ok_b at h
  intro lun blk hq hin
  simp only [hq, Bool.or_eq_true, Bool.not_eq_true', decide_eq_false_iff_not,
    decide_eq_true_eq] at h
  rcases h with h | h
  · exact absurd hin h
  · exact h

theorem cur_ok_of_b (dev : nvm_dev) (luns : List rrpc_lun) (h : cur_ok_b dev luns = true) :
    cur_ok dev luns := by
  unfold cur_ok_b at h
  rw [List.all_eq_true] at h
  intro rlun hmem B hcur
  have h1 := h rlun hmem
  simp only [Bool.and_eq_true] at h1
  rcases hcur with hc | hc
  · rw [hc] at h1
    exact block_cur_ok_of_b dev B h1.1
  · rw [hc] at h1
    exact block_cur_ok_of_b dev B h1.2

theorem rrpc_pages_inv_of_b (r : rrpc) (h : rrpc_pages_inv_b r = true) : rrpc_pages_inv r := by
  unfold rrpc_pages_inv_b at h
  simp only [Bool.and_eq_true, List.all_eq_true, beq_iff_eq] at h
  obtain ⟨⟨⟨⟨h1, h2⟩, h3⟩, h4⟩, h5⟩ := h
  exact ⟨blocks_counted_of_b _ h1, pages_live_of_unmapped _ _ h2, cursors_ok_of_b _ _ h3,
    free_blocks_ok_of_b _ _ h4, cur_ok_of_b _ _ h5⟩

/-- C15: the weight of `invalid_pages` equals `nr_invalid_pages`.  The block
`hb_get_blk` returns has weight and counter zero.  From a state that
satisfies the invariant of the write path, the equality holds for every
block, and the invariant holds again, after every sequence of writes mapped
by `rrpc_map_page`, of discards and of block releases that runs to its end:
the page the append cursor hands to `nvm_update_map` is fresh, so no page is
counted twice between two allocations of its block.  And from a state in
which every block counts its invalid pages and the pages of the mapped
logical pages are valid and distinct, the equality holds for every block
after every sequence of `nvm_update_map` calls that are handed a fresh page,
of `rrpc_invalidate_range` calls and of block allocations and releases that
runs to its end. -/
theorem rrpc_invalid_pages_counted (s0 s r0 r : rrpc) (sops : List rrpc_sys_op)
    (ops : List rrpc_op) (hinv : rrpc_pages_inv s0) (hsrun : rrpc_sys_run s0 sops = some s)
    (hc : blocks_counted r0.dev) (hlive : pages_live r0.dev r0.trans_map)
    (hfresh : rrpc_updates_fresh r0 ops) (hrun : rrpc_run r0 ops = some r) :
    (∀ (lun : nvm_lun) (flags b : Nat) (blk : nvm_block), (hb_get_blk lun flags).1 = some b →
        (hb_get_blk lun flags).2.blocks[b]? = some blk →
        bitmap_weight blk.invalid_pages lun.nr_pages_per_blk = 0 ∧ blk.nr_invalid_pages = 0) ∧
      ((∀ (q : Nat × Nat) (lun : nvm_lun) (blk : nvm_block),
          nvm_block_get s.dev q = some (lun, blk) →
          bitmap_weight blk.invalid_pages lun.nr_pages_per_blk = blk.nr_invalid_pages) ∧
        rrpc_pages_inv s) ∧
      (∀ (q : Nat × Nat) (lun : nvm_lun) (blk : nvm_block),
          nvm_block_get r.dev q = some (lun, blk) →
          bitmap_weight blk.invalid_pages lun.nr_pages_per_blk = blk.nr_invalid_pages) ∧
        pages_live r.dev r.trans_map := by
  have hs := pages_inv_sys_run sops s0 s hinv hsrun
  obtain ⟨h1, h2⟩ := bitmap_inv_run ops r0 r hc hlive hfresh hrun
  refine ⟨?_, ⟨fun q lun blk hq => (hs.1 q lun blk hq).1, hs⟩,
    fun q lun blk hq => (h1 q lun blk hq).1, h2⟩
  intro lun flags b blk hb hblk
  obtain ⟨_, hblocks⟩ := hb_get_blk_blocks lun flags
  obtain ⟨blk0, _, hcase⟩ := hblocks b blk hblk
  rcases hcase with ⟨hne, _⟩ | ⟨_, rfl⟩
  · exact absurd hb hne
  · exact ⟨bitmap_weight_clear _ _ (fun i hi => testBit_bitmap_zero _ _ i hi), rfl⟩

/-! ## RRPC: failing runs -/

/-- C11: a table entry `U64_MAX` passes the bounds check and is not skipped.
On the device `dev_two_blocks` after attach (four pages), `hb_block_map` for
the chunk `[U64_MAX]` resolves the entry to a LUN outside the LUN array, and
`rrpc_l2p_update` for the same chunk stores the entry in `trans_map[0]` and
then indexes the reverse map, of four slots, at `U64_MAX`: neither call has a
defined result, whereas the entry 0 is skipped by both. -/
theorem l2p_sentinel_not_skipped :
    dev_two_blocks_ready.total_pages = 4 ∧ dev_two_blocks_ready.bmp.luns.length = 1 ∧
      hb_block_map 0 [0] dev_two_blocks_ready = some (0, dev_two_blocks_ready) ∧
      hb_block_map_entry 4 4 dev_two_blocks_ready.bmp U64_MAX = none ∧
      hb_block_map 0 [U64_MAX] dev_two_blocks_ready = none ∧
      rrpc_two_blocks.rev_trans_map.length = 4 ∧
      rrpc_l2p_update 0 [0] rrpc_two_blocks = some (0, rrpc_two_blocks) ∧
      rrpc_l2p_update_entry 4 0 rrpc_two_blocks 0 U64_MAX = none ∧
      rrpc_l2p_update 0 [U64_MAX] rrpc_two_blocks = none := by
  refine ⟨by decide, by decide, by decide, by decide, by decide, by decide, by decide, by decide,
    by decide⟩

/-- C13: forward map consistency is broken by a repeated discard.  On
`rrpc_two_blocks`, after `ops_recycle` logical page 1 is mapped to physical
page 2, the page logical page 0 held before it was discarded and the block
was recycled, and the maps are consistent; `rrpc_invalidate_range (0, 1)`,
the discard of page 0 once more, then sets `rev_trans_map[2]` to `EMPTY`
through the stale address of page 0, although page 1 is still mapped to
physical page 2. -/
theorem forward_map_broken_by_repeated_discard :
    rrpc_run rrpc_two_blocks ops_recycle = some rrpc_two_blocks_recycled ∧
      rrpc_two_blocks_recycled.trans_map[0]? = some { addr := 2, block := none } ∧
      rrpc_two_blocks_recycled.trans_map[1]? = some { addr := 2, block := some (0, 1) } ∧
      rrpc_two_blocks_recycled.rev_trans_map[2]? = some { addr := 1 } ∧
      forward_map_consistent rrpc_two_blocks_recycled ∧
      ∃ r2, rrpc_invalidate_range rrpc_two_blocks_recycled 0 1 = some r2 ∧
        r2.trans_map[1]? = some { addr := 2, block := some (0, 1) } ∧
        r2.rev_trans_map[u64_sub 2 r2.poffset]? = some { addr := ADDR_EMPTY } ∧
        ¬ forward_map_consistent r2 := by
  refine ⟨by decide, by decide, by decide, by decide, ?_, ?_⟩
  · intro L e hL hb
    have hlen : rrpc_two_blocks_recycled.trans_map.length = 4 := by decide
    have hlt := getElem?_some_lt _ _ _ hL
    rw [hlen] at hlt
    have h0 : rrpc_two_blocks_recycled.trans_map[0]? = some { addr := 2, block := none } := by decide
    have h1 : rrpc_two_blocks_recycled.trans_map[1]? = some { addr := 2, block := some (0, 1) } := by
      decide
    have h2 : rrpc_two_blocks_recycled.trans_map[2]? = some { addr := ADDR_EMPTY, block := none } := by
      decide
    have h3 : rrpc_two_blocks_recycled.trans_map[3]? = some { addr := ADDR_EMPTY, block := none } := by
      decide
    interval_cases L
    · rw [h0] at hL; cases hL; exact absurd rfl hb
    · rw [h1] at hL; cases hL; decide
    · rw [h2] at hL; cases hL; exact absurd rfl hb
    · rw [h3] at hL; cases hL; exact absurd rfl hb
  · refine ⟨(rrpc_invalidate_range rrpc_two_blocks_recycled 0 1).getD rrpc_two_blocks, by decide,
      by decide, by decide, ?_⟩
    intro hcons
    have := hcons 1 { addr := 2, block := some (0, 1) } (by decide) (by decide)
    revert this
    decide

/-- C18: a host read of page 10 issued right after the host write of page 10
has returned `OK` (sector 16) returns `REQUEUE`, the range of the write being
in flight until `rrpc_end_io` releases it. -/
theorem rrpc_read_after_write_requeued :
    rrpc_write_rq rrpc_ten_blocks bio_write_10 nvm_rq_zero NVM_IOTYPE_NONE =
        some (NVM_IO_OK, rrpc_ten_written, { rqd_ten_written with rq_bio := none }) ∧
      rqd_ten_written.phys_sector = 16 ∧
      rrpc_ten_written.trans_map[10]? = some { addr := 2, block := some (0, 1) } ∧
      rrpc_read_rq rrpc_ten_written bio_read_10 nvm_rq_zero NVM_IOTYPE_NONE =
        some (NVM_IO_REQUEUE, rrpc_ten_written, nvm_rq_zero) := by
  refine ⟨by decide, by decide, by decide, by decide⟩

/-! ## RRPC: the capacity -/

/-- C21: with `reserved = nr_luns * max_pages_per_blk * 4`, when the product
fits an `unsigned int` and the capacity of all pages fits a `sector_t`,
`rrpc_capacity` returns `(nr_pages - reserved) / 10 * 9 * NR_PHY_IN_LOG`
whenever `reserved ≤ nr_pages`, ten times this value is at most
`9 * (nr_pages - reserved) * NR_PHY_IN_LOG`, and it returns 0 whenever
`reserved ≥ nr_pages`. -/
theorem rrpc_capacity_exposed (r : rrpc)
    (hres : r.nr_luns * r.dev.max_pages_per_blk * 4 ≤ UINT_MAX)
    (hcap : r.nr_pages / 10 * 9 * NR_PHY_IN_LOG ≤ U64_MAX) :
    (r.nr_luns * r.dev.max_pages_per_blk * 4 ≤ r.nr_pages →
        rrpc_capacity r =
          (r.nr_pages - r.nr_luns * r.dev.max_pages_per_blk * 4) / 10 * 9 * NR_PHY_IN_LOG ∧
        10 * rrpc_capacity r ≤
          9 * (r.nr_pages - r.nr_luns * r.dev.max_pages_per_blk * 4) * NR_PHY_IN_LOG) ∧
      (r.nr_pages ≤ r.nr_luns * r.dev.max_pages_per_blk * 4 → rrpc_capacity r = 0) := by
  have hmod : r.nr_luns * r.dev.max_pages_per_blk * 4 % 4294967296 =
      r.nr_luns * r.dev.max_pages_per_blk * 4 := by
    apply Nat.mod_eq_of_lt
    unfold UINT_MAX at hres
    omega
  unfold rrpc_capacity
  simp only [hmod]
  unfold NR_PHY_IN_LOG U64_MAX at *
  refine ⟨?_, ?_⟩
  · intro hle
    rw [if_neg (by omega)]
    have hsmall : (r.nr_pages - r.nr_luns * r.dev.max_pages_per_blk * 4) / 10 * 9 * 8 <
        18446744073709551616 := by
      have : (r.nr_pages - r.nr_luns * r.dev.max_pages_per_blk * 4) / 10 ≤ r.nr_pages / 10 :=
        Nat.div_le_div_right (Nat.sub_le _ _)
      omega
    rw [Nat.mod_eq_of_lt hsmall]
    refine ⟨rfl, ?_⟩
    have := Nat.div_mul_le_self (r.nr_pages - r.nr_luns * r.dev.max_pages_per_blk * 4) 10
    omega
  · intro hge
    by_cases hgt : r.nr_luns * r.dev.max_pages_per_blk * 4 > r.nr_pages
    · rw [if_pos hgt]
    · rw [if_neg hgt]
      have : r.nr_pages - r.nr_luns * r.dev.max_pages_per_blk * 4 = 0 := by omega
      rw [this]

/-! ## Failing runs of attach, of the device table and of the collector -/

/-- C29: a block marked bad does not stay bad when the L2P table points into
it.  On `dev_ten_blocks` with bad-block bits 2 and 5 and the L2P entry 4 (the
first page of block 2), attach succeeds and leaves block 2, whose bad-block
bit is set, on the used list and not on the bad list, with `nr_free_blocks`
decremented from 10 to 9; without the L2P entry the bad list is `[2, 5]` and
the counter is 10. -/
theorem hb_bad_block_taken_by_l2p :
    bb_bit ops_bad_mapped 0 10 2 = true ∧
      hb_register ops_bad_mapped dev_ten_blocks = some (1, dev_ten_bad_mapped) ∧
      dev_ten_bad_mapped.bmp.luns[0]? = some lun_ten_bad_mapped ∧
      lun_ten_bad_mapped.bb_list = [5] ∧ lun_ten_bad_mapped.used_list = [2] ∧
      lun_ten_bad_mapped.free_list = [1, 3, 4, 6, 7, 8, 9] ∧
      lun_ten_bad_mapped.nr_free_blocks = 9 ∧
      ∃ dev1 lun, hb_register ops_bad_2_5 dev_ten_blocks = some (1, dev1) ∧
        dev1.bmp.luns[0]? = some lun ∧ lun.bb_list = [2, 5] ∧ lun.used_list = [] ∧
        lun.nr_free_blocks = 10 := by
  refine ⟨by decide, by decide, by decide, by decide, by decide, by decide, by decide,
    ((hb_register ops_bad_2_5 dev_ten_blocks).getD (0, dev_ten_blocks)).2,
    (((hb_register ops_bad_2_5 dev_ten_blocks).getD (0, dev_ten_blocks)).2.bmp.luns.getD 0
      nvm_lun_zero), ?_⟩
  decide

/-- C25: the reverse map built from the device table is not keyed by
`physical_page - poffset`.  On the instance on LUNs 1 and 2 of a device of
three LUNs of four pages (`poffset` 4, eight pages), the table entry that maps
logical page 3 to physical page 5 makes `rrpc_l2p_update` store 3 in slot 5
of the reverse map and leave slot `5 - poffset` at `EMPTY`;
`rrpc_block_map_update` of the block of page 5 reads slot 5 and attaches the
block to page 3; when page 3 is then written again, `nvm_update_map` clears
slot `5 - poffset` and slot 5 still holds 3.  `rrpc_block_map_update` of the
first block of LUN 2 reads slot 8 of the eight slots, and `rrpc_init` for
LUNs 1 and 2 has no defined result, with or without a device table. -/
theorem l2p_update_ignores_poffset :
    rrpc_lun_one_core.poffset = 4 ∧ rrpc_lun_one_core.nr_pages = 8 ∧
      rrpc_map_init ops_l2p_lun_one rrpc_lun_one_core = some (0, rrpc_lun_one_maps) ∧
      rrpc_lun_one_maps.trans_map[3]? = some { addr := 5, block := none } ∧
      rrpc_lun_one_maps.rev_trans_map[5]? = some { addr := 3 } ∧
      rrpc_lun_one_maps.rev_trans_map[u64_sub 5 rrpc_lun_one_maps.poffset]? =
        some { addr := ADDR_EMPTY } ∧
      rrpc_block_map_update rrpc_lun_one_maps (1, 0) = some rrpc_lun_one_block ∧
      rrpc_lun_one_block.trans_map[3]? = some { addr := 5, block := some (1, 0) } ∧
      nvm_update_map rrpc_lun_one_block 3 (some (1, 1)) 6 0 = some (3, rrpc_lun_one_rewritten) ∧
      rrpc_lun_one_rewritten.trans_map[3]? = some { addr := 6, block := some (1, 1) } ∧
      rrpc_lun_one_rewritten.rev_trans_map[5]? = some { addr := 3 } ∧
      rrpc_block_map_update rrpc_lun_one_maps (2, 0) = none ∧
      rrpc_init ops_l2p_lun_one dev_three_luns_ready 1 2 = none ∧
      rrpc_init ops_no_tables dev_three_luns_ready 1 2 = none := by
  decide

/-- C23: a failed GC write does not keep the block from being erased.  On
`rrpc_ten_one_valid`, block 1 is full and its second page holds logical page
1.  On a device that refuses writes, `rrpc_block_gc` of block 1 remaps page
1 to physical page 7 before the write is submitted, which sets the last
clear bit of block 1; the write fails, the bitmap is full, and the block is
erased and released: it is at the tail of the free list, `nr_free_blocks` is
8 instead of 7, and page 1 is mapped to page 7, which was never written.  On
a device that refuses reads the block is kept and the state is as before; on
a device that accepts every request the block is released. -/
theorem rrpc_block_gc_failed_write_reclaims :
    rrpc_ten_one_valid.trans_map[1]? = some { addr := 3, block := some (0, 1) } ∧
      (rrpc_ten_one_valid.dev.bmp.luns.getD 0 nvm_lun_zero).used_list = [1, 2, 3] ∧
      (rrpc_ten_one_valid.dev.bmp.luns.getD 0 nvm_lun_zero).nr_free_blocks = 7 ∧
      submit_fail_write
        { dir := bio_dir.WRITE, bi_sector := nvm_get_sector 1, bi_size := EXPOSED_PAGE_SIZE } ≠ 0 ∧
      rrpc_block_gc submit_fail_write 2 rrpc_ten_one_valid (0, 1) = some (true, rrpc_ten_lost) ∧
      (rrpc_ten_lost.dev.bmp.luns.getD 0 nvm_lun_zero).free_list = [4, 5, 6, 7, 8, 9, 1] ∧
      (rrpc_ten_lost.dev.bmp.luns.getD 0 nvm_lun_zero).used_list = [2, 3] ∧
      (rrpc_ten_lost.dev.bmp.luns.getD 0 nvm_lun_zero).nr_free_blocks = 8 ∧
      rrpc_ten_lost.trans_map[1]? = some { addr := 7, block := some (0, 3) } ∧
      rrpc_block_gc submit_fail_read 2 rrpc_ten_one_valid (0, 1) =
        some (false, rrpc_ten_one_valid) ∧
      rrpc_block_gc submit_ok 2 rrpc_ten_one_valid (0, 1) = some (true, rrpc_ten_collected) ∧
      (rrpc_ten_collected.dev.bmp.luns.getD 0 nvm_lun_zero).free_list = [4, 5, 6, 7, 8, 9, 1] := by
  decide

/-! ## RRPC: the inflight set after a request that is not submitted -/

theorem rrpc_lock_rq_zero (r r1 : rrpc) (b : bio) (rqd rqd1 : nvm_rq)
    (h : rrpc_lock_rq r b rqd = some (0, r1, rqd1)) :
    ∃ reqs : List rrpc_inflight_rq,
      r.inflight_map[nvm_get_laddr b % NVM_INFLIGHT_PARTITIONS]? = some reqs ∧
      r1.inflight_map = r.inflight_map.set (nvm_get_laddr b % NVM_INFLIGHT_PARTITIONS)
        (reqs ++ [{ l_start := nvm_get_laddr b,
                    l_end := nvm_get_laddr b + nvm_get_pages b - 1 }]) := by
  unfold rrpc_lock_rq rrpc_lock_laddr at h
  cases hp : r.inflight_map[nvm_get_laddr b % NVM_INFLIGHT_PARTITIONS]? with
  | none => rw [hp] at h; cases h
  | some reqs =>
    rw [hp] at h
    simp only at h
    by_cases hany : (reqs.any fun x =>
        request_intersects x (nvm_get_laddr b) (nvm_get_laddr b + nvm_get_pages b - 1)) = true
    · rw [if_pos hany] at h
      simp only [Option.some.injEq, Prod.mk.injEq] at h
      exact absurd h.1 (by decide)
    · rw [if_neg hany] at h
      simp only [Option.some.injEq, Prod.mk.injEq, true_and] at h
      refine ⟨reqs, rfl, ?_⟩
      rw [← h.1]

theorem rrpc_setup_rq_ok_inflight (r r1 : rrpc) (b : bio) (rqd rqd1 : nvm_rq)
    (h : rrpc_setup_rq r b rqd NVM_IOTYPE_NONE = some (0, r1, rqd1)) :
    ∃ reqs : List rrpc_inflight_rq,
      r.inflight_map[nvm_get_laddr b % NVM_INFLIGHT_PARTITIONS]? = some reqs ∧
      r1.inflight_map = r.inflight_map.set (nvm_get_laddr b % NVM_INFLIGHT_PARTITIONS)
        (reqs ++ [{ l_start := nvm_get_laddr b,
                    l_end := nvm_get_laddr b + nvm_get_pages b - 1 }]) := by
  unfold rrpc_setup_rq at h
  have hflag : NVM_IOTYPE_NONE &&& NVM_IOTYPE_GC = 0 := by decide
  by_cases hw : b.dir = bio_dir.WRITE
  · rw [if_pos hw] at h
    unfold rrpc_write_rq at h
    simp only [hflag, if_true] at h
    cases hl : rrpc_lock_rq r b rqd with
    | none => rw [hl] at h; cases h
    | some y =>
      obtain ⟨locked, r', rqd'⟩ := y
      rw [hl] at h
      simp only at h
      by_cases hlk : locked ≠ 0
      · rw [if_pos hlk] at h
        simp only [Option.some.injEq, Prod.mk.injEq] at h
        exact absurd h.1 (by decide)
      · rw [if_neg hlk] at h
        have hz : locked = 0 := by omega
        subst hz
        obtain ⟨reqs, hp, hm⟩ := rrpc_lock_rq_zero r r' b rqd rqd' hl
        cases hm2 : rrpc_map_page r' (nvm_get_laddr b) 0 with
        | none => rw [hm2] at h; cases h
        | some z =>
          obtain ⟨x, r2⟩ := z
          rw [hm2] at h
          have hinf := rrpc_map_page_inflight r' r2 _ 0 x hm2
          cases x with
          | none =>
            simp only [ne_eq, not_true_eq_false, if_false] at h
            cases hu : rrpc_unlock_rq r2 b rqd' with
            | none => rw [hu] at h; cases h
            | some r3 =>
              rw [hu] at h
              simp only [Option.some.injEq, Prod.mk.injEq] at h
              exact absurd h.1 (by decide)
          | some p =>
            simp only at h
            cases hg : r2.trans_map[p]? with
            | none => rw [hg] at h; cases h
            | some gp =>
              rw [hg] at h
              simp only [Option.some.injEq, Prod.mk.injEq] at h
              refine ⟨reqs, hp, ?_⟩
              rw [← h.2.1, hinf, hm]
  · rw [if_neg hw] at h
    unfold rrpc_read_rq at h
    simp only [hflag, if_true] at h
    cases hl : rrpc_lock_rq r b rqd with
    | none => rw [hl] at h; cases h
    | some y =>
      obtain ⟨locked, r', rqd'⟩ := y
      rw [hl] at h
      simp only at h
      by_cases hlk : locked ≠ 0
      · rw [if_pos hlk] at h
        simp only [Option.some.injEq, Prod.mk.injEq] at h
        exact absurd h.1 (by decide)
      · rw [if_neg hlk] at h
        have hz : locked = 0 := by omega
        subst hz
        obtain ⟨reqs, hp, hm⟩ := rrpc_lock_rq_zero r r' b rqd rqd' hl
        split at h
        · cases h
        · cases hg : r'.trans_map[nvm_get_laddr b]? with
          | none => rw [hg] at h; cases h
          | some gp =>
            rw [hg] at h
            simp only at h
            split at h
            · simp only [Option.some.injEq, Prod.mk.injEq] at h
              refine ⟨reqs, hp, ?_⟩
              rw [← h.2.1, hm]
            · split at h
              · cases h
              · simp only [Option.some.injEq, Prod.mk.injEq] at h
                exact absurd h.1 (by decide)

theorem rrpc_setup_rq_not_err (r r1 : rrpc) (b : bio) (rqd rqd1 : nvm_rq) (flags : Nat)
    (h : rrpc_setup_rq r b rqd flags = some (NVM_IO_ERR, r1, rqd1)) : False := by
  unfold rrpc_setup_rq at h
  split at h
  · unfold rrpc_write_rq at h
    simp only at h
    split at h
    · cases h
    · split at h
      · simp only [Option.some.injEq, Prod.mk.injEq] at h
        exact absurd h.1 (by decide)
      · split at h
        · cases h
        · split at h
          · cases h
          · split at h
            · cases h
            · simp only [Option.some.injEq, Prod.mk.injEq] at h
              exact absurd h.1 (by decide)
        · split at h
          · cases h
          · simp only [Option.some.injEq, Prod.mk.injEq] at h
            exact absurd h.1 (by decide)
  · unfold rrpc_read_rq at h
    simp only at h
    split at h
    · cases h
    · split at h
      · simp only [Option.some.injEq, Prod.mk.injEq] at h
        exact absurd h.1 (by decide)
      · split at h
        · cases h
        · split at h
          · cases h
          · split at h
            · simp only [Option.some.injEq, Prod.mk.injEq] at h
              exact absurd h.1 (by decide)
            · split at h
              · cases h
              · split at h
                · cases h
                · simp only [Option.some.injEq, Prod.mk.injEq] at h
                  exact absurd h.1 (by decide)

theorem rrpc_submit_io_err_inflight (r r1 : rrpc) (b : bio) (rqd rqd1 : nvm_rq) (dev_ret : Int)
    (h : rrpc_submit_io r b rqd NVM_IOTYPE_NONE dev_ret = some (NVM_IO_ERR, r1, rqd1)) :
    dev_ret ≠ 0 ∧ ∃ reqs : List rrpc_inflight_rq,
      r.inflight_map[nvm_get_laddr b % NVM_INFLIGHT_PARTITIONS]? = some reqs ∧
      r1.inflight_map = r.inflight_map.set (nvm_get_laddr b % NVM_INFLIGHT_PARTITIONS)
        (reqs ++ [{ l_start := nvm_get_laddr b,
                    l_end := nvm_get_laddr b + nvm_get_pages b - 1 }]) := by
  unfold rrpc_submit_io at h
  cases hs : rrpc_setup_rq r b rqd NVM_IOTYPE_NONE with
  | none => rw [hs] at h; cases h
  | some y =>
    obtain ⟨err, r', rqd'⟩ := y
    rw [hs] at h
    simp only at h
    by_cases he : err ≠ 0
    · rw [if_pos he] at h
      simp only [Option.some.injEq, Prod.mk.injEq] at h
      obtain ⟨h1, h2, h3⟩ := h
      subst h1
      exact absurd hs (fun hs' => rrpc_setup_rq_not_err r r' b rqd rqd' _ hs')
    · rw [if_neg he] at h
      have hz : err = 0 := by omega
      subst hz
      by_cases hd : dev_ret ≠ 0
      · rw [if_pos hd] at h
        simp only [Option.some.injEq, Prod.mk.injEq, true_and] at h
        refine ⟨hd, ?_⟩
        rw [← h.1]
        exact rrpc_setup_rq_ok_inflight r r' b rqd rqd' hs
      · rw [if_neg hd] at h
        simp only [Option.some.injEq, Prod.mk.injEq] at h
        exact absurd h.1 (by decide)

/-- C27: the outcome `ERR` leaves the request tracked.  Whenever
`rrpc_submit_io` returns `ERR` for a host read or write, the device has
refused the request after the setup took the range lock, and the partition of
the inflight set holds the range of the request in addition to what it held
before; `rrpc_make_rq` ends the bio without releasing it.  On
`rrpc_ten_blocks` the host write of page 10 that the device refuses ends with
`-EIO` and leaves the range `[10, 10]` in the inflight set, which was empty,
and the next host read of page 10 is requeued. -/
theorem rrpc_submit_error_keeps_range :
    (∀ (r r1 : rrpc) (b : bio) (rqd rqd1 : nvm_rq) (dev_ret : Int),
      rrpc_submit_io r b rqd NVM_IOTYPE_NONE dev_ret = some (NVM_IO_ERR, r1, rqd1) →
      dev_ret ≠ 0 ∧ ∃ reqs : List rrpc_inflight_rq,
        r.inflight_map[nvm_get_laddr b % NVM_INFLIGHT_PARTITIONS]? = some reqs ∧
        r1.inflight_map = r.inflight_map.set (nvm_get_laddr b % NVM_INFLIGHT_PARTITIONS)
          (reqs ++ [{ l_start := nvm_get_laddr b,
                      l_end := nvm_get_laddr b + nvm_get_pages b - 1 }])) ∧
      (∃ rqd, rrpc_submit_io rrpc_ten_blocks bio_write_10 nvm_rq_zero NVM_IOTYPE_NONE (- EIO) =
        some (NVM_IO_ERR, rrpc_ten_refused, rqd)) ∧
      rrpc_make_rq rrpc_ten_blocks bio_write_10 (- EIO) =
        some (bio_status.ended (- EIO), rrpc_ten_refused) ∧
      rrpc_ten_blocks.inflight_map[10]? = some [] ∧
      rrpc_ten_refused.inflight_map[10]? = some [{ l_start := 10, l_end := 10 }] ∧
      ∃ r2, rrpc_make_rq rrpc_ten_refused bio_read_10 0 = some (bio_status.requeued, r2) := by
  refine ⟨fun r r1 b rqd rqd1 dev_ret h => rrpc_submit_io_err_inflight r r1 b rqd rqd1 dev_ret h,
    ⟨((rrpc_submit_io rrpc_ten_blocks bio_write_10 nvm_rq_zero NVM_IOTYPE_NONE (- EIO)).getD
      (0, rrpc_ten_blocks, nvm_rq_zero)).2.2, by decide⟩, by decide, by decide, by decide,
    ((rrpc_make_rq rrpc_ten_refused bio_read_10 0).getD (bio_status.dropped, rrpc_ten_blocks)).2,
    by decide⟩

/-! ## The free counter does not underflow -/

theorem hb_get_blk_some_counter (lun : nvm_lun) (flags blk : Nat)
    (h : (hb_get_blk lun flags).1 = some blk) :
    (hb_get_blk lun flags).2.nr_free_blocks = u32_dec lun.nr_free_blocks := by
  unfold hb_get_blk at h ⊢
  cases hfree : lun.free_list with
  | nil => rw [hfree] at h; simp at h
  | cons block rest =>
    rw [hfree] at h
    simp only at h ⊢
    by_cases hg : flags &&& NVM_IOTYPE_GC = 0 ∧ lun.nr_free_blocks < lun.reserved_blocks
    · rw [if_pos hg] at h; simp at h
    · rw [if_neg hg]
      simp [list_move_tail_used, list_del]

/-- C26: the free counter does not underflow.  In the state attach produces,
for any tables for which it has a defined result, and in every state
reachable from it by `hb_get_blk` and by `hb_put_blk` of blocks on the used
list, every LUN has `nr_free_blocks ≥ |free_list|`; an `hb_get_blk` that
returns a block finds the counter positive and takes one from the counter
and one block from the free list, one that returns none changes nothing, and
`hb_put_blk` of a block on the used list adds one to both, so the difference
between the counter and the length of the free list stays the same. -/
theorem hb_free_counter_no_underflow (ops : nvm_dev_ops) (dev dev1 dev2 : nvm_dev) (r : Int)
    (bm : bm_hb) (i : Nat) (lun : nvm_lun)
    (h1 : hb_luns_init dev = some (0, dev1)) (h2 : hb_blocks_init ops dev1 = some (r, dev2))
    (hr : hb_reachable_used dev2.bmp bm) (hl : bm.luns[i]? = some lun) :
    lun.free_list.length ≤ lun.nr_free_blocks ∧
      (∀ flags blk : Nat, (hb_get_blk lun flags).1 = some blk →
        0 < lun.nr_free_blocks ∧
        (hb_get_blk lun flags).2.nr_free_blocks + 1 = lun.nr_free_blocks ∧
        (hb_get_blk lun flags).2.free_list.length + 1 = lun.free_list.length) ∧
      (∀ flags : Nat, (hb_get_blk lun flags).1 = none → (hb_get_blk lun flags).2 = lun) ∧
      ∀ blk : Nat, blk ∈ lun.used_list →
        (hb_put_blk_lun lun blk).nr_free_blocks = lun.nr_free_blocks + 1 ∧
        (hb_put_blk_lun lun blk).free_list.length = lun.free_list.length + 1 := by
  have hok := hb_reachable_used_counter_ok ops dev dev1 dev2 r bm h1 h2 hr i lun hl
  obtain ⟨hle, hpos, hmax⟩ := lun_counter_ok_bounds i lun hok
  refine ⟨hle, ?_, fun flags hn => hb_get_blk_none_same lun flags hn, ?_⟩
  · intro flags blk hb
    have hfree := hb_get_blk_some_free lun flags blk hb
    have hne : lun.free_list ≠ [] := by rw [hfree]; simp
    have hp := hpos hne
    refine ⟨hp, ?_, ?_⟩
    · rw [hb_get_blk_some_counter lun flags blk hb]
      exact u32_dec_pos _ hp
    · rw [hfree]
      simp
  · intro blk hused
    have hne : lun.used_list ≠ [] := List.ne_nil_of_mem hused
    obtain ⟨_, _, _, hfu, _, _⟩ := lun_wf_lists_nodup i lun hok.1
    have hnot : blk ∉ lun.free_list := fun hf => hfu blk hf hused
    refine ⟨?_, ?_⟩
    · have : (hb_put_blk_lun lun blk).nr_free_blocks = u32_inc lun.nr_free_blocks := by
        simp [hb_put_blk_lun, list_move_tail_free, list_del]
      rw [this]
      exact u32_inc_lt _ (hmax hne)
    · rw [hb_put_blk_lun_free lun blk hnot]
      simp

/-! ## RRPC: host writes and the reserve -/

theorem lun_counts_update_block (lun : nvm_lun) (i : Nat) (f : nvm_block → nvm_block) :
    lun_counts (update_block lun i f) = lun_counts lun := by
  simp [lun_counts]

theorem dev_counts_set_same (dev : nvm_dev) (k : Nat) (lun lun1 : nvm_lun)
    (hk : dev.bmp.luns[k]? = some lun) (h : lun_counts lun1 = lun_counts lun) :
    (dev.bmp.luns.set k lun1).map lun_counts = dev_counts dev := by
  unfold dev_counts
  apply List.ext_getElem?
  intro j
  rw [List.getElem?_map, List.getElem?_map]
  by_cases hj : k = j
  · subst hj
    have hlt : k < dev.bmp.luns.length := by
      rcases Nat.lt_or_ge k dev.bmp.luns.length with h1 | h1
      · exact h1
      · rw [List.getElem?_eq_none h1] at hk; cases hk
    rw [List.getElem?_set_self hlt, hk]
    simp [h]
  · rw [List.getElem?_set_ne hj]

theorem dev_counts_block_set (dev : nvm_dev) (B : Nat × Nat) (f : nvm_block → nvm_block) :
    dev_counts (nvm_block_set dev B f) = dev_counts dev := by
  unfold nvm_block_set
  cases hk : dev.bmp.luns[B.1]? with
  | none => rfl
  | some lun =>
    simp only
    exact dev_counts_set_same dev B.1 lun _ hk (lun_counts_update_block lun B.2 f)

theorem dev_counts_invalidate_block_page (dev dev1 : nvm_dev) (p : nvm_addr)
    (h : invalidate_block_page dev p = some dev1) : dev_counts dev1 = dev_counts dev := by
  unfold invalidate_block_page at h
  split at h
  · cases h; rfl
  · split at h
    · cases h
    · split at h
      · cases h
      · cases h
        exact dev_counts_block_set _ _ _

theorem dev_counts_page_invalidate (r r1 : rrpc) (a : nvm_addr)
    (h : __nvm_page_invalidate r a = some r1) : dev_counts r1.dev = dev_counts r.dev := by
  unfold __nvm_page_invalidate at h
  split at h
  · cases h; rfl
  · split at h
    · cases h
    · rename_i dev1 hinv
      split at h
      · cases h
        exact dev_counts_invalidate_block_page _ _ _ hinv
      · cases h

theorem dev_counts_update_map (r r1 : rrpc) (L : Nat) (B : Option (Nat × Nat)) (P is_gc gp : Nat)
    (h : nvm_update_map r L B P is_gc = some (gp, r1)) : dev_counts r1.dev = dev_counts r.dev := by
  unfold nvm_update_map at h
  split at h
  · cases h
  · split at h
    · cases h
    · rename_i e he
      split at h
      · cases h
      · rename_i r0 hr0
        split at h
        · simp only [Option.some.injEq, Prod.mk.injEq] at h
          rw [← h.2]
          simp only
          by_cases hb : e.block ≠ none
          · rw [if_pos hb] at hr0
            exact dev_counts_page_invalidate _ _ _ hr0
          · rw [if_neg hb] at hr0
            cases hr0
            rfl
        · cases h

theorem dev_counts_map_page_finished (r r1 : rrpc) (L : Nat) (B : Option (Nat × Nat))
    (P is_gc : Nat) (x : Option Nat)
    (h : rrpc_map_page_finished r L B P is_gc = some (x, r1)) :
    dev_counts r1.dev = dev_counts r.dev := by
  unfold rrpc_map_page_finished at h
  split at h
  · cases h; rfl
  · split at h
    · cases h
    · rename_i gp r0 hu
      cases h
      exact dev_counts_update_map _ _ _ _ _ _ _ hu

theorem dev_counts_alloc_addr (dev dev1 : nvm_dev) (B : Option (Nat × Nat)) (P : Nat)
    (h : nvm_alloc_addr dev B = some (P, dev1)) : dev_counts dev1 = dev_counts dev := by
  unfold nvm_alloc_addr at h
  split at h
  · cases h
  · split at h
    · cases h
    · split at h
      · cases h; rfl
      · cases h
        exact dev_counts_block_set _ _ _

theorem dev_counts_get (dev dev1 : nvm_dev) (k : Nat) (lun : nvm_lun)
    (h : dev_counts dev1 = dev_counts dev) (hk : dev.bmp.luns[k]? = some lun) :
    ∃ lun1 : nvm_lun, dev1.bmp.luns[k]? = some lun1 ∧ lun_counts lun1 = lun_counts lun := by
  have hx : (dev_counts dev1)[k]? = (dev_counts dev)[k]? := by rw [h]
  unfold dev_counts at hx
  rw [List.getElem?_map, List.getElem?_map, hk] at hx
  cases h1 : dev1.bmp.luns[k]? with
  | none => rw [h1] at hx; cases hx
  | some lun1 =>
    rw [h1] at hx
    simp only [Option.map_some', Option.some.injEq] at hx
    exact ⟨lun1, rfl, hx⟩

theorem hb_get_blk_counts (lun lun1 : nvm_lun) (flags : Nat)
    (h : lun_counts lun1 = lun_counts lun) :
    (hb_get_blk lun1 flags).1 = (hb_get_blk lun flags).1 ∧
      lun_counts (hb_get_blk lun1 flags).2 = lun_counts (hb_get_blk lun flags).2 := by
  unfold lun_counts at h
  simp only [Prod.mk.injEq] at h
  obtain ⟨hf, hu, hn, hr⟩ := h
  unfold hb_get_blk
  rw [hf, hn, hr]
  cases lun.free_list with
  | nil => simp [lun_counts, hf, hu, hn, hr]
  | cons b rest =>
    simp only
    split
    · simp [lun_counts, hf, hu, hn, hr]
    · simp [lun_counts, list_move_tail_used, list_del, hf, hu, hn, hr]

theorem hb_get_blk_host_reserve (lun : nvm_lun) (b : Nat) (h : (hb_get_blk lun 0).1 = some b) :
    lun.reserved_blocks ≤ lun.nr_free_blocks ∧
      (hb_get_blk lun 0).2.reserved_blocks = lun.reserved_blocks ∧
      (hb_get_blk lun 0).2.used_list = lun.used_list.erase b ++ [b] := by
  unfold hb_get_blk at h ⊢
  cases hfree : lun.free_list with
  | nil => rw [hfree] at h; simp at h
  | cons block rest =>
    rw [hfree] at h
    simp only at h ⊢
    by_cases hg : 0 &&& NVM_IOTYPE_GC = 0 ∧ lun.nr_free_blocks < lun.reserved_blocks
    · rw [if_pos hg] at h; simp at h
    · rw [if_neg hg] at h ⊢
      simp only [Option.some.injEq] at h
      subst h
      have h0 : 0 &&& NVM_IOTYPE_GC = 0 := by decide
      have hle : lun.reserved_blocks ≤ lun.nr_free_blocks := by
        by_contra hc
        exact hg ⟨h0, by omega⟩
      refine ⟨hle, ?_, ?_⟩
      · simp [list_move_tail_used, list_del]
      · simp [list_move_tail_used, list_del]

theorem rrpc_get_lun_rr_nr_luns (r r1 : rrpc) (is_gc ri : Nat)
    (h : __rrpc_get_lun_rr r is_gc = some (ri, r1)) : r1.nr_luns = r.nr_luns := by
  unfold __rrpc_get_lun_rr at h
  split at h
  · unfold get_next_lun at h
    simp only at h
    split at h
    · cases h
    · split at h
      · cases h
      · simp only [Option.some.injEq, Prod.mk.injEq] at h
        rw [← h.2]
  · split at h
    · cases h
    · simp only [Option.some.injEq, Prod.mk.injEq] at h
      rw [← h.2]

theorem dev_counts_get_blk_host (dev : nvm_dev) (k : Nat) (lun1 : nvm_lun)
    (hk : dev.bmp.luns[k]? = some lun1) :
    ((nvm_get_blk dev k 0).1 = none ∧ dev_counts (nvm_get_blk dev k 0).2 = dev_counts dev) ∨
      ∃ b : Nat, (hb_get_blk lun1 0).1 = some b ∧ (nvm_get_blk dev k 0).1 = some (k, b) ∧
        dev_counts (nvm_get_blk dev k 0).2 =
          (dev_counts dev).set k (lun_counts (hb_get_blk lun1 0).2) := by
  rw [nvm_get_blk_some dev k 0 lun1 hk]
  cases hb : (hb_get_blk lun1 0).1 with
  | none =>
    left
    refine ⟨rfl, ?_⟩
    simp only
    exact dev_counts_set_same dev k lun1 _ hk (by rw [hb_get_blk_none_same lun1 0 hb])
  | some b =>
    right
    refine ⟨b, rfl, rfl, ?_⟩
    simp only [dev_counts, List.map_set]

/-- C22: a host write keeps the reserve.  In a state with at least one LUN
(`4 · nr_luns` fits an `unsigned int`) a host call of `rrpc_map_page` chooses
the LUN `lun` of the next shadow LUN, whose reserve is the 2 blocks
`hb_luns_init` sets.  When that LUN has fewer than `4 · nr_luns` free blocks
the call returns `NULL` and leaves the device, the shadow LUNs and the map as
they were.  For every result of the call, either the lists and the counter of
every LUN are as before, or one block was allocated: then the LUN had at
least `4 · nr_luns` free blocks, the block is the head of its free list and
goes to the tail of its used list, the counter goes down by one and is still
at least `reserved_blocks = 2`, and the other LUNs are as before. -/
theorem rrpc_host_write_keeps_reserve (r r1 : rrpc) (laddr ri : Nat) (rlun : rrpc_lun)
    (lun : nvm_lun) (hn : 1 ≤ r.nr_luns) (hfit : r.nr_luns * 4 ≤ UINT_MAX)
    (hrr : __rrpc_get_lun_rr r 0 = some (ri, r1)) (hrl : r1.luns[ri]? = some rlun)
    (hl : r1.dev.bmp.luns[rlun.parent]? = some lun) (hres : lun.reserved_blocks = 2) :
    (lun.nr_free_blocks < 4 * r.nr_luns →
        rrpc_map_page r laddr 0 = some (none, r1) ∧ r1.dev = r.dev ∧ r1.luns = r.luns ∧
          r1.trans_map = r.trans_map) ∧
      ∀ (x : Option Nat) (r2 : rrpc), rrpc_map_page r laddr 0 = some (x, r2) →
        dev_counts r2.dev = dev_counts r.dev ∨
        ∃ (b : Nat) (lun2 : nvm_lun),
          4 * r.nr_luns ≤ lun.nr_free_blocks ∧
          lun.free_list = b :: lun2.free_list ∧
          lun2.used_list = lun.used_list.erase b ++ [b] ∧
          lun2.nr_free_blocks + 1 = lun.nr_free_blocks ∧
          lun2.reserved_blocks = 2 ∧ lun2.reserved_blocks ≤ lun2.nr_free_blocks ∧
          r2.dev.bmp.luns[rlun.parent]? = some lun2 ∧
          dev_counts r2.dev = (dev_counts r.dev).set rlun.parent (lun_counts lun2) := by
  obtain ⟨hdev, htrans, hluns⟩ := rrpc_get_lun_rr_frame r r1 0 ri hrr
  have hnl := rrpc_get_lun_rr_nr_luns r r1 0 ri hrr
  have hmod : r1.nr_luns * 4 % 4294967296 = 4 * r.nr_luns := by
    rw [hnl]
    unfold UINT_MAX at hfit
    omega
  have hunf : rrpc_map_page r laddr 0 =
      (if lun.nr_free_blocks < 4 * r.nr_luns then some (none, r1)
       else
        match nvm_alloc_addr r1.dev rlun.cur with
        | none => none
        | some (p_addr, dev1) =>
          if p_addr = ADDR_EMPTY then
            match nvm_get_blk dev1 rlun.parent 0 with
            | (none, dev2) => rrpc_map_page_finished { r1 with dev := dev2 } laddr none p_addr 0
            | (some blk, dev2) =>
              match nvm_alloc_addr dev2 (some blk) with
              | none => none
              | some (p_addr2, dev3) =>
                rrpc_map_page_finished
                  { r1 with dev := dev3, luns := r1.luns.set ri (rrpc_set_lun_cur rlun blk) }
                  laddr (some blk) p_addr2 0
          else rrpc_map_page_finished { r1 with dev := dev1 } laddr rlun.cur p_addr 0) := by
    unfold rrpc_map_page
    rw [hrr]
    simp only
    rw [hrl]
    simp only
    rw [hl]
    simp only [hmod, true_and, ne_eq, not_true_eq_false, if_false]
    try rfl
  refine ⟨?_, ?_⟩
  · intro hlow
    rw [hunf, if_pos hlow]
    exact ⟨rfl, hdev, hluns, htrans⟩
  · intro x r2 h
    rw [hunf] at h
    by_cases hlow : lun.nr_free_blocks < 4 * r.nr_luns
    · rw [if_pos hlow] at h
      simp only [Option.some.injEq, Prod.mk.injEq] at h
      left
      rw [← h.2, hdev]
    · rw [if_neg hlow] at h
      cases ha : nvm_alloc_addr r1.dev rlun.cur with
      | none => rw [ha] at h; cases h
      | some pd =>
        obtain ⟨P, dev1⟩ := pd
        rw [ha] at h
        simp only at h
        have hc1 : dev_counts dev1 = dev_counts r.dev := by
          rw [dev_counts_alloc_addr _ _ _ _ ha, hdev]
        by_cases hP : P = ADDR_EMPTY
        · rw [if_pos hP] at h
          obtain ⟨lun1, hk1, hcl⟩ := dev_counts_get r1.dev dev1 rlun.parent lun
            (by rw [hc1, hdev]) hl
          rcases dev_counts_get_blk_host dev1 rlun.parent lun1 hk1 with ⟨hnone, hsame⟩ |
            ⟨b, hb, hsome, hset⟩
          · left
            cases hg : nvm_get_blk dev1 rlun.parent 0 with
            | mk ob dev2 =>
              rw [hg] at h hnone hsame
              simp only at hnone hsame
              subst hnone
              simp only at h
              rw [dev_counts_map_page_finished _ _ _ _ _ _ _ h]
              simp only
              rw [hsame, hc1]
          · right
            cases hg : nvm_get_blk dev1 rlun.parent 0 with
            | mk ob dev2 =>
              rw [hg] at h hsome hset
              simp only at hsome hset
              subst hsome
              simp only at h
              cases ha2 : nvm_alloc_addr dev2 (some (rlun.parent, b)) with
              | none => rw [ha2] at h; cases h
              | some pd2 =>
                obtain ⟨P2, dev3⟩ := pd2
                rw [ha2] at h
                simp only at h
                have hc3 : dev_counts r2.dev =
                    (dev_counts r.dev).set rlun.parent (lun_counts (hb_get_blk lun1 0).2) := by
                  rw [dev_counts_map_page_finished _ _ _ _ _ _ _ h]
                  simp only
                  rw [dev_counts_alloc_addr _ _ _ _ ha2, hset, hc1]
                obtain ⟨hbe, hce⟩ := hb_get_blk_counts lun lun1 0 hcl
                rw [hbe] at hb
                rw [hce] at hc3
                have hlt : rlun.parent < (dev_counts r.dev).length := by
                  unfold dev_counts
                  rw [List.length_map, ← hdev]
                  rcases Nat.lt_or_ge rlun.parent r1.dev.bmp.luns.length with h1 | h1
                  · exact h1
                  · rw [List.getElem?_eq_none h1] at hl; cases hl
                have hx : (dev_counts r2.dev)[rlun.parent]? =
                    some (lun_counts (hb_get_blk lun 0).2) := by
                  rw [hc3, List.getElem?_set_self hlt]
                unfold dev_counts at hx
                rw [List.getElem?_map] at hx
                cases h2 : r2.dev.bmp.luns[rlun.parent]? with
                | none => rw [h2] at hx; cases hx
                | some lun2 =>
                  rw [h2] at hx
                  simp only [Option.map_some', Option.some.injEq] at hx
                  have hx0 := hx
                  unfold lun_counts at hx
                  simp only [Prod.mk.injEq] at hx
                  obtain ⟨hf, hu, hnf, hr⟩ := hx
                  obtain ⟨hle, hr2, hu2⟩ := hb_get_blk_host_reserve lun b hb
                  have hfree := hb_get_blk_some_free lun 0 b hb
                  have hcnt := hb_get_blk_some_counter lun 0 b hb
                  have hpos : 0 < lun.nr_free_blocks := by omega
                  have hdec := u32_dec_pos _ hpos
                  refine ⟨b, lun2, by omega, ?_, ?_, ?_, ?_, ?_, rfl, ?_⟩
                  · rw [hf]; exact hfree
                  · rw [hu]; exact hu2
                  · rw [hnf, hcnt]; exact hdec
                  · rw [hr, hr2, hres]
                  · rw [hr, hr2, hres, hnf, hcnt]; omega
                  · rw [hc3, hx0]
        · rw [if_neg hP] at h
          left
          rw [dev_counts_map_page_finished _ _ _ _ _ _ _ h]
          simp only
          exact hc1

/-! ## RRPC: the victims of the collector -/

theorem prio_blocks_full_of_b (r : rrpc) (rlun : rrpc_lun)
    (h : prio_blocks_full_b r rlun = true) : prio_blocks_full r rlun := by
  unfold prio_blocks_full_b at h
  rw [List.all_eq_true] at h
  intro rb hrb
  have hx := h rb hrb
  cases hp : rblock_parent rlun rb with
  | none => rw [hp] at hx; cases hx
  | some p =>
    rw [hp] at hx
    simp only at hx
    cases hg : nvm_block_get r.dev p with
    | none => rw [hg] at hx; cases hx
    | some x =>
      obtain ⟨plun, blk⟩ := x
      rw [hg] at hx
      exact ⟨p, plun, blk, rfl, hg, hx⟩

theorem rblock_invalid_of_parent (r : rrpc) (rlun : rrpc_lun) (rb : Nat) (p : Nat × Nat)
    (plun : nvm_lun) (blk : nvm_block) (hp : rblock_parent rlun rb = some p)
    (hg : nvm_block_get r.dev p = some (plun, blk)) :
    rblock_invalid r rlun rb = some blk.nr_invalid_pages := by
  unfold rblock_parent at hp
  unfold rblock_invalid
  cases hb : rlun.blocks[rb]? with
  | none => rw [hb] at hp; cases hp
  | some rblock =>
    rw [hb] at hp
    simp only at hp ⊢
    rw [hp]
    simp only
    rw [hg]

theorem block_prio_find_max_max (r : rrpc) (rlun : rrpc_lun) (hne : rlun.prio_list ≠ [])
    (hval : ∀ x ∈ rlun.prio_list, (rblock_invalid r rlun x).isSome) :
    ∃ m n, block_prio_find_max r rlun = some m ∧ m ∈ rlun.prio_list ∧
      rblock_invalid r rlun m = some n ∧
      ∀ x ∈ rlun.prio_list, ∃ k, rblock_invalid r rlun x = some k ∧ k ≤ n := by
  cases hl : rlun.prio_list with
  | nil => exact absurd hl hne
  | cons first tl =>
    rw [hl] at hval
    obtain ⟨n0, h0⟩ := Option.isSome_iff_exists.mp (hval first (List.mem_cons_self _ _))
    obtain ⟨m, n, hm, hn, hcase⟩ :=
      block_prio_find_max_loop_spec r rlun (first :: tl) first n0 h0 hval
    have hres : block_prio_find_max r rlun = some m := by
      unfold block_prio_find_max
      rw [hl]
      exact hm
    rcases hcase with ⟨hmm, hall⟩ | ⟨_, pre, post, hsplit, hpre, hpost⟩
    · subst hmm
      exact ⟨m, n, hres, List.mem_cons_self _ _, hn, hall⟩
    · refine ⟨m, n, hres, ?_, hn, ?_⟩
      · rw [hsplit]; simp
      · intro x hx
        rw [hsplit] at hx
        rcases List.mem_append.mp hx with hx | hx
        · obtain ⟨k, hk, hlt⟩ := hpre x hx
          exact ⟨k, hk, by omega⟩
        · rcases List.mem_cons.mp hx with rfl | hx
          · exact ⟨n, hn, Nat.le_refl _⟩
          · exact hpost x hx

theorem rrpc_luns_set_same (r : rrpc) (ri : Nat) (rlun : rrpc_lun)
    (hrl : r.luns[ri]? = some rlun) :
    { r with luns := r.luns.set ri { rlun with prio_list := rlun.prio_list },
             kgc_wq := r.kgc_wq ++ [] } = r := by
  have hlt : ri < r.luns.length := by
    rcases Nat.lt_or_ge ri r.luns.length with h1 | h1
    · exact h1
    · rw [List.getElem?_eq_none h1] at hrl; cases hrl
  have hset : r.luns.set ri rlun = r.luns := by
    apply List.ext_getElem?
    intro j
    by_cases hj : ri = j
    · subst hj
      rw [List.getElem?_set_self hlt, hrl]
    · rw [List.getElem?_set_ne hj]
  cases r
  simp only [List.append_nil] at hset ⊢
  rw [hset]

theorem rrpc_lun_gc_loop_spec (ri : Nat) :
    ∀ (n need : Nat) (r : rrpc) (rlun : rrpc_lun) (lun : nvm_lun),
      r.luns[ri]? = some rlun → r.dev.bmp.luns[rlun.parent]? = some lun →
      n = rlun.prio_list.length → prio_blocks_full r rlun →
      ∃ victims rest : List Nat,
        rrpc_lun_gc_loop ri n need r =
          some { r with luns := r.luns.set ri { rlun with prio_list := rest },
                        kgc_wq := r.kgc_wq ++
                          victims.filterMap
                            (fun v => (rblock_parent rlun v).map rrpc_work.block_gc) } ∧
        rest.Sublist rlun.prio_list ∧ (victims ++ rest).Perm rlun.prio_list ∧
        (need ≤ lun.nr_free_blocks ∨ rlun.prio_list = [] → victims = []) ∧
        victims.length ≤ need - lun.nr_free_blocks ∧
        (∀ v ∈ victims, ∃ k, rblock_invalid r rlun v = some k ∧ 0 < k) ∧
        victims.Pairwise (fun a b => ∃ ka kb, rblock_invalid r rlun a = some ka ∧
          rblock_invalid r rlun b = some kb ∧ kb ≤ ka) ∧
        (∀ v ∈ victims, ∀ x ∈ rest, ∃ kv kx, rblock_invalid r rlun v = some kv ∧
          rblock_invalid r rlun x = some kx ∧ kx ≤ kv) ∧
        (need - victims.length ≤ lun.nr_free_blocks ∨
          ∀ x ∈ rest, rblock_invalid r rlun x = some 0) := by
  intro n
  induction n with
  | zero =>
    intro need r rlun lun hrl hl hn hfull
    have hnil : rlun.prio_list = [] := List.eq_nil_of_length_eq_zero hn.symm
    refine ⟨[], rlun.prio_list, ?_, List.Sublist.refl _, by simp, fun _ => rfl, by simp,
      by simp, List.Pairwise.nil, by simp, Or.inr ?_⟩
    · simp only [rrpc_lun_gc_loop, hrl, hl, hnil, ne_eq, not_true_eq_false, and_false, if_false,
        List.filterMap_nil]
      have hsame := rrpc_luns_set_same r ri rlun hrl
      rw [hnil] at hsame
      rw [hsame]
    · rw [hnil]; simp
  | succ n ih =>
    intro need r rlun lun hrl hl hn hfull
    have hval : ∀ x ∈ rlun.prio_list, (rblock_invalid r rlun x).isSome := by
      intro x hx
      obtain ⟨p, plun, blk, hp, hg, _⟩ := hfull x hx
      rw [rblock_invalid_of_parent r rlun x p plun blk hp hg]
      rfl
    have hstop : ∀ (hsome : rrpc_lun_gc_loop ri (n + 1) need r = some r)
        (hc : need ≤ lun.nr_free_blocks ∨
          ∀ x ∈ rlun.prio_list, rblock_invalid r rlun x = some 0),
        ∃ victims rest : List Nat,
        rrpc_lun_gc_loop ri (n + 1) need r =
          some { r with luns := r.luns.set ri { rlun with prio_list := rest },
                        kgc_wq := r.kgc_wq ++
                          victims.filterMap
                            (fun v => (rblock_parent rlun v).map rrpc_work.block_gc) } ∧
        rest.Sublist rlun.prio_list ∧ (victims ++ rest).Perm rlun.prio_list ∧
        (need ≤ lun.nr_free_blocks ∨ rlun.prio_list = [] → victims = []) ∧
        victims.length ≤ need - lun.nr_free_blocks ∧
        (∀ v ∈ victims, ∃ k, rblock_invalid r rlun v = some k ∧ 0 < k) ∧
        victims.Pairwise (fun a b => ∃ ka kb, rblock_invalid r rlun a = some ka ∧
          rblock_invalid r rlun b = some kb ∧ kb ≤ ka) ∧
        (∀ v ∈ victims, ∀ x ∈ rest, ∃ kv kx, rblock_invalid r rlun v = some kv ∧
          rblock_invalid r rlun x = some kx ∧ kx ≤ kv) ∧
        (need - victims.length ≤ lun.nr_free_blocks ∨
          ∀ x ∈ rest, rblock_invalid r rlun x = some 0) := by
      intro hsome hc
      refine ⟨[], rlun.prio_list, ?_, List.Sublist.refl _, by simp, fun _ => rfl, by simp,
        by simp, List.Pairwise.nil, by simp, ?_⟩
      · rw [hsome]
        simp only [List.filterMap_nil]
        rw [rrpc_luns_set_same r ri rlun hrl]
      · simpa using hc
    by_cases hcond : need > lun.nr_free_blocks ∧ rlun.prio_list ≠ []
    · obtain ⟨hneed, hne⟩ := hcond
      obtain ⟨m, k, hmax, hmem, hk, hall⟩ := block_prio_find_max_max r rlun hne hval
      obtain ⟨p, plun, blk, hp, hg, hfl⟩ := hfull m hmem
      have hk2 := rblock_invalid_of_parent r rlun m p plun blk hp hg
      rw [hk] at hk2
      simp only [Option.some.injEq] at hk2
      by_cases hz : blk.nr_invalid_pages = 0
      · apply hstop
        · simp only [rrpc_lun_gc_loop, hrl, hl, hmax, hp, hg, hz, if_true, hneed, hne, ne_eq,
            not_false_eq_true, and_self, gt_iff_lt]
        · right
          intro x hx
          obtain ⟨kx, hkx, hle⟩ := hall x hx
          rw [hkx]
          have : kx = 0 := by omega
          rw [this]
      · have hlt : ri < r.luns.length := by
          rcases Nat.lt_or_ge ri r.luns.length with h1 | h1
          · exact h1
          · rw [List.getElem?_eq_none h1] at hrl; cases hrl
        have hlen : n = (rlun.prio_list.erase m).length := by
          rw [List.length_erase_of_mem hmem]
          omega
        have hfull1 : prio_blocks_full
            { r with luns := r.luns.set ri { rlun with prio_list := rlun.prio_list.erase m },
                     kgc_wq := r.kgc_wq ++ [rrpc_work.block_gc p] }
            { rlun with prio_list := rlun.prio_list.erase m } := by
          intro x hx
          exact hfull x (List.mem_of_mem_erase hx)
        obtain ⟨victims, rest, hrun, hsub, hperm, _, hcnt, hpos, hpair, hbest, hend⟩ :=
          ih (need - 1)
            { r with luns := r.luns.set ri { rlun with prio_list := rlun.prio_list.erase m },
                     kgc_wq := r.kgc_wq ++ [rrpc_work.block_gc p] }
            { rlun with prio_list := rlun.prio_list.erase m } lun
            (by simp only; rw [List.getElem?_set_self hlt]) hl hlen hfull1
        have hvm : ∀ v ∈ victims, v ∈ rlun.prio_list := by
          intro v hv
          exact List.mem_of_mem_erase (hperm.subset (List.mem_append_left _ hv))
        have hrm : ∀ x ∈ rest, x ∈ rlun.prio_list :=
          fun x hx => List.mem_of_mem_erase (hsub.subset hx)
        refine ⟨m :: victims, rest, ?_, ?_, ?_, ?_, ?_, ?_, ?_, ?_, ?_⟩
        · simp only [rrpc_lun_gc_loop, hrl, hl, hmax, hp, hg, hz, if_false, hneed, hne, ne_eq,
            not_false_eq_true, and_self, gt_iff_lt, hfl, Bool.true_eq_false]
          rw [hrun]
          simp only [List.set_set, List.append_assoc, List.filterMap_cons, hp, Option.map_some',
            List.singleton_append]
          rfl
        · exact hsub.trans (List.erase_sublist _ _)
        · simp only [List.cons_append]
          exact (List.Perm.cons m hperm).trans (List.perm_cons_erase hmem).symm
        · intro h
          rcases h with h | h
          · omega
          · exact absurd h hne
        · simp only [List.length_cons]
          omega
        · intro v hv
          rcases List.mem_cons.mp hv with rfl | hv
          · exact ⟨k, hk, by omega⟩
          · exact hpos v hv
        · refine List.Pairwise.cons ?_ hpair
          intro b hb
          obtain ⟨kb, hkb, hle⟩ := hall b (hvm b hb)
          exact ⟨k, kb, hk, hkb, hle⟩
        · intro v hv x hx
          rcases List.mem_cons.mp hv with rfl | hv
          · obtain ⟨kx, hkx, hle⟩ := hall x (hrm x hx)
            exact ⟨k, kx, hk, hkx, hle⟩
          · exact hbest v hv x hx
        · rcases hend with hend | hend
          · left
            simp only [List.length_cons]
            omega
          · right
            exact hend
    · apply hstop
      · simp only [rrpc_lun_gc_loop, hrl, hl, hcond, if_false]
      · rcases Nat.lt_or_ge lun.nr_free_blocks need with h1 | h1
        · right
          have hnil : rlun.prio_list = [] := by
            by_contra hne
            exact hcond ⟨h1, hne⟩
          rw [hnil]
          simp
        · left
          exact h1

/-- C24: the victims of `rrpc_lun_gc`.  On a LUN whose priority list holds
shadows of full blocks, with `need = max (nr_blocks / GC_LIMIT_INVERSE,
nr_luns)` (`GC_LIMIT_INVERSE` not zero), the function returns; it unlinks a
list `victims` of shadows from the priority list and queues the collection of
their blocks, in that order, on `kgc_wq`, and changes nothing else.  No victim
is selected when `need ≤ nr_free_blocks` or the priority list is empty; at
most `need - nr_free_blocks` victims are selected; every victim has
`nr_invalid_pages > 0`; the victims come in non-increasing order of
`nr_invalid_pages`, and each has at least as many invalid pages as every
shadow left on the list; the shadows left are a sublist of the priority list
(same relative order) and with the victims make up the list; and selection
ends when `need` less the number of victims is at most `nr_free_blocks`, or
every shadow left has no invalid page. -/
theorem rrpc_lun_gc_selects (gc_limit_inverse : Nat) (r : rrpc) (ri : Nat) (rlun : rrpc_lun)
    (lun : nvm_lun) (hG : gc_limit_inverse ≠ 0) (hrl : r.luns[ri]? = some rlun)
    (hl : r.dev.bmp.luns[rlun.parent]? = some lun) (hfull : prio_blocks_full r rlun) :
    ∃ victims rest : List Nat,
      rrpc_lun_gc gc_limit_inverse r ri =
        some { r with luns := r.luns.set ri { rlun with prio_list := rest },
                      kgc_wq := r.kgc_wq ++
                        victims.filterMap
                          (fun v => (rblock_parent rlun v).map rrpc_work.block_gc) } ∧
      rest.Sublist rlun.prio_list ∧ (victims ++ rest).Perm rlun.prio_list ∧
      (gc_blocks_need gc_limit_inverse r lun ≤ lun.nr_free_blocks ∨ rlun.prio_list = [] →
        victims = []) ∧
      victims.length ≤ gc_blocks_need gc_limit_inverse r lun - lun.nr_free_blocks ∧
      (∀ v ∈ victims, ∃ k, rblock_invalid r rlun v = some k ∧ 0 < k) ∧
      victims.Pairwise (fun a b => ∃ ka kb, rblock_invalid r rlun a = some ka ∧
        rblock_invalid r rlun b = some kb ∧ kb ≤ ka) ∧
      (∀ v ∈ victims, ∀ x ∈ rest, ∃ kv kx, rblock_invalid r rlun v = some kv ∧
        rblock_invalid r rlun x = some kx ∧ kx ≤ kv) ∧
      (gc_blocks_need gc_limit_inverse r lun - victims.length ≤ lun.nr_free_blocks ∨
        ∀ x ∈ rest, rblock_invalid r rlun x = some 0) := by
  have hneed : (if lun.nr_blocks / gc_limit_inverse < r.nr_luns then r.nr_luns
      else lun.nr_blocks / gc_limit_inverse) = gc_blocks_need gc_limit_inverse r lun := by
    unfold gc_blocks_need
    split
    · rw [Nat.max_eq_right (by omega)]
    · rw [Nat.max_eq_left (by omega)]
  have hunf : rrpc_lun_gc gc_limit_inverse r ri =
      rrpc_lun_gc_loop ri rlun.prio_list.length (gc_blocks_need gc_limit_inverse r lun) r := by
    unfold rrpc_lun_gc
    rw [hrl]
    simp only
    rw [hl]
    simp only
    rw [if_neg hG, hneed]
  rw [hunf]
  exact rrpc_lun_gc_loop_spec ri rlun.prio_list.length (gc_blocks_need gc_limit_inverse r lun)
    r rlun lun hrl hl rfl hfull

/-! ## The ids of the blocks -/

theorem update_block_ids (lun : nvm_lun) (i : Nat) (f : nvm_block → nvm_block)
    (hf : ∀ b : nvm_block, (f b).id = b.id) :
    lun_ids (update_block lun i f) = lun_ids lun := by
  unfold update_block
  cases hb : lun.blocks[i]? with
  | none => rfl
  | some b =>
    simp only [lun_ids, List.map_set, hf]
    rw [list_set_same]
    rw [List.getElem?_map, hb]
    rfl

theorem bm_ids_set_same (bm : bm_hb) (k : Nat) (lun lun1 : nvm_lun)
    (hk : bm.luns[k]? = some lun) (h : lun_ids lun1 = lun_ids lun) :
    (bm.luns.set k lun1).map lun_ids = bm_ids bm := by
  unfold bm_ids
  rw [List.map_set, h]
  apply list_set_same
  rw [List.getElem?_map, hk]
  rfl

theorem hb_blocks_init_block_ids (lun_iter : Nat) (lun0 : nvm_lun) (c : Nat) :
    ∀ (k j : Nat) (blk : nvm_block), j < k →
      ((List.range k).foldl (hb_blocks_init_block lun_iter) (lun0, c)).1.blocks[j]? = some blk →
      blk.id = c + j := by
  intro k
  induction k with
  | zero => intro j blk hj; exact absurd hj (Nat.not_lt_zero _)
  | succ k ih =>
    intro j blk hj h
    rw [List.range_succ, List.foldl_append] at h
    have h2 := (hb_blocks_init_block_loop lun_iter lun0 c k).1
    generalize (List.range k).foldl (hb_blocks_init_block lun_iter) (lun0, c) = st at *
    simp only [List.foldl_cons, List.foldl_nil] at h
    have hb : (update_block st.1 k (fun x => { x with id := st.2 })).blocks[j]? = some blk := by
      unfold hb_blocks_init_block at h
      simp only at h
      split at h
      · exact h
      · exact h
    obtain ⟨b0, hb0, hcase⟩ := update_block_get _ _ _ _ _ hb
    rcases hcase with ⟨hjk, rfl⟩ | ⟨hjk, rfl⟩
    · simp only
      rw [h2, hjk]
    · exact ih j blk (by omega) hb0

theorem hb_blocks_init_block_lun_ids (lun_iter : Nat) (lun : nvm_lun) (c : Nat) :
    lun_ids ((List.range lun.nr_blocks).foldl (hb_blocks_init_block lun_iter)
      ({ lun with blocks := List.replicate lun.nr_blocks nvm_block_zero }, c)).1 =
      (lun.id, lun.nr_blocks, (List.range lun.nr_blocks).map (fun j => c + j)) := by
  obtain ⟨_, _, h3, _, h5, _, _, _, _, h10, _⟩ :=
    hb_blocks_init_block_loop lun_iter
      { lun with blocks := List.replicate lun.nr_blocks nvm_block_zero } c lun.nr_blocks
  have hids := hb_blocks_init_block_ids lun_iter
      { lun with blocks := List.replicate lun.nr_blocks nvm_block_zero } c lun.nr_blocks
  generalize (List.range lun.nr_blocks).foldl (hb_blocks_init_block lun_iter)
    ({ lun with blocks := List.replicate lun.nr_blocks nvm_block_zero }, c) = st at *
  simp only [List.length_replicate] at h10
  unfold lun_ids
  rw [h3, h5]
  simp only [Prod.mk.injEq, true_and]
  apply List.ext_getElem?
  intro j
  rw [List.getElem?_map, List.getElem?_map]
  by_cases hj : j < lun.nr_blocks
  · have hlt : j < st.1.blocks.length := by omega
    rw [List.getElem?_eq_getElem hlt, List.getElem?_range hj]
    simp only [Option.map_some', Option.some.injEq]
    exact hids j _ hj (List.getElem?_eq_getElem hlt)
  · rw [List.getElem?_eq_none (by omega), List.getElem?_eq_none (by simp; omega)]
    rfl

theorem list_move_tail_bb_ids (lun : nvm_lun) (b : Nat) :
    lun_ids (list_move_tail_bb lun b) = lun_ids lun := rfl

theorem hb_block_bb_loop_ids : ∀ (bits : List Nat) (lun lun1 : nvm_lun),
    hb_block_bb_loop bits lun = some lun1 → lun_ids lun1 = lun_ids lun := by
  intro bits
  induction bits with
  | nil =>
    intro lun lun1 h
    simp only [hb_block_bb_loop, Option.some.injEq] at h
    rw [h]
  | cons i rest ih =>
    intro lun lun1 h
    simp only [hb_block_bb_loop] at h
    split at h
    · rw [ih _ _ h, list_move_tail_bb_ids]
    · cases h

theorem dev_get_bb_tbl_ids (tbl : Nat → Nat → Option (List Bool)) (lun_id nr_blocks : Nat)
    (bm bm1 : bm_hb) (ret : Int) (h : dev_get_bb_tbl tbl lun_id nr_blocks bm = some (ret, bm1)) :
    bm_ids bm1 = bm_ids bm := by
  unfold dev_get_bb_tbl at h
  split at h
  · simp only [Option.some.injEq, Prod.mk.injEq] at h
    rw [h.2]
  · unfold hb_block_bb at h
    split at h
    · cases h
    · rename_i lun hl
      split at h
      · simp only [Option.some.injEq, Prod.mk.injEq] at h
        rw [h.2]
      · split at h
        · cases h
        · rename_i lun1 hloop
          simp only [Option.some.injEq, Prod.mk.injEq] at h
          rw [← h.2]
          exact bm_ids_set_same bm lun_id lun lun1 hl (hb_block_bb_loop_ids _ _ _ hloop)

theorem hb_blocks_init_lun_ids (ops : nvm_dev_ops) (st st1 : bm_hb × Nat) (k : Nat)
    (lun : nvm_lun) (hl : st.1.luns[k]? = some lun)
    (h : hb_blocks_init_lun ops st k = some st1) :
    st1.2 = st.2 + lun.nr_blocks ∧
      bm_ids st1.1 = (bm_ids st.1).set k
        (lun.id, lun.nr_blocks, (List.range lun.nr_blocks).map (fun j => st.2 + j)) := by
  have hcnt := (hb_blocks_init_block_loop k
    { lun with blocks := List.replicate lun.nr_blocks nvm_block_zero } st.2 lun.nr_blocks).1
  have hids := hb_blocks_init_block_lun_ids k lun st.2
  unfold hb_blocks_init_lun at h
  rw [hl] at h
  simp only at h
  generalize (List.range lun.nr_blocks).foldl (hb_blocks_init_block k)
    ({ lun with blocks := List.replicate lun.nr_blocks nvm_block_zero }, st.2) = res at *
  have hset : bm_ids { luns := st.1.luns.set k res.1 } = (bm_ids st.1).set k
      (lun.id, lun.nr_blocks, (List.range lun.nr_blocks).map (fun j => st.2 + j)) := by
    unfold bm_ids
    simp only [List.map_set, hids]
  split at h
  · simp only [Option.some.injEq] at h
    rw [← h]
    exact ⟨hcnt, hset⟩
  · split at h
    · cases h
    · rename_i ret bm2 hbb
      simp only [Option.some.injEq] at h
      rw [← h]
      refine ⟨hcnt, ?_⟩
      simp only
      rw [dev_get_bb_tbl_ids _ _ _ _ _ _ hbb, hset]

/-- Invariant of the LUN loop of `hb_blocks_init` before LUN `k`, for LUNs of
`N` blocks each. -/
theorem hb_blocks_init_loop_ids (ops : nvm_dev_ops) (N : Nat) :
    ∀ (m k : Nat) (st st1 : bm_hb × Nat),
      hb_blocks_init_loop ops (List.range' k m) st = some st1 →
      st.2 = k * N →
      (∀ (i : Nat) (x : Nat × Nat × List Nat), (bm_ids st.1)[i]? = some x →
        x.1 = i ∧ x.2.1 = N ∧ (i < k → x.2.2 = (List.range N).map (fun j => i * N + j))) →
      (bm_ids st1.1).length = (bm_ids st.1).length ∧
      ∀ (i : Nat) (x : Nat × Nat × List Nat), (bm_ids st1.1)[i]? = some x →
        x.1 = i ∧ x.2.1 = N ∧ (i < k + m → x.2.2 = (List.range N).map (fun j => i * N + j)) := by
  intro m
  induction m with
  | zero =>
    intro k st st1 h _ hinv
    simp only [List.range'_zero, hb_blocks_init_loop, Option.some.injEq] at h
    subst h
    exact ⟨rfl, hinv⟩
  | succ m ih =>
    intro k st st1 h hc hinv
    rw [List.range'_succ] at h
    simp only [hb_blocks_init_loop] at h
    cases hs : hb_blocks_init_lun ops st k with
    | none => rw [hs] at h; cases h
    | some st2 =>
      rw [hs] at h
      simp only at h
      cases hl : st.1.luns[k]? with
      | none =>
        unfold hb_blocks_init_lun at hs
        rw [hl] at hs
        cases hs
      | some lun =>
        obtain ⟨hcnt, hset⟩ := hb_blocks_init_lun_ids ops st st2 k lun hl hs
        have hx : (bm_ids st.1)[k]? = some (lun_ids lun) := by
          unfold bm_ids
          rw [List.getElem?_map, hl]
          rfl
        obtain ⟨hid, hnb, _⟩ := hinv k _ hx
        have hid1 : lun.id = k := hid
        have hnb1 : lun.nr_blocks = N := hnb
        rw [hid1, hnb1, hc] at hset
        have hklt : k < (bm_ids st.1).length := getElem?_some_lt _ _ _ hx
        have hinv2 : ∀ (i : Nat) (x : Nat × Nat × List Nat), (bm_ids st2.1)[i]? = some x →
            x.1 = i ∧ x.2.1 = N ∧
              (i < k + 1 → x.2.2 = (List.range N).map (fun j => i * N + j)) := by
          intro i x hi
          rw [hset] at hi
          by_cases hik : k = i
          · subst hik
            rw [List.getElem?_set_self hklt] at hi
            simp only [Option.some.injEq] at hi
            subst hi
            exact ⟨rfl, rfl, fun _ => rfl⟩
          · rw [List.getElem?_set_ne hik] at hi
            obtain ⟨h1, h2, h3⟩ := hinv i x hi
            exact ⟨h1, h2, fun hlt => h3 (by omega)⟩
        obtain ⟨hlen, hres⟩ := ih (k + 1) st2 st1 h
          (by rw [hcnt, hc, hnb1, Nat.succ_mul]) hinv2
        refine ⟨?_, ?_⟩
        · rw [hlen, hset, List.length_set]
        · intro i x hi
          obtain ⟨h1, h2, h3⟩ := hres i x hi
          exact ⟨h1, h2, fun hlt => h3 (by omega)⟩

theorem hb_block_map_entry_ids (max_pages total : Nat) (bm bm1 : bm_hb) (pba : Nat)
    (ret : Option Int) (h : hb_block_map_entry max_pages total bm pba = some (ret, bm1)) :
    bm_ids bm1 = bm_ids bm := by
  unfold hb_block_map_entry at h
  split at h
  · simp only [Option.some.injEq, Prod.mk.injEq] at h
    rw [h.2]
  · split at h
    · simp only [Option.some.injEq, Prod.mk.injEq] at h
      rw [h.2]
    · split at h
      · cases h
      · simp only at h
        split at h
        · cases h
        · rename_i lun hl
          split at h
          · cases h
          · split at h
            · cases h
            · split at h
              · simp only [Option.some.injEq, Prod.mk.injEq] at h
                rw [← h.2]
                refine bm_ids_set_same bm _ lun _ hl ?_
                have hu := update_block_ids
                  (list_move_tail_used lun
                    ((pba - total * (pba / total)) / lun.nr_pages_per_blk))
                  ((pba - total * (pba / total)) / lun.nr_pages_per_blk)
                  (fun x => { x with type := 1 }) (fun _ => rfl)
                unfold lun_ids at hu ⊢
                simp only [Prod.mk.injEq] at hu ⊢
                exact ⟨hu.1, hu.2.1, hu.2.2⟩
              · simp only [Option.some.injEq, Prod.mk.injEq] at h
                rw [h.2]

theorem hb_block_map_loop_ids (max_pages total : Nat) :
    ∀ (entries : List Nat) (bm bm1 : bm_hb) (ret : Int),
      hb_block_map_loop max_pages total entries bm = some (ret, bm1) → bm_ids bm1 = bm_ids bm := by
  intro entries
  induction entries with
  | nil =>
    intro bm bm1 ret h
    simp only [hb_block_map_loop, Option.some.injEq, Prod.mk.injEq] at h
    rw [h.2]
  | cons pba rest ih =>
    intro bm bm1 ret h
    simp only [hb_block_map_loop] at h
    cases he : hb_block_map_entry max_pages total bm pba with
    | none => rw [he] at h; cases h
    | some x =>
      obtain ⟨r0, bm2⟩ := x
      have h2 := hb_block_map_entry_ids _ _ _ _ _ _ he
      rw [he] at h
      cases r0 with
      | some v =>
        simp only [Option.some.injEq, Prod.mk.injEq] at h
        rw [← h.2, h2]
      | none =>
        simp only at h
        rw [ih _ _ _ h, h2]

theorem hb_block_map_ids (slba : Nat) (entries : List Nat) (dev dev1 : nvm_dev) (ret : Int)
    (h : hb_block_map slba entries dev = some (ret, dev1)) : bm_ids dev1.bmp = bm_ids dev.bmp := by
  unfold hb_block_map at h
  simp only at h
  split at h
  · cases h
  · split at h
    · simp only [Option.some.injEq, Prod.mk.injEq] at h
      rw [h.2]
    · split at h
      · cases h
      · rename_i r0 bm1 hloop
        simp only [Option.some.injEq, Prod.mk.injEq] at h
        rw [← h.2]
        exact hb_block_map_loop_ids _ _ _ _ _ _ hloop

theorem dev_get_l2p_tbl_ids : ∀ (chunks : List (Nat × List Nat)) (status : Int)
    (dev dev1 : nvm_dev) (ret : Int),
    dev_get_l2p_tbl chunks status dev = some (ret, dev1) → bm_ids dev1.bmp = bm_ids dev.bmp := by
  intro chunks
  induction chunks with
  | nil =>
    intro status dev dev1 ret h
    simp only [dev_get_l2p_tbl, Option.some.injEq, Prod.mk.injEq] at h
    rw [h.2]
  | cons c rest ih =>
    intro status dev dev1 ret h
    simp only [dev_get_l2p_tbl] at h
    cases hm : hb_block_map c.1 c.2 dev with
    | none => rw [hm] at h; cases h
    | some x =>
      obtain ⟨r0, dev2⟩ := x
      have h2 := hb_block_map_ids _ _ _ _ _ hm
      rw [hm] at h
      simp only at h
      split at h
      · simp only [Option.some.injEq, Prod.mk.injEq] at h
        rw [← h.2, h2]
      · rw [ih _ _ _ _ h, h2]

theorem hb_blocks_init_numbered (ops : nvm_dev_ops) (dev dev1 dev2 : nvm_dev) (ret : Int)
    (N : Nat) (h1 : hb_luns_init dev = some (0, dev1))
    (huni : ∀ (i : Nat) (lun : nvm_lun), dev1.bmp.luns[i]? = some lun → lun.nr_blocks = N)
    (h2 : hb_blocks_init ops dev1 = some (ret, dev2)) : luns_numbered N dev2.bmp := by
  obtain ⟨_, hlen, _, _, hinit⟩ := hb_luns_init_spec dev dev1 h1
  have hn : dev1.nr_luns = dev1.bmp.luns.length := by
    rw [hlen]
    exact (hb_luns_init_spec dev dev1 h1).1
  have hinv0 : ∀ (i : Nat) (x : Nat × Nat × List Nat), (bm_ids dev1.bmp)[i]? = some x →
      x.1 = i ∧ x.2.1 = N ∧ (i < 0 → x.2.2 = (List.range N).map (fun j => i * N + j)) := by
    intro i x hi
    unfold bm_ids at hi
    rw [List.getElem?_map] at hi
    cases hl : dev1.bmp.luns[i]? with
    | none => rw [hl] at hi; cases hi
    | some lun =>
      rw [hl] at hi
      simp only [Option.map_some', Option.some.injEq] at hi
      subst hi
      exact ⟨(hinit i lun hl).1, huni i lun hl, fun h => absurd h (Nat.not_lt_zero _)⟩
  have hfinal : ∀ st : bm_hb × Nat,
      hb_blocks_init_loop ops (List.range dev1.nr_luns) (dev1.bmp, 0) = some st →
      luns_numbered N st.1 := by
    intro st hst
    rw [List.range_eq_range'] at hst
    obtain ⟨hl2, hres⟩ := hb_blocks_init_loop_ids ops N dev1.nr_luns 0 (dev1.bmp, 0) st hst
      (by simp) hinv0
    have hlen2 : st.1.luns.length = dev1.nr_luns := by
      have : (bm_ids st.1).length = (bm_ids dev1.bmp).length := hl2
      unfold bm_ids at this
      rw [List.length_map, List.length_map] at this
      rw [this, hn]
    unfold luns_numbered
    apply List.ext_getElem?
    intro i
    by_cases hi : i < st.1.luns.length
    · have hlt : i < (bm_ids st.1).length := by
        unfold bm_ids
        rw [List.length_map]
        exact hi
      rw [List.getElem?_eq_getElem hlt, List.getElem?_map, List.getElem?_range hi]
      simp only [Option.map_some', Option.some.injEq]
      obtain ⟨e1, e2, e3⟩ := hres i _ (List.getElem?_eq_getElem hlt)
      have e4 := e3 (by omega)
      generalize (bm_ids st.1)[i] = x at e1 e2 e4
      obtain ⟨a, b, c⟩ := x
      simp only at e1 e2 e4
      rw [e1, e2, e4]
    · rw [List.getElem?_eq_none (by unfold bm_ids; rw [List.length_map]; omega),
        List.getElem?_eq_none (by rw [List.length_map, List.length_range]; omega)]
  unfold hb_blocks_init at h2
  split at h2
  · cases h2
  · rename_i st hst
    have hnum := hfinal st hst
    simp only at h2
    split at h2
    · simp only [Option.some.injEq, Prod.mk.injEq] at h2
      rw [← h2.2]
      exact hnum
    · split at h2
      · cases h2
      · rename_i r0 dev3 hl2p
        simp only [Option.some.injEq, Prod.mk.injEq] at h2
        rw [← h2.2]
        have hids := dev_get_l2p_tbl_ids _ _ _ _ _ hl2p
        simp only at hids
        unfold luns_numbered at hnum ⊢
        have hlen3 : dev3.bmp.luns.length = st.1.luns.length := by
          have : (bm_ids dev3.bmp).length = (bm_ids st.1).length := by rw [hids]
          unfold bm_ids at this
          rw [List.length_map, List.length_map] at this
          exact this
        rw [hids, hlen3]
        exact hnum

/-! ## RRPC: the shadows of the blocks -/

theorem rrpc_luns_init_loop_shadows (lun_begin : Nat) :
    ∀ (m k : Nat) (r r1 : rrpc), rrpc_luns_init_loop lun_begin (List.range' k m) r = some r1 →
      r1.dev = r.dev ∧ r1.luns.length = r.luns.length ∧ r1.nr_luns = r.nr_luns ∧
      r1.lun_offset = r.lun_offset ∧
      (∀ i : Nat, i < k → r1.luns[i]? = r.luns[i]?) ∧
      ∀ i : Nat, k ≤ i → i < k + m → ∃ rl : rrpc_lun, r1.luns[i]? = some rl ∧
        rl.parent = lun_begin + i ∧ rl.prio_list = [] ∧
        rl.blocks =
          (List.range (r.dev.bmp.luns.getD (lun_begin + i) nvm_lun_zero).nr_blocks).map
            (fun j => ({ parent := some (lun_begin + i, j) } : rrpc_block)) := by
  intro m
  induction m with
  | zero =>
    intro k r r1 h
    simp only [List.range'_zero, rrpc_luns_init_loop, Option.some.injEq] at h
    subst h
    exact ⟨rfl, rfl, rfl, rfl, fun _ _ => rfl, fun i h1 h2 => absurd h2 (by omega)⟩
  | succ m ih =>
    intro k r r1 h
    rw [List.range'_succ] at h
    simp only [rrpc_luns_init_loop] at h
    cases hs : rrpc_luns_init_lun lun_begin r k with
    | none => rw [hs] at h; cases h
    | some r2 =>
      rw [hs] at h
      simp only at h
      obtain ⟨hdev, hlen, hnl, hoff, hlow, hhigh⟩ := ih (k + 1) r2 r1 h
      unfold rrpc_luns_init_lun at hs
      split at hs
      · rename_i lun rlun hl hrl
        simp only [Option.some.injEq] at hs
        subst hs
        simp only at hdev hlen hnl hoff hlow hhigh
        have hklt : k < r.luns.length := getElem?_some_lt _ _ _ hrl
        refine ⟨hdev, ?_, hnl, hoff, ?_, ?_⟩
        · rw [hlen, List.length_set]
        · intro i hi
          rw [hlow i (by omega), List.getElem?_set_ne (by omega)]
        · intro i h1 h2
          by_cases hik : i = k
          · subst hik
            rw [hlow i (by omega), List.getElem?_set_self hklt]
            refine ⟨_, rfl, rfl, rfl, ?_⟩
            simp only
            rw [List.getD_eq_getElem?_getD, hl]
            rfl
          · exact hhigh i (by omega) (by omega)
      · cases hs

theorem rrpc_luns_init_shadows (r0 r1 : rrpc) (lun_begin lun_end : Nat) (ret : Int)
    (h : rrpc_luns_init r0 lun_begin lun_end = some (ret, r1)) :
    ret = 0 ∧ r1.dev = r0.dev ∧ r1.luns.length = r0.nr_luns ∧ r1.nr_luns = r0.nr_luns ∧
      r1.lun_offset = r0.lun_offset ∧
      shadows_built lun_begin r1.dev r1.luns ∧ ∀ rl ∈ r1.luns, rl.prio_list = [] := by
  unfold rrpc_luns_init at h
  split at h
  · cases h
  · rename_i r2 hloop
    simp only [Option.some.injEq, Prod.mk.injEq] at h
    obtain ⟨hret, hr⟩ := h
    subst hr
    rw [List.range_eq_range'] at hloop
    obtain ⟨hdev, hlen, hnl, hoff, _, hall⟩ :=
      rrpc_luns_init_loop_shadows lun_begin r0.nr_luns 0 _ r2 hloop
    simp only [List.length_replicate] at hdev hlen hnl hoff hall
    refine ⟨hret.symm, hdev, hlen, hnl, hoff, ?_, ?_⟩
    · unfold shadows_built
      apply List.ext_getElem?
      intro i
      by_cases hi : i < r2.luns.length
      · obtain ⟨rl, hrl, hp, _, hb⟩ := hall i (Nat.zero_le _) (by omega)
        rw [List.getElem?_map, hrl, List.getElem?_map, List.getElem?_range hi]
        simp only [Option.map_some', Option.some.injEq]
        rw [hp, hb, hdev]
      · rw [List.getElem?_eq_none (by rw [List.length_map]; omega),
          List.getElem?_eq_none (by rw [List.length_map, List.length_range]; omega)]
    · intro rl hrl
      obtain ⟨i, hi, hget⟩ := List.getElem_of_mem hrl
      obtain ⟨rl1, hrl1, _, hp, _⟩ := hall i (Nat.zero_le _) (by omega)
      rw [List.getElem?_eq_getElem hi] at hrl1
      simp only [Option.some.injEq] at hrl1
      rw [← hget, hrl1]
      exact hp

theorem luns_numbered_get (N : Nat) (bm : bm_hb) (i j : Nat) (lun : nvm_lun) (blk : nvm_block)
    (hnum : luns_numbered N bm) (hl : bm.luns[i]? = some lun) (hb : lun.blocks[j]? = some blk) :
    lun.id = i ∧ lun.nr_blocks = N ∧ lun.blocks.length = N ∧ j < N ∧ blk.id = i * N + j := by
  unfold luns_numbered at hnum
  have hi : i < bm.luns.length := getElem?_some_lt _ _ _ hl
  have hx : (bm_ids bm)[i]? = some (lun_ids lun) := by
    unfold bm_ids
    rw [List.getElem?_map, hl]
    rfl
  rw [hnum, List.getElem?_map, List.getElem?_range hi] at hx
  simp only [Option.map_some', Option.some.injEq] at hx
  unfold lun_ids at hx
  simp only [Prod.mk.injEq] at hx
  obtain ⟨e1, e2, e3⟩ := hx
  have hlen : lun.blocks.length = N := by
    have := congrArg List.length e3
    simp only [List.length_map, List.length_range] at this
    exact this.symm
  have hj : j < N := by
    rw [← hlen]
    exact getElem?_some_lt _ _ _ hb
  have hy : (lun.blocks.map (fun b => b.id))[j]? = some blk.id := by
    rw [List.getElem?_map, hb]
    rfl
  rw [← e3, List.getElem?_map, List.getElem?_range hj] at hy
  simp only [Option.map_some', Option.some.injEq] at hy
  exact ⟨e1.symm, e2.symm, hlen, hj, hy.symm⟩

theorem shadows_built_get (lun_begin : Nat) (dev : nvm_dev) (luns : List rrpc_lun) (k : Nat)
    (lun : nvm_lun) (hsh : shadows_built lun_begin dev luns) (hk : k < luns.length)
    (hl : dev.bmp.luns[lun_begin + k]? = some lun) :
    ∃ rlun : rrpc_lun, luns[k]? = some rlun ∧ rlun.parent = lun_begin + k ∧
      rlun.blocks = (List.range lun.nr_blocks).map
        (fun j => ({ parent := some (lun_begin + k, j) } : rrpc_block)) := by
  unfold shadows_built at hsh
  have hx : (luns.map (fun rl => (rl.parent, rl.blocks)))[k]? =
      some (luns[k].parent, luns[k].blocks) := by
    rw [List.getElem?_map, List.getElem?_eq_getElem hk]
    rfl
  rw [hsh, List.getElem?_map, List.getElem?_range hk] at hx
  simp only [Option.map_some', Option.some.injEq, Prod.mk.injEq] at hx
  obtain ⟨e1, e2⟩ := hx
  rw [List.getD_eq_getElem?_getD, hl] at e2
  exact ⟨luns[k], List.getElem?_eq_getElem hk, e1.symm, e2.symm⟩

theorem rrpc_gc_queue_numbered (r : rrpc) (N : Nat) (block : Nat × Nat) (lun : nvm_lun)
    (blk : nvm_block) (hN : 0 < N) (hnum : luns_numbered N r.dev.bmp)
    (hsh : shadows_built r.lun_offset r.dev r.luns)
    (hg : nvm_block_get r.dev block = some (lun, blk))
    (hlo : r.lun_offset ≤ block.1) (hhi : block.1 - r.lun_offset < r.luns.length) :
    ∃ rlun : rrpc_lun, r.luns[block.1 - r.lun_offset]? = some rlun ∧ rlun.parent = block.1 ∧
      lun.id = block.1 ∧ blk.id % lun.nr_blocks = block.2 ∧
      rblock_parent rlun (blk.id % lun.nr_blocks) = some block ∧
      rrpc_gc_queue r block =
        some { r with luns := r.luns.set (block.1 - r.lun_offset)
                        { rlun with prio_list := rlun.prio_list ++ [block.2] } } := by
  obtain ⟨hl, hb⟩ := nvm_block_get_parts r.dev block lun blk hg
  obtain ⟨hid, hnb, hlen, hj, hbid⟩ := luns_numbered_get N r.dev.bmp block.1 block.2 lun blk hnum hl hb
  have hsum : r.lun_offset + (block.1 - r.lun_offset) = block.1 := by omega
  obtain ⟨rlun, hrl, hpar, hblocks⟩ := shadows_built_get r.lun_offset r.dev r.luns
    (block.1 - r.lun_offset) lun hsh hhi (by rw [hsum]; exact hl)
  rw [hsum] at hpar hblocks
  have hmod : blk.id % lun.nr_blocks = block.2 := by
    rw [hbid, hnb, Nat.mul_comm, Nat.mul_add_mod, Nat.mod_eq_of_lt hj]
  have hsh2 : rlun.blocks[block.2]? = some { parent := some (block.1, block.2) } := by
    rw [hblocks, List.getElem?_map, List.getElem?_range (by rw [hnb]; exact hj)]
    rfl
  have hrlen : block.2 < rlun.blocks.length := getElem?_some_lt _ _ _ hsh2
  refine ⟨rlun, hrl, hpar, hid, hmod, ?_, ?_⟩
  · unfold rblock_parent
    rw [hmod, hsh2]
  · unfold rrpc_gc_queue
    rw [hg]
    simp only
    rw [if_neg (by rw [hid, hnb]; omega), hid, hrl]
    simp only
    rw [hmod, if_pos hrlen]

/-! ## RRPC: the ids and the shadows after `rrpc_init` -/

theorem rrpc_ids_frame_refl (a : rrpc) : rrpc_ids_frame a a := ⟨rfl, rfl, rfl⟩

theorem rrpc_ids_frame_trans (a b c : rrpc) (h1 : rrpc_ids_frame a b) (h2 : rrpc_ids_frame b c) :
    rrpc_ids_frame a c :=
  ⟨h1.1.trans h2.1, h1.2.1.trans h2.2.1, h1.2.2.trans h2.2.2⟩

theorem luns_numbered_of_ids (N : Nat) (bm bm1 : bm_hb) (h : bm_ids bm1 = bm_ids bm)
    (hnum : luns_numbered N bm) : luns_numbered N bm1 := by
  unfold luns_numbered at hnum ⊢
  have hlen : bm1.luns.length = bm.luns.length := by
    have := congrArg List.length h
    unfold bm_ids at this
    rw [List.length_map, List.length_map] at this
    exact this
  rw [h, hlen]
  exact hnum

theorem bm_ids_nr_blocks (bm bm1 : bm_hb) (h : bm_ids bm1 = bm_ids bm) (i : Nat) :
    (bm1.luns.getD i nvm_lun_zero).nr_blocks = (bm.luns.getD i nvm_lun_zero).nr_blocks := by
  have hx : (bm_ids bm1)[i]? = (bm_ids bm)[i]? := by rw [h]
  unfold bm_ids at hx
  rw [List.getElem?_map, List.getElem?_map] at hx
  rw [List.getD_eq_getElem?_getD, List.getD_eq_getElem?_getD]
  cases h1 : bm1.luns[i]? with
  | none =>
    cases h2 : bm.luns[i]? with
    | none => rfl
    | some l2 => rw [h1, h2] at hx; cases hx
  | some l1 =>
    cases h2 : bm.luns[i]? with
    | none => rw [h1, h2] at hx; cases hx
    | some l2 =>
      rw [h1, h2] at hx
      simp only [Option.map_some', Option.some.injEq, lun_ids, Prod.mk.injEq] at hx
      exact hx.2.1

theorem shadows_built_of_frame (a b : rrpc) (h : rrpc_ids_frame a b)
    (hsh : shadows_built b.lun_offset b.dev b.luns) : shadows_built a.lun_offset a.dev a.luns := by
  obtain ⟨h1, h2, h3⟩ := h
  unfold shadows_built at hsh ⊢
  have hlen : a.luns.length = b.luns.length := by
    have := congrArg List.length h2
    rw [List.length_map, List.length_map] at this
    exact this
  rw [h2, hsh, hlen, h3]
  apply List.map_congr_left
  intro k _
  rw [bm_ids_nr_blocks b.dev.bmp a.dev.bmp h1]

theorem rrpc_l2p_update_entry_frame (max_pages slba : Nat) (r r1 : rrpc) (i pba : Nat)
    (ret : Option Int) (h : rrpc_l2p_update_entry max_pages slba r i pba = some (ret, r1)) :
    rrpc_ids_frame r1 r := by
  unfold rrpc_l2p_update_entry at h
  split at h
  · cases h; exact rrpc_ids_frame_refl _
  · split at h
    · cases h; exact rrpc_ids_frame_refl _
    · split at h
      · cases h
      · split at h
        · cases h; exact ⟨rfl, rfl, rfl⟩
        · cases h

theorem rrpc_l2p_update_loop_frame (max_pages slba : Nat) :
    ∀ (entries : List Nat) (i : Nat) (r r1 : rrpc) (ret : Int),
      rrpc_l2p_update_loop max_pages slba i entries r = some (ret, r1) → rrpc_ids_frame r1 r := by
  intro entries
  induction entries with
  | nil =>
    intro i r r1 ret h
    simp only [rrpc_l2p_update_loop, Option.some.injEq, Prod.mk.injEq] at h
    rw [h.2]
    exact rrpc_ids_frame_refl _
  | cons pba rest ih =>
    intro i r r1 ret h
    simp only [rrpc_l2p_update_loop] at h
    cases he : rrpc_l2p_update_entry max_pages slba r i pba with
    | none => rw [he] at h; cases h
    | some x =>
      obtain ⟨r0, r2⟩ := x
      have h2 := rrpc_l2p_update_entry_frame _ _ _ _ _ _ _ he
      rw [he] at h
      cases r0 with
      | some v =>
        simp only [Option.some.injEq, Prod.mk.injEq] at h
        rw [← h.2]
        exact h2
      | none =>
        simp only at h
        exact rrpc_ids_frame_trans _ _ _ (ih _ _ _ _ h) h2

theorem rrpc_l2p_update_frame (slba : Nat) (entries : List Nat) (r r1 : rrpc) (ret : Int)
    (h : rrpc_l2p_update slba entries r = some (ret, r1)) : rrpc_ids_frame r1 r := by
  unfold rrpc_l2p_update at h
  simp only at h
  split at h
  · cases h; exact rrpc_ids_frame_refl _
  · exact rrpc_l2p_update_loop_frame _ _ _ _ _ _ _ h

theorem rrpc_get_l2p_tbl_frame : ∀ (chunks : List (Nat × List Nat)) (status : Int)
    (r r1 : rrpc) (ret : Int),
    rrpc_get_l2p_tbl chunks status r = some (ret, r1) → rrpc_ids_frame r1 r := by
  intro chunks
  induction chunks with
  | nil =>
    intro status r r1 ret h
    simp only [rrpc_get_l2p_tbl, Option.some.injEq, Prod.mk.injEq] at h
    rw [h.2]
    exact rrpc_ids_frame_refl _
  | cons c rest ih =>
    intro status r r1 ret h
    simp only [rrpc_get_l2p_tbl] at h
    cases hm : rrpc_l2p_update c.1 c.2 r with
    | none => rw [hm] at h; cases h
    | some x =>
      obtain ⟨r0, r2⟩ := x
      have h2 := rrpc_l2p_update_frame _ _ _ _ _ hm
      rw [hm] at h
      simp only at h
      split at h
      · simp only [Option.some.injEq, Prod.mk.injEq] at h
        rw [← h.2]
        exact h2
      · exact rrpc_ids_frame_trans _ _ _ (ih _ _ _ _ h) h2

theorem rrpc_map_init_frame (ops : nvm_dev_ops) (r r1 : rrpc) (ret : Int)
    (h : rrpc_map_init ops r = some (ret, r1)) : rrpc_ids_frame r1 r := by
  unfold rrpc_map_init at h
  simp only at h
  split at h
  · cases h; exact ⟨rfl, rfl, rfl⟩
  · split at h
    · cases h
    · rename_i r0 r2 hl
      have h2 := rrpc_get_l2p_tbl_frame _ _ _ _ _ hl
      have h3 : rrpc_ids_frame r2 r := ⟨h2.1, h2.2.1, h2.2.2⟩
      split at h
      · cases h; exact h3
      · cases h; exact h3

theorem bm_ids_block_set (dev : nvm_dev) (B : Nat × Nat) (f : nvm_block → nvm_block)
    (hf : ∀ b : nvm_block, (f b).id = b.id) :
    bm_ids (nvm_block_set dev B f).bmp = bm_ids dev.bmp := by
  unfold nvm_block_set
  cases hk : dev.bmp.luns[B.1]? with
  | none => rfl
  | some lun =>
    simp only
    exact bm_ids_set_same dev.bmp B.1 lun _ hk (update_block_ids lun B.2 f hf)

theorem rrpc_block_map_update_page_frame (block : Nat × Nat) (r r1 : rrpc) (offset : Nat)
    (h : rrpc_block_map_update_page block r offset = some r1) : rrpc_ids_frame r1 r := by
  unfold rrpc_block_map_update_page at h
  split at h
  · cases h
  · split at h
    · cases h
    · split at h
      · cases h; exact rrpc_ids_frame_refl _
      · split at h
        · cases h
        · split at h
          · cases h; exact ⟨rfl, rfl, rfl⟩
          · cases h
            exact ⟨bm_ids_block_set _ _ _ (fun _ => rfl), rfl, rfl⟩

theorem rrpc_for_each_frame {α : Type} (step : rrpc → α → Option rrpc)
    (hstep : ∀ (r r1 : rrpc) (a : α), step r a = some r1 → rrpc_ids_frame r1 r) :
    ∀ (l : List α) (r r1 : rrpc), rrpc_for_each step l r = some r1 → rrpc_ids_frame r1 r := by
  intro l
  induction l with
  | nil =>
    intro r r1 h
    simp only [rrpc_for_each, Option.some.injEq] at h
    rw [h]
    exact rrpc_ids_frame_refl _
  | cons a rest ih =>
    intro r r1 h
    simp only [rrpc_for_each] at h
    cases hs : step r a with
    | none => rw [hs] at h; cases h
    | some r2 =>
      rw [hs] at h
      exact rrpc_ids_frame_trans _ _ _ (ih _ _ h) (hstep _ _ _ hs)

theorem rrpc_block_map_update_frame (r r1 : rrpc) (block : Nat × Nat)
    (h : rrpc_block_map_update r block = some r1) : rrpc_ids_frame r1 r := by
  unfold rrpc_block_map_update at h
  split at h
  · cases h
  · exact rrpc_for_each_frame _ (fun a b c hs => rrpc_block_map_update_page_frame block a b c hs)
      _ _ _ h

theorem rrpc_blocks_init_lun_frame (r r1 : rrpc) (lun_iter : Nat)
    (h : rrpc_blocks_init_lun r lun_iter = some r1) : rrpc_ids_frame r1 r := by
  unfold rrpc_blocks_init_lun at h
  split at h
  · cases h
  · exact rrpc_for_each_frame _ (fun a b c hs => rrpc_block_map_update_frame a b _ hs) _ _ _ h

theorem rrpc_blocks_init_frame (r r1 : rrpc) (ret : Int)
    (h : rrpc_blocks_init r = some (ret, r1)) : rrpc_ids_frame r1 r := by
  unfold rrpc_blocks_init at h
  split at h
  · cases h
  · rename_i r2 hl
    cases h
    exact rrpc_for_each_frame _ rrpc_blocks_init_lun_frame _ _ _ hl

theorem hb_get_blk_ids (lun : nvm_lun) (flags : Nat) :
    lun_ids (hb_get_blk lun flags).2 = lun_ids lun := by
  unfold hb_get_blk
  cases lun.free_list with
  | nil => rfl
  | cons b rest =>
    simp only
    split
    · rfl
    · simp only
      exact (update_block_ids _ b (nvm_reset_block _) (fun _ => rfl)).trans rfl

theorem nvm_get_blk_ids (dev : nvm_dev) (k flags : Nat) :
    bm_ids (nvm_get_blk dev k flags).2.bmp = bm_ids dev.bmp := by
  cases hk : dev.bmp.luns[k]? with
  | none => rw [nvm_get_blk_none dev k flags hk]
  | some l0 =>
    rw [nvm_get_blk_some dev k flags l0 hk]
    simp only
    exact bm_ids_set_same dev.bmp k l0 _ hk (hb_get_blk_ids l0 flags)

theorem shadow_view_set (luns : List rrpc_lun) (i : Nat) (rlun rlun1 : rrpc_lun)
    (hi : luns[i]? = some rlun) (hp : rlun1.parent = rlun.parent)
    (hb : rlun1.blocks = rlun.blocks) :
    (luns.set i rlun1).map (fun rl => (rl.parent, rl.blocks)) =
      luns.map (fun rl => (rl.parent, rl.blocks)) := by
  rw [List.map_set, hp, hb]
  apply list_set_same
  rw [List.getElem?_map, hi]
  rfl

theorem rrpc_luns_configure_loop_frame : ∀ (l : List Nat) (r r1 : rrpc) (ret : Int),
    rrpc_luns_configure_loop l r = some (ret, r1) → rrpc_ids_frame r1 r := by
  intro l
  induction l with
  | nil =>
    intro r r1 ret h
    simp only [rrpc_luns_configure_loop, Option.some.injEq, Prod.mk.injEq] at h
    rw [h.2]
    exact rrpc_ids_frame_refl _
  | cons i rest ih =>
    intro r r1 ret h
    simp only [rrpc_luns_configure_loop] at h
    cases hi : r.luns[i]? with
    | none => rw [hi] at h; cases h
    | some rlun =>
      rw [hi] at h
      simp only at h
      have e1 := nvm_get_blk_ids r.dev rlun.parent 0
      cases hg1 : nvm_get_blk r.dev rlun.parent 0 with
      | mk ob dev1 =>
        rw [hg1] at h e1
        simp only at e1
        cases ob with
        | none =>
          simp only [Option.some.injEq, Prod.mk.injEq] at h
          rw [← h.2]
          exact ⟨e1, rfl, rfl⟩
        | some blk =>
          simp only at h
          have e2 := nvm_get_blk_ids dev1 rlun.parent 1
          cases hg2 : nvm_get_blk dev1 rlun.parent 1 with
          | mk ob2 dev2 =>
            rw [hg2] at h e2
            simp only at e2
            cases ob2 with
            | none =>
              simp only [Option.some.injEq, Prod.mk.injEq] at h
              rw [← h.2]
              exact ⟨e2.trans e1, shadow_view_set r.luns i rlun _ hi rfl rfl, rfl⟩
            | some gc_blk =>
              simp only at h
              have h3 := ih _ _ _ h
              refine rrpc_ids_frame_trans _ _ _ h3 ?_
              exact ⟨e2.trans e1, shadow_view_set r.luns i rlun _ hi rfl rfl, rfl⟩

theorem rrpc_init_shadows (ops : nvm_dev_ops) (dev : nvm_dev) (lun_begin lun_end : Nat)
    (ret : Int) (r : rrpc) (N : Nat) (hnum : luns_numbered N dev.bmp)
    (h : rrpc_init ops dev lun_begin lun_end = some (ret, r)) :
    r.lun_offset = lun_begin ∧ r.luns.length = lun_end + 1 - lun_begin ∧
      luns_numbered N r.dev.bmp ∧ shadows_built r.lun_offset r.dev r.luns := by
  unfold rrpc_init at h
  simp only at h
  split at h
  · cases h
  · rename_i ret1 r1 hli
    obtain ⟨hret, hdev, hlen, _, _, hsh, _⟩ := rrpc_luns_init_shadows _ _ _ _ _ hli
    simp only [rrpc_zero] at hdev hlen
    rw [if_neg (by rw [hret]; decide)] at h
    split at h
    · cases h
    · split at h
      · cases h
      · rename_i rlun0 _ lun0 _
        have key : ∀ r9 : rrpc,
            rrpc_ids_frame r9
              (rrpc_core_init { r1 with poffset :=
                                          lun0.nr_blocks * lun0.nr_pages_per_blk * lun_begin %
                                            4294967296,
                                        lun_offset := lun_begin }).2 →
            r9.lun_offset = lun_begin ∧ r9.luns.length = lun_end + 1 - lun_begin ∧
              luns_numbered N r9.dev.bmp ∧ shadows_built r9.lun_offset r9.dev r9.luns := by
          intro r9 hf
          have hsh9 := shadows_built_of_frame r9 _ hf hsh
          obtain ⟨f1, f2, f3⟩ := hf
          simp only [rrpc_core_init] at f1 f2 f3
          refine ⟨f3, ?_, ?_, hsh9⟩
          · have := congrArg List.length f2
            rw [List.length_map, List.length_map] at this
            rw [this, hlen]
          · refine luns_numbered_of_ids N dev.bmp r9.dev.bmp ?_ hnum
            rw [f1, hdev]
        split at h
        · cases h
        · rename_i ret4 r4 hmi
          have f4 := rrpc_map_init_frame _ _ _ _ hmi
          split at h
          · cases h
            exact key _ f4
          · split at h
            · cases h
            · rename_i ret5 r5 hbi
              have f5 := rrpc_ids_frame_trans _ _ _ (rrpc_blocks_init_frame _ _ _ hbi) f4
              split at h
              · cases h
                exact key _ f5
              · split at h
                · cases h
                · rename_i ret6 r6 hlc
                  cases h
                  exact key _ (rrpc_ids_frame_trans _ _ _
                    (rrpc_luns_configure_loop_frame _ _ _ _ hlc) f5)

/-- C28 as stated fails on LUNs of different sizes.  On `dev_mixed_luns`
(LUN 0 of three blocks, LUN 1 of two) attach and `rrpc_init` succeed; the
first block of LUN 1 has id 3, and `3 mod 2 = 1`: `rrpc_gc_queue` for that
block appends shadow 1 of LUN 1, whose parent is the second block of LUN 1,
and `rrpc_gc_queue` for the second block (id 4) appends shadow 0, whose
parent is the first block. -/
theorem rrpc_gc_queue_foreign_shadow :
    hb_register ops_no_tables dev_mixed_luns = some (1, dev_mixed_luns_ready) ∧
      rrpc_init ops_no_tables dev_mixed_luns_ready 0 1 = some (0, rrpc_mixed_luns) ∧
      (nvm_block_get rrpc_mixed_luns.dev (1, 0)).map (fun x => (x.1.id, x.1.nr_blocks, x.2.id)) =
        some (1, 2, 3) ∧
      (rrpc_gc_queue rrpc_mixed_luns (1, 0)).map (fun r => r.luns.map (fun l => l.prio_list)) =
        some [[], [1]] ∧
      (rrpc_gc_queue rrpc_mixed_luns (1, 1)).map (fun r => r.luns.map (fun l => l.prio_list)) =
        some [[], [0]] ∧
      rrpc_mixed_luns.luns.map (fun l => (rblock_parent l 0, rblock_parent l 1)) =
        [(some (0, 0), some (0, 1)), (some (1, 0), some (1, 1))] := by
  decide

/-- C28 for LUNs of equal size.  In a state whose LUNs have `N ≥ 1` blocks
each and carry the numbering of attach (`luns_numbered`), and whose shadows
are those `rrpc_luns_init` builds for the LUN offset of the instance
(`shadows_built`), `rrpc_gc_queue` for a block `(i, j)` of a LUN of the
instance returns; the shadow LUN it takes, `luns[lun.id - lun_offset]`, is
the shadow of LUN `i`, the shadow block `blocks[block.id mod lun.nr_blocks]`
is shadow `j`, whose parent is the block `(i, j)` itself, and that shadow is
appended at the tail of the priority list of that shadow LUN; nothing else
changes.  The two premises are what the code establishes: `hb_blocks_init`
after `hb_luns_init` numbers LUNs of `N` blocks each that way, with any
bad-block and L2P table; `rrpc_luns_init` builds these shadows; and
`rrpc_init` keeps both. -/
theorem rrpc_gc_queue_own_shadow (r : rrpc) (N : Nat) (block : Nat × Nat) (lun : nvm_lun)
    (blk : nvm_block) (hN : 0 < N) (hnum : luns_numbered N r.dev.bmp)
    (hsh : shadows_built r.lun_offset r.dev r.luns)
    (hg : nvm_block_get r.dev block = some (lun, blk))
    (hlo : r.lun_offset ≤ block.1) (hhi : block.1 - r.lun_offset < r.luns.length) :
    (∃ rlun : rrpc_lun, r.luns[block.1 - r.lun_offset]? = some rlun ∧ rlun.parent = block.1 ∧
      lun.id = block.1 ∧ blk.id = block.1 * N + block.2 ∧ blk.id % lun.nr_blocks = block.2 ∧
      rblock_parent rlun (blk.id % lun.nr_blocks) = some block ∧
      rrpc_gc_queue r block =
        some { r with luns := r.luns.set (lun.id - r.lun_offset)
                        { rlun with prio_list := rlun.prio_list ++ [blk.id % lun.nr_blocks] } }) ∧
    (∀ (ops : nvm_dev_ops) (dev dev1 dev2 : nvm_dev) (ret : Int),
      hb_luns_init dev = some (0, dev1) →
      (∀ (i : Nat) (l : nvm_lun), dev1.bmp.luns[i]? = some l → l.nr_blocks = N) →
      hb_blocks_init ops dev1 = some (ret, dev2) → luns_numbered N dev2.bmp) ∧
    (∀ (r0 r1 : rrpc) (lun_begin lun_end : Nat) (ret : Int),
      rrpc_luns_init r0 lun_begin lun_end = some (ret, r1) →
      r1.dev = r0.dev ∧ shadows_built lun_begin r1.dev r1.luns) ∧
    ∀ (ops : nvm_dev_ops) (dev : nvm_dev) (lun_begin lun_end : Nat) (ret : Int) (r1 : rrpc),
      luns_numbered N dev.bmp → rrpc_init ops dev lun_begin lun_end = some (ret, r1) →
      r1.lun_offset = lun_begin ∧ luns_numbered N r1.dev.bmp ∧
        shadows_built r1.lun_offset r1.dev r1.luns := by
  refine ⟨?_, ?_, ?_, ?_⟩
  · obtain ⟨rlun, h1, h2, h3, h4, h5, h6⟩ :=
      rrpc_gc_queue_numbered r N block lun blk hN hnum hsh hg hlo hhi
    obtain ⟨hl, hb⟩ := nvm_block_get_parts r.dev block lun blk hg
    obtain ⟨_, _, _, _, hbid⟩ := luns_numbered_get N r.dev.bmp block.1 block.2 lun blk hnum hl hb
    refine ⟨rlun, h1, h2, h3, hbid, h4, h5, ?_⟩
    rw [h6, h3, h4]
  · intro ops dev dev1 dev2 ret h1 huni h2
    exact hb_blocks_init_numbered ops dev dev1 dev2 ret N h1 huni h2
  · intro r0 r1 lun_begin lun_end ret h
    obtain ⟨_, hdev, _, _, _, hs, _⟩ := rrpc_luns_init_shadows r0 r1 lun_begin lun_end ret h
    exact ⟨hdev, hs⟩
  · intro ops dev lun_begin lun_end ret r1 hn h
    obtain ⟨h1, _, h3, h4⟩ := rrpc_init_shadows ops dev lun_begin lun_end ret r1 N hn h
    exact ⟨h1, h3, h4⟩

/-! ## The device table during attach -/

theorem l2p_entries_mem : ∀ (chunks : List (Nat × List Nat)) (c : Nat × List Nat) (e : Nat),
    c ∈ chunks → e ∈ c.2 → e ∈ l2p_entries chunks := by
  intro chunks
  induction chunks with
  | nil => intro c e hc _; cases hc
  | cons c0 rest ih =>
    intro c e hc he
    simp only [l2p_entries, List.mem_append]
    rcases List.mem_cons.mp hc with rfl | hc
    · exact Or.inl he
    · exact Or.inr (ih c e hc he)

theorem dev_get_l2p_tbl_progress_append (T P : Nat) (bm0 : bm_hb)
    (hgeom : ∀ (i : Nat) (lun0 : nvm_lun), bm0.luns[i]? = some lun0 →
      lun0.nr_pages_per_blk = P ∧ lun0.nr_blocks * P = T ∧ lun0.nr_blocks ≤ lun0.nr_free_blocks)
    (hP : 0 < P) (hT : 0 < T) (hT32 : T < 4294967296) (hn : 0 < bm0.luns.length)
    (rest : List (Nat × List Nat)) :
    ∀ (chunks : List (Nat × List Nat)) (status : Int) (dev : nvm_dev) (seen : List Nat),
      l2p_progress_all T P bm0 dev.bmp seen →
      bm0.luns.length * T ≤ dev.total_pages * (dev.sector_size >>> 9) →
      (∀ c ∈ chunks, c.1 + c.2.length ≤ dev.total_pages ∧
        ∀ e ∈ c.2, e = 0 ∨ e < bm0.luns.length * T) →
      ∃ bm2, dev_get_l2p_tbl (chunks ++ rest) status dev =
          dev_get_l2p_tbl rest status { dev with bmp := bm2 } ∧
        l2p_progress_all T P bm0 bm2 (seen ++ l2p_entries chunks) := by
  intro chunks
  induction chunks with
  | nil =>
    intro status dev seen hall _ _
    refine ⟨dev.bmp, ?_, ?_⟩
    · simp only [List.nil_append]
    · simpa [l2p_entries] using hall
  | cons c cs ih =>
    intro status dev seen hall hmp hchunks
    obtain ⟨hlenc, hvalid⟩ := hchunks c (List.mem_cons_self _ _)
    have hl0 : bm0.luns[0]? = some bm0.luns[0] := List.getElem?_eq_getElem hn
    obtain ⟨lun1, hl1, hprog⟩ := hall.2 0 _ hl0
    obtain ⟨hg1, hg2, _⟩ := hgeom 0 _ hl0
    have hTeq : lun1.nr_blocks * lun1.nr_pages_per_blk % 4294967296 = T := by
      rw [hprog.1, hprog.2.1, hg1, hg2]
      exact Nat.mod_eq_of_lt hT32
    have hmp0 : 0 < dev.total_pages * (dev.sector_size >>> 9) := by
      have : 0 < bm0.luns.length * T := Nat.mul_pos hn hT
      omega
    obtain ⟨bm2, hloop, hall2⟩ := hb_block_map_loop_progress _ T P bm0 hgeom hP hT hmp hmp0
      c.2 seen dev.bmp hall hvalid
    have hmap : hb_block_map c.1 c.2 dev = some (0, { dev with bmp := bm2 }) := by
      unfold hb_block_map
      simp only [hl1, hTeq, hloop]
      rw [if_neg (by omega)]
    obtain ⟨bm3, hrest, hall3⟩ := ih status { dev with bmp := bm2 } (seen ++ c.2) hall2 hmp
      (fun c1 hc1 => hchunks c1 (List.mem_cons_of_mem _ hc1))
    refine ⟨bm3, ?_, ?_⟩
    · simp only [List.cons_append, dev_get_l2p_tbl, hmap]
      rw [if_neg (by decide)]
      exact hrest
    · simpa [l2p_entries, List.append_assoc] using hall3

theorem dev_get_l2p_tbl_progress (T P : Nat) (bm0 : bm_hb)
    (hgeom : ∀ (i : Nat) (lun0 : nvm_lun), bm0.luns[i]? = some lun0 →
      lun0.nr_pages_per_blk = P ∧ lun0.nr_blocks * P = T ∧ lun0.nr_blocks ≤ lun0.nr_free_blocks)
    (hP : 0 < P) (hT : 0 < T) (hT32 : T < 4294967296) (hn : 0 < bm0.luns.length)
    (chunks : List (Nat × List Nat)) (status : Int) (dev : nvm_dev) (seen : List Nat)
    (hall : l2p_progress_all T P bm0 dev.bmp seen)
    (hmp : bm0.luns.length * T ≤ dev.total_pages * (dev.sector_size >>> 9))
    (hchunks : ∀ c ∈ chunks, c.1 + c.2.length ≤ dev.total_pages ∧
      ∀ e ∈ c.2, e = 0 ∨ e < bm0.luns.length * T) :
    ∃ bm2, dev_get_l2p_tbl chunks status dev = some (status, { dev with bmp := bm2 }) ∧
      l2p_progress_all T P bm0 bm2 (seen ++ l2p_entries chunks) := by
  obtain ⟨bm2, h1, h2⟩ := dev_get_l2p_tbl_progress_append T P bm0 hgeom hP hT hT32 hn []
    chunks status dev seen hall hmp hchunks
  refine ⟨bm2, ?_, h2⟩
  rw [List.append_nil] at h1
  rw [h1]
  rfl

theorem hb_blocks_init_loop_pristine (ops : nvm_dev_ops) (dev dev1 : nvm_dev) (B P : Nat)
    (h1 : hb_luns_init dev = some (0, dev1))
    (hgeo : ∀ (i : Nat) (lun : nvm_lun), dev1.bmp.luns[i]? = some lun →
      lun.nr_blocks = B ∧ lun.nr_pages_per_blk = P) :
    ∃ st : bm_hb × Nat,
      hb_blocks_init_loop ops (List.range dev1.nr_luns) (dev1.bmp, 0) = some st ∧
      st.1.luns.length = dev1.nr_luns ∧
      ∀ (i : Nat) (lun : nvm_lun), st.1.luns[i]? = some lun →
        lun.nr_blocks = B ∧ lun.nr_pages_per_blk = P ∧ lun_lists_wf i lun ∧ lun.used_list = [] ∧
        (∀ blk, blk ∈ lun.blocks → blk.type = 0) ∧ lun.nr_blocks ≤ lun.nr_free_blocks := by
  obtain ⟨st, hst, hlen, hatt⟩ := hb_blocks_init_luns ops dev dev1 h1
  refine ⟨st, hst, hlen, ?_⟩
  intro i lun hi
  have hilt : i < dev1.nr_luns := by
    rw [← hlen]
    exact getElem?_some_lt _ _ _ hi
  obtain ⟨lun0, lun', hl0, hl', ha⟩ := hatt i hilt
  rw [hi] at hl'
  simp only [Option.some.injEq] at hl'
  subst hl'
  have hwf := lun_attached_wf ops i lun0 lun ha
  obtain ⟨_, hu, _, _, hnb, hnp, hnf, _, _, _, hzero⟩ := ha
  obtain ⟨g1, g2⟩ := hgeo i lun0 hl0
  refine ⟨by rw [hnb, g1], by rw [hnp, g2], hwf, hu, ?_, by rw [hnf]⟩
  intro blk hblk
  obtain ⟨j, hj, hget⟩ := List.getElem_of_mem hblk
  have := hzero j blk (by rw [List.getElem?_eq_getElem hj, hget])
  rw [this]
  rfl

/-- C8, amended: attach of a device whose LUNs all have `B` blocks of `P`
pages (`B * P` fits 32 bits, as `hb_block_map` assumes), with a sector size of
at least 512 bytes and a total page count of `nr_luns * B * P`, for any
bad-block table and for every device L2P table, in any number of chunks that
stay inside the page range, whose entries are 0 or page numbers below the
total page count.  The LUN loop of `hb_blocks_init` leaves a state `st`;
`hb_block_map` then returns 0 for every chunk, `hb_blocks_init` returns 0,
and relative to `st` a block is on the used list of its LUN exactly when some
nonzero entry lies inside it; each such block is counted once: the used list
has no duplicate and `nr_free_blocks` has decreased by its length; the free
list has lost exactly the blocks now in use; a block now in use that was
neither bad nor the reserved first block of LUN 0 was taken from the free
list; and a table of zero entries changes nothing. -/
theorem hb_l2p_table_takes_blocks (ops : nvm_dev_ops) (dev dev1 : nvm_dev)
    (chunks : List (Nat × List Nat)) (status : Int) (B P : Nat)
    (h1 : hb_luns_init dev = some (0, dev1)) (hn : 0 < dev1.nr_luns)
    (hgeo : ∀ (i : Nat) (lun : nvm_lun), dev1.bmp.luns[i]? = some lun →
      lun.nr_blocks = B ∧ lun.nr_pages_per_blk = P)
    (hB : 0 < B) (hP : 0 < P) (hBP : B * P ≤ UINT_MAX) (hsec : 512 ≤ dev1.sector_size)
    (htotal : dev1.total_pages = dev1.nr_luns * (B * P))
    (hops : ops.get_l2p_tbl = some (chunks, status))
    (hchunks : ∀ c ∈ chunks, c.1 + c.2.length ≤ dev1.total_pages ∧
      ∀ e ∈ c.2, e = 0 ∨ e < dev1.total_pages) :
    ∃ (st : bm_hb × Nat) (dev2 : nvm_dev),
      hb_blocks_init_loop ops (List.range dev1.nr_luns) (dev1.bmp, 0) = some st ∧
      dev_get_l2p_tbl chunks status { dev1 with bmp := st.1 } = some (status, dev2) ∧
      hb_blocks_init ops dev1 = some (0, dev2) ∧
      dev2.bmp.luns.length = dev1.nr_luns ∧
      ((∀ e, e ∈ l2p_entries chunks → e = 0) → dev2.bmp = st.1) ∧
      ∀ (i : Nat) (lun : nvm_lun), st.1.luns[i]? = some lun →
        ∃ lun1, dev2.bmp.luns[i]? = some lun1 ∧
          (∀ b, b ∈ lun1.used_list ↔
            ∃ e, e ∈ l2p_entries chunks ∧ e ≠ 0 ∧ e / (B * P) = i ∧ e % (B * P) / P = b) ∧
          lun1.used_list.Nodup ∧
          lun1.nr_free_blocks + lun1.used_list.length = lun.nr_free_blocks ∧
          (∀ b, b ∈ lun1.free_list ↔ b ∈ lun.free_list ∧ b ∉ lun1.used_list) ∧
          (∀ b, b ∈ lun1.used_list → b ∉ lun.bb_list → ¬ (i = 0 ∧ b = 0) →
            b ∈ lun.free_list) := by
  obtain ⟨st, hst, hlen, hluns⟩ := hb_blocks_init_loop_pristine ops dev dev1 B P h1 hgeo
  have hT : 0 < B * P := Nat.mul_pos hB hP
  have hT32 : B * P < 4294967296 := by
    unfold UINT_MAX at hBP
    omega
  have hn2 : 0 < st.1.luns.length := by rw [hlen]; exact hn
  have hshift : 1 ≤ dev1.sector_size >>> 9 := by
    rw [Nat.shiftRight_eq_div_pow]
    exact (Nat.one_le_div_iff (by norm_num)).2 hsec
  have hmp : st.1.luns.length * (B * P) ≤ dev1.total_pages * (dev1.sector_size >>> 9) := by
    rw [hlen, ← htotal]
    exact Nat.le_mul_of_pos_right _ hshift
  have hmp0 : 0 < dev1.total_pages * (dev1.sector_size >>> 9) := by
    have : 0 < st.1.luns.length * (B * P) := Nat.mul_pos hn2 hT
    omega
  have hgeom : ∀ (i : Nat) (lun0 : nvm_lun), st.1.luns[i]? = some lun0 →
      lun0.nr_pages_per_blk = P ∧ lun0.nr_blocks * P = B * P ∧
        lun0.nr_blocks ≤ lun0.nr_free_blocks := by
    intro i lun0 hi
    obtain ⟨g1, g2, _, _, _, g6⟩ := hluns i lun0 hi
    exact ⟨g2, by rw [g1], g6⟩
  have hstart : l2p_progress_all (B * P) P st.1 st.1 [] := by
    refine ⟨rfl, ?_⟩
    intro i lun0 hi
    obtain ⟨_, _, g3, g4, g5, _⟩ := hluns i lun0 hi
    exact ⟨lun0, hi, l2p_progress_start _ _ i lun0 g3 g4 g5⟩
  have hvalid : ∀ c ∈ chunks, c.1 + c.2.length ≤ dev1.total_pages ∧
      ∀ e ∈ c.2, e = 0 ∨ e < st.1.luns.length * (B * P) := by
    intro c hc
    obtain ⟨v1, v2⟩ := hchunks c hc
    refine ⟨v1, ?_⟩
    intro e he
    rw [hlen, ← htotal]
    exact v2 e he
  obtain ⟨bm2, htbl, hlen2, hall2⟩ := dev_get_l2p_tbl_progress (B * P) P st.1 hgeom hP hT hT32 hn2
    chunks status { dev1 with bmp := st.1 } [] hstart hmp hvalid
  have hinit : hb_blocks_init ops dev1 = some (0, { dev1 with bmp := bm2 }) := by
    unfold hb_blocks_init
    simp only [hst, hops, htbl]
  refine ⟨st, { dev1 with bmp := bm2 }, hst, htbl, hinit, by rw [← hlen]; exact hlen2, ?_, ?_⟩
  · intro hz
    have hsame : ∃ r, dev_get_l2p_tbl chunks status { dev1 with bmp := st.1 } =
        some (r, { dev1 with bmp := st.1 }) := by
      have hne : ({ dev1 with bmp := st.1 } : nvm_dev).bmp.luns ≠ [] := by
        intro hnil
        simp only at hnil
        rw [hnil] at hn2
        exact absurd hn2 (by simp)
      have hzc : ∀ c, c ∈ chunks → ∀ e, e ∈ c.2 → e = 0 :=
        fun c hc e he => hz e (l2p_entries_mem chunks c e hc he)
      exact dev_get_l2p_tbl_zeros chunks status _ hne hzc
    obtain ⟨r, hr⟩ := hsame
    rw [htbl] at hr
    simp only [Option.some.injEq, Prod.mk.injEq] at hr
    have := congrArg nvm_dev.bmp hr.2
    simpa using this
  · intro i lun hi
    obtain ⟨lun1, hl1, hp⟩ := hall2 i lun hi
    obtain ⟨e1, _, hwf, _, hused, hcnt, hfr, _⟩ := hp
    refine ⟨lun1, hl1, ?_, ?_, hcnt, hfr, ?_⟩
    · simpa using hused
    · exact (lun_wf_lists_nodup i lun1 hwf).2.1
    · intro b hb hnbb hres
      have hlt : b < lun.nr_blocks := by
        rw [← e1]
        exact hwf.2.2.1 b (by simp [lun_all, hb])
      obtain ⟨_, _, hwf0, hused0, _, _⟩ := hluns i lun hi
      rcases hwf0.2.2.2 b hlt with h | h
      · exact absurd h hres
      · simp only [lun_all, hused0, List.append_nil, List.mem_append] at h
        rcases h with h | h
        · exact h
        · exact absurd h hnbb

theorem hb_block_map_out_of_bounds (dev : nvm_dev) (slba : Nat) (pre : List Nat) (pba : Nat)
    (post : List Nat) (lun0 : nvm_lun) (bm1 : bm_hb)
    (hl : dev.bmp.luns[0]? = some lun0)
    (hlen : slba + (pre ++ pba :: post).length ≤ dev.total_pages)
    (hpre : hb_block_map_loop (dev.total_pages * (dev.sector_size >>> 9))
      (lun0.nr_blocks * lun0.nr_pages_per_blk % 4294967296) pre dev.bmp = some (0, bm1))
    (hge : dev.total_pages ≤ pba)
    (hgap : dev.sector_size >>> 9 ≤ 1 ∨ dev.total_pages * (dev.sector_size >>> 9) ≤ pba)
    (hne : pba ≠ U64_MAX) :
    hb_block_map slba (pre ++ pba :: post) dev = some (-EINVAL, { dev with bmp := bm1 }) := by
  have hmp : dev.total_pages * (dev.sector_size >>> 9) ≤ pba := by
    rcases hgap with h | h
    · have : dev.total_pages * (dev.sector_size >>> 9) ≤ dev.total_pages * 1 :=
        Nat.mul_le_mul_left _ h
      omega
    · exact h
  unfold hb_block_map
  simp only [hl]
  rw [if_neg (by omega), hb_block_map_loop_append _ _ pre (pba :: post) dev.bmp bm1 hpre]
  simp only [hb_block_map_loop]
  have : hb_block_map_entry (dev.total_pages * (dev.sector_size >>> 9))
      (lun0.nr_blocks * lun0.nr_pages_per_blk % 4294967296) bm1 pba =
      some (some (-EINVAL), bm1) := by
    unfold hb_block_map_entry
    rw [if_pos ⟨hmp, hne⟩]
  simp only [this]

theorem hb_attach_ignores_l2p (ops : nvm_dev_ops) (dev dev1 : nvm_dev) (st : bm_hb × Nat)
    (chunks : List (Nat × List Nat)) (status ret : Int) (dev2 : nvm_dev)
    (hguard : ((if dev.rsp = 0 then 1 else 0) &&& NVM_RSP_L2P) = 0)
    (h1 : hb_luns_init dev = some (0, dev1))
    (hloop : hb_blocks_init_loop ops (List.range dev1.nr_luns) (dev1.bmp, 0) = some st)
    (hops : ops.get_l2p_tbl = some (chunks, status))
    (hl2p : dev_get_l2p_tbl chunks status { dev1 with bmp := st.1 } = some (ret, dev2)) :
    hb_blocks_init ops dev1 = some (0, dev2) ∧ hb_register ops dev = some (1, dev2) := by
  have hinit : hb_blocks_init ops dev1 = some (0, dev2) := by
    unfold hb_blocks_init
    simp only [hloop, hops, hl2p]
  refine ⟨hinit, ?_⟩
  unfold hb_register
  simp only [hguard, h1, hinit]
  simp

theorem hb_attach_out_of_bounds (ops : nvm_dev_ops) (dev dev1 : nvm_dev)
    (cs_pre cs_post : List (Nat × List Nat)) (slba : Nat) (pre post : List Nat) (pba : Nat)
    (status : Int) (B P : Nat)
    (hguard : ((if dev.rsp = 0 then 1 else 0) &&& NVM_RSP_L2P) = 0)
    (h1 : hb_luns_init dev = some (0, dev1)) (hn : 0 < dev1.nr_luns)
    (hgeo : ∀ (i : Nat) (lun : nvm_lun), dev1.bmp.luns[i]? = some lun →
      lun.nr_blocks = B ∧ lun.nr_pages_per_blk = P)
    (hB : 0 < B) (hP : 0 < P) (hBP : B * P ≤ UINT_MAX) (hsec : 512 ≤ dev1.sector_size)
    (htotal : dev1.total_pages = dev1.nr_luns * (B * P))
    (hops : ops.get_l2p_tbl = some (cs_pre ++ (slba, pre ++ pba :: post) :: cs_post, status))
    (hchunks : ∀ c ∈ cs_pre, c.1 + c.2.length ≤ dev1.total_pages ∧
      ∀ e ∈ c.2, e = 0 ∨ e < dev1.total_pages)
    (hlen : slba + (pre ++ pba :: post).length ≤ dev1.total_pages)
    (hpre : ∀ e ∈ pre, e = 0 ∨ e < dev1.total_pages)
    (hge : dev1.total_pages ≤ pba)
    (hgap : dev1.sector_size >>> 9 ≤ 1 ∨ dev1.total_pages * (dev1.sector_size >>> 9) ≤ pba)
    (hne : pba ≠ U64_MAX) :
    ∃ (st : bm_hb × Nat) (dev2 : nvm_dev),
      hb_blocks_init_loop ops (List.range dev1.nr_luns) (dev1.bmp, 0) = some st ∧
      dev_get_l2p_tbl (cs_pre ++ (slba, pre ++ pba :: post) :: cs_post) status
        { dev1 with bmp := st.1 } = some (-EINVAL, dev2) ∧
      hb_blocks_init ops dev1 = some (0, dev2) ∧ hb_register ops dev = some (1, dev2) := by
  obtain ⟨st, hst, hlen1, hluns⟩ := hb_blocks_init_loop_pristine ops dev dev1 B P h1 hgeo
  have hT : 0 < B * P := Nat.mul_pos hB hP
  have hT32 : B * P < 4294967296 := by
    unfold UINT_MAX at hBP
    omega
  have hn2 : 0 < st.1.luns.length := by rw [hlen1]; exact hn
  have hshift : 1 ≤ dev1.sector_size >>> 9 := by
    rw [Nat.shiftRight_eq_div_pow]
    exact (Nat.one_le_div_iff (by norm_num)).2 hsec
  have hmp : st.1.luns.length * (B * P) ≤ dev1.total_pages * (dev1.sector_size >>> 9) := by
    rw [hlen1, ← htotal]
    exact Nat.le_mul_of_pos_right _ hshift
  have hmp0 : 0 < dev1.total_pages * (dev1.sector_size >>> 9) := by
    have : 0 < st.1.luns.length * (B * P) := Nat.mul_pos hn2 hT
    omega
  have hgeom : ∀ (i : Nat) (lun0 : nvm_lun), st.1.luns[i]? = some lun0 →
      lun0.nr_pages_per_blk = P ∧ lun0.nr_blocks * P = B * P ∧
        lun0.nr_blocks ≤ lun0.nr_free_blocks := by
    intro i lun0 hi
    obtain ⟨g1, g2, _, _, _, g6⟩ := hluns i lun0 hi
    exact ⟨g2, by rw [g1], g6⟩
  have hstart : l2p_progress_all (B * P) P st.1 st.1 [] := by
    refine ⟨rfl, ?_⟩
    intro i lun0 hi
    obtain ⟨_, _, g3, g4, g5, _⟩ := hluns i lun0 hi
    exact ⟨lun0, hi, l2p_progress_start _ _ i lun0 g3 g4 g5⟩
  have hvalid : ∀ c ∈ cs_pre, c.1 + c.2.length ≤ dev1.total_pages ∧
      ∀ e ∈ c.2, e = 0 ∨ e < st.1.luns.length * (B * P) := by
    intro c hc
    obtain ⟨v1, v2⟩ := hchunks c hc
    refine ⟨v1, ?_⟩
    intro e he
    rw [hlen1, ← htotal]
    exact v2 e he
  obtain ⟨bm2, htbl, hall2⟩ := dev_get_l2p_tbl_progress_append (B * P) P st.1 hgeom hP hT hT32 hn2
    ((slba, pre ++ pba :: post) :: cs_post) cs_pre status { dev1 with bmp := st.1 } [] hstart hmp
    hvalid
  obtain ⟨bm3, hloop, _⟩ := hb_block_map_loop_progress _ (B * P) P st.1 hgeom hP hT hmp hmp0
    pre ([] ++ l2p_entries cs_pre) bm2 hall2
    (fun e he => by rw [hlen1, ← htotal]; exact hpre e he)
  have hl0 : st.1.luns[0]? = some st.1.luns[0] := List.getElem?_eq_getElem hn2
  obtain ⟨lun1, hl1, hprog⟩ := hall2.2 0 _ hl0
  obtain ⟨hg1, hg2, _⟩ := hgeom 0 _ hl0
  have hTeq : lun1.nr_blocks * lun1.nr_pages_per_blk % 4294967296 = B * P := by
    rw [hprog.1, hprog.2.1, hg1, hg2]
    exact Nat.mod_eq_of_lt hT32
  have hmap := hb_block_map_out_of_bounds { dev1 with bmp := bm2 } slba pre pba post lun1 bm3
    hl1 hlen (by rw [hTeq]; exact hloop) hge hgap hne
  have hrun : dev_get_l2p_tbl (cs_pre ++ (slba, pre ++ pba :: post) :: cs_post) status
      { dev1 with bmp := st.1 } = some (-EINVAL, { dev1 with bmp := bm3 }) := by
    rw [htbl]
    simp only [dev_get_l2p_tbl, hmap]
    rw [if_pos (by decide)]
  obtain ⟨e1, e2⟩ := hb_attach_ignores_l2p ops dev dev1 st _ status (-EINVAL) _ hguard h1 hst
    hops hrun
  exact ⟨st, _, hst, hrun, e1, e2⟩

/-- C9, amended.  An entry of the table that is at least the total page count
and is not `U64_MAX`, and that does not lie between the total page count and
`total_pages * (sector_size >> 9)` (a range that is empty for sector sizes
below 1024 bytes; entries in it are left out), makes `hb_block_map` return
`-EINVAL` at that entry when the entries before it are accepted.  Attach does
not fail: whatever `get_l2p_tbl` returns, `hb_blocks_init` returns 0 and
`hb_register` reports a successful attach.  For a device whose LUNs all have
`B` blocks of `P` pages, sectors of at least 512 bytes and a table whose
entries before the offending one are 0 or page numbers below the total page
count, attach does run that far: `get_l2p_tbl` returns `-EINVAL` and
`hb_register` returns 1. -/
theorem hb_l2p_entry_out_of_bounds :
    (∀ (dev : nvm_dev) (slba : Nat) (pre : List Nat) (pba : Nat) (post : List Nat) (lun0 : nvm_lun)
        (bm1 : bm_hb),
      dev.bmp.luns[0]? = some lun0 →
      slba + (pre ++ pba :: post).length ≤ dev.total_pages →
      hb_block_map_loop (dev.total_pages * (dev.sector_size >>> 9))
        (lun0.nr_blocks * lun0.nr_pages_per_blk % 4294967296) pre dev.bmp = some (0, bm1) →
      dev.total_pages ≤ pba →
      (dev.sector_size >>> 9 ≤ 1 ∨ dev.total_pages * (dev.sector_size >>> 9) ≤ pba) →
      pba ≠ U64_MAX →
      hb_block_map slba (pre ++ pba :: post) dev = some (-EINVAL, { dev with bmp := bm1 })) ∧
    (∀ (ops : nvm_dev_ops) (dev dev1 : nvm_dev) (st : bm_hb × Nat) (chunks : List (Nat × List Nat))
        (status ret : Int) (dev2 : nvm_dev),
      ((if dev.rsp = 0 then 1 else 0) &&& NVM_RSP_L2P) = 0 →
      hb_luns_init dev = some (0, dev1) →
      hb_blocks_init_loop ops (List.range dev1.nr_luns) (dev1.bmp, 0) = some st →
      ops.get_l2p_tbl = some (chunks, status) →
      dev_get_l2p_tbl chunks status { dev1 with bmp := st.1 } = some (ret, dev2) →
      hb_blocks_init ops dev1 = some (0, dev2) ∧ hb_register ops dev = some (1, dev2)) ∧
    (∀ (ops : nvm_dev_ops) (dev dev1 : nvm_dev) (cs_pre cs_post : List (Nat × List Nat))
        (slba : Nat) (pre post : List Nat) (pba : Nat) (status : Int) (B P : Nat),
      ((if dev.rsp = 0 then 1 else 0) &&& NVM_RSP_L2P) = 0 →
      hb_luns_init dev = some (0, dev1) → 0 < dev1.nr_luns →
      (∀ (i : Nat) (lun : nvm_lun), dev1.bmp.luns[i]? = some lun →
        lun.nr_blocks = B ∧ lun.nr_pages_per_blk = P) →
      0 < B → 0 < P → B * P ≤ UINT_MAX → 512 ≤ dev1.sector_size →
      dev1.total_pages = dev1.nr_luns * (B * P) →
      ops.get_l2p_tbl = some (cs_pre ++ (slba, pre ++ pba :: post) :: cs_post, status) →
      (∀ c ∈ cs_pre, c.1 + c.2.length ≤ dev1.total_pages ∧
        ∀ e ∈ c.2, e = 0 ∨ e < dev1.total_pages) →
      slba + (pre ++ pba :: post).length ≤ dev1.total_pages →
      (∀ e ∈ pre, e = 0 ∨ e < dev1.total_pages) →
      dev1.total_pages ≤ pba →
      (dev1.sector_size >>> 9 ≤ 1 ∨ dev1.total_pages * (dev1.sector_size >>> 9) ≤ pba) →
      pba ≠ U64_MAX →
      ∃ (st : bm_hb × Nat) (dev2 : nvm_dev),
        hb_blocks_init_loop ops (List.range dev1.nr_luns) (dev1.bmp, 0) = some st ∧
        dev_get_l2p_tbl (cs_pre ++ (slba, pre ++ pba :: post) :: cs_post) status
          { dev1 with bmp := st.1 } = some (-EINVAL, dev2) ∧
        hb_blocks_init ops dev1 = some (0, dev2) ∧ hb_register ops dev = some (1, dev2)) :=
  ⟨fun dev slba pre pba post lun0 bm1 hl hlen hpre hge hgap hne =>
      hb_block_map_out_of_bounds dev slba pre pba post lun0 bm1 hl hlen hpre hge hgap hne,
    fun ops dev dev1 st chunks status ret dev2 hguard h1 hloop hops hl2p =>
      hb_attach_ignores_l2p ops dev dev1 st chunks status ret dev2 hguard h1 hloop hops hl2p,
    fun ops dev dev1 cs_pre cs_post slba pre post pba status B P hguard h1 hn hgeo hB hP hBP hsec
        htotal hops hchunks hlen hpre hge hgap hne =>
      hb_attach_out_of_bounds ops dev dev1 cs_pre cs_post slba pre post pba status B P hguard h1 hn
        hgeo hB hP hBP hsec htotal hops hchunks hlen hpre hge hgap hne⟩

/-! ## RRPC: reads, discards and writes against ranges in flight -/

theorem rrpc_read_rq_requeue_eq (r : rrpc) (b : bio) (rqd : nvm_rq) (flags : Nat)
    (reqs : List rrpc_inflight_rq) (x : rrpc_inflight_rq)
    (hhost : flags &&& NVM_IOTYPE_GC = 0)
    (hpart : r.inflight_map[nvm_get_laddr b % NVM_INFLIGHT_PARTITIONS]? = some reqs)
    (hx : x ∈ reqs)
    (hover : request_intersects x (nvm_get_laddr b) (nvm_get_laddr b + nvm_get_pages b - 1) = true) :
    rrpc_read_rq r b rqd flags = some (NVM_IO_REQUEUE, r, rqd) := by
  unfold rrpc_read_rq
  simp only [hhost, if_true, rrpc_lock_rq_conflict r b rqd reqs x hpart hx hover]
  rfl

set_option maxRecDepth 8192 in
/-- C17, counterexample: on the instance of forty logical pages the host
write of the pages 5 to 37 is submitted and its range is in flight in the
partition of page 5, which is also the partition of page 37.  Page 37 is
below `nr_pages` and its map entry has no block (the write has mapped page 5
only), yet a host read of page 37 returns `REQUEUE`, not `DONE`: the range
lock is taken before the entry is looked at. -/
theorem rrpc_read_unmapped_requeued :
    (∃ rqd, rrpc_make_rq rrpc_twenty_blocks bio_write_5_37 0 =
        some (bio_status.submitted rqd, rrpc_twenty_inflight)) ∧
      rrpc_twenty_inflight.inflight_map[37 % NVM_INFLIGHT_PARTITIONS]? =
        some [{ l_start := 5, l_end := 37 }] ∧
      nvm_get_laddr bio_read_37 = 37 ∧ 37 < rrpc_twenty_inflight.nr_pages ∧
      rrpc_twenty_inflight.trans_map[37]? = some { addr := ADDR_EMPTY, block := none } ∧
      rrpc_read_rq rrpc_twenty_inflight bio_read_37 nvm_rq_zero NVM_IOTYPE_NONE =
        some (NVM_IO_REQUEUE, rrpc_twenty_inflight, nvm_rq_zero) ∧
      NVM_IO_REQUEUE ≠ NVM_IO_DONE ∧
      (rrpc_make_rq rrpc_twenty_inflight bio_read_37 0).map (fun s => s.1) =
        some bio_status.requeued := by
  refine ⟨⟨((rrpc_submit_io rrpc_twenty_blocks bio_write_5_37 nvm_rq_zero NVM_IOTYPE_NONE 0).getD
      (0, rrpc_twenty_blocks, nvm_rq_zero)).2.2, by decide⟩, by decide, by decide, by decide,
    by decide, by decide, by decide, by decide⟩

/-- C17, amended: for every logical page `L < nr_pages` whose map entry has
no block and every host read of at least one page that starts at `L`: when no
range in flight in the partition of `L` overlaps the pages read,
`rrpc_read_rq` returns `DONE` in exactly the state it started from (the
inflight set holds no entry for the request, and the maps, the blocks and
everything else are unchanged), and `rrpc_make_rq` ends the bio with success
in that same state, nothing being handed to the device; when some range in
flight in that partition overlaps the pages read, `rrpc_read_rq` returns
`REQUEUE`, the state and the request being exactly as before. -/
theorem rrpc_read_rq_unmapped (r : rrpc) (b : bio) (rqd : nvm_rq) (flags : Nat) (gp : nvm_addr)
    (reqs : List rrpc_inflight_rq) (dev_ret : Int)
    (hhost : flags &&& NVM_IOTYPE_GC = 0)
    (hL : nvm_get_laddr b < r.nr_pages)
    (hgp : r.trans_map[nvm_get_laddr b]? = some gp) (hblk : gp.block = none)
    (hpages : 1 ≤ nvm_get_pages b)
    (hpart : r.inflight_map[nvm_get_laddr b % NVM_INFLIGHT_PARTITIONS]? = some reqs) :
    ((∀ x ∈ reqs,
        request_intersects x (nvm_get_laddr b) (nvm_get_laddr b + nvm_get_pages b - 1) = false) →
      (∃ rqd1, rrpc_read_rq r b rqd flags = some (NVM_IO_DONE, r, rqd1)) ∧
        (b.dir = bio_dir.READ → rrpc_make_rq r b dev_ret = some (bio_status.ended 0, r))) ∧
      ((∃ x ∈ reqs,
        request_intersects x (nvm_get_laddr b) (nvm_get_laddr b + nvm_get_pages b - 1) = true) →
      rrpc_read_rq r b rqd flags = some (NVM_IO_REQUEUE, r, rqd)) := by
  refine ⟨?_, ?_⟩
  · intro hfree
    refine ⟨⟨_, rrpc_read_rq_done_eq r b rqd flags gp reqs hhost hL hgp hblk hpages hpart hfree⟩, ?_⟩
    intro hdir
    have hread := rrpc_read_rq_done_eq r b nvm_rq_zero NVM_IOTYPE_NONE gp reqs (by decide) hL hgp
      hblk hpages hpart hfree
    unfold rrpc_make_rq rrpc_submit_io rrpc_setup_rq
    rw [hdir]
    simp only [reduceCtorEq, if_false, hread]
    have h1 : NVM_IO_DONE ≠ 0 := by decide
    have h2 : ¬ NVM_IO_DONE = NVM_IO_OK := by decide
    have h3 : ¬ NVM_IO_DONE = NVM_IO_ERR := by decide
    rw [if_pos h1]
    simp only [h2, h3, if_false, if_true]
  · rintro ⟨x, hx, hover⟩
    exact rrpc_read_rq_requeue_eq r b rqd flags reqs x hhost hpart hx hover

/-- C16, counterexample: on the instance of twenty logical pages the host
write of page 6 is submitted and its range is in flight in partition 6.  The
discard of the pages 5 and 6 (`L = 5`, `n = 2`, `L + n ≤ nr_pages`) takes its
range in partition 5 and returns; afterwards page 6 has no block, yet a host
read of page 6 returns `REQUEUE`, not `DONE`, because the range of the write
is still in flight. -/
theorem rrpc_discard_read_requeued :
    (∃ rqd, rrpc_make_rq rrpc_ten_blocks bio_write_6 0 =
        some (bio_status.submitted rqd, rrpc_ten_write_6)) ∧
      rrpc_ten_write_6.nr_pages = 20 ∧
      rrpc_make_rq rrpc_ten_write_6 bio_discard_5_6 0 =
        some (bio_status.discarded, rrpc_ten_discarded_5_6) ∧
      rrpc_ten_discarded_5_6.trans_map[5]? = some { addr := ADDR_EMPTY, block := none } ∧
      rrpc_ten_discarded_5_6.trans_map[6]? = some { addr := 2, block := none } ∧
      rrpc_ten_discarded_5_6.inflight_map[6]? = some [{ l_start := 6, l_end := 6 }] ∧
      rrpc_read_rq rrpc_ten_discarded_5_6 bio_read_6 nvm_rq_zero NVM_IOTYPE_NONE =
        some (NVM_IO_REQUEUE, rrpc_ten_discarded_5_6, nvm_rq_zero) ∧
      NVM_IO_REQUEUE ≠ NVM_IO_DONE := by
  refine ⟨⟨((rrpc_submit_io rrpc_ten_blocks bio_write_6 nvm_rq_zero NVM_IOTYPE_NONE 0).getD
      (0, rrpc_ten_blocks, nvm_rq_zero)).2.2, by decide⟩, by decide, by decide, by decide,
    by decide, by decide, by decide, by decide⟩

/-- C16, amended: for every start `L` and length `n` (below `2 ^ 32`, the
length being passed as an `unsigned`) with `L + n ≤ nr_pages`, in a state
whose map entries in the range hold valid pointers and in which no range in
flight in the partition of `L` overlaps the range (the discard waits for
that), `rrpc_discard` of the bio with these pages returns, with its own range
released.  Afterwards every page `L + k` with `k < n` has no block, the map
entries outside the range are unchanged, and every page of the range that was
mapped has the invalid bit of its old physical page set and the reverse-map
slot of that page `EMPTY`.  A host read of `L + k` returns `DONE` and leaves
the state as it is when no range in flight in the partition of `L + k`
overlaps the pages read, and returns `REQUEUE` when one does. -/
theorem rrpc_discard_unmaps (r : rrpc) (b : bio) (L n : Nat) (reqs : List rrpc_inflight_rq)
    (dev_ret : Int)
    (hL : b.bi_sector / NR_PHY_IN_LOG = L) (hn : b.bi_size / EXPOSED_PAGE_SIZE = n)
    (h32 : n ≤ UINT_MAX)
    (hlen : r.trans_map.length = r.nr_pages) (hle : L + n ≤ r.nr_pages)
    (h64 : r.nr_pages ≤ U64_MAX)
    (hok : ∀ (j : Nat) (e : nvm_addr), L ≤ j → j < L + n → r.trans_map[j]? = some e →
      trans_entry_ok r e)
    (hpart : r.inflight_map[L % NVM_INFLIGHT_PARTITIONS]? = some reqs)
    (hfree : ∀ x ∈ reqs, request_intersects x L (L + n - 1) = false) :
    ∃ r1, rrpc_discard r b = some r1 ∧
      (b.dir = bio_dir.DISCARD → rrpc_make_rq r b dev_ret = some (bio_status.discarded, r1)) ∧
      (1 ≤ n → r1.inflight_map = r.inflight_map) ∧
      (∀ k : Nat, k < n → ∃ e : nvm_addr, r1.trans_map[L + k]? = some e ∧ e.block = none) ∧
      (∀ j : Nat, (j < L ∨ L + n ≤ j) → r1.trans_map[j]? = r.trans_map[j]?) ∧
      (∀ (k P : Nat) (B : Nat × Nat), k < n →
        r.trans_map[L + k]? = some { addr := P, block := some B } → P ≠ ADDR_EMPTY →
        r1.rev_trans_map[u64_sub P r.poffset]? = some (nvm_rev_addr.mk ADDR_EMPTY) ∧
        ∃ (lun : nvm_lun) (blk : nvm_block), nvm_block_get r1.dev B = some (lun, blk) ∧
          blk.invalid_pages.testBit (P % lun.nr_pages_per_blk) = true) ∧
      (∀ (k : Nat) (br : bio) (rqd : nvm_rq) (reqs1 : List rrpc_inflight_rq), k < n →
        nvm_get_laddr br = L + k → 1 ≤ nvm_get_pages br →
        r1.inflight_map[(L + k) % NVM_INFLIGHT_PARTITIONS]? = some reqs1 →
        ((∀ x ∈ reqs1, request_intersects x (L + k) (L + k + nvm_get_pages br - 1) = false) →
          ∃ rqd1, rrpc_read_rq r1 br rqd NVM_IOTYPE_NONE = some (NVM_IO_DONE, r1, rqd1)) ∧
        ((∃ x ∈ reqs1, request_intersects x (L + k) (L + k + nvm_get_pages br - 1) = true) →
          rrpc_read_rq r1 br rqd NVM_IOTYPE_NONE = some (NVM_IO_REQUEUE, r1, rqd))) := by
  have hlt := getElem?_some_lt _ _ _ hpart
  have hany : reqs.any (fun x => request_intersects x L (L + n - 1)) = false := by
    rw [List.any_eq_false]
    intro x hx
    rw [hfree x hx]
    simp
  have hmod : n % 4294967296 = n := by
    unfold UINT_MAX at h32
    omega
  have hacq : rrpc_inflight_laddr_acquire r L n =
      some (some { nvm_rq_zero with inflight := { l_start := L, l_end := L + n - 1 } },
        { r with inflight_map := r.inflight_map.set (L % NVM_INFLIGHT_PARTITIONS)
                   (reqs ++ [{ l_start := L, l_end := L + n - 1 }]) }) := by
    unfold rrpc_inflight_laddr_acquire rrpc_lock_laddr
    rw [hpart]
    simp only [hany]
    rfl
  obtain ⟨r2, hr2, hinv, hlen2, htr, hbits⟩ :=
    rrpc_invalidate_range_loop_spec n L
      { r with inflight_map := r.inflight_map.set (L % NVM_INFLIGHT_PARTITIONS)
                 (reqs ++ [{ l_start := L, l_end := L + n - 1 }]) }
      (by show L + n ≤ r.trans_map.length; omega)
      (fun j e h1 h2 he => hok j e h1 h2 he)
  obtain ⟨hpo, hnp, hinf⟩ := rrpc_invalidated_poffset _ r2 hinv
  have hrange : rrpc_invalidate_range
      { r with inflight_map := r.inflight_map.set (L % NVM_INFLIGHT_PARTITIONS)
                 (reqs ++ [{ l_start := L, l_end := L + n - 1 }]) } L n = some r2 := by
    unfold rrpc_invalidate_range
    have : ¬ L + n > U64_MAX := by omega
    rw [if_neg this]
    exact hr2
  have hp2 : r2.inflight_map[L % NVM_INFLIGHT_PARTITIONS]? =
      some (reqs ++ [{ l_start := L, l_end := L + n - 1 }]) := by
    rw [hinf]
    exact List.getElem?_set_self hlt
  have hdisc : rrpc_discard r b =
      some { r2 with inflight_map :=
                       r2.inflight_map.set (L % NVM_INFLIGHT_PARTITIONS)
                         ((reqs ++ [rrpc_inflight_rq.mk L (L + n - 1)]).erase
                           (rrpc_inflight_rq.mk L (L + n - 1))) } := by
    unfold rrpc_discard
    simp only [hL, hn, hmod, hacq, hrange]
    unfold rrpc_inflight_laddr_release rrpc_unlock_laddr
    simp only [hp2]
  have hunm : ∀ k : Nat, k < n → ∃ e : nvm_addr, r2.trans_map[L + k]? = some e ∧ e.block = none := by
    intro k hk
    have hin : L ≤ L + k ∧ L + k < L + n := by omega
    have hlt2 : L + k < r.trans_map.length := by omega
    rw [htr (L + k), if_pos hin]
    show ∃ e : nvm_addr, Option.map _ (r.trans_map[L + k]?) = some e ∧ e.block = none
    rw [List.getElem?_eq_getElem hlt2]
    exact ⟨_, rfl, rfl⟩
  refine ⟨_, hdisc, ?_, ?_, hunm, ?_, ?_, ?_⟩
  · intro hdir
    unfold rrpc_make_rq
    rw [if_pos hdir, hdisc]
  · intro h1
    have hnew : (rrpc_inflight_rq.mk L (L + n - 1)) ∉ reqs := by
      intro hmem
      have := hfree _ hmem
      unfold request_intersects at this
      simp only [decide_eq_false_iff_not, not_and_or] at this
      omega
    have herase : (reqs ++ [rrpc_inflight_rq.mk L (L + n - 1)]).erase
        (rrpc_inflight_rq.mk L (L + n - 1)) = reqs := by
      rw [List.erase_append_right _ hnew]
      simp
    show r2.inflight_map.set _ _ = r.inflight_map
    rw [herase, hinf]
    show (r.inflight_map.set _ _).set _ _ = r.inflight_map
    rw [List.set_set, list_set_same _ _ _ hpart]
  · intro j hj
    have hout : ¬ (L ≤ j ∧ j < L + n) := by omega
    show r2.trans_map[j]? = _
    rw [htr j, if_neg hout]
  · intro k P B hk he hP
    obtain ⟨hrev, hblk⟩ := hbits (L + k) _ (by omega) (by omega) he hP
    exact ⟨hrev, hblk B rfl⟩
  · intro k br rqd reqs1 hk hb hpages hpart1
    obtain ⟨e, he, hnone⟩ := hunm k hk
    refine ⟨?_, ?_⟩
    · intro hfree1
      exact ⟨_, rrpc_read_rq_done_eq _ br rqd NVM_IOTYPE_NONE e reqs1 (by decide)
        (by rw [hb]; show L + k < r2.nr_pages; rw [hnp]; show L + k < r.nr_pages; omega)
        (by rw [hb]; exact he) hnone hpages
        (by rw [hb]; exact hpart1) (by rw [hb]; exact hfree1)⟩
    · rintro ⟨x, hx, hover⟩
      exact rrpc_read_rq_requeue_eq _ br rqd NVM_IOTYPE_NONE reqs1 x (by decide)
        (by rw [hb]; exact hpart1) hx (by rw [hb]; exact hover)

/-- Witness for C1: a host request on a LUN with two free blocks and a reserve
of two takes block 2, the head of the free list. -/
theorem hb_get_blk_allocates_witness :
    (hb_get_blk lun_at_reserve 0).1 = some 2 ∧
      (hb_get_blk lun_at_reserve 0).2.free_list = [3] ∧
      (hb_get_blk lun_at_reserve 0).2.used_list = lun_at_reserve.used_list.erase 2 ++ [2] ∧
      (hb_get_blk lun_at_reserve 0).2.used_list.getLast? = some 2 ∧
      (hb_get_blk lun_at_reserve 0).2.nr_free_blocks + 1 = lun_at_reserve.nr_free_blocks :=
  have h := hb_get_blk_allocates lun_at_reserve 0 2 [3] nvm_block_zero rfl (Or.inr (by decide))
    (by decide) rfl
  ⟨h.1, h.2.1, h.2.2.1, h.2.2.2.1, h.2.2.2.2.1⟩

/-- Witness for C3: block 1, in use on a LUN with free blocks 2 and 3, is
released. -/
theorem hb_put_blk_releases_witness :
    hb_put_blk { luns := [lun_at_reserve] } (0, 1) =
      { luns := [lun_at_reserve].set 0
          { lun_at_reserve with free_list := lun_at_reserve.free_list ++ [1],
                                used_list := lun_at_reserve.used_list.erase 1,
                                nr_free_blocks := lun_at_reserve.nr_free_blocks + 1 } } :=
  (hb_put_blk_releases { luns := [lun_at_reserve] } 0 1 lun_at_reserve rfl (by decide) (by decide)
    (by decide)).1

/-- Witness for C4: block 1 is released and three GC requests follow; the
blocks come back in the order 2, 3, 1. -/
theorem hb_free_list_fifo_witness :
    (hb_run lun_at_reserve [hb_call.put 1, hb_call.get 1, hb_call.get 1, hb_call.get 1]).1 ++
        (hb_run lun_at_reserve
          [hb_call.put 1, hb_call.get 1, hb_call.get 1, hb_call.get 1]).2.free_list =
      lun_at_reserve.free_list ++
        hb_released [hb_call.put 1, hb_call.get 1, hb_call.get 1, hb_call.get 1] ∧
    (hb_run lun_at_reserve [hb_call.put 1, hb_call.get 1, hb_call.get 1, hb_call.get 1]).1 =
      [2, 3, 1] :=
  ⟨(hb_free_list_fifo lun_at_reserve [hb_call.put 1, hb_call.get 1, hb_call.get 1, hb_call.get 1]
      ⟨by decide, trivial⟩).1, by decide⟩

/-- Witness for C5 (amended): one LUN of two blocks, after attach and one
allocation. -/
theorem hb_attach_list_counts_witness :
    (lun_two_blocks_got.free_list ++ lun_two_blocks_got.used_list ++
        lun_two_blocks_got.bb_list).Nodup ∧
      lun_two_blocks_got.free_list.length + lun_two_blocks_got.used_list.length +
        lun_two_blocks_got.bb_list.length +
        (if 0 = 0 ∧ 0 < lun_two_blocks_got.nr_blocks ∧
            0 ∉ lun_two_blocks_got.free_list ++ lun_two_blocks_got.used_list ++
              lun_two_blocks_got.bb_list
          then 1 else 0) = lun_two_blocks_got.nr_blocks :=
  hb_attach_list_counts ops_no_tables dev_two_blocks dev_two_blocks_luns dev_two_blocks_ready 0
    (hb_get_blk_bm dev_two_blocks_ready.bmp 0 1).2 (by decide) (by decide)
    (hb_reachable.get _ 0 1 hb_reachable.init) 0 lun_two_blocks_got (by decide)

/-- Witness for C6: the device with ten blocks and bad blocks 2 and 5. -/
theorem hb_attach_bad_blocks_witness :
    ∃ dev2, hb_blocks_init ops_bad_2_5 dev_ten_blocks_luns = some (0, dev2) :=
  let ⟨dev2, h, _⟩ :=
    hb_attach_bad_blocks.1 ops_bad_2_5 dev_ten_blocks dev_ten_blocks_luns (by decide) (Or.inl rfl)
  ⟨dev2, h⟩

/-- Witness for C7: after attach of one LUN of two blocks, a GC request
returns block 1 and the block is released again. -/
theorem hb_first_block_never_free_witness :
    0 ∉ lun_two_blocks_put.free_list ∧ (0, 0) ∉ [(0, 1)] :=
  have h := hb_first_block_never_free ops_no_tables dev_two_blocks dev_two_blocks_luns
    dev_two_blocks_ready 0 (hb_put_blk (hb_get_blk_bm dev_two_blocks_ready.bmp 0 1).2 (0, 1))
    [(0, 1)] (by decide) (by decide)
    (hb_trace.put _ _ (0, 1) (hb_trace.get _ [] 0 1 hb_trace.init) (by decide))
  ⟨h.1 lun_two_blocks_put (by decide), h.2⟩

/-- Witness for C12: on `dev_two_blocks`, page 0 was written to physical page
2 of block 1 and is written again, to physical page 3. -/
theorem nvm_update_map_remaps_witness :
    rrpc_two_blocks_written.trans_map[0]? = some { addr := 2, block := some (0, 1) } ∧
      ∃ (r1 : rrpc) (lun2 : nvm_lun),
        nvm_update_map rrpc_two_blocks_written 0 (some (0, 1)) 3 0 = some (0, r1) ∧
        nvm_block_get r1.dev (0, 1) =
          some (lun2, { id := 1, type := 0, invalid_pages := 1, next_page := 0,
                        nr_invalid_pages := 1, data_cmnt_size := 0 }) ∧
        r1.trans_map[0]? = some { addr := 3, block := some (0, 1) } ∧
        r1.rev_trans_map[3]? = some { addr := 0 } ∧
        r1.rev_trans_map[2]? = some { addr := ADDR_EMPTY } := by
  refine ⟨by decide, ?_⟩
  obtain ⟨r1, lun2, h1, _, h3, _, _, h6, _, h8, h9, _⟩ :=
    nvm_update_map_remaps rrpc_two_blocks_written 0 2 3 0 (0, 1) (0, 1)
      (rrpc_two_blocks_written.dev.bmp.luns.getD 0 nvm_lun_zero)
      { id := 1, type := 0, invalid_pages := 0, next_page := 0, nr_invalid_pages := 0,
        data_cmnt_size := 0 }
      (by decide) (by decide) (by decide) (by decide) (by decide) (by decide) (by decide)
      (by decide)
  exact ⟨r1, lun2, h1, h3, h6, h8, h9 (by decide)⟩

/-- Witness for C14: the run `ops_recycle` followed by the discard of page 0. -/
theorem rrpc_reverse_map_invariant_witness :
    rrpc_run rrpc_two_blocks (ops_recycle ++ [rrpc_op.invalidate 0 1]) =
        some ((rrpc_invalidate_range rrpc_two_blocks_recycled 0 1).getD rrpc_two_blocks) ∧
      reverse_map_consistent ((rrpc_invalidate_range rrpc_two_blocks_recycled 0 1).getD rrpc_two_blocks) :=
  ⟨by decide,
    rrpc_reverse_map_invariant rrpc_two_blocks
      ((rrpc_invalidate_range rrpc_two_blocks_recycled 0 1).getD rrpc_two_blocks)
      (ops_recycle ++ [rrpc_op.invalidate 0 1]) (by decide) (by decide)
      (by
        intro op hop
        simp only [ops_recycle, List.cons_append, List.nil_append, List.mem_cons,
          List.mem_singleton, List.not_mem_nil, or_false] at hop
        rcases hop with rfl | rfl | rfl | rfl | rfl | rfl | rfl | rfl | rfl <;>
          simp [rrpc_op_u64, U64_MAX])
      (by decide)⟩

/-- Witness for C15: on `rrpc_ten_blocks` the run `ops_write_recycle`, in
which block 1 is filled, invalidated, released and allocated again by the
write path; and on `rrpc_two_blocks` the run `ops_recycle`. -/
theorem rrpc_invalid_pages_counted_witness :
    rrpc_pages_inv rrpc_ten_blocks ∧
      rrpc_sys_run rrpc_ten_blocks ops_write_recycle = some rrpc_ten_recycled ∧
      rrpc_run rrpc_two_blocks ops_recycle = some rrpc_two_blocks_recycled ∧
      (∀ (q : Nat × Nat) (lun : nvm_lun) (blk : nvm_block),
        nvm_block_get rrpc_ten_recycled.dev q = some (lun, blk) →
        bitmap_weight blk.invalid_pages lun.nr_pages_per_blk = blk.nr_invalid_pages) ∧
      ∀ (q : Nat × Nat) (lun : nvm_lun) (blk : nvm_block),
        nvm_block_get rrpc_two_blocks_recycled.dev q = some (lun, blk) →
        bitmap_weight blk.invalid_pages lun.nr_pages_per_blk = blk.nr_invalid_pages :=
  have h := rrpc_invalid_pages_counted rrpc_ten_blocks rrpc_ten_recycled rrpc_two_blocks
    rrpc_two_blocks_recycled ops_write_recycle ops_recycle (rrpc_pages_inv_of_b _ (by decide))
    (by decide) (blocks_counted_of_b _ (by decide)) (pages_live_of_unmapped _ _ (by decide))
    (rrpc_updates_fresh_of_b _ _ (by decide)) (by decide)
  ⟨rrpc_pages_inv_of_b _ (by decide), by decide, by decide, h.2.1.1, h.2.2.1⟩

/-- Witness for C18 (amended): page 10 is written to sector 16, the write
completes, and a host read of page 10 is directed to sector 16. -/
theorem rrpc_write_then_read_witness :
    rrpc_end_io rrpc_ten_written rqd_ten_written 0 = some rrpc_ten_completed ∧
      ∃ (r3 : rrpc) (rqd3 : nvm_rq),
        rrpc_read_rq rrpc_ten_completed bio_read_10 nvm_rq_zero NVM_IOTYPE_NONE =
          some (NVM_IO_OK, r3, rqd3) ∧ rqd3.phys_sector = 16 := by
  have h := rrpc_write_then_read rrpc_ten_blocks rrpc_ten_written bio_write_10 bio_read_10
    nvm_rq_zero { rqd_ten_written with rq_bio := none } NVM_IOTYPE_NONE (by decide) (by decide)
  have hend : rrpc_end_io rrpc_ten_written rqd_ten_written 0 = some rrpc_ten_completed := by decide
  obtain ⟨hnp, htr⟩ := h.2.1 rqd_ten_written 0 rrpc_ten_completed hend
  have hread := h.1 rrpc_ten_completed
    ((rrpc_lock_rq rrpc_ten_completed bio_read_10 nvm_rq_zero).getD
      (0, rrpc_ten_completed, nvm_rq_zero)).2.1
    nvm_rq_zero
    ((rrpc_lock_rq rrpc_ten_completed bio_read_10 nvm_rq_zero).getD
      (0, rrpc_ten_completed, nvm_rq_zero)).2.2
    NVM_IOTYPE_NONE hnp htr (by decide)
  exact ⟨hend, _, _, hread, by decide⟩

/-- Witness for C20: of three full blocks with 3, 7 and 5 invalid pages the
block with 7 is returned. -/
theorem block_prio_find_max_first_witness :
    block_prio_find_max rrpc_three_full rlun_three_full = some 2 ∧
    rblock_invalid rrpc_three_full rlun_three_full 2 = some 7 ∧
    ∃ m n pre post, block_prio_find_max rrpc_three_full rlun_three_full = some m ∧
      rlun_three_full.prio_list = pre ++ m :: post ∧
      rblock_invalid rrpc_three_full rlun_three_full m = some n ∧
      (∀ x ∈ pre, ∃ k, rblock_invalid rrpc_three_full rlun_three_full x = some k ∧ k < n) ∧
      (∀ x ∈ post, ∃ k, rblock_invalid rrpc_three_full rlun_three_full x = some k ∧ k ≤ n) :=
  ⟨by decide, by decide,
    block_prio_find_max_first rrpc_three_full rlun_three_full (by decide) (by decide)⟩

/-- Witness for C21: the instance on `dev_ten_blocks` has 20 pages of which 8
are reserved, and exposes 72 sectors. -/
theorem rrpc_capacity_exposed_witness :
    rrpc_ten_blocks.nr_luns * rrpc_ten_blocks.dev.max_pages_per_blk * 4 = 8 ∧
      rrpc_ten_blocks.nr_pages = 20 ∧ rrpc_capacity rrpc_ten_blocks = 72 ∧
      10 * rrpc_capacity rrpc_ten_blocks ≤ 9 * (20 - 8) * NR_PHY_IN_LOG :=
  have h := (rrpc_capacity_exposed rrpc_ten_blocks (by decide) (by decide)).1 (by decide)
  ⟨by decide, by decide, by decide, h.2⟩

/-- Witness for C26: LUN 0 of `dev_ten_blocks` after attach with two bad
blocks and an L2P entry, and one allocation by a host caller: the counter is
8 and the free list holds 6 blocks. -/
theorem hb_free_counter_no_underflow_witness :
    hb_luns_init dev_ten_blocks = some (0, dev_ten_blocks_luns) ∧
      hb_blocks_init ops_bad_mapped dev_ten_blocks_luns = some (0, dev_ten_bad_mapped) ∧
      (hb_get_blk_bm dev_ten_bad_mapped.bmp 0 0).2.luns[0]? =
        some (hb_get_blk lun_ten_bad_mapped 0).2 ∧
      (hb_get_blk lun_ten_bad_mapped 0).2.nr_free_blocks = 8 ∧
      (hb_get_blk lun_ten_bad_mapped 0).2.free_list.length = 6 ∧
      (hb_get_blk lun_ten_bad_mapped 0).2.free_list.length ≤
        (hb_get_blk lun_ten_bad_mapped 0).2.nr_free_blocks :=
  ⟨by decide, by decide, by decide, by decide, by decide,
    (hb_free_counter_no_underflow ops_bad_mapped dev_ten_blocks dev_ten_blocks_luns
      dev_ten_bad_mapped 0 (hb_get_blk_bm dev_ten_bad_mapped.bmp 0 0).2 0
      (hb_get_blk lun_ten_bad_mapped 0).2 (by decide) (by decide)
      (hb_reachable_used.get _ 0 0 hb_reachable_used.init) (by decide)).1⟩

/-- Witness for C22: on `rrpc_ten_recycled`, whose LUN has 2 free blocks, a
host write is refused; on `rrpc_ten_two_written`, whose LUN has 8 free blocks
and a full cursor, the host write of page 0 allocates block 3 and leaves 7
free blocks. -/
theorem rrpc_host_write_keeps_reserve_witness :
    (rrpc_map_page rrpc_ten_recycled 0 0 = some (none, rrpc_ten_recycled_next) ∧
        rrpc_ten_recycled_next.dev = rrpc_ten_recycled.dev ∧
        rrpc_ten_recycled_next.luns = rrpc_ten_recycled.luns ∧
        rrpc_ten_recycled_next.trans_map = rrpc_ten_recycled.trans_map) ∧
      dev_counts rrpc_ten_two_written.dev = [([3, 4, 5, 6, 7, 8, 9], [1, 2], 8, 2)] ∧
      dev_counts rrpc_ten_third_written.dev = [([4, 5, 6, 7, 8, 9], [1, 2, 3], 7, 2)] ∧
      (dev_counts rrpc_ten_third_written.dev = dev_counts rrpc_ten_two_written.dev ∨
        ∃ (b : Nat) (lun2 : nvm_lun),
          4 * rrpc_ten_two_written.nr_luns ≤
            (rrpc_ten_two_next.dev.bmp.luns.getD 0 nvm_lun_zero).nr_free_blocks ∧
          (rrpc_ten_two_next.dev.bmp.luns.getD 0 nvm_lun_zero).free_list = b :: lun2.free_list ∧
          lun2.used_list =
            (rrpc_ten_two_next.dev.bmp.luns.getD 0 nvm_lun_zero).used_list.erase b ++ [b] ∧
          lun2.nr_free_blocks + 1 =
            (rrpc_ten_two_next.dev.bmp.luns.getD 0 nvm_lun_zero).nr_free_blocks ∧
          lun2.reserved_blocks = 2 ∧ lun2.reserved_blocks ≤ lun2.nr_free_blocks ∧
          rrpc_ten_third_written.dev.bmp.luns[
            (rrpc_ten_two_next.luns.getD 0 rrpc_lun_none).parent]? = some lun2 ∧
          dev_counts rrpc_ten_third_written.dev =
            (dev_counts rrpc_ten_two_written.dev).set
              (rrpc_ten_two_next.luns.getD 0 rrpc_lun_none).parent (lun_counts lun2)) :=
  ⟨(rrpc_host_write_keeps_reserve rrpc_ten_recycled rrpc_ten_recycled_next 0 0
      (rrpc_ten_recycled_next.luns.getD 0 rrpc_lun_none)
      (rrpc_ten_recycled_next.dev.bmp.luns.getD 0 nvm_lun_zero)
      (by decide) (by decide) (by decide) (by decide) (by decide) (by decide)).1 (by decide),
    by decide, by decide,
    (rrpc_host_write_keeps_reserve rrpc_ten_two_written rrpc_ten_two_next 0 0
      (rrpc_ten_two_next.luns.getD 0 rrpc_lun_none)
      (rrpc_ten_two_next.dev.bmp.luns.getD 0 nvm_lun_zero)
      (by decide) (by decide) (by decide) (by decide) (by decide) (by decide)).2
      (some 0) rrpc_ten_third_written (by decide)⟩

/-- Witness for C24: on `rrpc_three_full` (4 blocks, no free block, blocks 1,
2 and 3 with 3, 7 and 5 invalid pages) with `GC_LIMIT_INVERSE = 2` the need is
2, and the shadows 2 and 3 are selected in this order; shadow 1 stays. -/
theorem rrpc_lun_gc_selects_witness :
    gc_blocks_need 2 rrpc_three_full lun_three_full = 2 ∧
      rrpc_lun_gc 2 rrpc_three_full 0 =
        some { rrpc_three_full with
          luns := [{ rlun_three_full with prio_list := [1] }],
          kgc_wq := [rrpc_work.block_gc (0, 2), rrpc_work.block_gc (0, 3)] } ∧
      ∃ victims rest : List Nat,
        rrpc_lun_gc 2 rrpc_three_full 0 =
          some { rrpc_three_full with
            luns := rrpc_three_full.luns.set 0 { rlun_three_full with prio_list := rest },
            kgc_wq := rrpc_three_full.kgc_wq ++
              victims.filterMap
                (fun v => (rblock_parent rlun_three_full v).map rrpc_work.block_gc) } ∧
        rest.Sublist rlun_three_full.prio_list ∧
        (victims ++ rest).Perm rlun_three_full.prio_list ∧
        (gc_blocks_need 2 rrpc_three_full lun_three_full ≤ lun_three_full.nr_free_blocks ∨
          rlun_three_full.prio_list = [] → victims = []) ∧
        victims.length ≤
          gc_blocks_need 2 rrpc_three_full lun_three_full - lun_three_full.nr_free_blocks ∧
        (∀ v ∈ victims, ∃ k, rblock_invalid rrpc_three_full rlun_three_full v = some k ∧ 0 < k) ∧
        victims.Pairwise (fun a b => ∃ ka kb,
          rblock_invalid rrpc_three_full rlun_three_full a = some ka ∧
          rblock_invalid rrpc_three_full rlun_three_full b = some kb ∧ kb ≤ ka) ∧
        (∀ v ∈ victims, ∀ x ∈ rest, ∃ kv kx,
          rblock_invalid rrpc_three_full rlun_three_full v = some kv ∧
          rblock_invalid rrpc_three_full rlun_three_full x = some kx ∧ kx ≤ kv) ∧
        (gc_blocks_need 2 rrpc_three_full lun_three_full - victims.length ≤
            lun_three_full.nr_free_blocks ∨
          ∀ x ∈ rest, rblock_invalid rrpc_three_full rlun_three_full x = some 0) :=
  ⟨by decide, by decide,
    rrpc_lun_gc_selects 2 rrpc_three_full 0 rlun_three_full lun_three_full (by decide)
      (by decide) (by decide) (prio_blocks_full_of_b _ _ (by decide))⟩

/-- Witness for C28: the instance on LUNs 1 and 2 of a device of three LUNs
of two blocks (`lun_offset = 1`); the second block of LUN 2 has id 5, and
`rrpc_gc_queue` appends shadow 1 of shadow LUN 1, whose parent it is. -/
theorem rrpc_gc_queue_own_shadow_witness :
    rrpc_lun_one_rewritten.lun_offset = 1 ∧
      (nvm_block_get rrpc_lun_one_rewritten.dev (2, 1)).map
        (fun x => (x.1.id, x.1.nr_blocks, x.2.id)) = some (2, 2, 5) ∧
      (rrpc_gc_queue rrpc_lun_one_rewritten (2, 1)).map
        (fun r => r.luns.map (fun l => l.prio_list)) = some [[], [1]] ∧
      ∃ rlun : rrpc_lun,
        rrpc_lun_one_rewritten.luns[(2, 1).1 - rrpc_lun_one_rewritten.lun_offset]? = some rlun ∧
        rlun.parent = (2, 1).1 ∧
        ((rrpc_lun_one_rewritten.dev.bmp.luns.getD 2 nvm_lun_zero).id = (2, 1).1) ∧
        ((rrpc_lun_one_rewritten.dev.bmp.luns.getD 2 nvm_lun_zero).blocks.getD 1 nvm_block_zero).id =
          (2, 1).1 * 2 + (2, 1).2 ∧
        ((rrpc_lun_one_rewritten.dev.bmp.luns.getD 2 nvm_lun_zero).blocks.getD 1 nvm_block_zero).id %
          (rrpc_lun_one_rewritten.dev.bmp.luns.getD 2 nvm_lun_zero).nr_blocks = (2, 1).2 ∧
        rblock_parent rlun
          (((rrpc_lun_one_rewritten.dev.bmp.luns.getD 2 nvm_lun_zero).blocks.getD 1
              nvm_block_zero).id %
            (rrpc_lun_one_rewritten.dev.bmp.luns.getD 2 nvm_lun_zero).nr_blocks) = some (2, 1) ∧
        rrpc_gc_queue rrpc_lun_one_rewritten (2, 1) =
          some { rrpc_lun_one_rewritten with
            luns := rrpc_lun_one_rewritten.luns.set
              ((rrpc_lun_one_rewritten.dev.bmp.luns.getD 2 nvm_lun_zero).id -
                rrpc_lun_one_rewritten.lun_offset)
              { rlun with prio_list := rlun.prio_list ++
                  [((rrpc_lun_one_rewritten.dev.bmp.luns.getD 2 nvm_lun_zero).blocks.getD 1
                      nvm_block_zero).id %
                    (rrpc_lun_one_rewritten.dev.bmp.luns.getD 2 nvm_lun_zero).nr_blocks] } } :=
  ⟨by decide, by decide, by decide,
    (rrpc_gc_queue_own_shadow rrpc_lun_one_rewritten 2 (2, 1)
      (rrpc_lun_one_rewritten.dev.bmp.luns.getD 2 nvm_lun_zero)
      ((rrpc_lun_one_rewritten.dev.bmp.luns.getD 2 nvm_lun_zero).blocks.getD 1 nvm_block_zero)
      (by decide) (by unfold luns_numbered; decide) (by unfold shadows_built; decide)
      (by decide) (by decide) (by decide)).1⟩

/-- Witness for C8 (amended): three LUNs of two blocks of two pages and a
table in two chunks; blocks 1 and 0 of LUN 1 and block 0 of LUN 2 are taken,
page 6, which occurs twice, counting once. -/
theorem hb_l2p_table_takes_blocks_witness :
    hb_luns_init dev_three_luns = some (0, dev_three_luns_init) ∧
      hb_blocks_init ops_l2p_two_chunks dev_three_luns_init = some (0, dev_three_luns_mapped) ∧
      dev_three_luns_mapped.bmp.luns.map (fun l => (l.free_list, l.used_list, l.nr_free_blocks)) =
        [([1], [], 2), ([], [1, 0], 0), ([1], [0], 1)] ∧
      ∃ (st : bm_hb × Nat) (dev2 : nvm_dev),
        hb_blocks_init_loop ops_l2p_two_chunks (List.range dev_three_luns_init.nr_luns)
          (dev_three_luns_init.bmp, 0) = some st ∧
        hb_blocks_init ops_l2p_two_chunks dev_three_luns_init = some (0, dev2) ∧
        dev2.bmp.luns.length = dev_three_luns_init.nr_luns := by
  have hall : ∀ lun ∈ dev_three_luns_init.bmp.luns, lun.nr_blocks = 2 ∧ lun.nr_pages_per_blk = 2 := by
    decide
  obtain ⟨st, dev2, h1, _, h3, h4, _⟩ := hb_l2p_table_takes_blocks ops_l2p_two_chunks
    dev_three_luns dev_three_luns_init [(0, [0, 6, 5]), (3, [9, 0, 6])] 0 2 2
    (by decide) (by decide) (fun i lun h => hall lun (List.getElem?_mem h))
    (by decide) (by decide) (by decide) (by decide) (by decide) rfl (by decide)
  exact ⟨by decide, by decide, by decide, st, dev2, h1, h3, h4⟩

/-- Witness for C9 (amended): one LUN of four blocks of two pages and a table
holding the entry 8, on sectors of 512 bytes; and the same LUN on sectors of
4096 bytes with a table holding the entry 64. -/
theorem hb_l2p_entry_out_of_bounds_witness :
    hb_block_map 0 ([0, 0] ++ 8 :: [0]) dev_four_blocks_ready =
        some (-EINVAL, { dev_four_blocks_ready with bmp := dev_four_blocks_ready.bmp }) ∧
      hb_register ops_l2p_out_of_bounds dev_four_blocks =
        some (1, dev_four_blocks_ready) ∧
      (dev_four_blocks_4k_luns.total_pages = 8 ∧ dev_four_blocks_4k_luns.sector_size >>> 9 = 8) ∧
      ∃ (st : bm_hb × Nat) (dev2 : nvm_dev),
        dev_get_l2p_tbl ([] ++ (0, [0, 0] ++ 64 :: [0]) :: []) 0
          { dev_four_blocks_4k_luns with bmp := st.1 } = some (-EINVAL, dev2) ∧
        hb_register ops_l2p_entry_64 dev_four_blocks_4k = some (1, dev2) := by
  have hall : ∀ lun ∈ dev_four_blocks_4k_luns.bmp.luns,
      lun.nr_blocks = 4 ∧ lun.nr_pages_per_blk = 2 := by
    decide
  obtain ⟨st, dev2, _, h2, _, h4⟩ := hb_l2p_entry_out_of_bounds.2.2 ops_l2p_entry_64
    dev_four_blocks_4k dev_four_blocks_4k_luns [] [] 0 [0, 0] [0] 64 0 4 2
    (by decide) (by decide) (by decide) (fun i lun h => hall lun (List.getElem?_mem h))
    (by decide) (by decide) (by decide) (by decide) (by decide) rfl (by decide) (by decide)
    (by decide) (by decide) (by decide) (by decide)
  exact ⟨hb_l2p_entry_out_of_bounds.1 dev_four_blocks_ready 0 [0, 0] 8 [0]
      (dev_four_blocks_ready.bmp.luns.getD 0 nvm_lun_zero) dev_four_blocks_ready.bmp
      (by decide) (by decide) (by decide) (by decide) (by decide) (by decide),
    (hb_l2p_entry_out_of_bounds.2.1 ops_l2p_out_of_bounds dev_four_blocks dev_four_blocks_luns
      (dev_four_blocks_ready.bmp, 4) [(0, [0, 0, 8, 0])] 0 (-EINVAL) dev_four_blocks_ready
      (by decide) (by decide) (by decide) (by decide) (by decide)).2,
    by decide, st, dev2, h2, h4⟩

set_option maxRecDepth 8192 in
/-- Witness for C17 (amended): a host read of page 5 before any write ends
with `DONE`, and a host read of page 37 while the write of the pages 5 to 37
is in flight is requeued. -/
theorem rrpc_read_rq_unmapped_witness :
    rrpc_ten_blocks.trans_map[5]? = some { addr := ADDR_EMPTY, block := none } ∧
      (∃ rqd1, rrpc_read_rq rrpc_ten_blocks bio_read_5 nvm_rq_zero NVM_IOTYPE_NONE =
        some (NVM_IO_DONE, rrpc_ten_blocks, rqd1)) ∧
      rrpc_make_rq rrpc_ten_blocks bio_read_5 0 = some (bio_status.ended 0, rrpc_ten_blocks) ∧
      rrpc_read_rq rrpc_twenty_inflight bio_read_37 nvm_rq_zero NVM_IOTYPE_NONE =
        some (NVM_IO_REQUEUE, rrpc_twenty_inflight, nvm_rq_zero) := by
  have h := rrpc_read_rq_unmapped rrpc_ten_blocks bio_read_5 nvm_rq_zero NVM_IOTYPE_NONE
    { addr := ADDR_EMPTY, block := none } [] 0 (by decide) (by decide) (by decide) rfl (by decide)
    (by decide)
  have h2 := rrpc_read_rq_unmapped rrpc_twenty_inflight bio_read_37 nvm_rq_zero NVM_IOTYPE_NONE
    { addr := ADDR_EMPTY, block := none } [{ l_start := 5, l_end := 37 }] 0 (by decide) (by decide)
    (by decide) rfl (by decide) (by decide)
  exact ⟨by decide, (h.1 (by decide)).1, (h.1 (by decide)).2 rfl,
    h2.2 ⟨{ l_start := 5, l_end := 37 }, by decide, by decide⟩⟩

/-- Witness for C16 (amended): while the host write of page 6 is in flight,
the pages 5 and 6 are discarded.  Page 6, mapped to physical page 2 by the
write, loses its block and page 2 its owner; a host read of page 5 ends with
`DONE`, a host read of page 6 is requeued. -/
theorem rrpc_discard_unmaps_witness :
    rrpc_ten_write_6.trans_map[6]? = some { addr := 2, block := some (0, 1) } ∧
      rrpc_discard rrpc_ten_write_6 bio_discard_5_6 = some rrpc_ten_discarded_5_6 ∧
      rrpc_ten_discarded_5_6.inflight_map = rrpc_ten_write_6.inflight_map ∧
      (∃ e : nvm_addr, rrpc_ten_discarded_5_6.trans_map[6]? = some e ∧ e.block = none) ∧
      rrpc_ten_discarded_5_6.trans_map[7]? = rrpc_ten_write_6.trans_map[7]? ∧
      rrpc_ten_discarded_5_6.rev_trans_map[2]? = some { addr := ADDR_EMPTY } ∧
      (∃ rqd1, rrpc_read_rq rrpc_ten_discarded_5_6 bio_read_5 nvm_rq_zero NVM_IOTYPE_NONE =
        some (NVM_IO_DONE, rrpc_ten_discarded_5_6, rqd1)) ∧
      rrpc_read_rq rrpc_ten_discarded_5_6 bio_read_6 nvm_rq_zero NVM_IOTYPE_NONE =
        some (NVM_IO_REQUEUE, rrpc_ten_discarded_5_6, nvm_rq_zero) := by
  obtain ⟨r1, h1, _, h2, h3, h4, h5, h6⟩ :=
    rrpc_discard_unmaps rrpc_ten_write_6 bio_discard_5_6 5 2 [] 0 rfl rfl (by decide) (by decide)
      (by decide) (by decide)
      (fun j e _ _ he => trans_entry_ok_of_b _ e
        ((List.all_eq_true.mp (by decide :
          rrpc_ten_write_6.trans_map.all (trans_entry_ok_b rrpc_ten_write_6) = true))
          e (List.getElem?_mem he)))
      (by decide) (by decide)
  have hd : rrpc_discard rrpc_ten_write_6 bio_discard_5_6 = some rrpc_ten_discarded_5_6 := by
    decide
  have hr : r1 = rrpc_ten_discarded_5_6 := by
    rw [hd] at h1
    exact (Option.some.inj h1).symm
  subst hr
  exact ⟨by decide, hd, h2 (by decide), h3 1 (by decide), h4 7 (by decide),
    (h5 1 2 (0, 1) (by decide) (by decide) (by decide)).1,
    (h6 0 bio_read_5 nvm_rq_zero [] (by decide) (by decide) (by decide) (by decide)).1 (by decide),
    (h6 1 bio_read_6 nvm_rq_zero [{ l_start := 6, l_end := 6 }] (by decide) (by decide) (by decide)
      (by decide)).2 ⟨{ l_start := 6, l_end := 6 }, by decide, by decide⟩⟩

end LightNVM
